import Mathlib

/-!
Verification of the JSON pretty-printer in `src/format.rs` (`Formatter`).

The formatter is embedded shallowly: bytes are `Nat` (values < 256 in all
real inputs), the input buffer is a `List Nat`, the output sink is modelled
by returning the list of bytes each parsing function appends to the sink
(the Rust sink is append-only and never read back, so returning the emitted
bytes and concatenating at call sites is equivalent).  The mutually
recursive structural parsers are defined with an explicit fuel argument;
`none` means the fuel ran out and never occurs for sufficient fuel.
-/

namespace Pretty

/-- Color mode of the formatter (`Color` in format.rs). -/
inductive Color where
  | noColor
  | ansiCode
deriving DecidableEq, Repr

/-- String emission mode (`StringMode` in format.rs). -/
inductive StrMode where
  | key
  | val
deriving DecidableEq, Repr

/-- Errors raised during formatting (`FormatError` in format.rs).
The `Fmt(fmt::Error)` variant is absent: writing to the modelled sink
cannot fail. -/
inductive FormatError where
  | eof
  | invalidByte (b : Nat) (pos : Nat)
  | invalidUtf8 (bytes : Nat × Nat × Nat × Nat) (len : Nat) (pos : Nat)
  | invalidEscape (b : Nat) (pos : Nat)
  | maxIndentLevel (level : Nat) (pos : Nat)
deriving DecidableEq, Repr

/-- The maximum indentation level supported before errors
(`MAX_INDENT_LEVEL` in format.rs). -/
def MAX_INDENT_LEVEL : Nat := 100

/-- State of the formatter (`Formatter` in format.rs): input buffer, byte
cursor, indentation level and color mode. -/
structure Fmt where
  input : List Nat
  pos : Nat
  level : Nat
  color : Color
deriving DecidableEq, Repr

/-- Returns the next byte without advancing (`peek_byte`). -/
def peekByte (f : Fmt) : Option Nat := f.input.get? f.pos

/-- Returns the next byte and advances the cursor (`next_byte`). -/
def nextByte (f : Fmt) : Option (Nat × Fmt) :=
  match peekByte f with
  | some b => some (b, { f with pos := f.pos + 1 })
  | none => none

/-- Consumes one byte which must equal `expected` (`expect_byte`). -/
def expectByte (f : Fmt) (expected : Nat) : Except FormatError Fmt :=
  match nextByte f with
  | some (b, f') =>
      if b = expected then .ok f'
      else .error (.invalidByte b (f'.pos - 1))
  | none => .error .eof

/-- Increments the indent level, failing at the cap (`inc_level`). -/
def incLevel (f : Fmt) : Except FormatError Fmt :=
  if MAX_INDENT_LEVEL ≤ f.level then .error (.maxIndentLevel f.level f.pos)
  else .ok { f with level := f.level + 1 }

/-- Decrements the indent level (`dec_level`). -/
def decLevel (f : Fmt) : Fmt := { f with level := f.level - 1 }

/-- Skips a UTF-8 BOM at offset 0 (`skip_start_bom`). -/
def skipStartBom (f : Fmt) : Fmt :=
  match f.input with
  | 239 :: 187 :: 191 :: _ => { f with pos := 3 }
  | _ => f

/-- Whitespace bytes skipped between tokens: space, newline, carriage
return, tab. -/
def isWsByte (b : Nat) : Bool := b = 32 || b = 10 || b = 13 || b = 9

/-- Length of the leading whitespace run of a byte list. -/
def wsRunLen : List Nat → Nat
  | [] => 0
  | b :: rest => if isWsByte b then wsRunLen rest + 1 else 0

/-- Cursor position after skipping whitespace from `pos` (the loop of
`skip_whitespace` advances while the peeked byte is whitespace, i.e. by
the length of the whitespace run starting at `pos`). -/
def skipWsPos (input : List Nat) (pos : Nat) : Nat :=
  pos + wsRunLen (input.drop pos)

/-- Skips whitespace (`skip_whitespace`). -/
def skipWhitespace (f : Fmt) : Fmt := { f with pos := skipWsPos f.input f.pos }

/-- The bytes of `input` from offset `s` (inclusive) to `e` (exclusive);
`slice_str_unchecked` in format.rs. -/
def sliceBytes (input : List Nat) (s e : Nat) : List Nat :=
  (input.drop s).take (e - s)

/-! Output emitters (the `write_*` methods).  Each returns the bytes
appended to the sink.  `write_indent` writes `level * 2` spaces via chunks
of a 65-space buffer; the net effect is exactly `level * 2` spaces. -/

/-- ANSI escape prefix for structural punctuation, bytes of ESC `[1;39m`. -/
def ansiBold : List Nat := [27, 91, 49, 59, 51, 57, 109]

/-- ANSI escape prefix for object keys, bytes of ESC `[1;34m`. -/
def ansiKey : List Nat := [27, 91, 49, 59, 51, 52, 109]

/-- ANSI escape prefix for string values, bytes of ESC `[0;32m`. -/
def ansiStr : List Nat := [27, 91, 48, 59, 51, 50, 109]

/-- ANSI escape prefix for booleans, bytes of ESC `[0;33m`. -/
def ansiBool : List Nat := [27, 91, 48, 59, 51, 51, 109]

/-- ANSI escape prefix for null, bytes of ESC `[0;35m`. -/
def ansiNull : List Nat := [27, 91, 48, 59, 51, 53, 109]

/-- ANSI escape prefix for numbers, bytes of ESC `[0;36m`. -/
def ansiNum : List Nat := [27, 91, 48, 59, 51, 54, 109]

/-- ANSI reset, bytes of ESC `[0m`. -/
def ansiReset : List Nat := [27, 91, 48, 109]

/-- Indentation: `level * 2` spaces (`write_indent`). -/
def writeIndent (f : Fmt) : List Nat := List.replicate (f.level * 2) 32

/-- Newline (`write_ln`). -/
def writeLn : List Nat := [10]

/-- Compact empty object token (`write_empty_obj`). -/
def writeEmptyObj (f : Fmt) : List Nat :=
  if f.color = .ansiCode then ansiBold ++ [123, 125] ++ ansiReset else [123, 125]

/-- Opening brace plus newline (`write_begin_obj`). -/
def writeBeginObj (f : Fmt) : List Nat :=
  if f.color = .ansiCode then ansiBold ++ [123] ++ ansiReset ++ [10] else [123, 10]

/-- Closing brace (`write_end_obj`). -/
def writeEndObj (f : Fmt) : List Nat :=
  if f.color = .ansiCode then ansiBold ++ [125] ++ ansiReset else [125]

/-- Comma plus newline (`write_value_sep`). -/
def writeValueSep (f : Fmt) : List Nat :=
  if f.color = .ansiCode then ansiBold ++ [44] ++ ansiReset ++ [10] else [44, 10]

/-- Colon plus space (`write_name_sep`). -/
def writeNameSep (f : Fmt) : List Nat :=
  if f.color = .ansiCode then ansiBold ++ [58] ++ ansiReset ++ [32] else [58, 32]

/-- Compact empty array token (`write_empty_arr`). -/
def writeEmptyArr (f : Fmt) : List Nat :=
  if f.color = .ansiCode then ansiBold ++ [91, 93] ++ ansiReset else [91, 93]

/-- Opening bracket plus newline (`write_begin_arr`). -/
def writeBeginArr (f : Fmt) : List Nat :=
  if f.color = .ansiCode then ansiBold ++ [91] ++ ansiReset ++ [10] else [91, 10]

/-- Closing bracket (`write_end_arr`). -/
def writeEndArr (f : Fmt) : List Nat :=
  if f.color = .ansiCode then ansiBold ++ [93] ++ ansiReset else [93]

/-- Key emission (`write_key`): the raw span, color-wrapped in ANSI mode. -/
def writeKey (f : Fmt) (s : List Nat) : List Nat :=
  if f.color = .ansiCode then ansiKey ++ s ++ ansiReset else s

/-- String-value emission (`write_value`). -/
def writeValueStr (f : Fmt) (s : List Nat) : List Nat :=
  if f.color = .ansiCode then ansiStr ++ s ++ ansiReset else s

/-- Emission of the literal true (`write_true`). -/
def writeTrue (f : Fmt) : List Nat :=
  if f.color = .ansiCode then ansiBool ++ [116, 114, 117, 101] ++ ansiReset
  else [116, 114, 117, 101]

/-- Emission of the literal false (`write_false`). -/
def writeFalse (f : Fmt) : List Nat :=
  if f.color = .ansiCode then ansiBool ++ [102, 97, 108, 115, 101] ++ ansiReset
  else [102, 97, 108, 115, 101]

/-- Emission of the literal null (`write_null`). -/
def writeNull (f : Fmt) : List Nat :=
  if f.color = .ansiCode then ansiNull ++ [110, 117, 108, 108] ++ ansiReset
  else [110, 117, 108, 108]

/-- Number emission (`write_number`): the raw span, color-wrapped in ANSI
mode. -/
def writeNumber (f : Fmt) (s : List Nat) : List Nat :=
  if f.color = .ansiCode then ansiNum ++ s ++ ansiReset else s

/-! The UTF-8 decoder (`next_utf8_char`). -/

/-- Continuation-byte test `(b & 0xC0) == 0x80` from `next_utf8_char`. -/
def contB (b : Nat) : Bool := Nat.land b 192 = 128

/-- Validity of a 3-byte sequence by lead byte, as matched in
`next_utf8_char`. -/
def utf3Ok (b1 b2 b3 : Nat) : Bool :=
  if b1 = 224 then decide (160 ≤ b2 ∧ b2 ≤ 191) && contB b3
  else if b1 = 237 then decide (128 ≤ b2 ∧ b2 ≤ 159) && contB b3
  else if (225 ≤ b1 ∧ b1 ≤ 236) ∨ (238 ≤ b1 ∧ b1 ≤ 239) then contB b2 && contB b3
  else false

/-- Validity of a 4-byte sequence by lead byte, as matched in
`next_utf8_char`. -/
def utf4Ok (b1 b2 b3 b4 : Nat) : Bool :=
  if b1 = 240 then decide (144 ≤ b2 ∧ b2 ≤ 191) && contB b3 && contB b4
  else if b1 = 244 then decide (128 ≤ b2 ∧ b2 ≤ 143) && contB b3 && contB b4
  else if 241 ≤ b1 ∧ b1 ≤ 243 then contB b2 && contB b3 && contB b4
  else false

/-- The in-place UTF-8 validator (`next_utf8_char`): consumes one
well-formed 1–4-byte sequence or fails. -/
def nextUtf8Char (f : Fmt) : Except FormatError Fmt :=
  let startPos := f.pos
  match nextByte f with
  | none => .error .eof
  | some (b1, f1) =>
    if b1 < 128 then .ok f1
    else
      match nextByte f1 with
      | none => .error .eof
      | some (b2, f2) =>
        if b1 < 224 then
          if decide (194 ≤ b1 ∧ b1 ≤ 223) && contB b2 then .ok f2
          else .error (.invalidUtf8 (b1, b2, 0, 0) 2 startPos)
        else
          match nextByte f2 with
          | none => .error .eof
          | some (b3, f3) =>
            if b1 < 240 then
              if utf3Ok b1 b2 b3 then .ok f3
              else .error (.invalidUtf8 (b1, b2, b3, 0) 3 f3.pos)
            else
              match nextByte f3 with
              | none => .error .eof
              | some (b4, f4) =>
                if utf4Ok b1 b2 b3 b4 then .ok f4
                else .error (.invalidUtf8 (b1, b2, b3, b4) 4 f4.pos)

/-! Number scanning (`parse_number` and its helpers). -/

/-- Decimal digit test. -/
def isDigit (b : Nat) : Bool := 48 ≤ b && b ≤ 57

/-- Length of the leading decimal-digit run of a byte list. -/
def digitRunLen : List Nat → Nat
  | [] => 0
  | b :: rest => if isDigit b then digitRunLen rest + 1 else 0

/-- Cursor position after a (possibly empty) run of decimal digits: the
`while let Some(b'0'..=b'9')` loops of the number scanner advance by the
length of the digit run starting at `pos`. -/
def skipDigitsPos (input : List Nat) (pos : Nat) : Nat :=
  pos + digitRunLen (input.drop pos)

/-- Integer part: a single `0`, or a nonzero digit followed by a digit run
(`parse_integer`). -/
def parseInteger (f : Fmt) : Except FormatError Fmt :=
  match peekByte f with
  | some b =>
      if b = 48 then .ok { f with pos := f.pos + 1 }
      else if 49 ≤ b ∧ b ≤ 57 then
        .ok { f with pos := skipDigitsPos f.input (f.pos + 1) }
      else .error (.invalidByte b f.pos)
  | none => .error .eof

/-- Optional fraction: a point requires at least one digit after it
(`parse_fraction`). -/
def parseFraction (f : Fmt) : Except FormatError Fmt :=
  if peekByte f = some 46 then
    let f1 : Fmt := { f with pos := f.pos + 1 }
    match peekByte f1 with
    | some b =>
        if isDigit b then .ok { f1 with pos := skipDigitsPos f1.input (f1.pos + 1) }
        else .error (.invalidByte b f1.pos)
    | none => .error .eof
  else .ok f

/-- Optional exponent: `e`/`E`, an optional sign, then at least one digit
(`parse_exponent`). -/
def parseExponent (f : Fmt) : Except FormatError Fmt :=
  match peekByte f with
  | some b =>
      if b = 101 ∨ b = 69 then
        let f1 : Fmt := { f with pos := f.pos + 1 }
        let f2 : Fmt :=
          match peekByte f1 with
          | some s => if s = 43 ∨ s = 45 then { f1 with pos := f1.pos + 1 } else f1
          | none => f1
        match peekByte f2 with
        | some d =>
            if isDigit d then .ok { f2 with pos := skipDigitsPos f2.input (f2.pos + 1) }
            else .error (.invalidByte d f2.pos)
        | none => .error .eof
      else .ok f
  | none => .ok f

/-- The number scanner (`parse_number`): optional minus, integer,
fraction, exponent; emits the matched span verbatim. -/
def parseNumber (f : Fmt) : Except FormatError (Fmt × List Nat) :=
  let start := f.pos
  let f0 : Fmt := if peekByte f = some 45 then { f with pos := f.pos + 1 } else f
  match parseInteger f0 with
  | .error e => .error e
  | .ok f1 =>
    match parseFraction f1 with
    | .error e => .error e
    | .ok f2 =>
      match parseExponent f2 with
      | .error e => .error e
      | .ok f3 => .ok (f3, writeNumber f3 (sliceBytes f3.input start f3.pos))

/-! String scanning (`parse_string`).  The scan loop is defined by
well-founded recursion on the remaining input; the lemmas below supply the
facts the termination proof needs. -/

/-- ASCII hex digit test, as in `is_ascii_hexdigit`. -/
def isAsciiHexDigit (b : Nat) : Bool :=
  (48 ≤ b && b ≤ 57) || (97 ≤ b && b ≤ 102) || (65 ≤ b && b ≤ 70)

/-- Reads `n` bytes which must all be ASCII hex digits: the `for _ in 0..4`
loop of the `\u` escape in `parse_string`. -/
def readHex4 : Fmt → Nat → Except FormatError Fmt
  | f, 0 => .ok f
  | f, n + 1 =>
    match nextByte f with
    | none => .error .eof
    | some (hex, f') =>
        if isAsciiHexDigit hex then readHex4 f' n
        else .error (.invalidByte hex (f'.pos - 1))

/-- Printable ASCII bytes that the string scanner passes through one at a
time: at least 0x20, below 0x80, and neither quote nor backslash. -/
def plainB (b : Nat) : Bool := decide (32 ≤ b ∧ b < 128 ∧ b ≠ 34 ∧ b ≠ 92)

theorem peekByte_some_lt {f : Fmt} {b : Nat} (h : peekByte f = some b) :
    f.pos < f.input.length := by
  exact (List.get?_eq_some.mp h).1

theorem peekByte_some_get {f : Fmt} {b : Nat} (h : peekByte f = some b) :
    f.input.get? f.pos = some b := h

theorem nextByte_some {f : Fmt} {b : Nat} {f' : Fmt} (h : nextByte f = some (b, f')) :
    f' = { f with pos := f.pos + 1 } ∧ peekByte f = some b ∧ f.pos < f.input.length := by
  unfold nextByte at h
  cases hp : peekByte f with
  | none => rw [hp] at h; cases h
  | some c =>
      rw [hp] at h
      simp only [Option.some.injEq, Prod.mk.injEq] at h
      obtain ⟨hb, hf⟩ := h
      subst hb
      exact ⟨hf.symm, rfl, peekByte_some_lt hp⟩

theorem readHex4_ok : ∀ (n : Nat) (f f' : Fmt), readHex4 f n = .ok f' →
    f'.input = f.input ∧ f'.level = f.level ∧ f'.color = f.color ∧
    f'.pos = f.pos + n := by
  intro n
  induction n with
  | zero => intro f f' h; simp [readHex4] at h; simp [← h]
  | succ n ih =>
      intro f f' h
      simp only [readHex4, nextByte] at h
      cases hp : peekByte f with
      | none => rw [hp] at h; cases h
      | some b =>
          rw [hp] at h
          simp only at h
          by_cases hhex : isAsciiHexDigit b
          · rw [if_pos hhex] at h
            obtain ⟨h1, h2, h3, h4⟩ := ih _ _ h
            refine ⟨h1, h2, h3, ?_⟩
            simp at h4
            omega
          · rw [if_neg hhex] at h; cases h

theorem nextUtf8Char_ok {f f' : Fmt} (h : nextUtf8Char f = .ok f') :
    f'.input = f.input ∧ f'.level = f.level ∧ f'.color = f.color ∧
    f.pos < f'.pos ∧ f'.pos ≤ f.pos + 4 ∧ f'.pos ≤ f.input.length := by
  unfold nextUtf8Char nextByte at h
  cases hp1 : peekByte f with
  | none => rw [hp1] at h; cases h
  | some b1 =>
    rw [hp1] at h
    simp only at h
    have hl1 := peekByte_some_lt hp1
    by_cases hb1 : b1 < 128
    · rw [if_pos hb1] at h
      cases h
      refine ⟨rfl, rfl, rfl, ?_, ?_, ?_⟩ <;> simp <;> omega
    · rw [if_neg hb1] at h
      cases hp2 : peekByte { f with pos := f.pos + 1 } with
      | none => rw [hp2] at h; cases h
      | some b2 =>
        rw [hp2] at h
        simp only at h
        have hl2 := peekByte_some_lt hp2
        simp at hl2
        by_cases hb2 : b1 < 224
        · rw [if_pos hb2] at h
          by_cases hc : (decide (194 ≤ b1 ∧ b1 ≤ 223) && contB b2) = true
          · rw [if_pos hc] at h
            cases h
            refine ⟨rfl, rfl, rfl, ?_, ?_, ?_⟩ <;> simp <;> omega
          · rw [if_neg hc] at h; cases h
        · rw [if_neg hb2] at h
          cases hp3 : peekByte { f with pos := f.pos + 1 + 1 } with
          | none => rw [hp3] at h; cases h
          | some b3 =>
            rw [hp3] at h
            simp only at h
            have hl3 := peekByte_some_lt hp3
            simp at hl3
            by_cases hb3 : b1 < 240
            · rw [if_pos hb3] at h
              by_cases hc : utf3Ok b1 b2 b3 = true
              · rw [if_pos hc] at h
                cases h
                refine ⟨rfl, rfl, rfl, ?_, ?_, ?_⟩ <;> simp <;> omega
              · rw [if_neg hc] at h; cases h
            · rw [if_neg hb3] at h
              cases hp4 : peekByte { f with pos := f.pos + 1 + 1 + 1 } with
              | none => rw [hp4] at h; cases h
              | some b4 =>
                rw [hp4] at h
                simp only at h
                have hl4 := peekByte_some_lt hp4
                simp at hl4
                by_cases hc : utf4Ok b1 b2 b3 b4 = true
                · rw [if_pos hc] at h
                  cases h
                  refine ⟨rfl, rfl, rfl, ?_, ?_, ?_⟩ <;> simp <;> omega
                · rw [if_neg hc] at h; cases h

/-- The scan loop of `parse_string`: runs from just after the opening
quote, `start` being the offset of the opening quote; on the closing quote
emits the whole span in the given mode. -/
def parseStringLoop (start : Nat) (mode : StrMode) (f : Fmt) :
    Except FormatError (Fmt × List Nat) :=
  match hp : peekByte f with
  | none => .error .eof
  | some b =>
    if b = 34 then
      let f' : Fmt := { f with pos := f.pos + 1 }
      let s := sliceBytes f.input start f'.pos
      .ok (f', match mode with | .key => writeKey f s | .val => writeValueStr f s)
    else if b = 92 then
      let f1 : Fmt := { f with pos := f.pos + 1 }
      match hn : nextByte f1 with
      | none => .error .eof
      | some (e, f2) =>
        if e = 34 ∨ e = 92 ∨ e = 47 ∨ e = 98 ∨ e = 102 ∨ e = 110 ∨ e = 114 ∨ e = 116 then
          parseStringLoop start mode f2
        else if e = 117 then
          match hh : readHex4 f2 4 with
          | .ok f3 => parseStringLoop start mode f3
          | .error err => .error err
        else .error (.invalidEscape e f2.pos)
    else if b ≤ 31 then .error (.invalidByte b f.pos)
    else
      match hu : nextUtf8Char f with
      | .ok f' => parseStringLoop start mode f'
      | .error err => .error err
termination_by f.input.length - f.pos
decreasing_by
  · have hlt := peekByte_some_lt hp
    obtain ⟨hf2, -, -⟩ := nextByte_some hn
    subst hf2
    simp
    omega
  · have hlt := peekByte_some_lt hp
    obtain ⟨hf2, -, -⟩ := nextByte_some hn
    obtain ⟨h1, -, -, h4⟩ := readHex4_ok 4 _ _ hh
    subst hf2
    simp at h1 h4
    rw [h1]
    omega
  · have hlt := peekByte_some_lt hp
    obtain ⟨h1, -, -, h4, -, -⟩ := nextUtf8Char_ok hu
    rw [h1]
    omega

/-- The string scanner (`parse_string`): consumes the opening quote and
scans to the closing quote, emitting the raw span. -/
def parseString (f : Fmt) (mode : StrMode) : Except FormatError (Fmt × List Nat) :=
  let start := f.pos
  match expectByte f 34 with
  | .error e => .error e
  | .ok f1 => parseStringLoop start mode f1

/-! Literals (`parse_true`, `parse_false`, `parse_null`). -/

/-- Consumes an exact byte sequence via repeated `expect_byte`. -/
def expectBytes (f : Fmt) : List Nat → Except FormatError Fmt
  | [] => .ok f
  | b :: rest =>
    match expectByte f b with
    | .ok f' => expectBytes f' rest
    | .error e => .error e

/-- Literal `true` (`parse_true`). -/
def parseTrue (f : Fmt) : Except FormatError (Fmt × List Nat) :=
  match expectBytes f [116, 114, 117, 101] with
  | .ok f' => .ok (f', writeTrue f')
  | .error e => .error e

/-- Literal `false` (`parse_false`). -/
def parseFalse (f : Fmt) : Except FormatError (Fmt × List Nat) :=
  match expectBytes f [102, 97, 108, 115, 101] with
  | .ok f' => .ok (f', writeFalse f')
  | .error e => .error e

/-- Literal `null` (`parse_null`). -/
def parseNull (f : Fmt) : Except FormatError (Fmt × List Nat) :=
  match expectBytes f [110, 117, 108, 108] with
  | .ok f' => .ok (f', writeNull f')
  | .error e => .error e

/-! The mutually recursive structural parsers (`parse_value`,
`parse_object`, `parse_array` and their member loops), with an explicit
fuel argument bounding the recursion; `none` means out of fuel. -/

mutual

/-- Value dispatch (`parse_value`). -/
def parseValue : Nat → Fmt → Option (Except FormatError (Fmt × List Nat))
  | 0, _ => none
  | fuel + 1, f =>
    match peekByte f with
    | some b =>
        if b = 34 then some (parseString f .val)
        else if b = 45 ∨ (48 ≤ b ∧ b ≤ 57) then some (parseNumber f)
        else if b = 123 then parseObject fuel f
        else if b = 91 then parseArray fuel f
        else if b = 116 then some (parseTrue f)
        else if b = 102 then some (parseFalse f)
        else if b = 110 then some (parseNull f)
        else some (.error (.invalidByte b f.pos))
    | none => some (.error .eof)

/-- Object parser (`parse_object`). -/
def parseObject : Nat → Fmt → Option (Except FormatError (Fmt × List Nat))
  | 0, _ => none
  | fuel + 1, f =>
    match expectByte f 123 with
    | .error e => some (.error e)
    | .ok f1 =>
      let f2 := skipWhitespace f1
      if peekByte f2 = some 125 then
        some (.ok ({ f2 with pos := f2.pos + 1 }, writeEmptyObj f2))
      else
        match incLevel f2 with
        | .error e => some (.error e)
        | .ok f3 => objLoop fuel f3 (writeBeginObj f2) true

/-- The member loop of `parse_object`; `acc` is the output already
emitted for this object, `first` whether no member has been parsed yet. -/
def objLoop : Nat → Fmt → List Nat → Bool → Option (Except FormatError (Fmt × List Nat))
  | 0, _, _, _ => none
  | fuel + 1, f, acc, first =>
    let f1 := skipWhitespace f
    if peekByte f1 = some 125 then
      let f3 := decLevel { f1 with pos := f1.pos + 1 }
      some (.ok (f3, acc ++ writeLn ++ writeIndent f3 ++ writeEndObj f3))
    else
      match (if first then .ok (f1, acc) else
              match expectByte f1 44 with
              | .error e => .error e
              | .ok fc => .ok (skipWhitespace fc, acc ++ writeValueSep fc) :
             Except FormatError (Fmt × List Nat)) with
      | .error e => some (.error e)
      | .ok (fA, accA) =>
        match parseString fA .key with
        | .error e => some (.error e)
        | .ok (fB, dK) =>
          let fC := skipWhitespace fB
          match expectByte fC 58 with
          | .error e => some (.error e)
          | .ok fD =>
            let accC := accA ++ writeIndent fA ++ dK ++ writeNameSep fD
            let fE := skipWhitespace fD
            match parseValue fuel fE with
            | none => none
            | some (.error e) => some (.error e)
            | some (.ok (fF, dV)) => objLoop fuel fF (accC ++ dV) false

/-- Array parser (`parse_array`). -/
def parseArray : Nat → Fmt → Option (Except FormatError (Fmt × List Nat))
  | 0, _ => none
  | fuel + 1, f =>
    match expectByte f 91 with
    | .error e => some (.error e)
    | .ok f1 =>
      let f2 := skipWhitespace f1
      if peekByte f2 = some 93 then
        some (.ok ({ f2 with pos := f2.pos + 1 }, writeEmptyArr f2))
      else
        match incLevel f2 with
        | .error e => some (.error e)
        | .ok f3 => arrLoop fuel f3 (writeBeginArr f2) true

/-- The element loop of `parse_array`. -/
def arrLoop : Nat → Fmt → List Nat → Bool → Option (Except FormatError (Fmt × List Nat))
  | 0, _, _, _ => none
  | fuel + 1, f, acc, first =>
    let f1 := skipWhitespace f
    if peekByte f1 = some 93 then
      let f3 := decLevel { f1 with pos := f1.pos + 1 }
      some (.ok (f3, acc ++ writeLn ++ writeIndent f3 ++ writeEndArr f3))
    else
      match (if first then .ok (f1, acc) else
              match expectByte f1 44 with
              | .error e => .error e
              | .ok fc => .ok (skipWhitespace fc, acc ++ writeValueSep fc) :
             Except FormatError (Fmt × List Nat)) with
      | .error e => some (.error e)
      | .ok (fA, accA) =>
        match parseValue fuel fA with
        | none => none
        | some (.error e) => some (.error e)
        | some (.ok (fF, dV)) => arrLoop fuel fF (accA ++ writeIndent fA ++ dV) false

end

/-- The entry point (`format`): skips a BOM and surrounding whitespace,
parses one value, and rejects any unconsumed byte. -/
def format (fuel : Nat) (f : Fmt) : Option (Except FormatError (List Nat)) :=
  let f0 := skipStartBom f
  let f1 := skipWhitespace f0
  match parseValue fuel f1 with
  | none => none
  | some (.error e) => some (.error e)
  | some (.ok (f2, d)) =>
    let f3 := skipWhitespace f2
    match peekByte f3 with
    | some b => some (.error (.invalidByte b f3.pos))
    | none => some (.ok d)

/-- Formats a byte buffer from scratch in a given color mode. -/
def formatBytes (fuel : Nat) (input : List Nat) (color : Color) :
    Option (Except FormatError (List Nat)) :=
  format fuel { input := input, pos := 0, level := 0, color := color }

/-- Whether a formatting run completed successfully. -/
def resultOk : Option (Except FormatError (List Nat)) → Bool
  | some (.ok _) => true
  | _ => false

/-- Reference UTF-8 validator, following the spec: a byte list is accepted
exactly when it is the well-formed encoding of a single Unicode scalar
value.  The code point is decoded arithmetically; overlong encodings are
rejected by the minimum-value bound of each length, surrogate halves
U+D800 to U+DFFF are rejected, and code points above U+10FFFF are
rejected. -/
def refUtf8Accept (bs : List Nat) : Bool :=
  match bs with
  | [b1] => decide (b1 < 128)
  | [b1, b2] =>
      decide (192 ≤ b1 ∧ b1 ≤ 223 ∧ 128 ≤ b2 ∧ b2 ≤ 191 ∧
        128 ≤ (b1 - 192) * 64 + (b2 - 128))
  | [b1, b2, b3] =>
      decide (224 ≤ b1 ∧ b1 ≤ 239 ∧ 128 ≤ b2 ∧ b2 ≤ 191 ∧ 128 ≤ b3 ∧ b3 ≤ 191 ∧
        2048 ≤ (b1 - 224) * 4096 + (b2 - 128) * 64 + (b3 - 128) ∧
        ¬(55296 ≤ (b1 - 224) * 4096 + (b2 - 128) * 64 + (b3 - 128) ∧
          (b1 - 224) * 4096 + (b2 - 128) * 64 + (b3 - 128) ≤ 57343))
  | [b1, b2, b3, b4] =>
      decide (240 ≤ b1 ∧ b1 ≤ 247 ∧ 128 ≤ b2 ∧ b2 ≤ 191 ∧ 128 ≤ b3 ∧ b3 ≤ 191 ∧
        128 ≤ b4 ∧ b4 ≤ 191 ∧
        65536 ≤ (b1 - 240) * 262144 + (b2 - 128) * 4096 + (b3 - 128) * 64 + (b4 - 128) ∧
        (b1 - 240) * 262144 + (b2 - 128) * 4096 + (b3 - 128) * 64 + (b4 - 128) ≤ 1114111)
  | _ => false

/-- Whether `next_utf8_char`, run on exactly the given bytes, succeeds
consuming the whole sequence. -/
def utf8AcceptsWhole (bs : List Nat) : Bool :=
  match nextUtf8Char { input := bs, pos := 0, level := 0, color := .noColor } with
  | .ok f' => decide (f'.pos = bs.length)
  | .error _ => false

/-- Relation between an error value and the input it was raised on:
InvalidByte carries the offset of the offending byte itself; InvalidEscape
carries the position one past the offending escape byte (the backslash is
two before); InvalidUtf8 carries the sequence start for 2-byte failures
and the position one past the consumed bytes for 3- and 4-byte failures;
MaxIndentLevel carries level 100 and a position strictly after the opening
bracket of the container that overflowed. -/
def errOffsetOk (input : List Nat) : FormatError → Prop
  | .eof => True
  | .invalidByte b p => input.get? p = some b
  | .invalidEscape b p =>
      2 ≤ p ∧ input.get? (p - 1) = some b ∧ input.get? (p - 2) = some 92
  | .invalidUtf8 bs l p =>
      (l = 2 → input.get? p = some bs.1) ∧
      (l = 3 → 3 ≤ p ∧ input.get? (p - 3) = some bs.1) ∧
      (l = 4 → 4 ≤ p ∧ input.get? (p - 4) = some bs.1)
  | .maxIndentLevel l p =>
      l = 100 ∧ ∃ q, q < p ∧ (input.get? q = some 123 ∨ input.get? q = some 91)

/-- The error-offset part of the parser invariant: every error raised by a
run is related to the input by `errOffsetOk`. -/
def ErrInv (input : List Nat) (r : Option (Except FormatError (Fmt × List Nat))) : Prop :=
  ∀ e, r = some (.error e) → errOffsetOk input e

/-- The success part of the parser invariant: a successful run preserves the
input and color, lands on the stated level, and never moves the cursor
backwards. -/
def OkInv (f : Fmt) (lvl : Nat) (r : Option (Except FormatError (Fmt × List Nat))) : Prop :=
  ∀ f' d, r = some (.ok (f', d)) →
    f'.input = f.input ∧ f'.level = lvl ∧ f'.color = f.color ∧ f.pos ≤ f'.pos

/-- Invariant of `parseValue`. -/
def PV (fuel : Nat) (f : Fmt) : Prop :=
  ErrInv f.input (parseValue fuel f) ∧ OkInv f f.level (parseValue fuel f)

/-- Invariant of `parseObject`. -/
def PO (fuel : Nat) (f : Fmt) : Prop :=
  ErrInv f.input (parseObject fuel f) ∧ OkInv f f.level (parseObject fuel f)

/-- Invariant of `objLoop` (the level was bumped by the enclosing
`parseObject`, so a completed loop ends one level lower). -/
def OL (fuel : Nat) (f : Fmt) (acc : List Nat) (first : Bool) : Prop :=
  ErrInv f.input (objLoop fuel f acc first) ∧ OkInv f (f.level - 1) (objLoop fuel f acc first)

/-- Invariant of `parseArray`. -/
def PA (fuel : Nat) (f : Fmt) : Prop :=
  ErrInv f.input (parseArray fuel f) ∧ OkInv f f.level (parseArray fuel f)

/-- Invariant of `arrLoop`. -/
def AL (fuel : Nat) (f : Fmt) (acc : List Nat) (first : Bool) : Prop :=
  ErrInv f.input (arrLoop fuel f acc first) ∧ OkInv f (f.level - 1) (arrLoop fuel f acc first)

/-- Spec-side: a run of inter-token whitespace bytes. -/
def isWsL (l : List Nat) : Prop := ∀ b ∈ l, isWsByte b = true

/-- Spec-side string character, following the spec grammar for string
content: a plain ASCII byte (0x20 and above, neither quote nor
backslash), a two-byte simple escape, a six-byte Unicode escape with four
hex digits, or a multi-byte UTF-8 encoded scalar value. -/
inductive SpecStrChar : List Nat → Prop where
  | plain : ∀ b, 32 ≤ b → b ≠ 34 → b ≠ 92 → b < 128 → SpecStrChar [b]
  | esc : ∀ e, (e = 34 ∨ e = 92 ∨ e = 47 ∨ e = 98 ∨ e = 102 ∨ e = 110 ∨ e = 114 ∨ e = 116) →
      SpecStrChar [92, e]
  | uesc : ∀ h1 h2 h3 h4, isAsciiHexDigit h1 = true → isAsciiHexDigit h2 = true →
      isAsciiHexDigit h3 = true → isAsciiHexDigit h4 = true →
      SpecStrChar [92, 117, h1, h2, h3, h4]
  | utf8 : ∀ bs, 2 ≤ bs.length → refUtf8Accept bs = true → SpecStrChar bs

/-- Spec-side string body: a concatenation of string characters. -/
inductive SpecStrBody : List Nat → Prop where
  | nil : SpecStrBody []
  | cons : ∀ c r, SpecStrChar c → SpecStrBody r → SpecStrBody (c ++ r)

/-- Spec-side number, following the spec's number grammar
`[-]? (0 | [1-9][0-9]*) [. [0-9]+]? [(e|E) [+|-]? [0-9]+]?`. -/
def SpecNumber (l : List Nat) : Prop :=
  ∃ sign intp frac expp, l = sign ++ intp ++ frac ++ expp ∧
    (sign = [] ∨ sign = [45]) ∧
    (intp = [48] ∨ ∃ d ds, 49 ≤ d ∧ d ≤ 57 ∧ (∀ x ∈ ds, isDigit x = true) ∧
      intp = d :: ds) ∧
    (frac = [] ∨ ∃ ds, ds ≠ [] ∧ (∀ x ∈ ds, isDigit x = true) ∧ frac = 46 :: ds) ∧
    (expp = [] ∨ ∃ e sg ds, (e = 101 ∨ e = 69) ∧ (sg = [] ∨ sg = [43] ∨ sg = [45]) ∧
      ds ≠ [] ∧ (∀ x ∈ ds, isDigit x = true) ∧ expp = e :: (sg ++ ds))

mutual

/-- Spec-side JSON value over raw bytes, following the spec grammar: the
literals, a number, a quoted string, or a (possibly empty) object or
array of whitespace-separated members. -/
inductive SpecValue : List Nat → Prop where
  | nullL : SpecValue [110, 117, 108, 108]
  | trueL : SpecValue [116, 114, 117, 101]
  | falseL : SpecValue [102, 97, 108, 115, 101]
  | num : ∀ l, SpecNumber l → SpecValue l
  | str : ∀ l, SpecStrBody l → SpecValue (34 :: (l ++ [34]))
  | emptyObj : ∀ w, isWsL w → SpecValue (123 :: (w ++ [125]))
  | obj : ∀ l, SpecMembers l → SpecValue (123 :: (l ++ [125]))
  | emptyArr : ∀ w, isWsL w → SpecValue (91 :: (w ++ [93]))
  | arr : ∀ l, SpecElems l → SpecValue (91 :: (l ++ [93]))

/-- Spec-side non-empty member list of an object: `ws "key" ws : ws value
ws` groups separated by commas. -/
inductive SpecMembers : List Nat → Prop where
  | one : ∀ w1 k w2 w3 v w4, isWsL w1 → SpecStrBody k → isWsL w2 → isWsL w3 →
      SpecValue v → isWsL w4 →
      SpecMembers (w1 ++ (34 :: (k ++ [34])) ++ w2 ++ 58 :: (w3 ++ v ++ w4))
  | cons : ∀ w1 k w2 w3 v w4 rest, isWsL w1 → SpecStrBody k → isWsL w2 → isWsL w3 →
      SpecValue v → isWsL w4 → SpecMembers rest →
      SpecMembers (w1 ++ (34 :: (k ++ [34])) ++ w2 ++ 58 :: (w3 ++ v ++ w4) ++ 44 :: rest)

/-- Spec-side non-empty element list of an array: `ws value ws` groups
separated by commas. -/
inductive SpecElems : List Nat → Prop where
  | one : ∀ w1 v w2, isWsL w1 → SpecValue v → isWsL w2 → SpecElems (w1 ++ v ++ w2)
  | cons : ∀ w1 v w2 rest, isWsL w1 → SpecValue v → isWsL w2 → SpecElems rest →
      SpecElems (w1 ++ v ++ w2 ++ 44 :: rest)

end

/-- Bytes that may legally follow a complete reformatted value in the
emitter's own output: end of buffer, a comma, or a newline. -/
def SafeFollow (rest : List Nat) : Prop :=
  rest = [] ∨ rest.head? = some 44 ∨ rest.head? = some 10

/-- Shape of the integer part consumed by `parse_integer`: a single `0`
or a nonzero digit followed by a digit run. -/
def IntShape (s : List Nat) : Prop :=
  s = [48] ∨ ∃ d ds, 49 ≤ d ∧ d ≤ 57 ∧ (∀ x ∈ ds, isDigit x = true) ∧ s = d :: ds

/-- Shape of the fraction part consumed by `parse_fraction`: empty, or a
point followed by a nonempty digit run. -/
def FracShape (s : List Nat) : Prop :=
  s = [] ∨ ∃ ds, ds ≠ [] ∧ (∀ x ∈ ds, isDigit x = true) ∧ s = 46 :: ds

/-- Shape of the exponent part consumed by `parse_exponent`: empty, or
`e`/`E`, an optional sign, and a nonempty digit run. -/
def ExpShape (s : List Nat) : Prop :=
  s = [] ∨ ∃ e sg ds, (e = 101 ∨ e = 69) ∧ (sg = [] ∨ sg = [43] ∨ sg = [45]) ∧
    ds ≠ [] ∧ (∀ x ∈ ds, isDigit x = true) ∧ s = e :: (sg ++ ds)

/-- First bytes that can start a value accepted by the dispatcher. -/
def ValueHead (b : Nat) : Prop :=
  b = 34 ∨ b = 45 ∨ (48 ≤ b ∧ b ≤ 57) ∨ b = 123 ∨ b = 91 ∨ b = 116 ∨ b = 102 ∨ b = 110

/-- Proof-side characterization of the byte suffix a string-scanner run
consumes from inside the string up to and including the closing quote: a
closing quote, a simple escape, a Unicode escape, or one UTF-8-validated
character, followed by more of the same. -/
inductive StrTail : List Nat → Prop where
  | close : StrTail [34]
  | esc : ∀ e r,
      (e = 34 ∨ e = 92 ∨ e = 47 ∨ e = 98 ∨ e = 102 ∨ e = 110 ∨ e = 114 ∨ e = 116) →
      StrTail r → StrTail (92 :: e :: r)
  | uesc : ∀ h1 h2 h3 h4 r, isAsciiHexDigit h1 = true → isAsciiHexDigit h2 = true →
      isAsciiHexDigit h3 = true → isAsciiHexDigit h4 = true → StrTail r →
      StrTail (92 :: 117 :: h1 :: h2 :: h3 :: h4 :: r)
  | chr : ∀ b c r, c.head? = some b → ¬b = 34 → ¬b = 92 → ¬b ≤ 31 →
      (∀ (g : Fmt) (grest : List Nat), g.input.drop g.pos = c ++ grest →
        nextUtf8Char g = .ok { g with pos := g.pos + c.length }) →
      StrTail r → StrTail (c ++ r)

/-- The whitespace run between a container opener (or separator) and the
next token in pretty-printed output: a newline and one indent. -/
def wsIndent (lvl : Nat) : List Nat := 10 :: List.replicate (lvl * 2) 32

/-- Reparse property of a successful no-color value parse: the emission
starts with a value-head byte, the final state keeps the level and color,
and the emitted bytes, placed at any no-color cursor at the same level
with a safe follower, parse again with the same fuel to the same
emission, consuming exactly themselves. -/
def RVp (fuel : Nat) (f fend : Fmt) (d : List Nat) : Prop :=
  (∃ b, d.head? = some b ∧ ValueHead b) ∧
  fend.level = f.level ∧ fend.color = f.color ∧
  ∀ g rest, g.input.drop g.pos = d ++ rest → g.color = .noColor → g.level = f.level →
    SafeFollow rest →
    parseValue fuel g = some (.ok ({ g with pos := g.pos + d.length }, d))

/-- Reparse property of a successful no-color object parse. -/
def POp (fuel : Nat) (f fend : Fmt) (d : List Nat) : Prop :=
  d.head? = some 123 ∧ fend.level = f.level ∧ fend.color = f.color ∧
  ∀ g rest, g.input.drop g.pos = d ++ rest → g.color = .noColor → g.level = f.level →
    SafeFollow rest →
    parseObject fuel g = some (.ok ({ g with pos := g.pos + d.length }, d))

/-- Reparse property of a successful no-color array parse. -/
def PAp (fuel : Nat) (f fend : Fmt) (d : List Nat) : Prop :=
  d.head? = some 91 ∧ fend.level = f.level ∧ fend.color = f.color ∧
  ∀ g rest, g.input.drop g.pos = d ++ rest → g.color = .noColor → g.level = f.level →
    SafeFollow rest →
    parseArray fuel g = some (.ok ({ g with pos := g.pos + d.length }, d))

/-- Reparse property of a successful no-color object-member loop run: the
appended emission `D` reparses from the matching loop entry.  On the first
iteration the cursor sits past the indent that the loop itself re-emits;
on later iterations the emission and the consumed bytes coincide. -/
def OLp (fuel : Nat) (f fend : Fmt) (acc d : List Nat) (first : Bool) : Prop :=
  fend.level = f.level - 1 ∧ fend.color = f.color ∧
  (first = true → ¬peekByte (skipWhitespace f) = some 125 →
    ∃ S, d = acc ++ (List.replicate (f.level * 2) 32 ++ S) ∧ S.head? = some 34 ∧
      ∀ g rest acc2, g.input.drop g.pos = S ++ rest → g.color = .noColor →
        g.level = f.level → SafeFollow rest →
        objLoop fuel g acc2 true =
          some (.ok ({ g with pos := g.pos + S.length, level := g.level - 1 },
            acc2 ++ (List.replicate (f.level * 2) 32 ++ S)))) ∧
  (first = false →
    ∃ D, d = acc ++ D ∧ (D.head? = some 44 ∨ D.head? = some 10) ∧
      ∀ g rest acc2, g.input.drop g.pos = D ++ rest → g.color = .noColor →
        g.level = f.level → SafeFollow rest →
        objLoop fuel g acc2 false =
          some (.ok ({ g with pos := g.pos + D.length, level := g.level - 1 }, acc2 ++ D)))

/-- Reparse property of a successful no-color array-element loop run. -/
def ALp (fuel : Nat) (f fend : Fmt) (acc d : List Nat) (first : Bool) : Prop :=
  fend.level = f.level - 1 ∧ fend.color = f.color ∧
  (first = true → ¬peekByte (skipWhitespace f) = some 93 →
    ∃ S b, d = acc ++ (List.replicate (f.level * 2) 32 ++ S) ∧ S.head? = some b ∧
      ValueHead b ∧
      ∀ g rest acc2, g.input.drop g.pos = S ++ rest → g.color = .noColor →
        g.level = f.level → SafeFollow rest →
        arrLoop fuel g acc2 true =
          some (.ok ({ g with pos := g.pos + S.length, level := g.level - 1 },
            acc2 ++ (List.replicate (f.level * 2) 32 ++ S)))) ∧
  (first = false →
    ∃ D, d = acc ++ D ∧ (D.head? = some 44 ∨ D.head? = some 10) ∧
      ∀ g rest acc2, g.input.drop g.pos = D ++ rest → g.color = .noColor →
        g.level = f.level → SafeFollow rest →
        arrLoop fuel g acc2 false =
          some (.ok ({ g with pos := g.pos + D.length, level := g.level - 1 }, acc2 ++ D)))

/-- Bytes that cannot extend a number token: neither a digit, nor the
decimal point, nor an exponent letter.  The number scanner stops exactly
at such a byte, so a spec-side number followed by such a byte is consumed
verbatim. -/
def NumFollow (rest : List Nat) : Prop :=
  ∀ y, rest.head? = some y → isDigit y = false ∧ ¬y = 46 ∧ ¬y = 101 ∧ ¬y = 69

/-- Spec-side shape of the bytes the object-member loop consumes from a
non-first iteration: whitespace and the closing brace, or whitespace, a
comma, and a further `ws "key" ws : ws value` group followed recursively
by another such tail. -/
inductive SpecMembersTail : List Nat → Prop where
  | close : ∀ w, isWsL w → SpecMembersTail (w ++ [125])
  | more : ∀ w w1 k w2 w3 v r, isWsL w → isWsL w1 → SpecStrBody k → isWsL w2 →
      isWsL w3 → SpecValue v → SpecMembersTail r →
      SpecMembersTail (w ++ 44 :: (w1 ++ (34 :: (k ++ [34])) ++ w2 ++ 58 :: (w3 ++ v ++ r)))

/-- Spec-side shape of the bytes the object-member loop consumes from its
first iteration: whitespace and the closing brace, or a first
`ws "key" ws : ws value` group followed by a member tail. -/
inductive ObjFirst : List Nat → Prop where
  | close : ∀ w, isWsL w → ObjFirst (w ++ [125])
  | mem : ∀ w1 k w2 w3 v r, isWsL w1 → SpecStrBody k → isWsL w2 → isWsL w3 →
      SpecValue v → SpecMembersTail r →
      ObjFirst (w1 ++ (34 :: (k ++ [34])) ++ w2 ++ 58 :: (w3 ++ v ++ r))

/-- Spec-side shape of the bytes the array-element loop consumes from a
non-first iteration. -/
inductive SpecElemsTail : List Nat → Prop where
  | close : ∀ w, isWsL w → SpecElemsTail (w ++ [93])
  | more : ∀ w w1 v r, isWsL w → isWsL w1 → SpecValue v → SpecElemsTail r →
      SpecElemsTail (w ++ 44 :: (w1 ++ v ++ r))

/-- Spec-side shape of the bytes the array-element loop consumes from its
first iteration. -/
inductive ArrFirst : List Nat → Prop where
  | close : ∀ w, isWsL w → ArrFirst (w ++ [93])
  | elem : ∀ w1 v r, isWsL w1 → SpecValue v → SpecElemsTail r →
      ArrFirst (w1 ++ v ++ r)

/-- Spec-side member list of an object, as in `SpecMembers`, but with the
member values drawn from an arbitrary predicate `P`; used to stratify the
grammar by container depth. -/
inductive SpecMembersP (P : List Nat → Prop) : List Nat → Prop where
  | one : ∀ w1 k w2 w3 v w4, isWsL w1 → SpecStrBody k → isWsL w2 → isWsL w3 →
      P v → isWsL w4 →
      SpecMembersP P (w1 ++ (34 :: (k ++ [34])) ++ w2 ++ 58 :: (w3 ++ v ++ w4))
  | cons : ∀ w1 k w2 w3 v w4 rest, isWsL w1 → SpecStrBody k → isWsL w2 → isWsL w3 →
      P v → isWsL w4 → SpecMembersP P rest →
      SpecMembersP P (w1 ++ (34 :: (k ++ [34])) ++ w2 ++ 58 :: (w3 ++ v ++ w4) ++ 44 :: rest)

/-- Spec-side element list of an array, as in `SpecElems`, but with the
element values drawn from an arbitrary predicate `P`. -/
inductive SpecElemsP (P : List Nat → Prop) : List Nat → Prop where
  | one : ∀ w1 v w2, isWsL w1 → P v → isWsL w2 → SpecElemsP P (w1 ++ v ++ w2)
  | cons : ∀ w1 v w2 rest, isWsL w1 → P v → isWsL w2 → SpecElemsP P rest →
      SpecElemsP P (w1 ++ v ++ w2 ++ 44 :: rest)

/-- Spec-side values of container depth zero: the literals, numbers,
strings, and the empty containers (which the code formats without ever
touching the indent level). -/
def SpecLeaf (v : List Nat) : Prop :=
  v = [110, 117, 108, 108] ∨ v = [116, 114, 117, 101] ∨ v = [102, 97, 108, 115, 101] ∨
  SpecNumber v ∨ (∃ l, SpecStrBody l ∧ v = 34 :: (l ++ [34])) ∨
  (∃ w, isWsL w ∧ v = 123 :: (w ++ [125])) ∨ (∃ w, isWsL w ∧ v = 91 :: (w ++ [93]))

/-- The spec grammar stratified by the nesting depth of non-empty
containers: `SpecValueD n v` holds when `v` is a spec-side JSON value
whose non-empty objects and arrays nest at most `n` deep.  Empty
containers and the scalar tokens count for depth zero, matching the code,
which bumps the indent level only around a non-empty container's
members. -/
def SpecValueD : Nat → List Nat → Prop
  | 0, v => SpecLeaf v
  | n + 1, v => SpecLeaf v ∨
      (∃ m, SpecMembersP (SpecValueD n) m ∧ v = 123 :: (m ++ [125])) ∨
      (∃ e, SpecElemsP (SpecValueD n) e ∧ v = 91 :: (e ++ [93]))

/-- Soundness property of the value dispatcher: on a byte buffer, a
successful parse consumes exactly one spec-grammar value. -/
def SVs (fuel : Nat) (f : Fmt) : Prop :=
  ∀ f' d, parseValue fuel f = some (.ok (f', d)) → (∀ b ∈ f.input, b < 256) →
    ∃ v, SpecValue v ∧ f.input.drop f.pos = v ++ f.input.drop (f.pos + v.length) ∧
      f'.pos = f.pos + v.length ∧ f'.input = f.input

/-- Soundness property of the object parser. -/
def SOs (fuel : Nat) (f : Fmt) : Prop :=
  ∀ f' d, parseObject fuel f = some (.ok (f', d)) → (∀ b ∈ f.input, b < 256) →
    ∃ v, SpecValue v ∧ f.input.drop f.pos = v ++ f.input.drop (f.pos + v.length) ∧
      f'.pos = f.pos + v.length ∧ f'.input = f.input

/-- Soundness property of the array parser. -/
def SAs (fuel : Nat) (f : Fmt) : Prop :=
  ∀ f' d, parseArray fuel f = some (.ok (f', d)) → (∀ b ∈ f.input, b < 256) →
    ∃ v, SpecValue v ∧ f.input.drop f.pos = v ++ f.input.drop (f.pos + v.length) ∧
      f'.pos = f.pos + v.length ∧ f'.input = f.input

/-- Soundness property of the object-member loop: a completed loop
consumes a first-iteration shape or a member tail. -/
def OLs (fuel : Nat) (f : Fmt) (acc : List Nat) (first : Bool) : Prop :=
  ∀ f' d, objLoop fuel f acc first = some (.ok (f', d)) → (∀ b ∈ f.input, b < 256) →
    ∃ C, (first = true → ObjFirst C) ∧ (first = false → SpecMembersTail C) ∧
      f.input.drop f.pos = C ++ f.input.drop (f.pos + C.length) ∧
      f'.pos = f.pos + C.length ∧ f'.input = f.input

/-- Soundness property of the array-element loop. -/
def ALs (fuel : Nat) (f : Fmt) (acc : List Nat) (first : Bool) : Prop :=
  ∀ f' d, arrLoop fuel f acc first = some (.ok (f', d)) → (∀ b ∈ f.input, b < 256) →
    ∃ C, (first = true → ArrFirst C) ∧ (first = false → SpecElemsTail C) ∧
      f.input.drop f.pos = C ++ f.input.drop (f.pos + C.length) ∧
      f'.pos = f.pos + C.length ∧ f'.input = f.input

/-! Symbolic stepping lemmas: the parser is driven by the suffix of the
input at the cursor, exposed through hypotheses of the form
`f.input.drop f.pos = ...`. -/

theorem head?_drop_eq_get? (l : List Nat) (p : Nat) : (l.drop p).head? = l.get? p := by
  rw [← List.get?_zero, List.get?_drop, Nat.add_zero]

theorem peekByte_eq_head {f : Fmt} : peekByte f = (f.input.drop f.pos).head? := by
  rw [head?_drop_eq_get?]; rfl

theorem peekByte_of_drop {f : Fmt} {x : Nat} {xs : List Nat}
    (h : f.input.drop f.pos = x :: xs) : peekByte f = some x := by
  rw [peekByte_eq_head, h]; rfl

theorem peekByte_of_drop_nil {f : Fmt} (h : f.input.drop f.pos = []) :
    peekByte f = none := by
  rw [peekByte_eq_head, h]; rfl

theorem drop_cons_succ {l : List Nat} {p : Nat} {x : Nat} {xs : List Nat}
    (h : l.drop p = x :: xs) : l.drop (p + 1) = xs := by
  rw [← List.drop_drop, h]; rfl

theorem drop_add_of_drop_append {l : List Nat} {p : Nat} {xs ys : List Nat}
    (h : l.drop p = xs ++ ys) : l.drop (p + xs.length) = ys := by
  have h2 : (l.drop p).drop xs.length = ys := by rw [h, List.drop_left]
  rw [List.drop_drop] at h2
  simpa [Nat.add_comm] using h2

theorem expectByte_ok_of_peek {f : Fmt} {x : Nat} (h : peekByte f = some x) :
    expectByte f x = .ok { f with pos := f.pos + 1 } := by
  simp [expectByte, nextByte, h]

theorem skipWhitespace_of_head {f : Fmt} {y : Nat} {ys : List Nat}
    (hd : f.input.drop f.pos = y :: ys) (hy : isWsByte y = false) :
    skipWhitespace f = f := by
  unfold skipWhitespace skipWsPos
  rw [hd]
  unfold wsRunLen
  rw [hy]
  rfl

theorem skipWhitespace_of_nil {f : Fmt} (hd : f.input.drop f.pos = []) :
    skipWhitespace f = f := by
  unfold skipWhitespace skipWsPos
  rw [hd]
  rfl

theorem skipStartBom_eq_self {f : Fmt} (h : f.input.get? 0 ≠ some 239) :
    skipStartBom f = f := by
  unfold skipStartBom
  split
  · rename_i heq
    rw [heq] at h
    simp at h
  · rfl

/-- Deep chains of open brackets hit the indent cap: if the input at the
cursor is a run of `m` open brackets with `m` strictly more than the
remaining depth budget `j = 100 - level`, the parser stops with a
MaxIndentLevel error just after consuming `j + 1` of them, for any fuel of
at least `3 * j + 3`.  The fuel bound depends only on the cap, not on `m`:
the recursion is cut off by the depth check. -/
theorem parseValue_openChain : ∀ (j : Nat), ∀ (fuel : Nat) (f : Fmt) (m : Nat),
    f.input.drop f.pos = List.replicate m 91 →
    f.level + j = 100 → j + 1 ≤ m → 3 * j + 3 ≤ fuel →
    parseValue fuel f = some (.error (.maxIndentLevel 100 (f.pos + j + 1))) := by
  intro j
  induction j with
  | zero =>
      intro fuel f m hd hlev hm hfuel
      obtain ⟨F, rfl⟩ : ∃ F, fuel = F + 1 + 1 := ⟨fuel - 2, by omega⟩
      obtain ⟨m', rfl⟩ : ∃ m', m = m' + 1 := ⟨m - 1, by omega⟩
      rw [List.replicate_succ] at hd
      have hpk : peekByte f = some 91 := peekByte_of_drop hd
      have hd1 : f.input.drop (f.pos + 1) = List.replicate m' 91 := drop_cons_succ hd
      simp only [parseValue, hpk]
      norm_num
      simp only [parseArray, expectByte_ok_of_peek hpk]
      have hsw : skipWhitespace { f with pos := f.pos + 1 } =
          { f with pos := f.pos + 1 } := by
        cases m' with
        | zero => exact skipWhitespace_of_nil hd1
        | succ m'' =>
            rw [List.replicate_succ] at hd1
            exact skipWhitespace_of_head hd1 (by rfl)
      rw [hsw]
      have hne : peekByte { f with pos := f.pos + 1 } ≠ some 93 := by
        cases m' with
        | zero =>
            have hn : peekByte { f with pos := f.pos + 1 } = none :=
              peekByte_of_drop_nil hd1
            rw [hn]; simp
        | succ m'' =>
            rw [List.replicate_succ] at hd1
            have hn : peekByte { f with pos := f.pos + 1 } = some 91 :=
              peekByte_of_drop hd1
            rw [hn]; simp
      rw [if_neg hne]
      have hinc : incLevel { f with pos := f.pos + 1 } =
          .error (.maxIndentLevel 100 (f.pos + 1)) := by
        unfold incLevel MAX_INDENT_LEVEL
        have h100 : f.level = 100 := by omega
        simp [h100]
      rw [hinc]
  | succ j ih =>
      intro fuel f m hd hlev hm hfuel
      obtain ⟨F, rfl⟩ : ∃ F, fuel = F + 1 + 1 + 1 := ⟨fuel - 3, by omega⟩
      obtain ⟨m', rfl⟩ : ∃ m', m = m' + 1 := ⟨m - 1, by omega⟩
      rw [List.replicate_succ] at hd
      have hpk : peekByte f = some 91 := peekByte_of_drop hd
      have hd1 : f.input.drop (f.pos + 1) = List.replicate m' 91 := drop_cons_succ hd
      obtain ⟨m'', rfl⟩ : ∃ m'', m' = m'' + 1 := ⟨m' - 1, by omega⟩
      have hd1c : f.input.drop (f.pos + 1) = 91 :: List.replicate m'' 91 := by
        rw [hd1, List.replicate_succ]
      simp only [parseValue, hpk]
      norm_num
      simp only [parseArray, expectByte_ok_of_peek hpk]
      have hsw : skipWhitespace { f with pos := f.pos + 1 } =
          { f with pos := f.pos + 1 } := skipWhitespace_of_head hd1c (by rfl)
      rw [hsw]
      have hpk93 : peekByte { f with pos := f.pos + 1 } = some 91 :=
        peekByte_of_drop hd1c
      have hne : peekByte { f with pos := f.pos + 1 } ≠ some 93 := by
        rw [hpk93]; simp
      rw [if_neg hne]
      have hinc : incLevel { f with pos := f.pos + 1 } =
          .ok { f with pos := f.pos + 1, level := f.level + 1 } := by
        unfold incLevel MAX_INDENT_LEVEL
        have hlt : ¬(100 ≤ f.level) := by omega
        simp [hlt]
      rw [hinc]
      simp only [arrLoop]
      have hsw2 : skipWhitespace { f with pos := f.pos + 1, level := f.level + 1 } =
          { f with pos := f.pos + 1, level := f.level + 1 } :=
        skipWhitespace_of_head hd1c (by rfl)
      rw [hsw2]
      have hpk2 : peekByte { f with pos := f.pos + 1, level := f.level + 1 } =
          some 91 := peekByte_of_drop hd1c
      have hne2 : peekByte { f with pos := f.pos + 1, level := f.level + 1 } ≠
          some 93 := by rw [hpk2]; simp
      rw [if_neg hne2]
      have hrec := ih F { f with pos := f.pos + 1, level := f.level + 1 } (m'' + 1)
        hd1 (by show f.level + 1 + j = 100; omega) (by omega) (by omega)
      have harith : f.pos + 1 + j + 1 = f.pos + (j + 1) + 1 := by omega
      simp [hrec, harith]

theorem peekByte_of_head? {f : Fmt} {y : Nat}
    (hd : (f.input.drop f.pos).head? = some y) : peekByte f = some y := by
  rw [peekByte_eq_head, hd]

theorem skipWhitespace_of_head?Eq {f : Fmt} {y : Nat}
    (hd : (f.input.drop f.pos).head? = some y) (hy : isWsByte y = false) :
    skipWhitespace f = f := by
  cases hc : f.input.drop f.pos with
  | nil => rw [hc] at hd; cases hd
  | cons a l =>
      rw [hc] at hd
      simp only [List.head?_cons, Option.some.injEq] at hd
      subst hd
      exact skipWhitespace_of_head hc hy

theorem head?_append_replicate (k y : Nat) (l : List Nat) :
    (List.replicate k y ++ y :: l).head? = some y := by
  cases k with
  | zero => rfl
  | succ n => rw [List.replicate_succ]; rfl

/-- Formatting a buffer of `n ≥ 101` consecutive open brackets fails with
`MaxIndentLevel 100` at offset 101, with a fuel of 303 regardless of `n`. -/
theorem formatBytes_openChain (n : Nat) (hn : 101 ≤ n) (c : Color) (fuel : Nat)
    (hf : 303 ≤ fuel) :
    formatBytes fuel (List.replicate n 91) c =
      some (.error (.maxIndentLevel 100 101)) := by
  obtain ⟨k, rfl⟩ : ∃ k, n = k + 1 := ⟨n - 1, by omega⟩
  have hrepc : List.replicate (k + 1) (91 : Nat) = 91 :: List.replicate k 91 :=
    List.replicate_succ 91 k
  have hd0 : ((⟨List.replicate (k + 1) 91, 0, 0, c⟩ : Fmt).input.drop
      (⟨List.replicate (k + 1) 91, 0, 0, c⟩ : Fmt).pos) = 91 :: List.replicate k 91 := by
    rw [show (⟨List.replicate (k + 1) 91, 0, 0, c⟩ : Fmt).pos = 0 from rfl, List.drop_zero]
    exact hrepc
  simp only [formatBytes, format]
  have hbom : skipStartBom (⟨List.replicate (k + 1) 91, 0, 0, c⟩ : Fmt) =
      (⟨List.replicate (k + 1) 91, 0, 0, c⟩ : Fmt) := by
    apply skipStartBom_eq_self
    show (List.replicate (k + 1) (91 : Nat)).get? 0 ≠ some 239
    rw [hrepc]
    simp
  have hsw : skipWhitespace (⟨List.replicate (k + 1) 91, 0, 0, c⟩ : Fmt) =
      (⟨List.replicate (k + 1) 91, 0, 0, c⟩ : Fmt) :=
    skipWhitespace_of_head hd0 (by rfl)
  have hpv := parseValue_openChain 100 fuel
    (⟨List.replicate (k + 1) 91, 0, 0, c⟩ : Fmt)
    (k + 1) (by rw [show ((⟨List.replicate (k + 1) 91, 0, 0, c⟩ : Fmt)).pos = 0 from rfl,
      List.drop_zero]) (by rfl) (by omega) (by omega)
  rw [hbom, hsw, hpv]

/-- Deep chains of brackets around an empty array parse successfully: if
the input at the cursor is `k` open brackets, an empty array, and `k`
close brackets, and the current level leaves room for `k` more, the parser
consumes exactly those `2k + 2` bytes and succeeds. -/
theorem parseValue_nestedEmptyChain : ∀ (k : Nat), ∀ (fuel : Nat) (f : Fmt)
    (rest : List Nat),
    f.input.drop f.pos = List.replicate k 91 ++ [91, 93] ++ List.replicate k 93 ++ rest →
    f.level + k ≤ 100 → 3 * k + 3 ≤ fuel →
    ∃ d, parseValue fuel f = some (.ok ({ f with pos := f.pos + (2 * k + 2) }, d)) := by
  intro k
  induction k with
  | zero =>
      intro fuel f rest hd hlev hfuel
      obtain ⟨F, rfl⟩ : ∃ F, fuel = F + 1 + 1 := ⟨fuel - 2, by omega⟩
      simp only [List.replicate_zero, List.nil_append, List.append_nil] at hd
      have hd' : f.input.drop f.pos = 91 :: (93 :: rest) := by
        rw [hd]; rfl
      have hpk : peekByte f = some 91 := peekByte_of_drop hd'
      have hd1 : f.input.drop (f.pos + 1) = 93 :: rest := drop_cons_succ hd'
      have hsw : skipWhitespace { f with pos := f.pos + 1 } =
          { f with pos := f.pos + 1 } := skipWhitespace_of_head hd1 (by rfl)
      have hpk1 : peekByte { f with pos := f.pos + 1 } = some 93 :=
        peekByte_of_drop hd1
      refine ⟨writeEmptyArr { f with pos := f.pos + 1 }, ?_⟩
      simp only [parseValue, hpk]
      norm_num
      simp only [parseArray, expectByte_ok_of_peek hpk, hsw, hpk1]
      simp
  | succ k ih =>
      intro fuel f rest hd hlev hfuel
      obtain ⟨F, rfl⟩ : ∃ F, fuel = F + 1 + 1 + 1 := ⟨fuel - 3, by omega⟩
      have hd' : f.input.drop f.pos =
          91 :: (List.replicate k 91 ++ [91, 93] ++ List.replicate k 93 ++ (93 :: rest)) := by
        rw [hd, List.replicate_succ 91 k, List.replicate_succ' k 93]
        simp [List.append_assoc]
      have hpk : peekByte f = some 91 := peekByte_of_drop hd'
      have hd1 : f.input.drop (f.pos + 1) =
          List.replicate k 91 ++ [91, 93] ++ List.replicate k 93 ++ (93 :: rest) :=
        drop_cons_succ hd'
      have hd1h : (f.input.drop (f.pos + 1)).head? = some 91 := by
        rw [hd1]
        cases k with
        | zero => rfl
        | succ n => rw [List.replicate_succ]; rfl
      have hsw : skipWhitespace { f with pos := f.pos + 1 } =
          { f with pos := f.pos + 1 } := skipWhitespace_of_head?Eq hd1h (by rfl)
      have hpk1 : peekByte { f with pos := f.pos + 1 } = some 91 :=
        peekByte_of_head? hd1h
      have hne1 : peekByte { f with pos := f.pos + 1 } ≠ some 93 := by
        rw [hpk1]; simp
      have hinc : incLevel { f with pos := f.pos + 1 } =
          .ok { f with pos := f.pos + 1, level := f.level + 1 } := by
        unfold incLevel MAX_INDENT_LEVEL
        have hlt : ¬(100 ≤ f.level) := by omega
        simp [hlt]
      have hsw2 : skipWhitespace { f with pos := f.pos + 1, level := f.level + 1 } =
          { f with pos := f.pos + 1, level := f.level + 1 } :=
        skipWhitespace_of_head?Eq hd1h (by rfl)
      have hpk2 : peekByte { f with pos := f.pos + 1, level := f.level + 1 } =
          some 91 := peekByte_of_head? hd1h
      have hne2 : peekByte { f with pos := f.pos + 1, level := f.level + 1 } ≠
          some 93 := by rw [hpk2]; simp
      obtain ⟨d, hpv⟩ := ih F { f with pos := f.pos + 1, level := f.level + 1 }
        (93 :: rest) hd1 (by show f.level + 1 + k ≤ 100; omega) (by omega)
      obtain ⟨G, rfl⟩ : ∃ G, F = G + 1 := ⟨F - 1, by omega⟩
      have hdF : f.input.drop (f.pos + 1 + (2 * k + 2)) = 93 :: rest := by
        have hlen : (List.replicate k 91 ++ [91, 93] ++ List.replicate k 93 ++
            (93 :: rest)) = (List.replicate k 91 ++ [91, 93] ++ List.replicate k 93) ++
            (93 :: rest) := by simp [List.append_assoc]
        rw [hlen] at hd1
        have h3 := drop_add_of_drop_append hd1
        have hlen2 : (List.replicate k 91 ++ [91, 93] ++ List.replicate k 93).length =
            2 * k + 2 := by
          simp only [List.length_append, List.length_replicate, List.length_cons,
            List.length_nil]
          omega
        rw [hlen2] at h3
        exact h3
      have hdF' : ({ f with pos := f.pos + 1, level := f.level + 1 } : Fmt).input.drop
          (f.pos + 1 + (2 * k + 2)) = 93 :: rest := hdF
      have hswF : skipWhitespace (⟨f.input, f.pos + 1 + (2 * k + 2), f.level + 1, f.color⟩ : Fmt) = (⟨f.input, f.pos + 1 + (2 * k + 2), f.level + 1, f.color⟩ : Fmt) :=
        skipWhitespace_of_head hdF (by rfl)
      have hpkF : peekByte (⟨f.input, f.pos + 1 + (2 * k + 2), f.level + 1, f.color⟩ : Fmt) = some 93 := peekByte_of_drop hdF
      apply Exists.intro
      simp only [parseValue, hpk]
      norm_num
      simp only [parseArray, expectByte_ok_of_peek hpk, hsw, if_neg hne1, hinc]
      simp only [arrLoop, hsw2, if_neg hne2]
      simp [hpv]
      simp [arrLoop, hswF, hpkF, decLevel]
      simp [show f.pos + 1 + (2 * k + 2) + 1 = f.pos + (2 * (k + 1) + 2) from by omega]
      rfl

/-- Formatting `k` open brackets, an empty array, and `k` close brackets
succeeds whenever `k ≤ 100`: the innermost empty container never
increments the level, so only `k` levels are entered. -/
theorem formatBytes_nestedEmpty (k : Nat) (hk : k ≤ 100) (fuel : Nat)
    (hf : 3 * k + 3 ≤ fuel) :
    ∃ d, formatBytes fuel (List.replicate k 91 ++ [91, 93] ++ List.replicate k 93)
      .noColor = some (.ok d) := by
  have hh : (List.replicate k (91 : Nat) ++ [91, 93] ++ List.replicate k 93).head? =
      some 91 := by
    have h0 := head?_append_replicate k 91 (93 :: List.replicate k 93)
    simpa [List.append_assoc] using h0
  have hd0 : ((⟨List.replicate k 91 ++ [91, 93] ++ List.replicate k 93, 0, 0,
      Color.noColor⟩ : Fmt).input.drop
      (⟨List.replicate k 91 ++ [91, 93] ++ List.replicate k 93, 0, 0,
      Color.noColor⟩ : Fmt).pos) =
      List.replicate k 91 ++ [91, 93] ++ List.replicate k 93 ++ [] := by
    simp
  obtain ⟨d, hpv⟩ := parseValue_nestedEmptyChain k fuel
    (⟨List.replicate k 91 ++ [91, 93] ++ List.replicate k 93, 0, 0, Color.noColor⟩ : Fmt)
    [] hd0 (by show 0 + k ≤ 100; omega) hf
  refine ⟨d, ?_⟩
  simp only [formatBytes, format]
  have hbom : skipStartBom (⟨List.replicate k 91 ++ [91, 93] ++ List.replicate k 93,
      0, 0, Color.noColor⟩ : Fmt) = (⟨List.replicate k 91 ++ [91, 93] ++
      List.replicate k 93, 0, 0, Color.noColor⟩ : Fmt) := by
    apply skipStartBom_eq_self
    show (List.replicate k (91 : Nat) ++ [91, 93] ++ List.replicate k 93).get? 0 ≠
      some 239
    rw [List.get?_zero, hh]
    simp
  have hsw : skipWhitespace (⟨List.replicate k 91 ++ [91, 93] ++ List.replicate k 93,
      0, 0, Color.noColor⟩ : Fmt) = (⟨List.replicate k 91 ++ [91, 93] ++
      List.replicate k 93, 0, 0, Color.noColor⟩ : Fmt) :=
    skipWhitespace_of_head?Eq (by rw [List.drop_zero]; exact hh) (by rfl)
  rw [hbom, hsw, hpv]
  have hdend : (List.replicate k (91 : Nat) ++ 91 :: 93 :: List.replicate k 93).drop
      (2 * k + 2) = [] := by
    have h1 : (List.replicate k (91 : Nat) ++ [91, 93] ++ List.replicate k 93).drop 0 =
        (List.replicate k 91 ++ [91, 93] ++ List.replicate k 93) ++ [] := by simp
    have h2 := drop_add_of_drop_append h1
    have hlen : (List.replicate k (91 : Nat) ++ [91, 93] ++
        List.replicate k 93).length = 2 * k + 2 := by
      simp only [List.length_append, List.length_replicate, List.length_cons,
        List.length_nil]
      omega
    rw [hlen] at h2
    simpa [List.append_assoc] using h2
  have hswE : skipWhitespace (⟨List.replicate k 91 ++ 91 :: 93 :: List.replicate k 93,
      2 * k + 2, 0, Color.noColor⟩ : Fmt) = (⟨List.replicate k 91 ++ 91 :: 93 ::
      List.replicate k 93, 2 * k + 2, 0, Color.noColor⟩ : Fmt) :=
    skipWhitespace_of_nil hdend
  have hpkE : peekByte (⟨List.replicate k 91 ++ 91 :: 93 :: List.replicate k 93,
      2 * k + 2, 0, Color.noColor⟩ : Fmt) = none := peekByte_of_drop_nil hdend
  simp [hswE, hpkE]

/-- C4: formatting 101 consecutive open brackets fails with a
MaxIndentLevel error at offset 101, and with the same bounded fuel (310)
the same error is reached for 5000 consecutive open brackets: the depth
check cuts off the recursion at the cap before descending further, so the
explicit cap, not the recursion budget, is the failure boundary. -/
theorem depth_cap_fails_at_101 :
    formatBytes 310 (List.replicate 101 91) .noColor =
      some (.error (.maxIndentLevel 100 101)) ∧
    formatBytes 310 (List.replicate 5000 91) .noColor =
      some (.error (.maxIndentLevel 100 101)) :=
  ⟨formatBytes_openChain 101 (by norm_num) .noColor 310 (by norm_num),
   formatBytes_openChain 5000 (by norm_num) .noColor 310 (by norm_num)⟩

/-- C9: the depth cap only counts non-empty containers: an input of 100
open brackets, then an empty array, then 100 close brackets is
syntactically nested 101 levels deep but formats successfully, because the
innermost empty container never increments the indent level. -/
theorem empty_innermost_nesting_101_ok :
    resultOk (formatBytes 400
      (List.replicate 100 91 ++ [91, 93] ++ List.replicate 100 93) .noColor) = true := by
  obtain ⟨d, h⟩ := formatBytes_nestedEmpty 100 (by norm_num) 400 (by norm_num)
  rw [h]
  rfl

theorem wsRunLen_run (w : List Nat) (y : Nat) (rest : List Nat)
    (hw : ∀ b ∈ w, isWsByte b = true) (hy : isWsByte y = false) :
    wsRunLen (w ++ y :: rest) = w.length := by
  induction w with
  | nil => simp [wsRunLen, hy]
  | cons a t ih =>
      have ha : isWsByte a = true := hw a (by simp)
      rw [List.cons_append, wsRunLen, ha]
      simp only [if_pos rfl]
      rw [ih (fun b hb => hw b (by simp [hb]))]
      rfl

theorem skipWhitespace_run {f : Fmt} {w : List Nat} {y : Nat} {rest : List Nat}
    (hd : f.input.drop f.pos = w ++ y :: rest)
    (hw : ∀ b ∈ w, isWsByte b = true) (hy : isWsByte y = false) :
    skipWhitespace f = { f with pos := f.pos + w.length } := by
  unfold skipWhitespace skipWsPos
  rw [hd, wsRunLen_run w y rest hw hy]

/-- C7: an empty object or array in the input (an opener, optional
whitespace, and the matching closer) is emitted as the compact
two-character token, with no newline, no indentation, and no change to the
indent level, and the cursor ends just past the closer. -/
theorem empty_container_compact (fuel : Nat) (f : Fmt) (w rest : List Nat)
    (hc : f.color = .noColor) (hw : ∀ b ∈ w, isWsByte b = true) :
    (f.input.drop f.pos = 123 :: (w ++ 125 :: rest) →
      parseObject (fuel + 1) f =
        some (.ok ({ f with pos := f.pos + 1 + w.length + 1 }, [123, 125]))) ∧
    (f.input.drop f.pos = 91 :: (w ++ 93 :: rest) →
      parseArray (fuel + 1) f =
        some (.ok ({ f with pos := f.pos + 1 + w.length + 1 }, [91, 93]))) := by
  constructor
  · intro hd
    have hpk : peekByte f = some 123 := peekByte_of_drop hd
    have hd1 : f.input.drop (f.pos + 1) = w ++ 125 :: rest := drop_cons_succ hd
    have hsw : skipWhitespace { f with pos := f.pos + 1 } =
        { f with pos := f.pos + 1 + w.length } := by
      have := skipWhitespace_run (f := { f with pos := f.pos + 1 }) hd1 hw (by rfl)
      simpa using this
    have hde : f.input.drop (f.pos + 1 + w.length) = 125 :: rest :=
      drop_add_of_drop_append hd1
    have hpk2 : peekByte { f with pos := f.pos + 1 + w.length } = some 125 :=
      peekByte_of_drop hde
    simp only [parseObject, expectByte_ok_of_peek hpk, hsw, hpk2]
    simp [writeEmptyObj, hc]
  · intro hd
    have hpk : peekByte f = some 91 := peekByte_of_drop hd
    have hd1 : f.input.drop (f.pos + 1) = w ++ 93 :: rest := drop_cons_succ hd
    have hsw : skipWhitespace { f with pos := f.pos + 1 } =
        { f with pos := f.pos + 1 + w.length } := by
      have := skipWhitespace_run (f := { f with pos := f.pos + 1 }) hd1 hw (by rfl)
      simpa using this
    have hde : f.input.drop (f.pos + 1 + w.length) = 93 :: rest :=
      drop_add_of_drop_append hd1
    have hpk2 : peekByte { f with pos := f.pos + 1 + w.length } = some 93 :=
      peekByte_of_drop hde
    simp only [parseArray, expectByte_ok_of_peek hpk, hsw, hpk2]
    simp [writeEmptyArr, hc]

/-- Witness for C7 at the concrete input of an empty object. -/
theorem empty_container_compact_witness :
    ((⟨[123, 125], 0, 0, Color.noColor⟩ : Fmt).color = Color.noColor) ∧
    (∀ b ∈ ([] : List Nat), isWsByte b = true) ∧
    (((⟨[123, 125], 0, 0, Color.noColor⟩ : Fmt).input.drop 0 =
        123 :: (([] : List Nat) ++ 125 :: []) →
      parseObject 1 (⟨[123, 125], 0, 0, Color.noColor⟩ : Fmt) =
        some (.ok ((⟨[123, 125], 2, 0, Color.noColor⟩ : Fmt), [123, 125]))) ∧
    ((⟨[123, 125], 0, 0, Color.noColor⟩ : Fmt).input.drop 0 =
        91 :: (([] : List Nat) ++ 93 :: []) →
      parseArray 1 (⟨[123, 125], 0, 0, Color.noColor⟩ : Fmt) =
        some (.ok ((⟨[123, 125], 2, 0, Color.noColor⟩ : Fmt), [91, 93])))) :=
  ⟨rfl, by decide,
   empty_container_compact 0 (⟨[123, 125], 0, 0, Color.noColor⟩ : Fmt) [] [] rfl
     (by decide)⟩

theorem nextUtf8Char_ascii {f : Fmt} {a : Nat} (hpk : peekByte f = some a)
    (ha : a < 128) : nextUtf8Char f = .ok { f with pos := f.pos + 1 } := by
  simp only [nextUtf8Char, nextByte, hpk]
  rw [if_pos ha]

theorem parseStringLoop_plain_step {start : Nat} {mode : StrMode} {f : Fmt} {a : Nat}
    {rest : List Nat} (hd : f.input.drop f.pos = a :: rest) (hplain : plainB a = true) :
    parseStringLoop start mode f = parseStringLoop start mode { f with pos := f.pos + 1 } := by
  have hpk : peekByte f = some a := peekByte_of_drop hd
  have hprop : 32 ≤ a ∧ a < 128 ∧ a ≠ 34 ∧ a ≠ 92 := by simpa [plainB] using hplain
  obtain ⟨h32, h128, h34, h92⟩ := hprop
  rw [parseStringLoop, hpk]
  simp only [if_neg h34, if_neg h92, if_neg (by omega : ¬ a ≤ 31)]
  split
  · rename_i f' hh
    rw [nextUtf8Char_ascii hpk h128] at hh
    cases hh
    rfl
  · rename_i err hh
    rw [nextUtf8Char_ascii hpk h128] at hh
    cases hh

theorem parseStringLoop_plainRun : ∀ (p : List Nat) {start : Nat} {mode : StrMode}
    {f : Fmt} {rest : List Nat}, f.input.drop f.pos = p ++ rest →
    (∀ b ∈ p, plainB b = true) →
    parseStringLoop start mode f =
      parseStringLoop start mode { f with pos := f.pos + p.length } := by
  intro p
  induction p with
  | nil => intro start mode f rest hd hp; rfl
  | cons a t ih =>
      intro start mode f rest hd hp
      have hd' : f.input.drop f.pos = a :: (t ++ rest) := by simpa using hd
      rw [parseStringLoop_plain_step hd' (hp a (by simp))]
      have hd1 : ({ f with pos := f.pos + 1 } : Fmt).input.drop
          ({ f with pos := f.pos + 1 } : Fmt).pos = t ++ rest := drop_cons_succ hd'
      rw [ih hd1 (fun b hb => hp b (by simp [hb]))]
      have harith : f.pos + 1 + t.length = f.pos + (a :: t).length := by
        simp only [List.length_cons]
        omega
      rw [show ({ f with pos := f.pos + 1 } : Fmt).pos + t.length =
        f.pos + (a :: t).length from harith]

theorem parseStringLoop_close {start : Nat} {mode : StrMode} {f : Fmt} {rest : List Nat}
    (hd : f.input.drop f.pos = 34 :: rest) :
    parseStringLoop start mode f = .ok ({ f with pos := f.pos + 1 },
      match mode with
      | .key => writeKey f (sliceBytes f.input start (f.pos + 1))
      | .val => writeValueStr f (sliceBytes f.input start (f.pos + 1))) := by
  have hpk : peekByte f = some 34 := peekByte_of_drop hd
  rw [parseStringLoop, hpk]
  simp

theorem parseStringLoop_control {start : Nat} {mode : StrMode} {f : Fmt} {c : Nat}
    {rest : List Nat} (hd : f.input.drop f.pos = c :: rest) (hc : c ≤ 31) :
    parseStringLoop start mode f = .error (.invalidByte c f.pos) := by
  have hpk : peekByte f = some c := peekByte_of_drop hd
  have h34 : c ≠ 34 := by omega
  have h92 : c ≠ 92 := by omega
  rw [parseStringLoop, hpk]
  simp only [if_neg h34, if_neg h92, if_pos hc]

theorem parseStringLoop_simpleEscape {start : Nat} {mode : StrMode} {f : Fmt} {e : Nat}
    {rest : List Nat} (hd : f.input.drop f.pos = 92 :: e :: rest)
    (he : e = 34 ∨ e = 92 ∨ e = 47 ∨ e = 98 ∨ e = 102 ∨ e = 110 ∨ e = 114 ∨ e = 116) :
    parseStringLoop start mode f = parseStringLoop start mode { f with pos := f.pos + 2 } := by
  have hpk : peekByte f = some 92 := peekByte_of_drop hd
  have hd1 : ({ f with pos := f.pos + 1 } : Fmt).input.drop
      ({ f with pos := f.pos + 1 } : Fmt).pos = e :: rest := drop_cons_succ hd
  have hn : nextByte { f with pos := f.pos + 1 } =
      some (e, { f with pos := f.pos + 1 + 1 }) := by
    simp [nextByte, peekByte_of_drop hd1]
  rw [parseStringLoop, hpk]
  simp
  split
  · rename_i hh
    rw [hn] at hh
    cases hh
  · rename_i e2 f2 hh
    rw [hn] at hh
    cases hh
    rw [if_pos he]

theorem readHex4_run {f : Fmt} {h1 h2 h3 h4 : Nat} {rest : List Nat}
    (hd : f.input.drop f.pos = h1 :: h2 :: h3 :: h4 :: rest)
    (hx1 : isAsciiHexDigit h1 = true) (hx2 : isAsciiHexDigit h2 = true)
    (hx3 : isAsciiHexDigit h3 = true) (hx4 : isAsciiHexDigit h4 = true) :
    readHex4 f 4 = .ok { f with pos := f.pos + 4 } := by
  have hp1 : peekByte f = some h1 := peekByte_of_drop hd
  have hd2 : f.input.drop (f.pos + 1) = h2 :: h3 :: h4 :: rest := drop_cons_succ hd
  have hd3 : f.input.drop (f.pos + 1 + 1) = h3 :: h4 :: rest := drop_cons_succ hd2
  have hd4 : f.input.drop (f.pos + 1 + 1 + 1) = h4 :: rest := drop_cons_succ hd3
  have hp2 : peekByte ({ f with pos := f.pos + 1 } : Fmt) = some h2 :=
    peekByte_of_drop hd2
  have hp3 : peekByte ({ f with pos := f.pos + 1 + 1 } : Fmt) = some h3 :=
    peekByte_of_drop hd3
  have hp4 : peekByte ({ f with pos := f.pos + 1 + 1 + 1 } : Fmt) = some h4 :=
    peekByte_of_drop hd4
  simp only [readHex4, nextByte, hp1, hp2, hp3, hp4, hx1, hx2, hx3, hx4, if_true]

theorem parseStringLoop_uEscape {start : Nat} {mode : StrMode} {f : Fmt}
    {h1 h2 h3 h4 : Nat} {rest : List Nat}
    (hd : f.input.drop f.pos = 92 :: 117 :: h1 :: h2 :: h3 :: h4 :: rest)
    (hx1 : isAsciiHexDigit h1 = true) (hx2 : isAsciiHexDigit h2 = true)
    (hx3 : isAsciiHexDigit h3 = true) (hx4 : isAsciiHexDigit h4 = true) :
    parseStringLoop start mode f = parseStringLoop start mode { f with pos := f.pos + 6 } := by
  have hpk : peekByte f = some 92 := peekByte_of_drop hd
  have hd1 : ({ f with pos := f.pos + 1 } : Fmt).input.drop
      ({ f with pos := f.pos + 1 } : Fmt).pos = 117 :: h1 :: h2 :: h3 :: h4 :: rest :=
    drop_cons_succ hd
  have hn : nextByte { f with pos := f.pos + 1 } =
      some (117, { f with pos := f.pos + 1 + 1 }) := by
    simp [nextByte, peekByte_of_drop hd1]
  have hd2 : ({ f with pos := f.pos + 1 + 1 } : Fmt).input.drop
      ({ f with pos := f.pos + 1 + 1 } : Fmt).pos = h1 :: h2 :: h3 :: h4 :: rest :=
    drop_cons_succ hd1
  have hhex : readHex4 { f with pos := f.pos + 1 + 1 } 4 =
      .ok { f with pos := f.pos + 1 + 1 + 4 } := by
    have := readHex4_run hd2 hx1 hx2 hx3 hx4
    simpa using this
  rw [parseStringLoop, hpk]
  simp
  split
  · rename_i hh
    rw [hn] at hh
    cases hh
  · rename_i e2 f2 hh
    rw [hn] at hh
    cases hh
    rw [if_neg (by omega : ¬((117 : Nat) = 34 ∨ 117 = 92 ∨ 117 = 47 ∨ 117 = 98 ∨
      117 = 102 ∨ 117 = 110 ∨ 117 = 114 ∨ 117 = 116)), if_pos rfl]
    split
    · rename_i f3 hh2
      rw [hhex] at hh2
      cases hh2
      rw [show f.pos + 1 + 1 + 4 = f.pos + 6 from by omega]
    · rename_i err hh2
      rw [hhex] at hh2
      cases hh2

theorem parseString_eq {f : Fmt} {mode : StrMode} (hpk : peekByte f = some 34) :
    parseString f mode = parseStringLoop f.pos mode { f with pos := f.pos + 1 } := by
  simp only [parseString, expectByte_ok_of_peek hpk]

theorem sliceBytes_of_drop {input : List Nat} {s : Nat} {S rest : List Nat}
    (hd : input.drop s = S ++ rest) : sliceBytes input s (s + S.length) = S := by
  unfold sliceBytes
  rw [hd, show s + S.length - s = S.length from by omega, List.take_left]

/-- C8: inside a string, a raw unescaped byte in the range 0x00-0x1F
(after a run of plain characters) fails with InvalidByte at exactly that
byte's offset, while the two-character escape sequence backslash-n in the
same position succeeds and the whole string, escape included, is emitted
verbatim and unaltered. -/
theorem string_control_vs_escape (f : Fmt) (p q rest rest2 : List Nat) (c : Nat)
    (hp : ∀ b ∈ p, plainB b = true) (hq : ∀ b ∈ q, plainB b = true)
    (hcol : f.color = .noColor) (hc : c ≤ 31) :
    (f.input.drop f.pos = 34 :: (p ++ (c :: rest)) →
      parseString f .val = .error (.invalidByte c (f.pos + 1 + p.length))) ∧
    (f.input.drop f.pos = 34 :: (p ++ (92 :: (110 :: (q ++ (34 :: rest2))))) →
      parseString f .val =
        .ok ({ f with pos := f.pos + 1 + p.length + 2 + q.length + 1 },
          34 :: (p ++ (92 :: (110 :: (q ++ [34])))))) := by
  constructor
  · intro hd
    have hpk : peekByte f = some 34 := peekByte_of_drop hd
    rw [parseString_eq hpk]
    have hd1 : f.input.drop (f.pos + 1) = p ++ (c :: rest) := drop_cons_succ hd
    rw [parseStringLoop_plainRun p hd1 hp]
    have hd2 : f.input.drop (f.pos + 1 + p.length) = c :: rest :=
      drop_add_of_drop_append hd1
    rw [parseStringLoop_control hd2 hc]
  · intro hd
    have hpk : peekByte f = some 34 := peekByte_of_drop hd
    rw [parseString_eq hpk]
    have hd1 : f.input.drop (f.pos + 1) = p ++ (92 :: (110 :: (q ++ (34 :: rest2)))) :=
      drop_cons_succ hd
    rw [parseStringLoop_plainRun p hd1 hp]
    have hd2 : f.input.drop (f.pos + 1 + p.length) = 92 :: (110 :: (q ++ (34 :: rest2))) :=
      drop_add_of_drop_append hd1
    rw [parseStringLoop_simpleEscape hd2 (by omega)]
    have hd3 : f.input.drop (f.pos + 1 + p.length + 2) = q ++ (34 :: rest2) :=
      drop_cons_succ (drop_cons_succ hd2)
    rw [parseStringLoop_plainRun q hd3 hq]
    have hd4 : f.input.drop (f.pos + 1 + p.length + 2 + q.length) = 34 :: rest2 :=
      drop_add_of_drop_append hd3
    rw [parseStringLoop_close hd4]
    have hdS : f.input.drop f.pos =
        (34 :: (p ++ (92 :: (110 :: (q ++ [34]))))) ++ rest2 := by
      rw [hd]
      simp
    have hslice := sliceBytes_of_drop hdS
    rw [show f.pos + (34 :: (p ++ (92 :: (110 :: (q ++ [34]))))).length =
      f.pos + 1 + p.length + 2 + q.length + 1 from by simp; omega] at hslice
    simp only [hslice]
    simp [writeValueStr, hcol]

/-- Witness for C8 at the concrete string token containing the escape
backslash-n. -/
theorem string_control_vs_escape_witness :
    (∀ b ∈ [97], plainB b = true) ∧ (∀ b ∈ [98], plainB b = true) ∧
    ((⟨[34, 97, 92, 110, 98, 34], 0, 0, Color.noColor⟩ : Fmt).color = Color.noColor) ∧
    (10 : Nat) ≤ 31 ∧
    (((⟨[34, 97, 92, 110, 98, 34], 0, 0, Color.noColor⟩ : Fmt).input.drop 0 =
        34 :: ([97] ++ (10 :: [])) →
      parseString (⟨[34, 97, 92, 110, 98, 34], 0, 0, Color.noColor⟩ : Fmt) .val =
        .error (.invalidByte 10 2)) ∧
    ((⟨[34, 97, 92, 110, 98, 34], 0, 0, Color.noColor⟩ : Fmt).input.drop 0 =
        34 :: ([97] ++ (92 :: (110 :: ([98] ++ (34 :: []))))) →
      parseString (⟨[34, 97, 92, 110, 98, 34], 0, 0, Color.noColor⟩ : Fmt) .val =
        .ok ((⟨[34, 97, 92, 110, 98, 34], 6, 0, Color.noColor⟩ : Fmt),
          34 :: ([97] ++ (92 :: (110 :: ([98] ++ [34]))))))) :=
  ⟨by decide, by decide, rfl, by omega,
   string_control_vs_escape (⟨[34, 97, 92, 110, 98, 34], 0, 0, Color.noColor⟩ : Fmt)
     [97] [98] [] [] 10 (by decide) (by decide) rfl (by omega)⟩

/-- C10: a Unicode escape in a string is accepted whenever its four bytes
are ASCII hex digits, with no pairing or range validation of the encoded
code unit, and the escape is copied verbatim to the output. -/
theorem unicode_escape_hex_only (f : Fmt) (p q rest : List Nat) (h1 h2 h3 h4 : Nat)
    (hp : ∀ b ∈ p, plainB b = true) (hq : ∀ b ∈ q, plainB b = true)
    (hcol : f.color = .noColor)
    (hx1 : isAsciiHexDigit h1 = true) (hx2 : isAsciiHexDigit h2 = true)
    (hx3 : isAsciiHexDigit h3 = true) (hx4 : isAsciiHexDigit h4 = true)
    (hd : f.input.drop f.pos =
      34 :: (p ++ (92 :: (117 :: (h1 :: (h2 :: (h3 :: (h4 :: (q ++ (34 :: rest)))))))))) :
    parseString f .val =
      .ok ({ f with pos := f.pos + 1 + p.length + 6 + q.length + 1 },
        34 :: (p ++ (92 :: (117 :: (h1 :: (h2 :: (h3 :: (h4 :: (q ++ [34]))))))))) := by
  have hpk : peekByte f = some 34 := peekByte_of_drop hd
  rw [parseString_eq hpk]
  have hd1 : f.input.drop (f.pos + 1) =
      p ++ (92 :: (117 :: (h1 :: (h2 :: (h3 :: (h4 :: (q ++ (34 :: rest)))))))) :=
    drop_cons_succ hd
  rw [parseStringLoop_plainRun p hd1 hp]
  have hd2 : f.input.drop (f.pos + 1 + p.length) =
      92 :: (117 :: (h1 :: (h2 :: (h3 :: (h4 :: (q ++ (34 :: rest))))))) :=
    drop_add_of_drop_append hd1
  rw [parseStringLoop_uEscape hd2 hx1 hx2 hx3 hx4]
  have hd3 : f.input.drop (f.pos + 1 + p.length + 6) = q ++ (34 :: rest) := by
    have h6 := drop_cons_succ (drop_cons_succ (drop_cons_succ (drop_cons_succ
      (drop_cons_succ (drop_cons_succ hd2)))))
    simpa [show f.pos + 1 + p.length + 1 + 1 + 1 + 1 + 1 + 1 =
      f.pos + 1 + p.length + 6 from by omega] using h6
  rw [parseStringLoop_plainRun q hd3 hq]
  have hd4 : f.input.drop (f.pos + 1 + p.length + 6 + q.length) = 34 :: rest :=
    drop_add_of_drop_append hd3
  rw [parseStringLoop_close hd4]
  have hdS : f.input.drop f.pos =
      (34 :: (p ++ (92 :: (117 :: (h1 :: (h2 :: (h3 :: (h4 :: (q ++ [34]))))))))) ++
        rest := by
    rw [hd]
    simp
  have hslice := sliceBytes_of_drop hdS
  rw [show f.pos +
      (34 :: (p ++ (92 :: (117 :: (h1 :: (h2 :: (h3 :: (h4 :: (q ++ [34]))))))))).length =
      f.pos + 1 + p.length + 6 + q.length + 1 from by simp; omega] at hslice
  simp only [hslice]
  simp [writeValueStr, hcol]

/-- Witness for C10 at the unpaired surrogate escape for U+D800. -/
theorem unicode_escape_hex_only_witness :
    (∀ b ∈ ([] : List Nat), plainB b = true) ∧
    ((⟨[34, 92, 117, 68, 56, 48, 48, 34], 0, 0, Color.noColor⟩ : Fmt).color =
      Color.noColor) ∧
    isAsciiHexDigit 68 = true ∧ isAsciiHexDigit 56 = true ∧
    isAsciiHexDigit 48 = true ∧
    ((⟨[34, 92, 117, 68, 56, 48, 48, 34], 0, 0, Color.noColor⟩ : Fmt).input.drop 0 =
      34 :: (([] : List Nat) ++ (92 :: (117 :: (68 :: (56 :: (48 :: (48 ::
        (([] : List Nat) ++ (34 :: [])))))))))) ∧
    parseString (⟨[34, 92, 117, 68, 56, 48, 48, 34], 0, 0, Color.noColor⟩ : Fmt) .val =
      .ok ((⟨[34, 92, 117, 68, 56, 48, 48, 34], 8, 0, Color.noColor⟩ : Fmt),
        34 :: (([] : List Nat) ++ (92 :: (117 :: (68 :: (56 :: (48 :: (48 ::
          (([] : List Nat) ++ [34]))))))))) :=
  ⟨by decide, rfl, by decide, by decide, by decide, by decide,
   unicode_escape_hex_only (⟨[34, 92, 117, 68, 56, 48, 48, 34], 0, 0,
     Color.noColor⟩ : Fmt) [] [] [] 68 56 48 48 (by decide) (by decide) rfl
     (by decide) (by decide) (by decide) (by decide) (by decide)⟩

/-! Error-offset and state-preservation lemmas for the leaf scanners. -/

theorem expectByte_ok_inv {f : Fmt} {x : Nat} {f' : Fmt}
    (h : expectByte f x = .ok f') :
    f' = { f with pos := f.pos + 1 } ∧ f.input.get? f.pos = some x := by
  unfold expectByte nextByte at h
  cases hp : peekByte f with
  | none => rw [hp] at h; cases h
  | some b =>
      rw [hp] at h
      simp only at h
      by_cases hb : b = x
      · subst hb
        rw [if_pos rfl] at h
        cases h
        exact ⟨rfl, hp⟩
      · rw [if_neg hb] at h
        cases h

theorem expectByte_err {f : Fmt} {x : Nat} {e : FormatError}
    (h : expectByte f x = .error e) : errOffsetOk f.input e := by
  unfold expectByte nextByte at h
  cases hp : peekByte f with
  | none =>
      rw [hp] at h
      cases h
      trivial
  | some b =>
      rw [hp] at h
      simp only at h
      by_cases hb : b = x
      · rw [if_pos hb] at h; cases h
      · rw [if_neg hb] at h
        cases h
        simpa [errOffsetOk, peekByte] using hp

theorem nextUtf8Char_err {f : Fmt} {e : FormatError}
    (h : nextUtf8Char f = .error e) : errOffsetOk f.input e := by
  unfold nextUtf8Char nextByte at h
  cases hp1 : peekByte f with
  | none => rw [hp1] at h; cases h; trivial
  | some b1 =>
    rw [hp1] at h
    simp only at h
    by_cases hb1 : b1 < 128
    · rw [if_pos hb1] at h; cases h
    · rw [if_neg hb1] at h
      cases hp2 : peekByte { f with pos := f.pos + 1 } with
      | none => rw [hp2] at h; cases h; trivial
      | some b2 =>
        rw [hp2] at h
        simp only at h
        by_cases hb2 : b1 < 224
        · rw [if_pos hb2] at h
          by_cases hc : (decide (194 ≤ b1 ∧ b1 ≤ 223) && contB b2) = true
          · rw [if_pos hc] at h; cases h
          · rw [if_neg hc] at h
            cases h
            exact ⟨fun _ => hp1, fun h3 => absurd h3 (by omega),
              fun h4 => absurd h4 (by omega)⟩
        · rw [if_neg hb2] at h
          cases hp3 : peekByte { f with pos := f.pos + 1 + 1 } with
          | none => rw [hp3] at h; cases h; trivial
          | some b3 =>
            rw [hp3] at h
            simp only at h
            by_cases hb3 : b1 < 240
            · rw [if_pos hb3] at h
              by_cases hc : utf3Ok b1 b2 b3 = true
              · rw [if_pos hc] at h; cases h
              · rw [if_neg hc] at h
                cases h
                refine ⟨fun h2 => absurd h2 (by omega), fun _ => ⟨?_, ?_⟩,
                  fun h4 => absurd h4 (by omega)⟩
                · show (3 : Nat) ≤ f.pos + 1 + 1 + 1
                  omega
                · exact hp1
            · rw [if_neg hb3] at h
              cases hp4 : peekByte { f with pos := f.pos + 1 + 1 + 1 } with
              | none => rw [hp4] at h; cases h; trivial
              | some b4 =>
                rw [hp4] at h
                simp only at h
                by_cases hc : utf4Ok b1 b2 b3 b4 = true
                · rw [if_pos hc] at h; cases h
                · rw [if_neg hc] at h
                  cases h
                  refine ⟨fun h2 => absurd h2 (by omega), fun h3 => absurd h3 (by omega),
                    fun _ => ⟨?_, ?_⟩⟩
                  · show (4 : Nat) ≤ f.pos + 1 + 1 + 1 + 1
                    omega
                  · exact hp1

theorem readHex4_err : ∀ (n : Nat) (f : Fmt) (e : FormatError),
    readHex4 f n = .error e → errOffsetOk f.input e := by
  intro n
  induction n with
  | zero => intro f e h; simp [readHex4] at h
  | succ n ih =>
      intro f e h
      simp only [readHex4, nextByte] at h
      cases hp : peekByte f with
      | none => rw [hp] at h; cases h; trivial
      | some b =>
          rw [hp] at h
          simp only at h
          by_cases hhex : isAsciiHexDigit b
          · rw [if_pos hhex] at h
            exact ih { f with pos := f.pos + 1 } e h
          · rw [if_neg hhex] at h
            cases h
            simpa [errOffsetOk, peekByte] using hp

theorem skipWsPos_ge (input : List Nat) (pos : Nat) : pos ≤ skipWsPos input pos := by
  unfold skipWsPos
  omega

theorem parseInteger_err {f : Fmt} {e : FormatError}
    (h : parseInteger f = .error e) : errOffsetOk f.input e := by
  unfold parseInteger at h
  cases hp : peekByte f with
  | none => rw [hp] at h; cases h; trivial
  | some b =>
      rw [hp] at h
      simp only at h
      by_cases h0 : b = 48
      · rw [if_pos h0] at h; cases h
      · rw [if_neg h0] at h
        by_cases h19 : 49 ≤ b ∧ b ≤ 57
        · rw [if_pos h19] at h; cases h
        · rw [if_neg h19] at h
          cases h
          simpa [errOffsetOk, peekByte] using hp

theorem parseInteger_ok {f f' : Fmt} (h : parseInteger f = .ok f') :
    f'.input = f.input ∧ f'.level = f.level ∧ f'.color = f.color ∧ f.pos ≤ f'.pos := by
  unfold parseInteger at h
  cases hp : peekByte f with
  | none => rw [hp] at h; cases h
  | some b =>
      rw [hp] at h
      simp only at h
      by_cases h0 : b = 48
      · rw [if_pos h0] at h
        cases h
        refine ⟨rfl, rfl, rfl, by show f.pos ≤ f.pos + 1; omega⟩
      · rw [if_neg h0] at h
        by_cases h19 : 49 ≤ b ∧ b ≤ 57
        · rw [if_pos h19] at h
          cases h
          refine ⟨rfl, rfl, rfl, ?_⟩
          show f.pos ≤ skipDigitsPos f.input (f.pos + 1)
          simp only [skipDigitsPos]
          omega
        · rw [if_neg h19] at h; cases h

theorem parseFraction_err {f : Fmt} {e : FormatError}
    (h : parseFraction f = .error e) : errOffsetOk f.input e := by
  unfold parseFraction at h
  by_cases hdot : peekByte f = some 46
  · rw [if_pos hdot] at h
    simp only at h
    cases hp : peekByte { f with pos := f.pos + 1 } with
    | none => rw [hp] at h; cases h; trivial
    | some b =>
        rw [hp] at h
        simp only at h
        by_cases hdig : isDigit b
        · rw [if_pos hdig] at h; cases h
        · rw [if_neg hdig] at h
          cases h
          simpa [errOffsetOk, peekByte] using hp
  · rw [if_neg hdot] at h; cases h

theorem parseFraction_ok {f f' : Fmt} (h : parseFraction f = .ok f') :
    f'.input = f.input ∧ f'.level = f.level ∧ f'.color = f.color ∧ f.pos ≤ f'.pos := by
  unfold parseFraction at h
  by_cases hdot : peekByte f = some 46
  · rw [if_pos hdot] at h
    simp only at h
    cases hp : peekByte { f with pos := f.pos + 1 } with
    | none => rw [hp] at h; cases h
    | some b =>
        rw [hp] at h
        simp only at h
        by_cases hdig : isDigit b
        · rw [if_pos hdig] at h
          cases h
          refine ⟨rfl, rfl, rfl, ?_⟩
          show f.pos ≤ skipDigitsPos f.input (f.pos + 1 + 1)
          simp only [skipDigitsPos]
          omega
        · rw [if_neg hdig] at h; cases h
  · rw [if_neg hdot] at h
    cases h
    refine ⟨rfl, rfl, rfl, by omega⟩

theorem parseExponent_err {f : Fmt} {e : FormatError}
    (h : parseExponent f = .error e) : errOffsetOk f.input e := by
  unfold parseExponent at h
  cases hp : peekByte f with
  | none => rw [hp] at h; cases h
  | some b =>
      rw [hp] at h
      simp only at h
      by_cases he : b = 101 ∨ b = 69
      · rw [if_pos he] at h
        set f2 : Fmt := (match peekByte { f with pos := f.pos + 1 } with
          | some s => if s = 43 ∨ s = 45 then { f with pos := f.pos + 1 + 1 }
                      else { f with pos := f.pos + 1 }
          | none => { f with pos := f.pos + 1 }) with hf2
        have hf2inp : f2.input = f.input := by
          rw [hf2]
          cases hps : peekByte { f with pos := f.pos + 1 } with
          | none => simp
          | some s => by_cases hs : s = 43 ∨ s = 45 <;> simp [hs]
        cases hpd : peekByte f2 with
        | none => rw [hpd] at h; cases h; trivial
        | some d =>
            rw [hpd] at h
            simp only at h
            by_cases hdig : isDigit d
            · rw [if_pos hdig] at h; cases h
            · rw [if_neg hdig] at h
              cases h
              rw [← hf2inp]
              simpa [errOffsetOk, peekByte] using hpd
      · rw [if_neg he] at h; cases h

theorem parseExponent_ok {f f' : Fmt} (h : parseExponent f = .ok f') :
    f'.input = f.input ∧ f'.level = f.level ∧ f'.color = f.color ∧ f.pos ≤ f'.pos := by
  unfold parseExponent at h
  cases hp : peekByte f with
  | none =>
      rw [hp] at h
      cases h
      exact ⟨rfl, rfl, rfl, by omega⟩
  | some b =>
      rw [hp] at h
      simp only at h
      by_cases he : b = 101 ∨ b = 69
      · rw [if_pos he] at h
        cases hps : peekByte { f with pos := f.pos + 1 } with
        | none =>
            rw [hps] at h
            simp only at h
            rw [hps] at h
            cases h
        | some s =>
            rw [hps] at h
            simp only at h
            by_cases hs : s = 43 ∨ s = 45
            · rw [if_pos hs] at h
              cases hpd : peekByte { f with pos := f.pos + 1 + 1 } with
              | none => rw [hpd] at h; cases h
              | some d2 =>
                  rw [hpd] at h
                  simp only at h
                  by_cases hdig : isDigit d2
                  · rw [if_pos hdig] at h
                    cases h
                    refine ⟨rfl, rfl, rfl, ?_⟩
                    show f.pos ≤ skipDigitsPos f.input (f.pos + 1 + 1 + 1)
                    simp only [skipDigitsPos]
                    omega
                  · rw [if_neg hdig] at h; cases h
            · rw [if_neg hs] at h
              cases hpd : peekByte { f with pos := f.pos + 1 } with
              | none => rw [hpd] at h; cases h
              | some d2 =>
                  rw [hpd] at h
                  simp only at h
                  by_cases hdig : isDigit d2
                  · rw [if_pos hdig] at h
                    cases h
                    refine ⟨rfl, rfl, rfl, ?_⟩
                    show f.pos ≤ skipDigitsPos f.input (f.pos + 1 + 1)
                    simp only [skipDigitsPos]
                    omega
                  · rw [if_neg hdig] at h; cases h
      · rw [if_neg he] at h
        cases h
        exact ⟨rfl, rfl, rfl, by omega⟩

theorem parseNumber_err {f : Fmt} {e : FormatError}
    (h : parseNumber f = .error e) : errOffsetOk f.input e := by
  simp only [parseNumber] at h
  have hf0inp : (if peekByte f = some 45 then ({ f with pos := f.pos + 1 } : Fmt)
      else f).input = f.input := by
    by_cases h45 : peekByte f = some 45 <;> simp [h45]
  cases hi : parseInteger (if peekByte f = some 45 then
      ({ f with pos := f.pos + 1 } : Fmt) else f) with
  | error e2 =>
      rw [hi] at h
      cases h
      rw [← hf0inp]
      exact parseInteger_err hi
  | ok f1 =>
      rw [hi] at h
      simp only at h
      have h1 := parseInteger_ok hi
      cases hfr : parseFraction f1 with
      | error e2 =>
          rw [hfr] at h
          cases h
          rw [← hf0inp, ← h1.1]
          exact parseFraction_err hfr
      | ok f2 =>
          rw [hfr] at h
          simp only at h
          have h2 := parseFraction_ok hfr
          cases hex : parseExponent f2 with
          | error e2 =>
              rw [hex] at h
              cases h
              rw [← hf0inp, ← h1.1, ← h2.1]
              exact parseExponent_err hex
          | ok f3 =>
              rw [hex] at h
              cases h

theorem parseNumber_ok {f f' : Fmt} {d : List Nat} (h : parseNumber f = .ok (f', d)) :
    f'.input = f.input ∧ f'.level = f.level ∧ f'.color = f.color ∧ f.pos ≤ f'.pos := by
  simp only [parseNumber] at h
  have hf0st : (if peekByte f = some 45 then ({ f with pos := f.pos + 1 } : Fmt)
      else f).input = f.input ∧
      (if peekByte f = some 45 then ({ f with pos := f.pos + 1 } : Fmt)
      else f).level = f.level ∧
      (if peekByte f = some 45 then ({ f with pos := f.pos + 1 } : Fmt)
      else f).color = f.color ∧
      f.pos ≤ (if peekByte f = some 45 then ({ f with pos := f.pos + 1 } : Fmt)
      else f).pos := by
    by_cases h45 : peekByte f = some 45 <;> simp [h45]
  cases hi : parseInteger (if peekByte f = some 45 then
      ({ f with pos := f.pos + 1 } : Fmt) else f) with
  | error e2 => rw [hi] at h; cases h
  | ok f1 =>
      rw [hi] at h
      simp only at h
      have h1 := parseInteger_ok hi
      cases hfr : parseFraction f1 with
      | error e2 => rw [hfr] at h; cases h
      | ok f2 =>
          rw [hfr] at h
          simp only at h
          have h2 := parseFraction_ok hfr
          cases hex : parseExponent f2 with
          | error e2 => rw [hex] at h; cases h
          | ok f3 =>
              rw [hex] at h
              cases h
              obtain ⟨a1, a2, a3, a4⟩ := hf0st
              obtain ⟨b1, b2, b3, b4⟩ := h1
              obtain ⟨c1, c2, c3, c4⟩ := h2
              obtain ⟨e1, e2, e3, e4⟩ := parseExponent_ok hex
              exact ⟨by rw [e1, c1, b1, a1], by rw [e2, c2, b2, a2],
                by rw [e3, c3, b3, a3], by omega⟩

theorem skipWhitespace_state (f : Fmt) :
    (skipWhitespace f).input = f.input ∧ (skipWhitespace f).level = f.level ∧
    (skipWhitespace f).color = f.color ∧ f.pos ≤ (skipWhitespace f).pos := by
  refine ⟨rfl, rfl, rfl, ?_⟩
  show f.pos ≤ skipWsPos f.input f.pos
  unfold skipWsPos
  omega

theorem parseStringLoop_inv : ∀ (start : Nat) (mode : StrMode) (f : Fmt),
    (∀ e, parseStringLoop start mode f = .error e → errOffsetOk f.input e) ∧
    (∀ f' d, parseStringLoop start mode f = .ok (f', d) →
      f'.input = f.input ∧ f'.level = f.level ∧ f'.color = f.color ∧ f.pos ≤ f'.pos) := by
  intro start mode f
  induction f using parseStringLoop.induct start mode with
  | case1 x hp =>
      constructor
      · intro e h
        rw [parseStringLoop, hp] at h
        simp only [] at h
        cases h
        trivial
      · intro f' d h
        rw [parseStringLoop, hp] at h
        simp only [] at h
        cases h
  | case2 x hp =>
      constructor
      · intro e h
        rw [parseStringLoop, hp] at h
        simp only [] at h
        cases h
      · intro f' d h
        rw [parseStringLoop, hp] at h
        simp only [] at h
        cases h
        exact ⟨rfl, rfl, rfl, by show x.pos ≤ x.pos + 1; omega⟩
  | case3 x f1 hn hp hne =>
      have hstep : parseStringLoop start mode x = .error .eof := by
        rw [parseStringLoop, hp]
        simp only []
        rw [if_neg hne, if_pos trivial]
        split
        · rfl
        · rename_i b2 g2 heq
          exact Option.noConfusion (hn.symm.trans heq)
      constructor
      · intro e h
        rw [hstep] at h
        cases h
        trivial
      · intro f' d h
        rw [hstep] at h
        cases h
  | case4 x f1 e2 f2 hn he hp hne ih =>
      obtain ⟨hf2, hpk2, -⟩ := nextByte_some hn
      have hi2 : f2.input = x.input := by rw [hf2]
      have hp2 : f2.pos = x.pos + 2 := by rw [hf2]
      have hstep : parseStringLoop start mode x = parseStringLoop start mode f2 := by
        rw [parseStringLoop, hp]
        simp only []
        rw [if_neg hne, if_pos trivial]
        split
        · rename_i heq
          exact Option.noConfusion (hn.symm.trans heq)
        · rename_i b2 g2 heq
          have h2 := hn.symm.trans heq
          simp only [Option.some.injEq, Prod.mk.injEq] at h2
          obtain ⟨rfl, rfl⟩ := h2
          rw [if_pos he]
      constructor
      · intro e h
        rw [hstep] at h
        have := ih.1 e h
        rw [hi2] at this
        exact this
      · intro f' d h
        rw [hstep] at h
        obtain ⟨h1, h2, h3, h4⟩ := ih.2 f' d h
        refine ⟨by rw [h1, hi2], by rw [h2, hf2], by rw [h3, hf2], by omega⟩
  | case5 x f1 f2 f3 hh hp hne hn hns ih =>
      obtain ⟨hf2, hpk2, -⟩ := nextByte_some hn
      have hi2 : f2.input = x.input := by rw [hf2]
      have hp2 : f2.pos = x.pos + 2 := by rw [hf2]
      obtain ⟨g1, g2, g3, g4⟩ := readHex4_ok 4 _ _ hh
      have hl2 : f2.level = x.level := by rw [hf2]
      have hc2 : f2.color = x.color := by rw [hf2]
      have hstep : parseStringLoop start mode x = parseStringLoop start mode f3 := by
        rw [parseStringLoop, hp]
        simp only []
        rw [if_neg hne, if_pos trivial]
        split
        · rename_i heq
          exact Option.noConfusion (hn.symm.trans heq)
        · rename_i b2 g2x heq
          have h2 := hn.symm.trans heq
          simp only [Option.some.injEq, Prod.mk.injEq] at h2
          obtain ⟨h2a, h2b⟩ := h2
          subst h2b
          rw [if_neg (h2a ▸ hns), if_pos (h2a ▸ rfl)]
          split
          · rename_i f3x heq2
            have h3 := hh.symm.trans heq2
            simp only [Except.ok.injEq] at h3
            rw [h3]
          · rename_i err heq2
            exact Except.noConfusion (hh.symm.trans heq2)
      constructor
      · intro e h
        rw [hstep] at h
        have := ih.1 e h
        rw [g1, hi2] at this
        exact this
      · intro f' d h
        rw [hstep] at h
        obtain ⟨h1, h2, h3, h4⟩ := ih.2 f' d h
        have h5 : f3.pos = x.pos + 6 := by omega
        refine ⟨by rw [h1, g1, hi2], by rw [h2, g2, hl2], by rw [h3, g3, hc2], by omega⟩
  | case6 x f1 f2 err hh hp hne hn hns =>
      obtain ⟨hf2, hpk2, -⟩ := nextByte_some hn
      have hi2 : f2.input = x.input := by rw [hf2]
      have hstep : parseStringLoop start mode x = .error err := by
        rw [parseStringLoop, hp]
        simp only []
        rw [if_neg hne, if_pos trivial]
        split
        · rename_i heq
          exact Option.noConfusion (hn.symm.trans heq)
        · rename_i b2 g2x heq
          have h2 := hn.symm.trans heq
          simp only [Option.some.injEq, Prod.mk.injEq] at h2
          obtain ⟨h2a, h2b⟩ := h2
          subst h2b
          rw [if_neg (h2a ▸ hns), if_pos (h2a ▸ rfl)]
          split
          · rename_i f3x heq2
            exact Except.noConfusion (hh.symm.trans heq2)
          · rename_i errx heq2
            have h3 := hh.symm.trans heq2
            simp only [Except.error.injEq] at h3
            rw [h3]
      constructor
      · intro e h
        rw [hstep] at h
        cases h
        have := readHex4_err 4 f2 err hh
        rw [hi2] at this
        exact this
      · intro f' d h
        rw [hstep] at h
        cases h
  | case7 x f1 e2 f2 hn hns hne117 hp hne =>
      obtain ⟨hf2, hpk2, -⟩ := nextByte_some hn
      have hp2 : f2.pos = x.pos + 2 := by rw [hf2]
      have hstep : parseStringLoop start mode x = .error (.invalidEscape e2 f2.pos) := by
        rw [parseStringLoop, hp]
        simp only []
        rw [if_neg hne, if_pos trivial]
        split
        · rename_i heq
          exact Option.noConfusion (hn.symm.trans heq)
        · rename_i b2 g2x heq
          have h2 := hn.symm.trans heq
          simp only [Option.some.injEq, Prod.mk.injEq] at h2
          obtain ⟨h2a, h2b⟩ := h2
          subst h2b
          rw [if_neg (h2a ▸ hns), if_neg (h2a ▸ hne117), h2a]
      constructor
      · intro e h
        rw [hstep] at h
        cases h
        refine ⟨by omega, ?_, ?_⟩
        · rw [hp2]
          show x.input.get? (x.pos + 2 - 1) = some e2
          have : x.input.get? (x.pos + 1) = some e2 := hpk2
          simpa using this
        · rw [hp2]
          show x.input.get? (x.pos + 2 - 2) = some 92
          have : x.input.get? x.pos = some 92 := hp
          simpa using this
      · intro f' d h
        rw [hstep] at h
        cases h
  | case8 x b hp hb34 hb92 hctl =>
      have hstep : parseStringLoop start mode x = .error (.invalidByte b x.pos) := by
        rw [parseStringLoop, hp]
        simp only []
        rw [if_neg hb34, if_neg hb92, if_pos hctl]
      constructor
      · intro e h
        rw [hstep] at h
        cases h
        exact hp
      · intro f' d h
        rw [hstep] at h
        cases h
  | case9 x b hp hb34 hb92 hctl f3 hu ih =>
      obtain ⟨u1, u2, u3, u4, u5, u6⟩ := nextUtf8Char_ok hu
      have hstep : parseStringLoop start mode x = parseStringLoop start mode f3 := by
        rw [parseStringLoop, hp]
        simp only []
        rw [if_neg hb34, if_neg hb92, if_neg hctl]
        split
        · rename_i f3x heq
          have h3 := hu.symm.trans heq
          simp only [Except.ok.injEq] at h3
          rw [h3]
        · rename_i err heq
          exact Except.noConfusion (hu.symm.trans heq)
      constructor
      · intro e h
        rw [hstep] at h
        have := ih.1 e h
        rw [u1] at this
        exact this
      · intro f' d h
        rw [hstep] at h
        obtain ⟨h1, h2, h3, h4⟩ := ih.2 f' d h
        exact ⟨by rw [h1, u1], by rw [h2, u2], by rw [h3, u3], by omega⟩
  | case10 x b hp hb34 hb92 hctl err hu =>
      have hstep : parseStringLoop start mode x = .error err := by
        rw [parseStringLoop, hp]
        simp only []
        rw [if_neg hb34, if_neg hb92, if_neg hctl]
        split
        · rename_i f3x heq
          exact Except.noConfusion (hu.symm.trans heq)
        · rename_i errx heq
          have h3 := hu.symm.trans heq
          simp only [Except.error.injEq] at h3
          rw [h3]
      constructor
      · intro e h
        rw [hstep] at h
        cases h
        exact nextUtf8Char_err hu
      · intro f' d h
        rw [hstep] at h
        cases h

theorem incLevel_ok {f f' : Fmt} (h : incLevel f = .ok f') :
    f' = { f with level := f.level + 1 } ∧ f.level ≤ 99 := by
  unfold incLevel MAX_INDENT_LEVEL at h
  by_cases hl : 100 ≤ f.level
  · rw [if_pos hl] at h; cases h
  · rw [if_neg hl] at h; cases h; exact ⟨rfl, by omega⟩

theorem incLevel_err {f : Fmt} {e : FormatError} (h : incLevel f = .error e) :
    e = .maxIndentLevel f.level f.pos ∧ 100 ≤ f.level := by
  unfold incLevel MAX_INDENT_LEVEL at h
  by_cases hl : 100 ≤ f.level
  · rw [if_pos hl] at h; cases h; exact ⟨rfl, hl⟩
  · rw [if_neg hl] at h; cases h

theorem expectBytes_inv : ∀ (bs : List Nat) (f : Fmt),
    (∀ e, expectBytes f bs = .error e → errOffsetOk f.input e) ∧
    (∀ f', expectBytes f bs = .ok f' →
      f'.input = f.input ∧ f'.level = f.level ∧ f'.color = f.color ∧ f.pos ≤ f'.pos) := by
  intro bs
  induction bs with
  | nil =>
      intro f
      constructor
      · intro e h; simp [expectBytes] at h
      · intro f' h
        simp only [expectBytes] at h
        cases h
        exact ⟨rfl, rfl, rfl, Nat.le_refl _⟩
  | cons b rest ih =>
      intro f
      constructor
      · intro e h
        simp only [expectBytes] at h
        cases hx : expectByte f b with
        | error e2 => rw [hx] at h; cases h; exact expectByte_err hx
        | ok f1 =>
            rw [hx] at h
            obtain ⟨hf1, -⟩ := expectByte_ok_inv hx
            have := (ih f1).1 e h
            rw [hf1] at this
            exact this
      · intro f' h
        simp only [expectBytes] at h
        cases hx : expectByte f b with
        | error e2 => rw [hx] at h; cases h
        | ok f1 =>
            rw [hx] at h
            obtain ⟨hf1, -⟩ := expectByte_ok_inv hx
            obtain ⟨h1, h2, h3, h4⟩ := (ih f1).2 f' h
            rw [hf1] at h1 h2 h3 h4
            simp at h1 h2 h3 h4
            exact ⟨h1, h2, h3, by omega⟩

theorem parseTrue_inv (f : Fmt) :
    (∀ e, parseTrue f = .error e → errOffsetOk f.input e) ∧
    (∀ f' d, parseTrue f = .ok (f', d) →
      f'.input = f.input ∧ f'.level = f.level ∧ f'.color = f.color ∧ f.pos ≤ f'.pos) := by
  constructor
  · intro e h
    simp only [parseTrue] at h
    cases hx : expectBytes f [116, 114, 117, 101] with
    | error e2 => rw [hx] at h; cases h; exact (expectBytes_inv _ f).1 e hx
    | ok f1 => rw [hx] at h; cases h
  · intro f' d h
    simp only [parseTrue] at h
    cases hx : expectBytes f [116, 114, 117, 101] with
    | error e2 => rw [hx] at h; cases h
    | ok f1 =>
        rw [hx] at h
        cases h
        exact (expectBytes_inv _ f).2 _ hx

theorem parseFalse_inv (f : Fmt) :
    (∀ e, parseFalse f = .error e → errOffsetOk f.input e) ∧
    (∀ f' d, parseFalse f = .ok (f', d) →
      f'.input = f.input ∧ f'.level = f.level ∧ f'.color = f.color ∧ f.pos ≤ f'.pos) := by
  constructor
  · intro e h
    simp only [parseFalse] at h
    cases hx : expectBytes f [102, 97, 108, 115, 101] with
    | error e2 => rw [hx] at h; cases h; exact (expectBytes_inv _ f).1 e hx
    | ok f1 => rw [hx] at h; cases h
  · intro f' d h
    simp only [parseFalse] at h
    cases hx : expectBytes f [102, 97, 108, 115, 101] with
    | error e2 => rw [hx] at h; cases h
    | ok f1 =>
        rw [hx] at h
        cases h
        exact (expectBytes_inv _ f).2 _ hx

theorem parseNull_inv (f : Fmt) :
    (∀ e, parseNull f = .error e → errOffsetOk f.input e) ∧
    (∀ f' d, parseNull f = .ok (f', d) →
      f'.input = f.input ∧ f'.level = f.level ∧ f'.color = f.color ∧ f.pos ≤ f'.pos) := by
  constructor
  · intro e h
    simp only [parseNull] at h
    cases hx : expectBytes f [110, 117, 108, 108] with
    | error e2 => rw [hx] at h; cases h; exact (expectBytes_inv _ f).1 e hx
    | ok f1 => rw [hx] at h; cases h
  · intro f' d h
    simp only [parseNull] at h
    cases hx : expectBytes f [110, 117, 108, 108] with
    | error e2 => rw [hx] at h; cases h
    | ok f1 =>
        rw [hx] at h
        cases h
        exact (expectBytes_inv _ f).2 _ hx

theorem parseString_inv (f : Fmt) (mode : StrMode) :
    (∀ e, parseString f mode = .error e → errOffsetOk f.input e) ∧
    (∀ f' d, parseString f mode = .ok (f', d) →
      f'.input = f.input ∧ f'.level = f.level ∧ f'.color = f.color ∧ f.pos ≤ f'.pos) := by
  constructor
  · intro e h
    simp only [parseString] at h
    cases hx : expectByte f 34 with
    | error e2 => rw [hx] at h; cases h; exact expectByte_err hx
    | ok f1 =>
        rw [hx] at h
        obtain ⟨hf1, -⟩ := expectByte_ok_inv hx
        have := (parseStringLoop_inv f.pos mode f1).1 e h
        rw [hf1] at this
        exact this
  · intro f' d h
    simp only [parseString] at h
    cases hx : expectByte f 34 with
    | error e2 => rw [hx] at h; cases h
    | ok f1 =>
        rw [hx] at h
        obtain ⟨hf1, -⟩ := expectByte_ok_inv hx
        obtain ⟨h1, h2, h3, h4⟩ := (parseStringLoop_inv f.pos mode f1).2 f' d h
        rw [hf1] at h1 h2 h3 h4
        simp at h1 h2 h3 h4
        exact ⟨h1, h2, h3, by omega⟩

theorem pv_zero (f : Fmt) : PV 0 f := by
  unfold PV ErrInv OkInv
  constructor
  · intro e h; simp [parseValue] at h
  · intro f' d h; simp [parseValue] at h

theorem po_zero (f : Fmt) : PO 0 f := by
  unfold PO ErrInv OkInv
  constructor
  · intro e h; simp [parseObject] at h
  · intro f' d h; simp [parseObject] at h

theorem ol_zero (f : Fmt) (acc : List Nat) (first : Bool) : OL 0 f acc first := by
  unfold OL ErrInv OkInv
  constructor
  · intro e h; simp [objLoop] at h
  · intro f' d h; simp [objLoop] at h

theorem pa_zero (f : Fmt) : PA 0 f := by
  unfold PA ErrInv OkInv
  constructor
  · intro e h; simp [parseArray] at h
  · intro f' d h; simp [parseArray] at h

theorem al_zero (f : Fmt) (acc : List Nat) (first : Bool) : AL 0 f acc first := by
  unfold AL ErrInv OkInv
  constructor
  · intro e h; simp [arrLoop] at h
  · intro f' d h; simp [arrLoop] at h

theorem pv_succ (fuel : Nat)
    (hO : ∀ f : Fmt, f.level ≤ 100 → PO fuel f)
    (hA : ∀ f : Fmt, f.level ≤ 100 → PA fuel f) :
    ∀ f : Fmt, f.level ≤ 100 → PV (fuel + 1) f := by
  intro f hlev
  unfold PV ErrInv OkInv
  constructor
  · intro e h
    simp only [parseValue] at h
    cases hpk : peekByte f with
    | none =>
        rw [hpk] at h
        simp only at h
        simp only [Option.some.injEq, Except.error.injEq] at h
        subst h
        trivial
    | some b =>
        rw [hpk] at h
        simp only at h
        by_cases h34 : b = 34
        · rw [if_pos h34] at h
          simp only [Option.some.injEq] at h
          subst h34
          exact (parseString_inv f .val).1 e h
        · rw [if_neg h34] at h
          by_cases hnum : b = 45 ∨ (48 ≤ b ∧ b ≤ 57)
          · rw [if_pos hnum] at h
            simp only [Option.some.injEq] at h
            exact parseNumber_err h
          · rw [if_neg hnum] at h
            by_cases h123 : b = 123
            · rw [if_pos h123] at h
              exact (hO f hlev).1 e h
            · rw [if_neg h123] at h
              by_cases h91 : b = 91
              · rw [if_pos h91] at h
                exact (hA f hlev).1 e h
              · rw [if_neg h91] at h
                by_cases h116 : b = 116
                · rw [if_pos h116] at h
                  simp only [Option.some.injEq] at h
                  exact (parseTrue_inv f).1 e h
                · rw [if_neg h116] at h
                  by_cases h102 : b = 102
                  · rw [if_pos h102] at h
                    simp only [Option.some.injEq] at h
                    exact (parseFalse_inv f).1 e h
                  · rw [if_neg h102] at h
                    by_cases h110 : b = 110
                    · rw [if_pos h110] at h
                      simp only [Option.some.injEq] at h
                      exact (parseNull_inv f).1 e h
                    · rw [if_neg h110] at h
                      simp only [Option.some.injEq, Except.error.injEq] at h
                      subst h
                      exact hpk
  · intro f' d h
    simp only [parseValue] at h
    cases hpk : peekByte f with
    | none =>
        rw [hpk] at h
        simp at h
    | some b =>
        rw [hpk] at h
        simp only at h
        by_cases h34 : b = 34
        · rw [if_pos h34] at h
          simp only [Option.some.injEq] at h
          exact (parseString_inv f .val).2 f' d h
        · rw [if_neg h34] at h
          by_cases hnum : b = 45 ∨ (48 ≤ b ∧ b ≤ 57)
          · rw [if_pos hnum] at h
            simp only [Option.some.injEq] at h
            exact parseNumber_ok h
          · rw [if_neg hnum] at h
            by_cases h123 : b = 123
            · rw [if_pos h123] at h
              exact (hO f hlev).2 f' d h
            · rw [if_neg h123] at h
              by_cases h91 : b = 91
              · rw [if_pos h91] at h
                exact (hA f hlev).2 f' d h
              · rw [if_neg h91] at h
                by_cases h116 : b = 116
                · rw [if_pos h116] at h
                  simp only [Option.some.injEq] at h
                  exact (parseTrue_inv f).2 f' d h
                · rw [if_neg h116] at h
                  by_cases h102 : b = 102
                  · rw [if_pos h102] at h
                    simp only [Option.some.injEq] at h
                    exact (parseFalse_inv f).2 f' d h
                  · rw [if_neg h102] at h
                    by_cases h110 : b = 110
                    · rw [if_pos h110] at h
                      simp only [Option.some.injEq] at h
                      exact (parseNull_inv f).2 f' d h
                    · rw [if_neg h110] at h
                      simp at h

theorem po_succ (fuel : Nat)
    (hOL : ∀ (f : Fmt) (acc : List Nat) (first : Bool), f.level ≤ 100 → OL fuel f acc first) :
    ∀ f : Fmt, f.level ≤ 100 → PO (fuel + 1) f := by
  intro f hlev
  unfold PO ErrInv OkInv
  constructor
  · intro e h
    simp only [parseObject] at h
    cases hx : expectByte f 123 with
    | error e2 =>
        rw [hx] at h
        simp only [Option.some.injEq, Except.error.injEq] at h
        subst h
        exact expectByte_err hx
    | ok f1 =>
        rw [hx] at h
        simp only at h
        obtain ⟨hf1, hpk123⟩ := expectByte_ok_inv hx
        have hsw := skipWhitespace_state f1
        have hswl : (skipWhitespace f1).level = f.level := by
          rw [hsw.2.1, hf1]
        have hswp : f.pos + 1 ≤ (skipWhitespace f1).pos := by
          have h2 := hsw.2.2.2
          have h3 : f1.pos = f.pos + 1 := by rw [hf1]
          omega
        have hswi : (skipWhitespace f1).input = f.input := by
          rw [hsw.1, hf1]
        by_cases hcl : peekByte (skipWhitespace f1) = some 125
        · rw [if_pos hcl] at h
          simp at h
        · rw [if_neg hcl] at h
          cases hinc : incLevel (skipWhitespace f1) with
          | error e2 =>
              rw [hinc] at h
              simp only [Option.some.injEq, Except.error.injEq] at h
              subst h
              obtain ⟨he, hge⟩ := incLevel_err hinc
              subst he
              refine ⟨by omega, f.pos, by omega, Or.inl hpk123⟩
          | ok f3 =>
              rw [hinc] at h
              obtain ⟨hf3, hle99⟩ := incLevel_ok hinc
              have hlev3 : f3.level ≤ 100 := by
                rw [hf3]
                simp
                omega
              have := (hOL f3 (writeBeginObj (skipWhitespace f1)) true hlev3).1 e h
              have hin3 : f3.input = f.input := by
                rw [hf3]
                simp
                exact hswi
              rw [hin3] at this
              exact this
  · intro f' d h
    simp only [parseObject] at h
    cases hx : expectByte f 123 with
    | error e2 =>
        rw [hx] at h
        simp at h
    | ok f1 =>
        rw [hx] at h
        simp only at h
        obtain ⟨hf1, hpk123⟩ := expectByte_ok_inv hx
        have hsw := skipWhitespace_state f1
        have hswl : (skipWhitespace f1).level = f.level := by
          rw [hsw.2.1, hf1]
        have hswc : (skipWhitespace f1).color = f.color := by
          rw [hsw.2.2.1, hf1]
        have hswp : f.pos + 1 ≤ (skipWhitespace f1).pos := by
          have h2 := hsw.2.2.2
          have h3 : f1.pos = f.pos + 1 := by rw [hf1]
          omega
        have hswi : (skipWhitespace f1).input = f.input := by
          rw [hsw.1, hf1]
        by_cases hcl : peekByte (skipWhitespace f1) = some 125
        · rw [if_pos hcl] at h
          simp only [Option.some.injEq, Except.ok.injEq, Prod.mk.injEq] at h
          obtain ⟨h1, -⟩ := h
          subst h1
          refine ⟨by simp [hswi], by simp [hswl], by simp [hswc], ?_⟩
          show f.pos ≤ (skipWhitespace f1).pos + 1
          omega
        · rw [if_neg hcl] at h
          cases hinc : incLevel (skipWhitespace f1) with
          | error e2 =>
              rw [hinc] at h
              simp at h
          | ok f3 =>
              rw [hinc] at h
              obtain ⟨hf3, hle99⟩ := incLevel_ok hinc
              have hlev3 : f3.level ≤ 100 := by
                rw [hf3]
                simp
                omega
              obtain ⟨k1, k2, k3, k4⟩ :=
                (hOL f3 (writeBeginObj (skipWhitespace f1)) true hlev3).2 f' d h
              have hin3 : f3.input = f.input := by
                rw [hf3]
                simp
                exact hswi
              have hl3 : f3.level = f.level + 1 := by
                rw [hf3]
                simp
                omega
              have hc3 : f3.color = f.color := by
                rw [hf3]
                simp
                exact hswc
              have hp3 : f3.pos = (skipWhitespace f1).pos := by
                rw [hf3]
              refine ⟨by rw [k1, hin3], by omega, by rw [k3, hc3], by omega⟩

theorem pa_succ (fuel : Nat)
    (hAL : ∀ (f : Fmt) (acc : List Nat) (first : Bool), f.level ≤ 100 → AL fuel f acc first) :
    ∀ f : Fmt, f.level ≤ 100 → PA (fuel + 1) f := by
  intro f hlev
  unfold PA ErrInv OkInv
  constructor
  · intro e h
    simp only [parseArray] at h
    cases hx : expectByte f 91 with
    | error e2 =>
        rw [hx] at h
        simp only [Option.some.injEq, Except.error.injEq] at h
        subst h
        exact expectByte_err hx
    | ok f1 =>
        rw [hx] at h
        simp only at h
        obtain ⟨hf1, hpk91⟩ := expectByte_ok_inv hx
        have hsw := skipWhitespace_state f1
        have hswl : (skipWhitespace f1).level = f.level := by
          rw [hsw.2.1, hf1]
        have hswp : f.pos + 1 ≤ (skipWhitespace f1).pos := by
          have h2 := hsw.2.2.2
          have h3 : f1.pos = f.pos + 1 := by rw [hf1]
          omega
        have hswi : (skipWhitespace f1).input = f.input := by
          rw [hsw.1, hf1]
        by_cases hcl : peekByte (skipWhitespace f1) = some 93
        · rw [if_pos hcl] at h
          simp at h
        · rw [if_neg hcl] at h
          cases hinc : incLevel (skipWhitespace f1) with
          | error e2 =>
              rw [hinc] at h
              simp only [Option.some.injEq, Except.error.injEq] at h
              subst h
              obtain ⟨he, hge⟩ := incLevel_err hinc
              subst he
              refine ⟨by omega, f.pos, by omega, Or.inr hpk91⟩
          | ok f3 =>
              rw [hinc] at h
              obtain ⟨hf3, hle99⟩ := incLevel_ok hinc
              have hlev3 : f3.level ≤ 100 := by
                rw [hf3]
                simp
                omega
              have := (hAL f3 (writeBeginArr (skipWhitespace f1)) true hlev3).1 e h
              have hin3 : f3.input = f.input := by
                rw [hf3]
                simp
                exact hswi
              rw [hin3] at this
              exact this
  · intro f' d h
    simp only [parseArray] at h
    cases hx : expectByte f 91 with
    | error e2 =>
        rw [hx] at h
        simp at h
    | ok f1 =>
        rw [hx] at h
        simp only at h
        obtain ⟨hf1, hpk91⟩ := expectByte_ok_inv hx
        have hsw := skipWhitespace_state f1
        have hswl : (skipWhitespace f1).level = f.level := by
          rw [hsw.2.1, hf1]
        have hswc : (skipWhitespace f1).color = f.color := by
          rw [hsw.2.2.1, hf1]
        have hswp : f.pos + 1 ≤ (skipWhitespace f1).pos := by
          have h2 := hsw.2.2.2
          have h3 : f1.pos = f.pos + 1 := by rw [hf1]
          omega
        have hswi : (skipWhitespace f1).input = f.input := by
          rw [hsw.1, hf1]
        by_cases hcl : peekByte (skipWhitespace f1) = some 93
        · rw [if_pos hcl] at h
          simp only [Option.some.injEq, Except.ok.injEq, Prod.mk.injEq] at h
          obtain ⟨h1, -⟩ := h
          subst h1
          refine ⟨by simp [hswi], by simp [hswl], by simp [hswc], ?_⟩
          show f.pos ≤ (skipWhitespace f1).pos + 1
          omega
        · rw [if_neg hcl] at h
          cases hinc : incLevel (skipWhitespace f1) with
          | error e2 =>
              rw [hinc] at h
              simp at h
          | ok f3 =>
              rw [hinc] at h
              obtain ⟨hf3, hle99⟩ := incLevel_ok hinc
              have hlev3 : f3.level ≤ 100 := by
                rw [hf3]
                simp
                omega
              obtain ⟨k1, k2, k3, k4⟩ :=
                (hAL f3 (writeBeginArr (skipWhitespace f1)) true hlev3).2 f' d h
              have hin3 : f3.input = f.input := by
                rw [hf3]
                simp
                exact hswi
              have hl3 : f3.level = f.level + 1 := by
                rw [hf3]
                simp
                omega
              have hc3 : f3.color = f.color := by
                rw [hf3]
                simp
                exact hswc
              have hp3 : f3.pos = (skipWhitespace f1).pos := by
                rw [hf3]
              refine ⟨by rw [k1, hin3], by omega, by rw [k3, hc3], by omega⟩

theorem ol_succ (fuel : Nat)
    (hV : ∀ g : Fmt, g.level ≤ 100 → PV fuel g)
    (hOL : ∀ (g : Fmt) (acc2 : List Nat) (first2 : Bool), g.level ≤ 100 → OL fuel g acc2 first2) :
    ∀ (f : Fmt) (acc : List Nat) (first : Bool), f.level ≤ 100 → OL (fuel + 1) f acc first := by
  intro f acc first hlev
  have hsw := skipWhitespace_state f
  unfold OL ErrInv OkInv
  constructor
  · intro e h
    simp only [objLoop] at h
    by_cases hcl : peekByte (skipWhitespace f) = some 125
    · rw [if_pos hcl] at h
      simp at h
    · rw [if_neg hcl] at h
      cases first with
      | true =>
          simp only at h
          rw [if_pos trivial] at h
          simp only at h
          have hAi : (skipWhitespace f).input = f.input := hsw.1
          have hAl : (skipWhitespace f).level = f.level := hsw.2.1
          have hAc : (skipWhitespace f).color = f.color := hsw.2.2.1
          have hAp : f.pos ≤ (skipWhitespace f).pos := hsw.2.2.2
          cases hs : parseString (skipWhitespace f) .key with
          | error e2 =>
              rw [hs] at h
              simp only [Option.some.injEq, Except.error.injEq] at h
              subst h
              have := (parseString_inv (skipWhitespace f) .key).1 _ hs
              rw [hAi] at this
              exact this
          | ok pB =>
              obtain ⟨fB, dK⟩ := pB
              rw [hs] at h
              simp only at h
              obtain ⟨hB1, hB2, hB3, hB4⟩ := (parseString_inv (skipWhitespace f) .key).2 fB dK hs
              have hswB := skipWhitespace_state fB
              cases h58 : expectByte (skipWhitespace fB) 58 with
              | error e3 =>
                  rw [h58] at h
                  simp only [Option.some.injEq, Except.error.injEq] at h
                  subst h
                  have := expectByte_err h58
                  rw [hswB.1, hB1, hAi] at this
                  exact this
              | ok fD =>
                  rw [h58] at h
                  simp only at h
                  obtain ⟨hfD, -⟩ := expectByte_ok_inv h58
                  have hswD := skipWhitespace_state fD
                  have hDi : fD.input = f.input := by
                    rw [hfD]
                    simp
                    rw [hswB.1, hB1, hAi]
                  have hDl : fD.level = f.level := by
                    rw [hfD]
                    simp
                    rw [hswB.2.1, hB2, hAl]
                  have hlevE : (skipWhitespace fD).level ≤ 100 := by
                    rw [hswD.2.1, hDl]
                    exact hlev
                  cases hpv : parseValue fuel (skipWhitespace fD) with
                  | none =>
                      rw [hpv] at h
                      simp at h
                  | some r =>
                      cases r with
                      | error e4 =>
                          rw [hpv] at h
                          simp only [Option.some.injEq, Except.error.injEq] at h
                          subst h
                          have := (hV (skipWhitespace fD) hlevE).1 _ hpv
                          rw [hswD.1, hDi] at this
                          exact this
                      | ok pF =>
                          obtain ⟨fF, dV⟩ := pF
                          rw [hpv] at h
                          simp only at h
                          obtain ⟨hF1, hF2, hF3, hF4⟩ := (hV (skipWhitespace fD) hlevE).2 fF dV hpv
                          have hlevF : fF.level ≤ 100 := by
                            rw [hF2, hswD.2.1, hDl]
                            exact hlev
                          have := (hOL fF _ false hlevF).1 e h
                          rw [hF1, hswD.1, hDi] at this
                          exact this
      | false =>
          rw [if_neg Bool.false_ne_true] at h
          cases hc44 : expectByte (skipWhitespace f) 44 with
          | error e3 =>
              rw [hc44] at h
              simp only [Option.some.injEq, Except.error.injEq] at h
              subst h
              have := expectByte_err hc44
              rw [hsw.1] at this
              exact this
          | ok fc =>
              rw [hc44] at h
              simp only at h
              obtain ⟨hfc, -⟩ := expectByte_ok_inv hc44
              have hswc := skipWhitespace_state fc
              have hAi : (skipWhitespace fc).input = f.input := by
                rw [hswc.1, hfc]
                simp
                exact hsw.1
              have hAl : (skipWhitespace fc).level = f.level := by
                rw [hswc.2.1, hfc]
                simp
                exact hsw.2.1
              have hAc : (skipWhitespace fc).color = f.color := by
                rw [hswc.2.2.1, hfc]
                simp
                exact hsw.2.2.1
              have hAp : f.pos ≤ (skipWhitespace fc).pos := by
                have g1 := hswc.2.2.2
                have g2 : fc.pos = (skipWhitespace f).pos + 1 := by rw [hfc]
                have g3 := hsw.2.2.2
                omega
              cases hs : parseString (skipWhitespace fc) .key with
              | error e2 =>
                  rw [hs] at h
                  simp only [Option.some.injEq, Except.error.injEq] at h
                  subst h
                  have := (parseString_inv (skipWhitespace fc) .key).1 _ hs
                  rw [hAi] at this
                  exact this
              | ok pB =>
                  obtain ⟨fB, dK⟩ := pB
                  rw [hs] at h
                  simp only at h
                  obtain ⟨hB1, hB2, hB3, hB4⟩ := (parseString_inv (skipWhitespace fc) .key).2 fB dK hs
                  have hswB := skipWhitespace_state fB
                  cases h58 : expectByte (skipWhitespace fB) 58 with
                  | error e3 =>
                      rw [h58] at h
                      simp only [Option.some.injEq, Except.error.injEq] at h
                      subst h
                      have := expectByte_err h58
                      rw [hswB.1, hB1, hAi] at this
                      exact this
                  | ok fD =>
                      rw [h58] at h
                      simp only at h
                      obtain ⟨hfD, -⟩ := expectByte_ok_inv h58
                      have hswD := skipWhitespace_state fD
                      have hDi : fD.input = f.input := by
                        rw [hfD]
                        simp
                        rw [hswB.1, hB1, hAi]
                      have hDl : fD.level = f.level := by
                        rw [hfD]
                        simp
                        rw [hswB.2.1, hB2, hAl]
                      have hlevE : (skipWhitespace fD).level ≤ 100 := by
                        rw [hswD.2.1, hDl]
                        exact hlev
                      cases hpv : parseValue fuel (skipWhitespace fD) with
                      | none =>
                          rw [hpv] at h
                          simp at h
                      | some r =>
                          cases r with
                          | error e4 =>
                              rw [hpv] at h
                              simp only [Option.some.injEq, Except.error.injEq] at h
                              subst h
                              have := (hV (skipWhitespace fD) hlevE).1 _ hpv
                              rw [hswD.1, hDi] at this
                              exact this
                          | ok pF =>
                              obtain ⟨fF, dV⟩ := pF
                              rw [hpv] at h
                              simp only at h
                              obtain ⟨hF1, hF2, hF3, hF4⟩ := (hV (skipWhitespace fD) hlevE).2 fF dV hpv
                              have hlevF : fF.level ≤ 100 := by
                                rw [hF2, hswD.2.1, hDl]
                                exact hlev
                              have := (hOL fF _ false hlevF).1 e h
                              rw [hF1, hswD.1, hDi] at this
                              exact this
  · intro f' d h
    simp only [objLoop] at h
    by_cases hcl : peekByte (skipWhitespace f) = some 125
    · rw [if_pos hcl] at h
      simp only [Option.some.injEq, Except.ok.injEq, Prod.mk.injEq] at h
      obtain ⟨h1, -⟩ := h
      subst h1
      refine ⟨by simp [decLevel, hsw.1], by simp [decLevel, hsw.2.1], by simp [decLevel, hsw.2.2.1], ?_⟩
      have := hsw.2.2.2
      simp [decLevel]
      omega
    · rw [if_neg hcl] at h
      cases first with
      | true =>
          simp only at h
          rw [if_pos trivial] at h
          simp only at h
          have hAi : (skipWhitespace f).input = f.input := hsw.1
          have hAl : (skipWhitespace f).level = f.level := hsw.2.1
          have hAc : (skipWhitespace f).color = f.color := hsw.2.2.1
          have hAp : f.pos ≤ (skipWhitespace f).pos := hsw.2.2.2
          cases hs : parseString (skipWhitespace f) .key with
          | error e2 =>
              rw [hs] at h
              simp at h
          | ok pB =>
              obtain ⟨fB, dK⟩ := pB
              rw [hs] at h
              simp only at h
              obtain ⟨hB1, hB2, hB3, hB4⟩ := (parseString_inv (skipWhitespace f) .key).2 fB dK hs
              have hswB := skipWhitespace_state fB
              cases h58 : expectByte (skipWhitespace fB) 58 with
              | error e3 =>
                  rw [h58] at h
                  simp at h
              | ok fD =>
                  rw [h58] at h
                  simp only at h
                  obtain ⟨hfD, -⟩ := expectByte_ok_inv h58
                  have hswD := skipWhitespace_state fD
                  have hDi : fD.input = f.input := by
                    rw [hfD]
                    simp
                    rw [hswB.1, hB1, hAi]
                  have hDl : fD.level = f.level := by
                    rw [hfD]
                    simp
                    rw [hswB.2.1, hB2, hAl]
                  have hDc : fD.color = f.color := by
                    rw [hfD]
                    simp
                    rw [hswB.2.2.1, hB3, hAc]
                  have hDp : fD.pos = (skipWhitespace fB).pos + 1 := by rw [hfD]
                  have hlevE : (skipWhitespace fD).level ≤ 100 := by
                    rw [hswD.2.1, hDl]
                    exact hlev
                  cases hpv : parseValue fuel (skipWhitespace fD) with
                  | none =>
                      rw [hpv] at h
                      simp at h
                  | some r =>
                      cases r with
                      | error e4 =>
                          rw [hpv] at h
                          simp at h
                      | ok pF =>
                          obtain ⟨fF, dV⟩ := pF
                          rw [hpv] at h
                          simp only at h
                          obtain ⟨hF1, hF2, hF3, hF4⟩ := (hV (skipWhitespace fD) hlevE).2 fF dV hpv
                          have hlevF : fF.level ≤ 100 := by
                            rw [hF2, hswD.2.1, hDl]
                            exact hlev
                          obtain ⟨k1, k2, k3, k4⟩ := (hOL fF _ false hlevF).2 f' d h
                          have hc1 : f'.input = f.input := by rw [k1, hF1, hswD.1, hDi]
                          have hc3 : f'.color = f.color := by rw [k3, hF3, hswD.2.2.1, hDc]
                          have hc2 : f'.level = f.level - 1 := by
                            rw [k2, hF2, hswD.2.1, hDl]
                          have hg1 := hswB.2.2.2
                          have hg2 := hswD.2.2.2
                          refine ⟨hc1, hc2, hc3, by omega⟩
      | false =>
          rw [if_neg Bool.false_ne_true] at h
          cases hc44 : expectByte (skipWhitespace f) 44 with
          | error e3 =>
              rw [hc44] at h
              simp at h
          | ok fc =>
              rw [hc44] at h
              simp only at h
              obtain ⟨hfc, -⟩ := expectByte_ok_inv hc44
              have hswc := skipWhitespace_state fc
              have hAi : (skipWhitespace fc).input = f.input := by
                rw [hswc.1, hfc]
                simp
                exact hsw.1
              have hAl : (skipWhitespace fc).level = f.level := by
                rw [hswc.2.1, hfc]
                simp
                exact hsw.2.1
              have hAc : (skipWhitespace fc).color = f.color := by
                rw [hswc.2.2.1, hfc]
                simp
                exact hsw.2.2.1
              have hAp : f.pos ≤ (skipWhitespace fc).pos := by
                have g1 := hswc.2.2.2
                have g2 : fc.pos = (skipWhitespace f).pos + 1 := by rw [hfc]
                have g3 := hsw.2.2.2
                omega
              cases hs : parseString (skipWhitespace fc) .key with
              | error e2 =>
                  rw [hs] at h
                  simp at h
              | ok pB =>
                  obtain ⟨fB, dK⟩ := pB
                  rw [hs] at h
                  simp only at h
                  obtain ⟨hB1, hB2, hB3, hB4⟩ := (parseString_inv (skipWhitespace fc) .key).2 fB dK hs
                  have hswB := skipWhitespace_state fB
                  cases h58 : expectByte (skipWhitespace fB) 58 with
                  | error e3 =>
                      rw [h58] at h
                      simp at h
                  | ok fD =>
                      rw [h58] at h
                      simp only at h
                      obtain ⟨hfD, -⟩ := expectByte_ok_inv h58
                      have hswD := skipWhitespace_state fD
                      have hDi : fD.input = f.input := by
                        rw [hfD]
                        simp
                        rw [hswB.1, hB1, hAi]
                      have hDl : fD.level = f.level := by
                        rw [hfD]
                        simp
                        rw [hswB.2.1, hB2, hAl]
                      have hDc : fD.color = f.color := by
                        rw [hfD]
                        simp
                        rw [hswB.2.2.1, hB3, hAc]
                      have hDp : fD.pos = (skipWhitespace fB).pos + 1 := by rw [hfD]
                      have hlevE : (skipWhitespace fD).level ≤ 100 := by
                        rw [hswD.2.1, hDl]
                        exact hlev
                      cases hpv : parseValue fuel (skipWhitespace fD) with
                      | none =>
                          rw [hpv] at h
                          simp at h
                      | some r =>
                          cases r with
                          | error e4 =>
                              rw [hpv] at h
                              simp at h
                          | ok pF =>
                              obtain ⟨fF, dV⟩ := pF
                              rw [hpv] at h
                              simp only at h
                              obtain ⟨hF1, hF2, hF3, hF4⟩ := (hV (skipWhitespace fD) hlevE).2 fF dV hpv
                              have hlevF : fF.level ≤ 100 := by
                                rw [hF2, hswD.2.1, hDl]
                                exact hlev
                              obtain ⟨k1, k2, k3, k4⟩ := (hOL fF _ false hlevF).2 f' d h
                              have hc1 : f'.input = f.input := by rw [k1, hF1, hswD.1, hDi]
                              have hc3 : f'.color = f.color := by rw [k3, hF3, hswD.2.2.1, hDc]
                              have hc2 : f'.level = f.level - 1 := by
                                rw [k2, hF2, hswD.2.1, hDl]
                              have hg1 := hswB.2.2.2
                              have hg2 := hswD.2.2.2
                              refine ⟨hc1, hc2, hc3, by omega⟩

theorem al_succ (fuel : Nat)
    (hV : ∀ g : Fmt, g.level ≤ 100 → PV fuel g)
    (hAL : ∀ (g : Fmt) (acc2 : List Nat) (first2 : Bool), g.level ≤ 100 → AL fuel g acc2 first2) :
    ∀ (f : Fmt) (acc : List Nat) (first : Bool), f.level ≤ 100 → AL (fuel + 1) f acc first := by
  intro f acc first hlev
  have hsw := skipWhitespace_state f
  unfold AL ErrInv OkInv
  constructor
  · intro e h
    simp only [arrLoop] at h
    by_cases hcl : peekByte (skipWhitespace f) = some 93
    · rw [if_pos hcl] at h
      simp at h
    · rw [if_neg hcl] at h
      cases first with
      | true =>
          simp only at h
          rw [if_pos trivial] at h
          simp only at h
          have hAi : (skipWhitespace f).input = f.input := hsw.1
          have hAl : (skipWhitespace f).level = f.level := hsw.2.1
          have hAc : (skipWhitespace f).color = f.color := hsw.2.2.1
          have hAp : f.pos ≤ (skipWhitespace f).pos := hsw.2.2.2
          have hlevE : (skipWhitespace f).level ≤ 100 := by
            rw [hAl]
            exact hlev
          cases hpv : parseValue fuel (skipWhitespace f) with
          | none =>
              rw [hpv] at h
              simp at h
          | some r =>
              cases r with
              | error e4 =>
                  rw [hpv] at h
                  simp only [Option.some.injEq, Except.error.injEq] at h
                  subst h
                  have := (hV (skipWhitespace f) hlevE).1 _ hpv
                  rw [hAi] at this
                  exact this
              | ok pF =>
                  obtain ⟨fF, dV⟩ := pF
                  rw [hpv] at h
                  simp only at h
                  obtain ⟨hF1, hF2, hF3, hF4⟩ := (hV (skipWhitespace f) hlevE).2 fF dV hpv
                  have hlevF : fF.level ≤ 100 := by
                    rw [hF2, hAl]
                    exact hlev
                  have := (hAL fF _ false hlevF).1 e h
                  rw [hF1, hAi] at this
                  exact this
      | false =>
          rw [if_neg Bool.false_ne_true] at h
          cases hc44 : expectByte (skipWhitespace f) 44 with
          | error e3 =>
              rw [hc44] at h
              simp only [Option.some.injEq, Except.error.injEq] at h
              subst h
              have := expectByte_err hc44
              rw [hsw.1] at this
              exact this
          | ok fc =>
              rw [hc44] at h
              simp only at h
              obtain ⟨hfc, -⟩ := expectByte_ok_inv hc44
              have hswc := skipWhitespace_state fc
              have hAi : (skipWhitespace fc).input = f.input := by
                rw [hswc.1, hfc]
                simp
                exact hsw.1
              have hAl : (skipWhitespace fc).level = f.level := by
                rw [hswc.2.1, hfc]
                simp
                exact hsw.2.1
              have hAc : (skipWhitespace fc).color = f.color := by
                rw [hswc.2.2.1, hfc]
                simp
                exact hsw.2.2.1
              have hAp : f.pos ≤ (skipWhitespace fc).pos := by
                have g1 := hswc.2.2.2
                have g2 : fc.pos = (skipWhitespace f).pos + 1 := by rw [hfc]
                have g3 := hsw.2.2.2
                omega
              have hlevE : (skipWhitespace fc).level ≤ 100 := by
                rw [hAl]
                exact hlev
              cases hpv : parseValue fuel (skipWhitespace fc) with
              | none =>
                  rw [hpv] at h
                  simp at h
              | some r =>
                  cases r with
                  | error e4 =>
                      rw [hpv] at h
                      simp only [Option.some.injEq, Except.error.injEq] at h
                      subst h
                      have := (hV (skipWhitespace fc) hlevE).1 _ hpv
                      rw [hAi] at this
                      exact this
                  | ok pF =>
                      obtain ⟨fF, dV⟩ := pF
                      rw [hpv] at h
                      simp only at h
                      obtain ⟨hF1, hF2, hF3, hF4⟩ := (hV (skipWhitespace fc) hlevE).2 fF dV hpv
                      have hlevF : fF.level ≤ 100 := by
                        rw [hF2, hAl]
                        exact hlev
                      have := (hAL fF _ false hlevF).1 e h
                      rw [hF1, hAi] at this
                      exact this
  · intro f' d h
    simp only [arrLoop] at h
    by_cases hcl : peekByte (skipWhitespace f) = some 93
    · rw [if_pos hcl] at h
      simp only [Option.some.injEq, Except.ok.injEq, Prod.mk.injEq] at h
      obtain ⟨h1, -⟩ := h
      subst h1
      refine ⟨by simp [decLevel, hsw.1], by simp [decLevel, hsw.2.1], by simp [decLevel, hsw.2.2.1], ?_⟩
      have := hsw.2.2.2
      simp [decLevel]
      omega
    · rw [if_neg hcl] at h
      cases first with
      | true =>
          simp only at h
          rw [if_pos trivial] at h
          simp only at h
          have hAi : (skipWhitespace f).input = f.input := hsw.1
          have hAl : (skipWhitespace f).level = f.level := hsw.2.1
          have hAc : (skipWhitespace f).color = f.color := hsw.2.2.1
          have hAp : f.pos ≤ (skipWhitespace f).pos := hsw.2.2.2
          have hlevE : (skipWhitespace f).level ≤ 100 := by
            rw [hAl]
            exact hlev
          cases hpv : parseValue fuel (skipWhitespace f) with
          | none =>
              rw [hpv] at h
              simp at h
          | some r =>
              cases r with
              | error e4 =>
                  rw [hpv] at h
                  simp at h
              | ok pF =>
                  obtain ⟨fF, dV⟩ := pF
                  rw [hpv] at h
                  simp only at h
                  obtain ⟨hF1, hF2, hF3, hF4⟩ := (hV (skipWhitespace f) hlevE).2 fF dV hpv
                  have hlevF : fF.level ≤ 100 := by
                    rw [hF2, hAl]
                    exact hlev
                  obtain ⟨k1, k2, k3, k4⟩ := (hAL fF _ false hlevF).2 f' d h
                  have hc1 : f'.input = f.input := by rw [k1, hF1, hAi]
                  have hc3 : f'.color = f.color := by rw [k3, hF3, hAc]
                  have hc2 : f'.level = f.level - 1 := by rw [k2, hF2, hAl]
                  refine ⟨hc1, hc2, hc3, by omega⟩
      | false =>
          rw [if_neg Bool.false_ne_true] at h
          cases hc44 : expectByte (skipWhitespace f) 44 with
          | error e3 =>
              rw [hc44] at h
              simp at h
          | ok fc =>
              rw [hc44] at h
              simp only at h
              obtain ⟨hfc, -⟩ := expectByte_ok_inv hc44
              have hswc := skipWhitespace_state fc
              have hAi : (skipWhitespace fc).input = f.input := by
                rw [hswc.1, hfc]
                simp
                exact hsw.1
              have hAl : (skipWhitespace fc).level = f.level := by
                rw [hswc.2.1, hfc]
                simp
                exact hsw.2.1
              have hAc : (skipWhitespace fc).color = f.color := by
                rw [hswc.2.2.1, hfc]
                simp
                exact hsw.2.2.1
              have hAp : f.pos ≤ (skipWhitespace fc).pos := by
                have g1 := hswc.2.2.2
                have g2 : fc.pos = (skipWhitespace f).pos + 1 := by rw [hfc]
                have g3 := hsw.2.2.2
                omega
              have hlevE : (skipWhitespace fc).level ≤ 100 := by
                rw [hAl]
                exact hlev
              cases hpv : parseValue fuel (skipWhitespace fc) with
              | none =>
                  rw [hpv] at h
                  simp at h
              | some r =>
                  cases r with
                  | error e4 =>
                      rw [hpv] at h
                      simp at h
                  | ok pF =>
                      obtain ⟨fF, dV⟩ := pF
                      rw [hpv] at h
                      simp only at h
                      obtain ⟨hF1, hF2, hF3, hF4⟩ := (hV (skipWhitespace fc) hlevE).2 fF dV hpv
                      have hlevF : fF.level ≤ 100 := by
                        rw [hF2, hAl]
                        exact hlev
                      obtain ⟨k1, k2, k3, k4⟩ := (hAL fF _ false hlevF).2 f' d h
                      have hc1 : f'.input = f.input := by rw [k1, hF1, hAi]
                      have hc3 : f'.color = f.color := by rw [k3, hF3, hAc]
                      have hc2 : f'.level = f.level - 1 := by rw [k2, hF2, hAl]
                      refine ⟨hc1, hc2, hc3, by omega⟩

theorem structuralInv : ∀ fuel : Nat,
    (∀ f : Fmt, f.level ≤ 100 → PV fuel f) ∧
    (∀ f : Fmt, f.level ≤ 100 → PO fuel f) ∧
    (∀ (f : Fmt) (acc : List Nat) (first : Bool), f.level ≤ 100 → OL fuel f acc first) ∧
    (∀ f : Fmt, f.level ≤ 100 → PA fuel f) ∧
    (∀ (f : Fmt) (acc : List Nat) (first : Bool), f.level ≤ 100 → AL fuel f acc first) := by
  intro fuel
  induction fuel with
  | zero =>
      exact ⟨fun f _ => pv_zero f, fun f _ => po_zero f,
        fun f acc first _ => ol_zero f acc first,
        fun f _ => pa_zero f, fun f acc first _ => al_zero f acc first⟩
  | succ n ih =>
      obtain ⟨iV, iO, iOL, iA, iAL⟩ := ih
      exact ⟨pv_succ n iO iA, po_succ n iOL, ol_succ n iV iOL,
        pa_succ n iAL, al_succ n iV iAL⟩

theorem format_err {fuel : Nat} {f : Fmt} {e : FormatError} (hlev : f.level ≤ 100)
    (h : format fuel f = some (.error e)) : errOffsetOk f.input e := by
  simp only [format] at h
  have hbi : (skipStartBom f).input = f.input := by
    unfold skipStartBom
    split <;> rfl
  have hbl : (skipStartBom f).level = f.level := by
    unfold skipStartBom
    split <;> rfl
  have hsw := skipWhitespace_state (skipStartBom f)
  have hlev1 : (skipWhitespace (skipStartBom f)).level ≤ 100 := by
    rw [hsw.2.1, hbl]
    exact hlev
  cases hpv : parseValue fuel (skipWhitespace (skipStartBom f)) with
  | none => rw [hpv] at h; simp at h
  | some r =>
      cases r with
      | error e2 =>
          rw [hpv] at h
          simp only [Option.some.injEq, Except.error.injEq] at h
          subst h
          have := ((structuralInv fuel).1 _ hlev1).1 _ hpv
          rw [hsw.1, hbi] at this
          exact this
      | ok p =>
          obtain ⟨f2, d⟩ := p
          rw [hpv] at h
          simp only at h
          cases hpk : peekByte (skipWhitespace f2) with
          | none => rw [hpk] at h; simp at h
          | some b =>
              rw [hpk] at h
              simp only [Option.some.injEq, Except.error.injEq] at h
              subst h
              obtain ⟨hF1, -, -, -⟩ := ((structuralInv fuel).1 _ hlev1).2 f2 d hpv
              have hswf2 := skipWhitespace_state f2
              have hin : (skipWhitespace f2).input = f.input := by
                rw [hswf2.1, hF1, hsw.1, hbi]
              show f.input.get? (skipWhitespace f2).pos = some b
              rw [← hin]
              exact hpk

theorem parseStringLoop_badEscape {start : Nat} {mode : StrMode} {f : Fmt} {e : Nat}
    {rest : List Nat} (hd : f.input.drop f.pos = 92 :: e :: rest)
    (hns : ¬(e = 34 ∨ e = 92 ∨ e = 47 ∨ e = 98 ∨ e = 102 ∨ e = 110 ∨ e = 114 ∨ e = 116))
    (hne117 : ¬e = 117) :
    parseStringLoop start mode f = .error (.invalidEscape e (f.pos + 2)) := by
  have hpk : peekByte f = some 92 := peekByte_of_drop hd
  have hd1 : ({ f with pos := f.pos + 1 } : Fmt).input.drop
      ({ f with pos := f.pos + 1 } : Fmt).pos = e :: rest := drop_cons_succ hd
  have hn : nextByte { f with pos := f.pos + 1 } =
      some (e, { f with pos := f.pos + 1 + 1 }) := by
    simp [nextByte, peekByte_of_drop hd1]
  rw [parseStringLoop, hpk]
  simp
  split
  · rename_i hh
    rw [hn] at hh
    cases hh
  · rename_i e2 f2 hh
    rw [hn] at hh
    cases hh
    rw [if_neg hns, if_neg hne117]

theorem cexC1_eq : formatBytes 2 [34, 92, 120, 34] .noColor =
    some (.error (.invalidEscape 120 3)) := by
  have hpk : peekByte (⟨[34, 92, 120, 34], 0, 0, .noColor⟩ : Fmt) = some 34 := rfl
  have hstr : parseString (⟨[34, 92, 120, 34], 0, 0, .noColor⟩ : Fmt) .val = .error (.invalidEscape 120 3) := by
    rw [parseString_eq hpk]
    have hbad := @parseStringLoop_badEscape 0 StrMode.val
      ({ input := [34, 92, 120, 34], pos := 1, level := 0, color := .noColor } : Fmt)
      120 [34] rfl (by decide) (by decide)
    simpa using hbad
  have hpv2 : parseValue 2 (skipWhitespace (skipStartBom
      (⟨[34, 92, 120, 34], 0, 0, .noColor⟩ : Fmt))) =
      some (.error (.invalidEscape 120 3)) := by
    rw [show parseValue 2 (skipWhitespace (skipStartBom
      (⟨[34, 92, 120, 34], 0, 0, .noColor⟩ : Fmt))) =
      some (parseString (⟨[34, 92, 120, 34], 0, 0, .noColor⟩ : Fmt) .val) from rfl, hstr]
  simp only [formatBytes, format]
  rw [hpv2]

/-- C1 counterexample: on the buffer `" \ x "` (bytes 34 92 120 34) the
formatter fails with InvalidEscape 120 at offset 3, but the offending
escape byte 120 sits at offset 2 and offset 3 holds the closing quote:
the stored offset is the position after the cursor consumed the byte, not
the position of the byte itself. -/
theorem error_offsets_claim_false :
    formatBytes 2 [34, 92, 120, 34] .noColor =
      some (.error (.invalidEscape 120 3)) ∧
    [34, 92, 120, 34].get? 2 = some 120 ∧
    [34, 92, 120, 34].get? 3 ≠ some 120 := ⟨cexC1_eq, rfl, by decide⟩

/-- C1 (amended): every error raised by the formatter is tied to the input
by the offset discipline the code actually implements: InvalidByte carries
the offset of the offending byte itself; InvalidEscape carries the offset
one past the offending escape byte (the backslash sits two before the
stored offset); InvalidUtf8 carries the sequence start for 2-byte
sequences but the position one past the consumed bytes for 3- and 4-byte
sequences; MaxIndentLevel carries level 100 and an offset strictly after
the opening bracket that overflowed the nesting cap. -/
theorem error_offset_discipline (fuel : Nat) (input : List Nat) (color : Color)
    (e : FormatError) (h : formatBytes fuel input color = some (.error e)) :
    errOffsetOk input e := by
  have hh : format fuel (⟨input, 0, 0, color⟩ : Fmt) = some (.error e) := h
  exact format_err (by show (0 : Nat) ≤ 100; decide) hh

/-- Witness for the amended C1 theorem: a lone `:` byte fails with
InvalidByte 58 at offset 0, and offset 0 indeed holds byte 58. -/
theorem error_offset_discipline_witness :
    formatBytes 1 [58] .noColor = some (.error (.invalidByte 58 0)) ∧
    errOffsetOk [58] (.invalidByte 58 0) :=
  ⟨rfl, error_offset_discipline 1 [58] .noColor _ rfl⟩

/-- C3: the number scanner consumes the maximal grammar-conformant prefix
and stops at the first non-conforming byte without error: on `1234xxxx` it
emits `1234` leaving the cursor at the first `x`; on `012345` it emits
only `0` leaving the cursor at the following digit; on `1.000` it emits
`1.000`; and on `1.` (a decimal point with no digit after it) it returns
an error. -/
theorem number_scanner_examples :
    parseNumber ⟨[49, 50, 51, 52, 120, 120, 120, 120], 0, 0, .noColor⟩ =
      .ok (⟨[49, 50, 51, 52, 120, 120, 120, 120], 4, 0, .noColor⟩, [49, 50, 51, 52]) ∧
    parseNumber ⟨[48, 49, 50, 51, 52, 53], 0, 0, .noColor⟩ =
      .ok (⟨[48, 49, 50, 51, 52, 53], 1, 0, .noColor⟩, [48]) ∧
    parseNumber ⟨[49, 46, 48, 48, 48], 0, 0, .noColor⟩ =
      .ok (⟨[49, 46, 48, 48, 48], 5, 0, .noColor⟩, [49, 46, 48, 48, 48]) ∧
    parseNumber ⟨[49, 46], 0, 0, .noColor⟩ = .error .eof := by
  refine ⟨?_, ?_, ?_, ?_⟩ <;> rfl

set_option maxRecDepth 10000 in
theorem contB_iff : ∀ b : Nat, b < 256 → (contB b = true ↔ 128 ≤ b ∧ b ≤ 191) := by
  decide

set_option maxRecDepth 10000 in
theorem utf8_whole_one (a : Nat) (ha : a < 256) :
    utf8AcceptsWhole [a] = refUtf8Accept [a] := by
  have hall : ∀ x < 256, utf8AcceptsWhole [x] = refUtf8Accept [x] := by decide
  exact hall a ha

theorem utf8_whole_two (a b : Nat) (ha : a < 256) (hb : b < 256) :
    utf8AcceptsWhole [a, b] = refUtf8Accept [a, b] := by
  have hcb := contB_iff b hb
  simp only [utf8AcceptsWhole, refUtf8Accept, nextUtf8Char, nextByte, peekByte]
  simp
  split_ifs <;> simp_all <;> omega

set_option maxHeartbeats 3000000 in
theorem utf8_whole_three (a b c : Nat) (ha : a < 256) (hb : b < 256) (hc : c < 256) :
    utf8AcceptsWhole [a, b, c] = refUtf8Accept [a, b, c] := by
  have hcb := contB_iff b hb
  have hcc := contB_iff c hc
  simp only [utf8AcceptsWhole, refUtf8Accept, nextUtf8Char, nextByte, peekByte, utf3Ok]
  simp
  split_ifs <;> simp_all <;> omega

set_option maxHeartbeats 6000000 in
theorem utf8_whole_four (a b c d : Nat) (ha : a < 256) (hb : b < 256) (hc : c < 256)
    (hd : d < 256) : utf8AcceptsWhole [a, b, c, d] = refUtf8Accept [a, b, c, d] := by
  have hcb := contB_iff b hb
  have hcc := contB_iff c hc
  have hcd := contB_iff d hd
  simp only [utf8AcceptsWhole, refUtf8Accept, nextUtf8Char, nextByte, peekByte, utf4Ok]
  simp
  split_ifs <;> simp_all <;> omega

/-- C2 amended: for every sequence of 1 to 4 bytes, `next_utf8_char` run
on exactly those bytes succeeds with the cursor advanced by the whole
sequence length if and only if the reference UTF-8 validator accepts the
bytes as the encoding of a single Unicode scalar value (rejecting overlong
encodings, surrogates, and code points above U+10FFFF). -/
theorem utf8_validator_amended (bs : List Nat) (h1 : 1 ≤ bs.length)
    (h4 : bs.length ≤ 4) (hb : ∀ b ∈ bs, b < 256) :
    utf8AcceptsWhole bs = refUtf8Accept bs := by
  cases bs with
  | nil => simp at h1
  | cons a t =>
    cases t with
    | nil => exact utf8_whole_one a (hb a (by simp))
    | cons b t2 =>
      cases t2 with
      | nil => exact utf8_whole_two a b (hb a (by simp)) (hb b (by simp))
      | cons c t3 =>
        cases t3 with
        | nil =>
            exact utf8_whole_three a b c (hb a (by simp)) (hb b (by simp))
              (hb c (by simp))
        | cons d t4 =>
          cases t4 with
          | nil =>
              exact utf8_whole_four a b c d (hb a (by simp)) (hb b (by simp))
                (hb c (by simp)) (hb d (by simp))
          | cons e t5 => simp at h4

/-- Witness for the amended C2 theorem at the valid 2-byte sequence
`CE A9` (U+03A9). -/
theorem utf8_validator_amended_witness :
    1 ≤ ([206, 169] : List Nat).length ∧ ([206, 169] : List Nat).length ≤ 4 ∧
    (∀ b ∈ ([206, 169] : List Nat), b < 256) ∧
    utf8AcceptsWhole [206, 169] = refUtf8Accept [206, 169] :=
  ⟨by decide, by decide, by decide,
   utf8_validator_amended [206, 169] (by decide) (by decide) (by decide)⟩

/-- C2 counterexample: on the 2-byte sequence `41 80`, `next_utf8_char`
succeeds (consuming only one byte) while the reference validator rejects
the two bytes as a single scalar value, so acceptance does not coincide
with the reference validator and the cursor does not advance by the
sequence length. -/
theorem utf8_one_to_four_claim_false :
    nextUtf8Char { input := [65, 128], pos := 0, level := 0, color := .noColor } =
      .ok { input := [65, 128], pos := 1, level := 0, color := .noColor } ∧
    refUtf8Accept [65, 128] = false ∧ (1 : Nat) ≠ 2 := by
  refine ⟨by rfl, by rfl, by decide⟩

theorem parseValue_openChainPad : ∀ (j : Nat), ∀ (fuel : Nat) (f : Fmt) (m : Nat)
    (tail : List Nat),
    f.input.drop f.pos = List.replicate m 91 ++ tail →
    f.level + j = 100 → j + 2 ≤ m → 3 * j + 3 ≤ fuel →
    parseValue fuel f = some (.error (.maxIndentLevel 100 (f.pos + j + 1))) := by
  intro j
  induction j with
  | zero =>
      intro fuel f m tail hd hlev hm hfuel
      obtain ⟨F, rfl⟩ : ∃ F, fuel = F + 1 + 1 := ⟨fuel - 2, by omega⟩
      obtain ⟨m2, rfl⟩ : ∃ m2, m = m2 + 2 := ⟨m - 2, by omega⟩
      have hd' : f.input.drop f.pos = 91 :: (91 :: (List.replicate m2 91 ++ tail)) := by
        rw [hd, show m2 + 2 = (m2 + 1) + 1 from rfl, List.replicate_succ 91 (m2 + 1),
          List.replicate_succ 91 m2]
        simp
      have hpk : peekByte f = some 91 := peekByte_of_drop hd'
      have hd1 : f.input.drop (f.pos + 1) = 91 :: (List.replicate m2 91 ++ tail) :=
        drop_cons_succ hd'
      have hsw : skipWhitespace { f with pos := f.pos + 1 } =
          { f with pos := f.pos + 1 } := skipWhitespace_of_head hd1 (by rfl)
      have hpk1 : peekByte { f with pos := f.pos + 1 } = some 91 :=
        peekByte_of_drop hd1
      have hne : peekByte { f with pos := f.pos + 1 } ≠ some 93 := by
        rw [hpk1]
        simp
      simp only [parseValue, hpk]
      norm_num
      simp only [parseArray, expectByte_ok_of_peek hpk]
      rw [hsw]
      rw [if_neg hne]
      have hinc : incLevel { f with pos := f.pos + 1 } =
          .error (.maxIndentLevel 100 (f.pos + 1)) := by
        unfold incLevel MAX_INDENT_LEVEL
        have h100 : f.level = 100 := by omega
        simp [h100]
      rw [hinc]
  | succ j ih =>
      intro fuel f m tail hd hlev hm hfuel
      obtain ⟨F, rfl⟩ : ∃ F, fuel = F + 1 + 1 + 1 := ⟨fuel - 3, by omega⟩
      obtain ⟨m2, rfl⟩ : ∃ m2, m = m2 + 2 := ⟨m - 2, by omega⟩
      have hd' : f.input.drop f.pos = 91 :: (List.replicate (m2 + 1) 91 ++ tail) := by
        rw [hd, show m2 + 2 = (m2 + 1) + 1 from rfl, List.replicate_succ 91 (m2 + 1)]
        simp
      have hpk : peekByte f = some 91 := peekByte_of_drop hd'
      have hd1 : f.input.drop (f.pos + 1) = List.replicate (m2 + 1) 91 ++ tail :=
        drop_cons_succ hd'
      have hd1c : f.input.drop (f.pos + 1) = 91 :: (List.replicate m2 91 ++ tail) := by
        rw [hd1, List.replicate_succ 91 m2]
        simp
      have hsw : skipWhitespace { f with pos := f.pos + 1 } =
          { f with pos := f.pos + 1 } := skipWhitespace_of_head hd1c (by rfl)
      simp only [parseValue, hpk]
      norm_num
      simp only [parseArray, expectByte_ok_of_peek hpk]
      rw [hsw]
      have hpk91 : peekByte { f with pos := f.pos + 1 } = some 91 :=
        peekByte_of_drop hd1c
      have hne : peekByte { f with pos := f.pos + 1 } ≠ some 93 := by
        rw [hpk91]
        simp
      rw [if_neg hne]
      have hinc : incLevel { f with pos := f.pos + 1 } =
          .ok { f with pos := f.pos + 1, level := f.level + 1 } := by
        unfold incLevel MAX_INDENT_LEVEL
        have hlt : ¬(100 ≤ f.level) := by omega
        simp [hlt]
      rw [hinc]
      simp only [arrLoop]
      have hsw2 : skipWhitespace { f with pos := f.pos + 1, level := f.level + 1 } =
          { f with pos := f.pos + 1, level := f.level + 1 } :=
        skipWhitespace_of_head hd1c (by rfl)
      rw [hsw2]
      have hpk2 : peekByte { f with pos := f.pos + 1, level := f.level + 1 } =
          some 91 := peekByte_of_drop hd1c
      have hne2 : peekByte { f with pos := f.pos + 1, level := f.level + 1 } ≠
          some 93 := by
        rw [hpk2]
        simp
      rw [if_neg hne2]
      have hrec := ih F { f with pos := f.pos + 1, level := f.level + 1 } (m2 + 1) tail
        hd1 (by show f.level + 1 + j = 100; omega) (by omega) (by omega)
      have harith : f.pos + 1 + j + 1 = f.pos + (j + 1) + 1 := by omega
      simp [hrec, harith]

theorem formatBytes_openChainPad (n : Nat) (hn : 102 ≤ n) (tail : List Nat) (c : Color)
    (fuel : Nat) (hf : 303 ≤ fuel) :
    formatBytes fuel (List.replicate n 91 ++ tail) c =
      some (.error (.maxIndentLevel 100 101)) := by
  obtain ⟨k, rfl⟩ : ∃ k, n = k + 1 := ⟨n - 1, by omega⟩
  have hrepc : List.replicate (k + 1) (91 : Nat) ++ tail =
      91 :: (List.replicate k 91 ++ tail) := by
    rw [List.replicate_succ 91 k]
    simp
  simp only [formatBytes, format]
  have hbom : skipStartBom (⟨List.replicate (k + 1) 91 ++ tail, 0, 0, c⟩ : Fmt) =
      (⟨List.replicate (k + 1) 91 ++ tail, 0, 0, c⟩ : Fmt) := by
    apply skipStartBom_eq_self
    show (List.replicate (k + 1) (91 : Nat) ++ tail).get? 0 ≠ some 239
    rw [hrepc]
    simp
  have hsw : skipWhitespace (⟨List.replicate (k + 1) 91 ++ tail, 0, 0, c⟩ : Fmt) =
      (⟨List.replicate (k + 1) 91 ++ tail, 0, 0, c⟩ : Fmt) :=
    skipWhitespace_of_head (by
      rw [show (⟨List.replicate (k + 1) 91 ++ tail, 0, 0, c⟩ : Fmt).pos = 0 from rfl,
        List.drop_zero]
      exact hrepc) (by rfl)
  have hpv := parseValue_openChainPad 100 fuel
    (⟨List.replicate (k + 1) 91 ++ tail, 0, 0, c⟩ : Fmt) (k + 1) tail
    (by rw [show (⟨List.replicate (k + 1) 91 ++ tail, 0, 0, c⟩ : Fmt).pos = 0 from rfl,
      List.drop_zero]) (by rfl) (by omega) (by omega)
  rw [hbom, hsw, hpv]

theorem specValue_nestArrays : ∀ k : Nat,
    SpecValue (List.replicate (k + 1) 91 ++ List.replicate (k + 1) 93) := by
  intro k
  induction k with
  | zero =>
      have h := SpecValue.emptyArr [] (by intro b hb; cases hb)
      simpa using h
  | succ k ih =>
      have he : SpecElems (List.replicate (k + 1) 91 ++ List.replicate (k + 1) 93) := by
        have h1 := SpecElems.one [] _ [] (by intro b hb; cases hb) ih
          (by intro b hb; cases hb)
        simpa using h1
      have h := SpecValue.arr _ he
      have hsh : (91 : Nat) :: ((List.replicate (k + 1) 91 ++ List.replicate (k + 1) 93)
          ++ [93]) = List.replicate (k + 2) 91 ++ List.replicate (k + 2) 93 := by
        rw [show k + 2 = (k + 1) + 1 from rfl, List.replicate_succ 91 (k + 1),
          List.replicate_succ' (k + 1) 93]
        simp [List.append_assoc]
      rw [hsh] at h
      exact h

/-- C6 counterexample: 102 open brackets followed by 102 close brackets
is a single JSON value of the spec grammar with nothing around it, yet
the formatter rejects it with MaxIndentLevel, so acceptance is not
characterized by `one JSON value surrounded by optional whitespace`. -/
theorem single_value_claim_false :
    SpecValue (List.replicate 102 91 ++ List.replicate 102 93) ∧
    formatBytes 400 (List.replicate 102 91 ++ List.replicate 102 93) .noColor =
      some (.error (.maxIndentLevel 100 101)) :=
  ⟨specValue_nestArrays 101,
    formatBytes_openChainPad 102 (by omega) (List.replicate 102 93) .noColor 400 (by omega)⟩

/-- Case analysis of a `format` run around its `parse_value` call: a
success means the value parse succeeded and only whitespace followed, and
a leftover non-whitespace byte after the parsed value turns into an
InvalidByte error at its offset. -/
theorem format_run_cases (fuel : Nat) (f : Fmt) :
    (∀ d, format fuel f = some (.ok d) ↔
      ∃ f2, parseValue fuel (skipWhitespace (skipStartBom f)) = some (.ok (f2, d)) ∧
        peekByte (skipWhitespace f2) = none) ∧
    (∀ f2 d b, parseValue fuel (skipWhitespace (skipStartBom f)) = some (.ok (f2, d)) →
      peekByte (skipWhitespace f2) = some b →
      format fuel f = some (.error (.invalidByte b (skipWhitespace f2).pos))) := by
  constructor
  · intro d
    constructor
    · intro h
      simp only [format] at h
      cases hpv : parseValue fuel (skipWhitespace (skipStartBom f)) with
      | none => rw [hpv] at h; simp at h
      | some r =>
          cases r with
          | error e2 => rw [hpv] at h; simp at h
          | ok p =>
              obtain ⟨f2, d2⟩ := p
              rw [hpv] at h
              simp only at h
              cases hpk : peekByte (skipWhitespace f2) with
              | some b => rw [hpk] at h; simp at h
              | none =>
                  rw [hpk] at h
                  simp only [Option.some.injEq, Except.ok.injEq] at h
                  subst h
                  exact ⟨f2, rfl, hpk⟩
    · rintro ⟨f2, hpv, hpk⟩
      simp only [format]
      rw [hpv]
      simp only
      rw [hpk]
  · intro f2 d b hpv hpk
    simp only [format]
    rw [hpv]
    simp only
    rw [hpk]

theorem parsersMono : ∀ fuel : Nat,
    (∀ f r, parseValue fuel f = some r → parseValue (fuel + 1) f = some r) ∧
    (∀ f r, parseObject fuel f = some r → parseObject (fuel + 1) f = some r) ∧
    (∀ f acc first r, objLoop fuel f acc first = some r →
      objLoop (fuel + 1) f acc first = some r) ∧
    (∀ f r, parseArray fuel f = some r → parseArray (fuel + 1) f = some r) ∧
    (∀ f acc first r, arrLoop fuel f acc first = some r →
      arrLoop (fuel + 1) f acc first = some r) := by
  intro fuel
  induction fuel with
  | zero =>
      refine ⟨?_, ?_, ?_, ?_, ?_⟩
      · intro f r h; simp [parseValue] at h
      · intro f r h; simp [parseObject] at h
      · intro f acc first r h; simp [objLoop] at h
      · intro f r h; simp [parseArray] at h
      · intro f acc first r h; simp [arrLoop] at h
  | succ n ih =>
      obtain ⟨iV, iO, iOL, iA, iAL⟩ := ih
      refine ⟨?_, ?_, ?_, ?_, ?_⟩
      · intro f r h
        simp only [parseValue] at h ⊢
        cases hpk : peekByte f with
        | none => rw [hpk] at h; simp only at h ⊢; exact h
        | some b =>
            rw [hpk] at h
            simp only at h ⊢
            by_cases h34 : b = 34
            · rw [if_pos h34] at h ⊢; exact h
            · rw [if_neg h34] at h ⊢
              by_cases hnum : b = 45 ∨ (48 ≤ b ∧ b ≤ 57)
              · rw [if_pos hnum] at h ⊢; exact h
              · rw [if_neg hnum] at h ⊢
                by_cases h123 : b = 123
                · rw [if_pos h123] at h ⊢; exact iO f r h
                · rw [if_neg h123] at h ⊢
                  by_cases h91 : b = 91
                  · rw [if_pos h91] at h ⊢; exact iA f r h
                  · rw [if_neg h91] at h ⊢; exact h
      · intro f r h
        simp only [parseObject] at h ⊢
        cases hx : expectByte f 123 with
        | error e2 => rw [hx] at h; simp only at h ⊢; exact h
        | ok f1 =>
            rw [hx] at h
            simp only at h ⊢
            by_cases hcl : peekByte (skipWhitespace f1) = some 125
            · rw [if_pos hcl] at h ⊢; exact h
            · rw [if_neg hcl] at h ⊢
              cases hinc : incLevel (skipWhitespace f1) with
              | error e2 => rw [hinc] at h; simp only at h ⊢; exact h
              | ok f3 => rw [hinc] at h; simp only at h ⊢; exact iOL f3 _ true r h
      · intro f acc first r h
        simp only [objLoop] at h ⊢
        by_cases hcl : peekByte (skipWhitespace f) = some 125
        · rw [if_pos hcl] at h ⊢; exact h
        · rw [if_neg hcl] at h ⊢
          split at h
          · rename_i e2 heq
            exact h
          · rename_i fA accA heq
            cases hs : parseString fA .key with
              | error e2 => rw [hs] at h; simp only at h ⊢; exact h
              | ok pB =>
                  obtain ⟨fB, dK⟩ := pB
                  rw [hs] at h
                  simp only at h ⊢
                  cases h58 : expectByte (skipWhitespace fB) 58 with
                  | error e3 => rw [h58] at h; simp only at h ⊢; exact h
                  | ok fD =>
                      rw [h58] at h
                      simp only at h ⊢
                      cases hpv : parseValue n (skipWhitespace fD) with
                      | none => rw [hpv] at h; simp at h
                      | some rr =>
                          rw [hpv] at h
                          rw [iV _ rr hpv]
                          cases rr with
                          | error e4 => simp only at h ⊢; exact h
                          | ok pF =>
                              obtain ⟨fF, dV⟩ := pF
                              simp only at h ⊢
                              exact iOL fF _ false r h
      · intro f r h
        simp only [parseArray] at h ⊢
        cases hx : expectByte f 91 with
        | error e2 => rw [hx] at h; simp only at h ⊢; exact h
        | ok f1 =>
            rw [hx] at h
            simp only at h ⊢
            by_cases hcl : peekByte (skipWhitespace f1) = some 93
            · rw [if_pos hcl] at h ⊢; exact h
            · rw [if_neg hcl] at h ⊢
              cases hinc : incLevel (skipWhitespace f1) with
              | error e2 => rw [hinc] at h; simp only at h ⊢; exact h
              | ok f3 => rw [hinc] at h; simp only at h ⊢; exact iAL f3 _ true r h
      · intro f acc first r h
        simp only [arrLoop] at h ⊢
        by_cases hcl : peekByte (skipWhitespace f) = some 93
        · rw [if_pos hcl] at h ⊢; exact h
        · rw [if_neg hcl] at h ⊢
          split at h
          · rename_i e2 heq
            exact h
          · rename_i fA accA heq
            cases hpv : parseValue n fA with
              | none => rw [hpv] at h; simp at h
              | some rr =>
                  rw [hpv] at h
                  rw [iV _ rr hpv]
                  cases rr with
                  | error e4 => simp only at h ⊢; exact h
                  | ok pF =>
                      obtain ⟨fF, dV⟩ := pF
                      simp only at h ⊢
                      exact iAL fF _ false r h

theorem parseValue_mono_le {fuel fuel2 : Nat} {f : Fmt} {r : Except FormatError (Fmt × List Nat)}
    (hle : fuel ≤ fuel2) (h : parseValue fuel f = some r) : parseValue fuel2 f = some r := by
  induction fuel2 with
  | zero =>
      have : fuel = 0 := by omega
      subst this
      exact h
  | succ n ih =>
      by_cases he : fuel = n + 1
      · subst he; exact h
      · exact (parsersMono n).1 f r (ih (by omega))

theorem loopAcc : ∀ fuel : Nat,
    (∀ f acc first f' d, objLoop fuel f acc first = some (.ok (f', d)) →
      ∃ D, d = acc ++ D ∧ ∀ acc2, objLoop fuel f acc2 first = some (.ok (f', acc2 ++ D))) ∧
    (∀ f acc first f' d, arrLoop fuel f acc first = some (.ok (f', d)) →
      ∃ D, d = acc ++ D ∧ ∀ acc2, arrLoop fuel f acc2 first = some (.ok (f', acc2 ++ D))) := by
  intro fuel
  induction fuel with
  | zero =>
      constructor
      · intro f acc first f' d h; simp [objLoop] at h
      · intro f acc first f' d h; simp [arrLoop] at h
  | succ n ih =>
      obtain ⟨iOL, iAL⟩ := ih
      constructor
      · intro f acc first f' d h
        simp only [objLoop] at h
        by_cases hcl : peekByte (skipWhitespace f) = some 125
        · rw [if_pos hcl] at h
          simp only [Option.some.injEq, Except.ok.injEq, Prod.mk.injEq] at h
          obtain ⟨h1, h2⟩ := h
          refine ⟨writeLn ++ writeIndent f' ++ writeEndObj f', ?_, ?_⟩
          · rw [← h2, h1]
            simp [List.append_assoc]
          · intro acc2
            simp only [objLoop]
            rw [if_pos hcl, h1]
            simp [List.append_assoc]
        · rw [if_neg hcl] at h
          cases first with
          | true =>
              simp only at h
              rw [if_pos trivial] at h
              simp only at h
              cases hs : parseString (skipWhitespace f) .key with
              | error e2 =>
                  rw [hs] at h
                  simp at h
              | ok pB =>
                  obtain ⟨fB, dK⟩ := pB
                  rw [hs] at h
                  simp only at h
                  cases h58 : expectByte (skipWhitespace fB) 58 with
                  | error e3 =>
                      rw [h58] at h
                      simp at h
                  | ok fD =>
                      rw [h58] at h
                      simp only at h
                      cases hpv : parseValue n (skipWhitespace fD) with
                      | none =>
                          rw [hpv] at h
                          simp at h
                      | some rr =>
                          rw [hpv] at h
                          cases rr with
                          | error e4 => simp at h
                          | ok pF =>
                              obtain ⟨fF, dV⟩ := pF
                              simp only at h
                              obtain ⟨D2, hD2, hgen⟩ := iOL fF _ false f' d h
                              refine ⟨[] ++ writeIndent (skipWhitespace f) ++ dK ++ writeNameSep fD ++ dV ++ D2, ?_, ?_⟩
                              · rw [hD2]
                                simp [List.append_assoc]
                              · intro acc2
                                simp only [objLoop]
                                rw [if_neg hcl]
                                rw [if_pos trivial]
                                simp only []
                                simp only [hs, h58, hpv, hgen]
                                simp [List.append_assoc]
          | false =>
              rw [if_neg Bool.false_ne_true] at h
              cases hc44 : expectByte (skipWhitespace f) 44 with
              | error e3 =>
                  rw [hc44] at h
                  simp at h
              | ok fc =>
                  rw [hc44] at h
                  simp only at h
                  cases hs : parseString (skipWhitespace fc) .key with
                  | error e2 =>
                      rw [hs] at h
                      simp at h
                  | ok pB =>
                      obtain ⟨fB, dK⟩ := pB
                      rw [hs] at h
                      simp only at h
                      cases h58 : expectByte (skipWhitespace fB) 58 with
                      | error e3 =>
                          rw [h58] at h
                          simp at h
                      | ok fD =>
                          rw [h58] at h
                          simp only at h
                          cases hpv : parseValue n (skipWhitespace fD) with
                          | none =>
                              rw [hpv] at h
                              simp at h
                          | some rr =>
                              rw [hpv] at h
                              cases rr with
                              | error e4 => simp at h
                              | ok pF =>
                                  obtain ⟨fF, dV⟩ := pF
                                  simp only at h
                                  obtain ⟨D2, hD2, hgen⟩ := iOL fF _ false f' d h
                                  refine ⟨writeValueSep fc ++ writeIndent (skipWhitespace fc) ++ dK ++ writeNameSep fD ++ dV ++ D2, ?_, ?_⟩
                                  · rw [hD2]
                                    simp [List.append_assoc]
                                  · intro acc2
                                    simp only [objLoop]
                                    rw [if_neg hcl]
                                    rw [if_neg Bool.false_ne_true, hc44]
                                    simp only []
                                    simp only [hs, h58, hpv, hgen]
                                    simp [List.append_assoc]
      · intro f acc first f' d h
        simp only [arrLoop] at h
        by_cases hcl : peekByte (skipWhitespace f) = some 93
        · rw [if_pos hcl] at h
          simp only [Option.some.injEq, Except.ok.injEq, Prod.mk.injEq] at h
          obtain ⟨h1, h2⟩ := h
          refine ⟨writeLn ++ writeIndent f' ++ writeEndArr f', ?_, ?_⟩
          · rw [← h2, h1]
            simp [List.append_assoc]
          · intro acc2
            simp only [arrLoop]
            rw [if_pos hcl, h1]
            simp [List.append_assoc]
        · rw [if_neg hcl] at h
          cases first with
          | true =>
              simp only at h
              rw [if_pos trivial] at h
              simp only at h
              cases hpv : parseValue n (skipWhitespace f) with
              | none =>
                  rw [hpv] at h
                  simp at h
              | some rr =>
                  rw [hpv] at h
                  cases rr with
                  | error e4 => simp at h
                  | ok pF =>
                      obtain ⟨fF, dV⟩ := pF
                      simp only at h
                      obtain ⟨D2, hD2, hgen⟩ := iAL fF _ false f' d h
                      refine ⟨[] ++ writeIndent (skipWhitespace f) ++ dV ++ D2, ?_, ?_⟩
                      · rw [hD2]
                        simp [List.append_assoc]
                      · intro acc2
                        simp only [arrLoop]
                        rw [if_neg hcl]
                        rw [if_pos trivial]
                        simp only []
                        simp only [hpv, hgen]
                        simp [List.append_assoc]
          | false =>
              rw [if_neg Bool.false_ne_true] at h
              cases hc44 : expectByte (skipWhitespace f) 44 with
              | error e3 =>
                  rw [hc44] at h
                  simp at h
              | ok fc =>
                  rw [hc44] at h
                  simp only at h
                  cases hpv : parseValue n (skipWhitespace fc) with
                  | none =>
                      rw [hpv] at h
                      simp at h
                  | some rr =>
                      rw [hpv] at h
                      cases rr with
                      | error e4 => simp at h
                      | ok pF =>
                          obtain ⟨fF, dV⟩ := pF
                          simp only at h
                          obtain ⟨D2, hD2, hgen⟩ := iAL fF _ false f' d h
                          refine ⟨writeValueSep fc ++ writeIndent (skipWhitespace fc) ++ dV ++ D2, ?_, ?_⟩
                          · rw [hD2]
                            simp [List.append_assoc]
                          · intro acc2
                            simp only [arrLoop]
                            rw [if_neg hcl]
                            rw [if_neg Bool.false_ne_true, hc44]
                            simp only []
                            simp only [hpv, hgen]
                            simp [List.append_assoc]

theorem digitRunLen_le : ∀ l : List Nat, digitRunLen l ≤ l.length := by
  intro l
  induction l with
  | nil => simp [digitRunLen]
  | cons b t ih =>
      rw [digitRunLen]
      by_cases hb : isDigit b = true
      · rw [if_pos hb]
        simp
        omega
      · rw [if_neg hb]
        simp

theorem digitRunLen_take_digits : ∀ l : List Nat,
    ∀ x ∈ l.take (digitRunLen l), isDigit x = true := by
  intro l
  induction l with
  | nil => simp [digitRunLen]
  | cons b t ih =>
      rw [digitRunLen]
      by_cases hb : isDigit b = true
      · rw [if_pos hb]
        intro x hx
        rw [List.take_succ_cons] at hx
        cases hx with
        | head => exact hb
        | tail _ hx2 => exact ih x hx2
      · rw [if_neg hb]
        simp

theorem digitRunLen_append (ds rest : List Nat)
    (hds : ∀ x ∈ ds, isDigit x = true)
    (hstop : ∀ y, rest.head? = some y → isDigit y = false) :
    digitRunLen (ds ++ rest) = ds.length := by
  induction ds with
  | nil =>
      simp only [List.nil_append, List.length_nil]
      cases rest with
      | nil => rfl
      | cons y t =>
          rw [digitRunLen, if_neg]
          simp [hstop y rfl]
  | cons b t ih =>
      rw [List.cons_append, digitRunLen, if_pos (hds b (by simp))]
      rw [ih (fun x hx => hds x (by simp [hx]))]
      simp

theorem expectBytes_run : ∀ (bs : List Nat) (f : Fmt) (rest : List Nat),
    f.input.drop f.pos = bs ++ rest →
    expectBytes f bs = .ok { f with pos := f.pos + bs.length } := by
  intro bs
  induction bs with
  | nil => intro f rest hd; rfl
  | cons b bs ih =>
      intro f rest hd
      have hd' : f.input.drop f.pos = b :: (bs ++ rest) := by simpa using hd
      have hpk : peekByte f = some b := peekByte_of_drop hd'
      have hd1 : f.input.drop (f.pos + 1) = bs ++ rest := drop_cons_succ hd'
      have hx : expectByte f b = .ok { f with pos := f.pos + 1 } :=
        expectByte_ok_of_peek hpk
      simp only [expectBytes, hx]
      have h2 := ih { f with pos := f.pos + 1 } rest hd1
      rw [h2]
      simp
      omega

theorem parseInteger_run {f : Fmt} {s rest : List Nat}
    (hd : f.input.drop f.pos = s ++ rest) (hs : IntShape s)
    (hstop : ∀ y, rest.head? = some y → isDigit y = false) :
    parseInteger f = .ok { f with pos := f.pos + s.length } := by
  cases hs with
  | inl h48 =>
      subst h48
      have hd' : f.input.drop f.pos = 48 :: rest := by simpa using hd
      have hpk : peekByte f = some 48 := peekByte_of_drop hd'
      simp [parseInteger, hpk]
  | inr hnz =>
      obtain ⟨d, ds, hd9a, hd9b, hds, rfl⟩ := hnz
      have hd' : f.input.drop f.pos = d :: (ds ++ rest) := by simpa using hd
      have hpk : peekByte f = some d := peekByte_of_drop hd'
      have h48 : ¬d = 48 := by omega
      have hd1 : f.input.drop (f.pos + 1) = ds ++ rest := drop_cons_succ hd'
      simp only [parseInteger, hpk, if_neg h48, if_pos (And.intro hd9a hd9b)]
      unfold skipDigitsPos
      rw [hd1, digitRunLen_append ds rest hds hstop]
      simp
      omega

theorem parseFraction_run_none {f : Fmt}
    (hpk : peekByte f ≠ some 46) : parseFraction f = .ok f := by
  simp [parseFraction, hpk]

theorem parseFraction_run_some {f : Fmt} {ds rest : List Nat}
    (hd : f.input.drop f.pos = 46 :: (ds ++ rest)) (hne : ds ≠ [])
    (hds : ∀ x ∈ ds, isDigit x = true)
    (hstop : ∀ y, rest.head? = some y → isDigit y = false) :
    parseFraction f = .ok { f with pos := f.pos + 1 + ds.length } := by
  have hpk : peekByte f = some 46 := peekByte_of_drop hd
  obtain ⟨d0, dt, rfl⟩ : ∃ d0 dt, ds = d0 :: dt := by
    cases ds with
    | nil => exact absurd rfl hne
    | cons a t => exact ⟨a, t, rfl⟩
  have hd1 : f.input.drop (f.pos + 1) = d0 :: (dt ++ rest) := by
    have := drop_cons_succ hd
    simpa using this
  have hpk1 : peekByte ({ f with pos := f.pos + 1 } : Fmt) = some d0 :=
    peekByte_of_drop hd1
  have hdig : isDigit d0 = true := hds d0 (by simp)
  simp only [parseFraction, hpk, if_pos rfl]
  simp only [hpk1, hdig, if_pos rfl]
  unfold skipDigitsPos
  have hd2 : f.input.drop (f.pos + 1 + 1) = dt ++ rest := drop_cons_succ hd1
  have hdt : ∀ x ∈ dt, isDigit x = true := fun x hx => hds x (by simp [hx])
  simp only [if_true]
  rw [hd2, digitRunLen_append dt rest hdt hstop]
  simp
  omega

theorem parseExponent_run_none {f : Fmt} {b : Nat}
    (hpk : peekByte f = some b) (hne : ¬(b = 101 ∨ b = 69)) :
    parseExponent f = .ok f := by
  simp only [parseExponent, hpk, if_neg hne]

theorem parseExponent_run_some {f : Fmt} {e : Nat} {sg ds rest : List Nat}
    (hd : f.input.drop f.pos = e :: (sg ++ ds ++ rest))
    (he : e = 101 ∨ e = 69) (hsg : sg = [] ∨ sg = [43] ∨ sg = [45])
    (hne : ds ≠ []) (hds : ∀ x ∈ ds, isDigit x = true)
    (hstop : ∀ y, rest.head? = some y → isDigit y = false) :
    parseExponent f = .ok { f with pos := f.pos + 1 + sg.length + ds.length } := by
  have hpk : peekByte f = some e := peekByte_of_drop hd
  obtain ⟨d0, dt, rfl⟩ : ∃ d0 dt, ds = d0 :: dt := by
    cases ds with
    | nil => exact absurd rfl hne
    | cons a t => exact ⟨a, t, rfl⟩
  have hdig : isDigit d0 = true := hds d0 (by simp)
  have hd1 : f.input.drop (f.pos + 1) = sg ++ (d0 :: dt) ++ rest := by
    have := drop_cons_succ hd
    simpa [List.append_assoc] using this
  have hdt : ∀ x ∈ dt, isDigit x = true := fun x hx => hds x (by simp [hx])
  simp only [parseExponent, hpk, if_pos he]
  cases hsg with
  | inl hnil =>
      subst hnil
      have hd1' : f.input.drop (f.pos + 1) = d0 :: (dt ++ rest) := by
        simpa using hd1
      have hpk1 : peekByte ({ f with pos := f.pos + 1 } : Fmt) = some d0 :=
        peekByte_of_drop hd1'
      have hns : ¬(d0 = 43 ∨ d0 = 45) := by
        have hx := hdig
        simp [isDigit] at hx
        omega
      simp only [hpk1, if_neg hns, hdig, if_pos rfl]
      unfold skipDigitsPos
      have hd2 : f.input.drop (f.pos + 1 + 1) = dt ++ rest := drop_cons_succ hd1'
      simp only [if_true]
      rw [hd2, digitRunLen_append dt rest hdt hstop]
      simp
      omega
  | inr hpm =>
      have hsgl : ∃ sb, (sb = 43 ∨ sb = 45) ∧ sg = [sb] := by
        cases hpm with
        | inl h1 => exact ⟨43, Or.inl rfl, h1⟩
        | inr h2 => exact ⟨45, Or.inr rfl, h2⟩
      obtain ⟨sb, hsb, rfl⟩ := hsgl
      have hd1' : f.input.drop (f.pos + 1) = sb :: (d0 :: dt ++ rest) := by
        simpa using hd1
      have hpk1 : peekByte ({ f with pos := f.pos + 1 } : Fmt) = some sb :=
        peekByte_of_drop hd1'
      have hd2 : f.input.drop (f.pos + 1 + 1) = d0 :: (dt ++ rest) := by
        have := drop_cons_succ hd1'
        simpa using this
      have hpk2 : peekByte ({ f with pos := f.pos + 1 + 1 } : Fmt) = some d0 :=
        peekByte_of_drop hd2
      simp only [hpk1, if_pos hsb, hpk2, hdig, if_pos rfl]
      unfold skipDigitsPos
      have hd3 : f.input.drop (f.pos + 1 + 1 + 1) = dt ++ rest := drop_cons_succ hd2
      simp only [if_true]
      rw [hd3, digitRunLen_append dt rest hdt hstop]
      simp
      omega

theorem drop_of_peek {f : Fmt} {b : Nat} (h : peekByte f = some b) :
    f.input.drop f.pos = b :: f.input.drop (f.pos + 1) := by
  have hh : (f.input.drop f.pos).head? = some b := by
    rw [head?_drop_eq_get?]
    exact h
  cases hdrop : f.input.drop f.pos with
  | nil => rw [hdrop] at hh; cases hh
  | cons a t =>
      rw [hdrop] at hh
      simp at hh
      subst hh
      have ht : t = f.input.drop (f.pos + 1) := by
        have h2 := List.tail_drop f.input f.pos
        rw [hdrop] at h2
        simpa using h2
      rw [ht]

theorem drop_digit_split (l : List Nat) :
    ∃ ds, (∀ x ∈ ds, isDigit x = true) ∧ ds.length = digitRunLen l ∧
      l = ds ++ l.drop (digitRunLen l) := by
  refine ⟨l.take (digitRunLen l), digitRunLen_take_digits l, ?_, ?_⟩
  · rw [List.length_take]
    have := digitRunLen_le l
    omega
  · rw [List.take_append_drop]

theorem parseInteger_shape {f f' : Fmt} (h : parseInteger f = .ok f') :
    ∃ s, IntShape s ∧ f.input.drop f.pos = s ++ f.input.drop (f.pos + s.length) ∧
      f'.input = f.input ∧ f'.level = f.level ∧ f'.color = f.color ∧
      f'.pos = f.pos + s.length := by
  unfold parseInteger at h
  cases hpk : peekByte f with
  | none => rw [hpk] at h; cases h
  | some b =>
      rw [hpk] at h
      simp only at h
      by_cases h48 : b = 48
      · rw [if_pos h48] at h
        cases h
        subst h48
        refine ⟨[48], Or.inl rfl, ?_, rfl, rfl, rfl, rfl⟩
        simpa using drop_of_peek hpk
      · rw [if_neg h48] at h
        by_cases h19 : 49 ≤ b ∧ b ≤ 57
        · rw [if_pos h19] at h
          cases h
          obtain ⟨ds, hds, hlen, hsplit⟩ := drop_digit_split (f.input.drop (f.pos + 1))
          refine ⟨b :: ds, Or.inr ⟨b, ds, h19.1, h19.2, hds, rfl⟩, ?_, rfl, rfl, rfl, ?_⟩
          · rw [drop_of_peek hpk]
            conv_lhs => rw [hsplit]
            rw [List.drop_drop]
            simp only [List.cons_append, List.length_cons]
            rw [show f.pos + 1 + digitRunLen (List.drop (f.pos + 1) f.input) =
              f.pos + (ds.length + 1) from by omega]
          · show skipDigitsPos f.input (f.pos + 1) = f.pos + (b :: ds).length
            unfold skipDigitsPos
            simp only [List.length_cons]
            omega
        · rw [if_neg h19] at h
          cases h

theorem parseFraction_shape {f f' : Fmt} (h : parseFraction f = .ok f') :
    ∃ s, FracShape s ∧ f.input.drop f.pos = s ++ f.input.drop (f.pos + s.length) ∧
      f'.input = f.input ∧ f'.level = f.level ∧ f'.color = f.color ∧
      f'.pos = f.pos + s.length := by
  unfold parseFraction at h
  by_cases h46 : peekByte f = some 46
  · rw [if_pos h46] at h
    simp only at h
    cases hpk1 : peekByte ({ f with pos := f.pos + 1 } : Fmt) with
    | none => rw [hpk1] at h; cases h
    | some b =>
        rw [hpk1] at h
        simp only at h
        by_cases hdig : isDigit b = true
        · rw [if_pos hdig] at h
          cases h
          obtain ⟨ds, hds, hlen, hsplit⟩ := drop_digit_split (f.input.drop (f.pos + 1 + 1))
          have hball : ∀ x ∈ b :: ds, isDigit x = true := by
            intro x hx
            cases hx with
            | head => exact hdig
            | tail _ hx2 => exact hds x hx2
          refine ⟨46 :: b :: ds, Or.inr ⟨b :: ds, by simp, hball, rfl⟩, ?_, rfl, rfl, rfl, ?_⟩
          · rw [drop_of_peek h46]
            have hb : f.input.drop (f.pos + 1) = b :: f.input.drop (f.pos + 1 + 1) :=
              drop_of_peek hpk1
            rw [hb]
            conv_lhs => rw [hsplit]
            rw [List.drop_drop]
            simp only [List.cons_append, List.length_cons]
            rw [show f.pos + 1 + 1 + digitRunLen (List.drop (f.pos + 1 + 1) f.input) =
              f.pos + (ds.length + 1 + 1) from by omega]
          · show skipDigitsPos f.input (f.pos + 1 + 1) = f.pos + (46 :: b :: ds).length
            unfold skipDigitsPos
            simp only [List.length_cons]
            omega
        · rw [if_neg hdig] at h
          cases h
  · rw [if_neg h46] at h
    cases h
    exact ⟨[], Or.inl rfl, by simp, rfl, rfl, rfl, rfl⟩

theorem parseExponent_shape {f f' : Fmt} (h : parseExponent f = .ok f') :
    ∃ s, ExpShape s ∧ f.input.drop f.pos = s ++ f.input.drop (f.pos + s.length) ∧
      f'.input = f.input ∧ f'.level = f.level ∧ f'.color = f.color ∧
      f'.pos = f.pos + s.length := by
  unfold parseExponent at h
  cases hpk : peekByte f with
  | none =>
      rw [hpk] at h
      cases h
      exact ⟨[], Or.inl rfl, by simp, rfl, rfl, rfl, rfl⟩
  | some b =>
      rw [hpk] at h
      simp only at h
      by_cases he : b = 101 ∨ b = 69
      · rw [if_pos he] at h
        cases hpk1 : peekByte ({ f with pos := f.pos + 1 } : Fmt) with
        | none =>
            rw [hpk1] at h
            simp only at h
            rw [hpk1] at h
            cases h
        | some sb =>
            rw [hpk1] at h
            simp only at h
            by_cases hsb : sb = 43 ∨ sb = 45
            · rw [if_pos hsb] at h
              cases hpk2 : peekByte ({ f with pos := f.pos + 1 + 1 } : Fmt) with
              | none => rw [hpk2] at h; cases h
              | some d =>
                  rw [hpk2] at h
                  simp only at h
                  by_cases hdig : isDigit d = true
                  · rw [if_pos hdig] at h
                    cases h
                    obtain ⟨ds, hds, hlen, hsplit⟩ :=
                      drop_digit_split (f.input.drop (f.pos + 1 + 1 + 1))
                    have hball : ∀ x ∈ d :: ds, isDigit x = true := by
                      intro x hx
                      cases hx with
                      | head => exact hdig
                      | tail _ hx2 => exact hds x hx2
                    have hsg : [sb] = [] ∨ [sb] = [43] ∨ [sb] = [45] := by
                      cases hsb with
                      | inl h1 => exact Or.inr (Or.inl (by rw [h1]))
                      | inr h2 => exact Or.inr (Or.inr (by rw [h2]))
                    refine ⟨b :: ([sb] ++ (d :: ds)),
                      Or.inr ⟨b, [sb], d :: ds, he, hsg, by simp, hball, rfl⟩,
                      ?_, rfl, rfl, rfl, ?_⟩
                    · rw [drop_of_peek hpk]
                      have hb1 : f.input.drop (f.pos + 1) =
                          sb :: f.input.drop (f.pos + 1 + 1) := drop_of_peek hpk1
                      have hb2 : f.input.drop (f.pos + 1 + 1) =
                          d :: f.input.drop (f.pos + 1 + 1 + 1) := drop_of_peek hpk2
                      rw [hb1, hb2]
                      conv_lhs => rw [hsplit]
                      rw [List.drop_drop]
                      simp only [List.cons_append, List.singleton_append, List.length_cons]
                      rw [show f.pos + 1 + 1 + 1 + digitRunLen (List.drop (f.pos + 1 + 1 + 1) f.input) =
                        f.pos + (ds.length + 1 + 1 + 1) from by omega]
                      simp [List.append_assoc]
                    · show skipDigitsPos f.input (f.pos + 1 + 1 + 1) =
                        f.pos + (b :: ([sb] ++ (d :: ds))).length
                      unfold skipDigitsPos
                      simp only [List.length_cons, List.singleton_append]
                      omega
                  · rw [if_neg hdig] at h
                    cases h
            · rw [if_neg hsb] at h
              cases hpk2 : peekByte ({ f with pos := f.pos + 1 } : Fmt) with
              | none => rw [hpk2] at h; cases h
              | some d =>
                  rw [hpk2] at h
                  simp only at h
                  rw [hpk1] at hpk2
                  have hd2 : d = sb := by
                    simpa using hpk2.symm
                  subst hd2
                  by_cases hdig : isDigit d = true
                  · rw [if_pos hdig] at h
                    cases h
                    obtain ⟨ds, hds, hlen, hsplit⟩ :=
                      drop_digit_split (f.input.drop (f.pos + 1 + 1))
                    have hball : ∀ x ∈ d :: ds, isDigit x = true := by
                      intro x hx
                      cases hx with
                      | head => exact hdig
                      | tail _ hx2 => exact hds x hx2
                    refine ⟨b :: ([] ++ (d :: ds)),
                      Or.inr ⟨b, [], d :: ds, he, Or.inl rfl, by simp, hball, rfl⟩,
                      ?_, rfl, rfl, rfl, ?_⟩
                    · rw [drop_of_peek hpk]
                      have hb1 : f.input.drop (f.pos + 1) =
                          d :: f.input.drop (f.pos + 1 + 1) := drop_of_peek hpk1
                      rw [hb1]
                      conv_lhs => rw [hsplit]
                      rw [List.drop_drop]
                      simp only [List.cons_append, List.nil_append, List.length_cons]
                      rw [show f.pos + 1 + 1 + digitRunLen (List.drop (f.pos + 1 + 1) f.input) =
                        f.pos + (ds.length + 1 + 1) from by omega]
                    · show skipDigitsPos f.input (f.pos + 1 + 1) =
                        f.pos + (b :: ([] ++ (d :: ds))).length
                      unfold skipDigitsPos
                      simp only [List.length_cons, List.nil_append]
                      omega
                  · rw [if_neg hdig] at h
                    cases h
      · rw [if_neg he] at h
        cases h
        exact ⟨[], Or.inl rfl, by simp, rfl, rfl, rfl, rfl⟩

theorem parseExponent_run_eof {f : Fmt} (hpk : peekByte f = none) :
    parseExponent f = .ok f := by
  simp [parseExponent, hpk]

theorem isDigit_of_shape_head {intp : List Nat} (hint : IntShape intp) :
    ∃ iH iT, intp = iH :: iT ∧ isDigit iH = true := by
  rcases hint with h | ⟨d, ds, h1, h2, h3, h4⟩
  · exact ⟨48, [], h, by decide⟩
  · refine ⟨d, ds, h4, ?_⟩
    simp [isDigit]
    omega

theorem parseNumber_run {f : Fmt} {sign intp frac expp rest : List Nat}
    (hd : f.input.drop f.pos = sign ++ intp ++ frac ++ expp ++ rest)
    (hsign : sign = [] ∨ sign = [45]) (hint : IntShape intp) (hfrac : FracShape frac)
    (hexp : ExpShape expp) (hsafe : NumFollow rest) :
    parseNumber f = .ok ({ f with pos := f.pos + (sign ++ intp ++ frac ++ expp).length },
      writeNumber f (sign ++ intp ++ frac ++ expp)) := by
  have hstop3 : ∀ y, rest.head? = some y → isDigit y = false := by
    intro y hy
    exact (hsafe y hy).1
  have hexp_head : ∀ y, (expp ++ rest).head? = some y →
      (y = 101 ∨ y = 69 ∨ (isDigit y = false ∧ ¬y = 46 ∧ ¬y = 101 ∧ ¬y = 69)) := by
    intro y hy
    rcases hexp with he0 | ⟨e, sg, ds2, he1, hsg2, hne2, hds2, heq⟩
    · subst he0
      simp only [List.nil_append] at hy
      exact Or.inr (Or.inr (hsafe y hy))
    · subst heq
      simp only [List.cons_append, List.head?_cons, Option.some.injEq] at hy
      subst hy
      rcases he1 with rfl | rfl
      · exact Or.inl rfl
      · exact Or.inr (Or.inl rfl)
  have hstop2 : ∀ y, (expp ++ rest).head? = some y → isDigit y = false := by
    intro y hy
    rcases hexp_head y hy with rfl | rfl | hs
    · decide
    · decide
    · exact hs.1
  have hstop1 : ∀ y, (frac ++ (expp ++ rest)).head? = some y → isDigit y = false := by
    intro y hy
    rcases hfrac with hf0 | ⟨ds, hne2, hds2, heq⟩
    · subst hf0
      simp only [List.nil_append] at hy
      exact hstop2 y hy
    · subst heq
      simp only [List.cons_append, List.head?_cons, Option.some.injEq] at hy
      subst hy
      decide
  obtain ⟨iH, iT, hintp_eq, hiH⟩ := isDigit_of_shape_head hint
  -- the integer part at the cursor after the optional sign
  have hdd : f.input.drop (f.pos + sign.length) = intp ++ (frac ++ (expp ++ rest)) := by
    rcases hsign with rfl | rfl
    · simpa [List.append_assoc] using hd
    · have hd' : f.input.drop f.pos = 45 :: (intp ++ (frac ++ (expp ++ rest))) := by
        simpa [List.append_assoc] using hd
      have := drop_cons_succ hd'
      simpa using this
  have hint_run : parseInteger ({ f with pos := f.pos + sign.length } : Fmt) =
      .ok ({ f with pos := f.pos + sign.length + intp.length } : Fmt) := by
    have h0 := parseInteger_run (f := ({ f with pos := f.pos + sign.length } : Fmt))
      hdd hint hstop1
    exact h0
  have hdf1 : f.input.drop (f.pos + sign.length + intp.length) =
      frac ++ (expp ++ rest) := by
    have := drop_add_of_drop_append hdd
    simpa using this
  have hfr_run : parseFraction ({ f with pos := f.pos + sign.length + intp.length } : Fmt) =
      .ok ({ f with pos := f.pos + sign.length + intp.length + frac.length } : Fmt) := by
    rcases hfrac with hf0 | ⟨ds, hne2, hds2, heq⟩
    · subst hf0
      have hpk46 : peekByte ({ f with pos := f.pos + sign.length + intp.length } : Fmt) ≠
          some 46 := by
        rw [peekByte_eq_head]
        show (f.input.drop (f.pos + sign.length + intp.length)).head? ≠ some 46
        rw [hdf1]
        simp only [List.nil_append]
        cases hh : (expp ++ rest).head? with
        | none => simp
        | some y =>
            rcases hexp_head y hh with rfl | rfl | hs
            · simp
            · simp
            · simp [hs.2.1]
      have h0 := parseFraction_run_none hpk46
      simpa using h0
    · subst heq
      have hdc : ({ f with pos := f.pos + sign.length + intp.length } : Fmt).input.drop
          ({ f with pos := f.pos + sign.length + intp.length } : Fmt).pos =
          46 :: (ds ++ (expp ++ rest)) := by
        show f.input.drop (f.pos + sign.length + intp.length) = 46 :: (ds ++ (expp ++ rest))
        rw [hdf1]
        simp
      have h0 := parseFraction_run_some hdc hne2 hds2 hstop2
      have harith : f.pos + sign.length + intp.length + 1 + ds.length =
          f.pos + sign.length + intp.length + (46 :: ds).length := by
        simp
        omega
      rw [h0]
      simp only [List.length_cons]
      rw [show f.pos + sign.length + intp.length + 1 + ds.length =
        f.pos + sign.length + intp.length + (ds.length + 1) from by omega]
  have hdf2 : f.input.drop (f.pos + sign.length + intp.length + frac.length) =
      expp ++ rest := by
    have h1 : f.input.drop (f.pos + sign.length + intp.length) =
        frac ++ (expp ++ rest) := hdf1
    have := drop_add_of_drop_append h1
    simpa using this
  have hex_run : parseExponent
      ({ f with pos := f.pos + sign.length + intp.length + frac.length } : Fmt) =
      .ok ({ f with pos :=
        f.pos + sign.length + intp.length + frac.length + expp.length } : Fmt) := by
    rcases hexp with he0 | ⟨e, sg, ds2, he1, hsg2, hne2, hds2, heq⟩
    · subst he0
      cases hh : rest.head? with
      | none =>
          have hpkn : peekByte ({ f with pos :=
              f.pos + sign.length + intp.length + frac.length } : Fmt) = none := by
            rw [peekByte_eq_head]
            show (f.input.drop (f.pos + sign.length + intp.length + frac.length)).head? = none
            rw [hdf2]
            simpa using hh
          have h0 := parseExponent_run_eof hpkn
          simpa using h0
      | some y =>
          have hpky : peekByte ({ f with pos :=
              f.pos + sign.length + intp.length + frac.length } : Fmt) = some y := by
            rw [peekByte_eq_head]
            show (f.input.drop (f.pos + sign.length + intp.length + frac.length)).head? = some y
            rw [hdf2]
            simpa using hh
          have hne101 : ¬(y = 101 ∨ y = 69) := by
            have hs := hsafe y hh
            intro hcc
            rcases hcc with rfl | rfl
            · exact hs.2.2.1 rfl
            · exact hs.2.2.2 rfl
          have h0 := parseExponent_run_none hpky hne101
          simpa using h0
    · subst heq
      have hdc : ({ f with pos :=
          f.pos + sign.length + intp.length + frac.length } : Fmt).input.drop
          ({ f with pos := f.pos + sign.length + intp.length + frac.length } : Fmt).pos =
          e :: (sg ++ ds2 ++ rest) := by
        show f.input.drop (f.pos + sign.length + intp.length + frac.length) =
          e :: (sg ++ ds2 ++ rest)
        rw [hdf2]
        simp [List.append_assoc]
      have h0 := parseExponent_run_some hdc he1 hsg2 hne2 hds2 hstop3
      rw [h0]
      simp only [List.length_cons, List.length_append]
      rw [show f.pos + sign.length + intp.length + frac.length + 1 + sg.length + ds2.length =
        f.pos + sign.length + intp.length + frac.length + (sg.length + ds2.length + 1)
        from by omega]
  -- now unfold parse_number and chain
  simp only [parseNumber]
  have hsign_step : (if peekByte f = some 45 then ({ f with pos := f.pos + 1 } : Fmt) else f) =
      ({ f with pos := f.pos + sign.length } : Fmt) := by
    rcases hsign with rfl | rfl
    · have h45 : ¬(peekByte f = some 45) := by
        have hdd0 : f.input.drop f.pos = iH :: (iT ++ (frac ++ (expp ++ rest))) := by
          have := hdd
          rw [hintp_eq] at this
          simpa [List.append_assoc] using this
        rw [peekByte_of_drop hdd0]
        simp only [Option.some.injEq]
        intro hc2
        have h3 := hiH
        rw [hc2] at h3
        simp [isDigit] at h3
      rw [if_neg h45]
      show f = ({ f with pos := f.pos + 0 } : Fmt)
      simp
    · have h45 : peekByte f = some 45 := by
        have hd' : f.input.drop f.pos = 45 :: (intp ++ (frac ++ (expp ++ rest))) := by
          simpa [List.append_assoc] using hd
        exact peekByte_of_drop hd'
      rw [if_pos h45]
      rfl
  rw [hsign_step, hint_run]
  simp only []
  rw [hfr_run]
  simp only []
  rw [hex_run]
  simp only []
  have hslice : sliceBytes f.input f.pos
      (f.pos + sign.length + intp.length + frac.length + expp.length) =
      sign ++ intp ++ frac ++ expp := by
    have hd2 : f.input.drop f.pos = (sign ++ intp ++ frac ++ expp) ++ rest := by
      simpa [List.append_assoc] using hd
    have := sliceBytes_of_drop hd2
    rw [show f.pos + (sign ++ intp ++ frac ++ expp).length =
      f.pos + sign.length + intp.length + frac.length + expp.length from by
        simp [List.length_append]
        omega] at this
    exact this
  rw [hslice]
  rw [show f.pos + sign.length + intp.length + frac.length + expp.length =
    f.pos + (sign ++ intp ++ frac ++ expp).length from by
      simp only [List.length_append]; omega]
  rfl

theorem parseNumber_shape {f f' : Fmt} {tok : List Nat}
    (h : parseNumber f = .ok (f', tok)) (hc : f.color = .noColor) :
    ∃ sign intp frac expp,
      (sign = [] ∨ sign = [45]) ∧ IntShape intp ∧ FracShape frac ∧ ExpShape expp ∧
      tok = sign ++ intp ++ frac ++ expp ∧
      f.input.drop f.pos = tok ++ f.input.drop (f.pos + tok.length) ∧
      f'.input = f.input ∧ f'.level = f.level ∧ f'.color = f.color ∧
      f'.pos = f.pos + tok.length := by
  simp only [parseNumber] at h
  have hsplit : ∃ sign, (sign = ([] : List Nat) ∨ sign = [45]) ∧
      f.input.drop f.pos = sign ++ f.input.drop (f.pos + sign.length) ∧
      (if peekByte f = some 45 then ({ f with pos := f.pos + 1 } : Fmt) else f) =
        { f with pos := f.pos + sign.length } := by
    by_cases h45 : peekByte f = some 45
    · refine ⟨[45], Or.inr rfl, ?_, by rw [if_pos h45]; rfl⟩
      have := drop_of_peek h45
      simpa using this
    · refine ⟨[], Or.inl rfl, by simp, by rw [if_neg h45]; show f = _; simp⟩
  obtain ⟨sign, hsg, hdsg, hf0⟩ := hsplit
  rw [hf0] at h
  cases hi : parseInteger ({ f with pos := f.pos + sign.length } : Fmt) with
  | error e2 => rw [hi] at h; cases h
  | ok f1 =>
      rw [hi] at h
      simp only at h
      obtain ⟨intp, hintS, hintD0, hii, hil, hic, hip⟩ := parseInteger_shape hi
      have hintD : f.input.drop (f.pos + sign.length) =
          intp ++ f.input.drop (f.pos + sign.length + intp.length) := hintD0
      have hip' : f1.pos = f.pos + sign.length + intp.length := hip
      have hii' : f1.input = f.input := hii
      have hil' : f1.level = f.level := hil
      have hic' : f1.color = f.color := hic
      cases hfr : parseFraction f1 with
      | error e2 => rw [hfr] at h; cases h
      | ok f2 =>
          rw [hfr] at h
          simp only at h
          obtain ⟨frac, hfrS, hfrD0, hfi, hfl, hfc, hfp⟩ := parseFraction_shape hfr
          have hfrD : f.input.drop (f.pos + sign.length + intp.length) =
              frac ++ f.input.drop (f.pos + sign.length + intp.length + frac.length) := by
            have := hfrD0
            rw [hii', hip'] at this
            rw [this]
          have hfp' : f2.pos = f.pos + sign.length + intp.length + frac.length := by
            rw [hfp, hip']
          have hfi' : f2.input = f.input := by rw [hfi, hii']
          have hfl' : f2.level = f.level := by rw [hfl, hil']
          have hfc' : f2.color = f.color := by rw [hfc, hic']
          cases hex : parseExponent f2 with
          | error e2 => rw [hex] at h; cases h
          | ok f3 =>
              rw [hex] at h
              simp only at h
              obtain ⟨expp, hexS, hexD0, hei, hel, hec, hep⟩ := parseExponent_shape hex
              have hexD : f.input.drop (f.pos + sign.length + intp.length + frac.length) =
                  expp ++ f.input.drop
                    (f.pos + sign.length + intp.length + frac.length + expp.length) := by
                have := hexD0
                rw [hfi', hfp'] at this
                rw [this]
              have hep' : f3.pos =
                  f.pos + sign.length + intp.length + frac.length + expp.length := by
                rw [hep, hfp']
              have hei' : f3.input = f.input := by rw [hei, hfi']
              have hel' : f3.level = f.level := by rw [hel, hfl']
              have hec' : f3.color = f.color := by rw [hec, hfc']
              cases h
              have hdall : f.input.drop f.pos = (sign ++ intp ++ frac ++ expp) ++
                  f.input.drop (f.pos + sign.length + intp.length + frac.length +
                    expp.length) := by
                rw [hdsg]
                conv_lhs => rw [hintD]
                conv_lhs => rw [hfrD]
                conv_lhs => rw [hexD]
                simp [List.append_assoc]
              have hlen : (sign ++ intp ++ frac ++ expp).length =
                  sign.length + intp.length + frac.length + expp.length := by
                simp [List.length_append]
                omega
              have htok : writeNumber f' (sliceBytes f'.input f.pos f'.pos) =
                  sign ++ intp ++ frac ++ expp := by
                have hsl : sliceBytes f.input f.pos (f.pos +
                    (sign ++ intp ++ frac ++ expp).length) = sign ++ intp ++ frac ++ expp :=
                  sliceBytes_of_drop hdall
                rw [hei', hep']
                rw [show f.pos + sign.length + intp.length + frac.length + expp.length =
                  f.pos + (sign ++ intp ++ frac ++ expp).length from by rw [hlen]; omega]
                unfold writeNumber
                rw [hec', hc]
                rw [if_neg (fun hcc => Color.noConfusion hcc)]
                exact hsl
              refine ⟨sign, intp, frac, expp, hsg, hintS, hfrS, hexS, htok, ?_,
                hei', hel', hec', ?_⟩
              · rw [htok]
                rw [show f.pos + (sign ++ intp ++ frac ++ expp).length =
                  f.pos + sign.length + intp.length + frac.length + expp.length from by
                    rw [hlen]; omega]
                exact hdall
              · rw [htok, hep']
                rw [hlen]
                omega

theorem expectBytes_shape : ∀ (bs : List Nat) (f f' : Fmt), expectBytes f bs = .ok f' →
    f'.input = f.input ∧ f'.level = f.level ∧ f'.color = f.color ∧
    f'.pos = f.pos + bs.length ∧
    f.input.drop f.pos = bs ++ f.input.drop (f.pos + bs.length) := by
  intro bs
  induction bs with
  | nil =>
      intro f f' h
      simp only [expectBytes] at h
      cases h
      exact ⟨rfl, rfl, rfl, by simp, by simp⟩
  | cons b bs ih =>
      intro f f' h
      simp only [expectBytes] at h
      cases hx : expectByte f b with
      | error e2 => rw [hx] at h; cases h
      | ok f1 =>
          rw [hx] at h
          obtain ⟨hf1, hget⟩ := expectByte_ok_inv hx
          obtain ⟨i1, i2, i3, i4, i5⟩ := ih f1 f' h
          subst hf1
          have hpk : peekByte f = some b := hget
          have i4' : f'.pos = f.pos + 1 + bs.length := i4
          have i5' : f.input.drop (f.pos + 1) =
              bs ++ f.input.drop (f.pos + 1 + bs.length) := i5
          refine ⟨i1, i2, i3, ?_, ?_⟩
          · rw [i4']
            simp
            omega
          · rw [drop_of_peek hpk, i5']
            simp only [List.cons_append, List.length_cons]
            rw [show f.pos + 1 + bs.length = f.pos + (bs.length + 1) from by omega]

theorem parseNumber_repl {f f' : Fmt} {tok : List Nat}
    (h : parseNumber f = .ok (f', tok)) (hc : f.color = .noColor) :
    f'.input = f.input ∧ f'.level = f.level ∧ f'.color = f.color ∧
    f'.pos = f.pos + tok.length ∧
    f.input.drop f.pos = tok ++ f.input.drop (f.pos + tok.length) ∧
    ∀ g rest, g.input.drop g.pos = tok ++ rest → SafeFollow rest → g.color = .noColor →
      parseNumber g = .ok ({ g with pos := g.pos + tok.length }, tok) := by
  obtain ⟨sign, intp, frac, expp, hsg, hiS, hfS, heS, htok, hdrop, hi, hl, hcc, hp⟩ :=
    parseNumber_shape h hc
  refine ⟨hi, hl, hcc, hp, hdrop, ?_⟩
  intro g rest hgd hsafe hgc
  subst htok
  have hnf : NumFollow rest := by
    intro y hy
    rcases hsafe with h1 | h2 | h2
    · subst h1; cases hy
    · rw [h2] at hy
      simp only [Option.some.injEq] at hy
      subst hy
      exact ⟨by decide, by decide, by decide, by decide⟩
    · rw [h2] at hy
      simp only [Option.some.injEq] at hy
      subst hy
      exact ⟨by decide, by decide, by decide, by decide⟩
  have hrun := parseNumber_run (f := g)
    (by simpa [List.append_assoc] using hgd) hsg hiS hfS heS hnf
  rw [hrun]
  have hw : writeNumber g (sign ++ intp ++ frac ++ expp) =
      sign ++ intp ++ frac ++ expp := by
    unfold writeNumber
    rw [hgc]
    rw [if_neg (fun hcc => Color.noConfusion hcc)]
  rw [hw]

theorem parseTrue_repl {f f' : Fmt} {d : List Nat}
    (h : parseTrue f = .ok (f', d)) (hc : f.color = .noColor) :
    d = [116, 114, 117, 101] ∧ f'.input = f.input ∧ f'.level = f.level ∧
    f'.color = f.color ∧ f'.pos = f.pos + d.length ∧
    f.input.drop f.pos = d ++ f.input.drop (f.pos + d.length) ∧
    ∀ g rest, g.input.drop g.pos = d ++ rest → g.color = .noColor →
      parseTrue g = .ok ({ g with pos := g.pos + d.length }, d) := by
  simp only [parseTrue] at h
  cases hx : expectBytes f [116, 114, 117, 101] with
  | error e2 => rw [hx] at h; cases h
  | ok f1 =>
      rw [hx] at h
      cases h
      obtain ⟨s1, s2, s3, s4, s5⟩ := expectBytes_shape [116, 114, 117, 101] f f' hx
      have hw : writeTrue f' = [116, 114, 117, 101] := by
        unfold writeTrue
        rw [s3, hc]
        rw [if_neg (fun hcc => Color.noConfusion hcc)]
      refine ⟨hw, s1, s2, s3, by rw [hw]; exact s4, by rw [hw]; exact s5, ?_⟩
      intro g rest hgd hgc
      rw [hw] at hgd
      have hrun := expectBytes_run [116, 114, 117, 101] g rest hgd
      simp only [parseTrue, hrun]
      have hwg : writeTrue ({ g with pos := g.pos + [116, 114, 117, 101].length } : Fmt) = [116, 114, 117, 101] := by
        unfold writeTrue
        show (if g.color = Color.ansiCode then _ else _) = _
        rw [hgc]
        rw [if_neg (fun hcc => Color.noConfusion hcc)]
      rw [hwg, hw]

theorem parseFalse_repl {f f' : Fmt} {d : List Nat}
    (h : parseFalse f = .ok (f', d)) (hc : f.color = .noColor) :
    d = [102, 97, 108, 115, 101] ∧ f'.input = f.input ∧ f'.level = f.level ∧
    f'.color = f.color ∧ f'.pos = f.pos + d.length ∧
    f.input.drop f.pos = d ++ f.input.drop (f.pos + d.length) ∧
    ∀ g rest, g.input.drop g.pos = d ++ rest → g.color = .noColor →
      parseFalse g = .ok ({ g with pos := g.pos + d.length }, d) := by
  simp only [parseFalse] at h
  cases hx : expectBytes f [102, 97, 108, 115, 101] with
  | error e2 => rw [hx] at h; cases h
  | ok f1 =>
      rw [hx] at h
      cases h
      obtain ⟨s1, s2, s3, s4, s5⟩ := expectBytes_shape [102, 97, 108, 115, 101] f f' hx
      have hw : writeFalse f' = [102, 97, 108, 115, 101] := by
        unfold writeFalse
        rw [s3, hc]
        rw [if_neg (fun hcc => Color.noConfusion hcc)]
      refine ⟨hw, s1, s2, s3, by rw [hw]; exact s4, by rw [hw]; exact s5, ?_⟩
      intro g rest hgd hgc
      rw [hw] at hgd
      have hrun := expectBytes_run [102, 97, 108, 115, 101] g rest hgd
      simp only [parseFalse, hrun]
      have hwg : writeFalse ({ g with pos := g.pos + [102, 97, 108, 115, 101].length } : Fmt) = [102, 97, 108, 115, 101] := by
        unfold writeFalse
        show (if g.color = Color.ansiCode then _ else _) = _
        rw [hgc]
        rw [if_neg (fun hcc => Color.noConfusion hcc)]
      rw [hwg, hw]

theorem parseNull_repl {f f' : Fmt} {d : List Nat}
    (h : parseNull f = .ok (f', d)) (hc : f.color = .noColor) :
    d = [110, 117, 108, 108] ∧ f'.input = f.input ∧ f'.level = f.level ∧
    f'.color = f.color ∧ f'.pos = f.pos + d.length ∧
    f.input.drop f.pos = d ++ f.input.drop (f.pos + d.length) ∧
    ∀ g rest, g.input.drop g.pos = d ++ rest → g.color = .noColor →
      parseNull g = .ok ({ g with pos := g.pos + d.length }, d) := by
  simp only [parseNull] at h
  cases hx : expectBytes f [110, 117, 108, 108] with
  | error e2 => rw [hx] at h; cases h
  | ok f1 =>
      rw [hx] at h
      cases h
      obtain ⟨s1, s2, s3, s4, s5⟩ := expectBytes_shape [110, 117, 108, 108] f f' hx
      have hw : writeNull f' = [110, 117, 108, 108] := by
        unfold writeNull
        rw [s3, hc]
        rw [if_neg (fun hcc => Color.noConfusion hcc)]
      refine ⟨hw, s1, s2, s3, by rw [hw]; exact s4, by rw [hw]; exact s5, ?_⟩
      intro g rest hgd hgc
      rw [hw] at hgd
      have hrun := expectBytes_run [110, 117, 108, 108] g rest hgd
      simp only [parseNull, hrun]
      have hwg : writeNull ({ g with pos := g.pos + [110, 117, 108, 108].length } : Fmt) = [110, 117, 108, 108] := by
        unfold writeNull
        show (if g.color = Color.ansiCode then _ else _) = _
        rw [hgc]
        rw [if_neg (fun hcc => Color.noConfusion hcc)]
      rw [hwg, hw]

theorem nextByte_of_drop {f : Fmt} {b : Nat} {rest : List Nat}
    (hd : f.input.drop f.pos = b :: rest) :
    nextByte f = some (b, { f with pos := f.pos + 1 }) := by
  simp [nextByte, peekByte_of_drop hd]

theorem readHex4_shape : ∀ (n : Nat) (f f' : Fmt), readHex4 f n = .ok f' →
    ∃ hs : List Nat, hs.length = n ∧ (∀ x ∈ hs, isAsciiHexDigit x = true) ∧
      f.input.drop f.pos = hs ++ f.input.drop (f.pos + n) ∧
      f'.input = f.input ∧ f'.level = f.level ∧ f'.color = f.color ∧ f'.pos = f.pos + n := by
  intro n
  induction n with
  | zero =>
      intro f f' h
      simp only [readHex4] at h
      cases h
      exact ⟨[], rfl, by simp, by simp, rfl, rfl, rfl, by simp⟩
  | succ n ih =>
      intro f f' h
      simp only [readHex4] at h
      cases hn : nextByte f with
      | none => rw [hn] at h; cases h
      | some p =>
          obtain ⟨b, f1⟩ := p
          rw [hn] at h
          simp only at h
          by_cases hx : isAsciiHexDigit b = true
          · rw [if_pos hx] at h
            obtain ⟨hf1, hpk, -⟩ := nextByte_some hn
            subst hf1
            obtain ⟨hs, l1, l2, l3, l4, l5, l6, l7⟩ := ih _ _ h
            have l3' : f.input.drop (f.pos + 1) = hs ++ f.input.drop (f.pos + 1 + n) := l3
            have l7' : f'.pos = f.pos + 1 + n := l7
            refine ⟨b :: hs, by simp [l1], ?_, ?_, l4, l5, l6, by omega⟩
            · intro x hx2
              cases hx2 with
              | head => exact hx
              | tail _ hhh => exact l2 x hhh
            · have hd0 : f.input.drop f.pos = b :: f.input.drop (f.pos + 1) :=
                drop_of_peek hpk
              rw [hd0, l3']
              simp only [List.cons_append]
              rw [show f.pos + 1 + n = f.pos + (n + 1) from by omega]
          · rw [if_neg hx] at h
            cases h

theorem nextUtf8Char_repl {f f' : Fmt} (h : nextUtf8Char f = .ok f') :
    ∃ c, c ≠ [] ∧ f.input.drop f.pos = c ++ f.input.drop (f.pos + c.length) ∧
      f'.input = f.input ∧ f'.level = f.level ∧ f'.color = f.color ∧
      f'.pos = f.pos + c.length ∧
      (∀ (g : Fmt) (grest : List Nat), g.input.drop g.pos = c ++ grest →
        nextUtf8Char g = .ok { g with pos := g.pos + c.length }) := by
  unfold nextUtf8Char at h
  cases hn1 : nextByte f with
  | none => rw [hn1] at h; cases h
  | some p1 =>
      obtain ⟨b1, f1⟩ := p1
      rw [hn1] at h
      simp only at h
      obtain ⟨hf1, hpk1, -⟩ := nextByte_some hn1
      subst hf1
      by_cases hb1 : b1 < 128
      · rw [if_pos hb1] at h
        cases h
        refine ⟨[b1], by simp, ?_, rfl, rfl, rfl, by show f.pos + 1 = f.pos + 1; rfl, ?_⟩
        · have := drop_of_peek hpk1
          simpa using this
        · intro g grest hgd
          have hgd' : g.input.drop g.pos = b1 :: grest := by simpa using hgd
          unfold nextUtf8Char
          rw [nextByte_of_drop hgd']
          simp only
          rw [if_pos hb1]
          rfl
      · rw [if_neg hb1] at h
        cases hn2 : nextByte ({ f with pos := f.pos + 1 } : Fmt) with
        | none => rw [hn2] at h; cases h
        | some p2 =>
            obtain ⟨b2, f2⟩ := p2
            rw [hn2] at h
            simp only at h
            obtain ⟨hf2, hpk2, -⟩ := nextByte_some hn2
            subst hf2
            have hdk2 : f.input.drop (f.pos + 1) = b2 :: f.input.drop (f.pos + 1 + 1) :=
              drop_of_peek hpk2
            by_cases hb224 : b1 < 224
            · rw [if_pos hb224] at h
              by_cases hcnd : (decide (194 ≤ b1 ∧ b1 ≤ 223) && contB b2) = true
              · rw [if_pos hcnd] at h
                cases h
                refine ⟨[b1, b2], by simp, ?_, rfl, rfl, rfl,
                  by show f.pos + 1 + 1 = f.pos + 2; omega, ?_⟩
                · rw [drop_of_peek hpk1, hdk2]
                  simp only [List.cons_append, List.nil_append]
                  rw [show f.pos + 1 + 1 = f.pos + 2 from by omega]
                  rfl
                · intro g grest hgd
                  have hgd' : g.input.drop g.pos = b1 :: (b2 :: grest) := by simpa using hgd
                  have hg1 : g.input.drop (g.pos + 1) = b2 :: grest := drop_cons_succ hgd'
                  have hg1' : ({ g with pos := g.pos + 1 } : Fmt).input.drop
                      ({ g with pos := g.pos + 1 } : Fmt).pos = b2 :: grest := hg1
                  unfold nextUtf8Char
                  rw [nextByte_of_drop hgd']
                  simp only
                  rw [if_neg hb1, nextByte_of_drop hg1']
                  simp only
                  rw [if_pos hb224, if_pos hcnd]
                  rfl
              · rw [if_neg hcnd] at h
                cases h
            · rw [if_neg hb224] at h
              cases hn3 : nextByte ({ f with pos := f.pos + 1 + 1 } : Fmt) with
              | none => rw [hn3] at h; cases h
              | some p3 =>
                  obtain ⟨b3, f3⟩ := p3
                  rw [hn3] at h
                  simp only at h
                  obtain ⟨hf3, hpk3, -⟩ := nextByte_some hn3
                  subst hf3
                  have hdk3 : f.input.drop (f.pos + 1 + 1) =
                      b3 :: f.input.drop (f.pos + 1 + 1 + 1) := drop_of_peek hpk3
                  by_cases hb240 : b1 < 240
                  · rw [if_pos hb240] at h
                    by_cases hcnd : utf3Ok b1 b2 b3 = true
                    · rw [if_pos hcnd] at h
                      cases h
                      refine ⟨[b1, b2, b3], by simp, ?_, rfl, rfl, rfl,
                        by show f.pos + 1 + 1 + 1 = f.pos + 3; omega, ?_⟩
                      · rw [drop_of_peek hpk1, hdk2, hdk3]
                        simp only [List.cons_append, List.nil_append]
                        rw [show f.pos + 1 + 1 + 1 = f.pos + 3 from by omega]
                        rfl
                      · intro g grest hgd
                        have hgd' : g.input.drop g.pos = b1 :: (b2 :: (b3 :: grest)) := by
                          simpa using hgd
                        have hg1 : g.input.drop (g.pos + 1) = b2 :: (b3 :: grest) :=
                          drop_cons_succ hgd'
                        have hg1' : ({ g with pos := g.pos + 1 } : Fmt).input.drop
                            ({ g with pos := g.pos + 1 } : Fmt).pos = b2 :: (b3 :: grest) := hg1
                        have hg2 : g.input.drop (g.pos + 1 + 1) = b3 :: grest :=
                          drop_cons_succ hg1
                        have hg2' : ({ g with pos := g.pos + 1 + 1 } : Fmt).input.drop
                            ({ g with pos := g.pos + 1 + 1 } : Fmt).pos = b3 :: grest := hg2
                        unfold nextUtf8Char
                        rw [nextByte_of_drop hgd']
                        simp only
                        rw [if_neg hb1, nextByte_of_drop hg1']
                        simp only
                        rw [if_neg hb224, nextByte_of_drop hg2']
                        simp only
                        rw [if_pos hb240, if_pos hcnd]
                        rfl
                    · rw [if_neg hcnd] at h
                      cases h
                  · rw [if_neg hb240] at h
                    cases hn4 : nextByte ({ f with pos := f.pos + 1 + 1 + 1 } : Fmt) with
                    | none => rw [hn4] at h; cases h
                    | some p4 =>
                        obtain ⟨b4, f4⟩ := p4
                        rw [hn4] at h
                        simp only at h
                        obtain ⟨hf4, hpk4, -⟩ := nextByte_some hn4
                        subst hf4
                        have hdk4 : f.input.drop (f.pos + 1 + 1 + 1) =
                            b4 :: f.input.drop (f.pos + 1 + 1 + 1 + 1) := drop_of_peek hpk4
                        by_cases hcnd : utf4Ok b1 b2 b3 b4 = true
                        · rw [if_pos hcnd] at h
                          cases h
                          refine ⟨[b1, b2, b3, b4], by simp, ?_, rfl, rfl, rfl,
                            by show f.pos + 1 + 1 + 1 + 1 = f.pos + 4; omega, ?_⟩
                          · rw [drop_of_peek hpk1, hdk2, hdk3, hdk4]
                            simp only [List.cons_append, List.nil_append]
                            rw [show f.pos + 1 + 1 + 1 + 1 = f.pos + 4 from by omega]
                            rfl
                          · intro g grest hgd
                            have hgd' : g.input.drop g.pos =
                                b1 :: (b2 :: (b3 :: (b4 :: grest))) := by simpa using hgd
                            have hg1 : g.input.drop (g.pos + 1) =
                                b2 :: (b3 :: (b4 :: grest)) := drop_cons_succ hgd'
                            have hg1' : ({ g with pos := g.pos + 1 } : Fmt).input.drop
                                ({ g with pos := g.pos + 1 } : Fmt).pos =
                                b2 :: (b3 :: (b4 :: grest)) := hg1
                            have hg2 : g.input.drop (g.pos + 1 + 1) =
                                b3 :: (b4 :: grest) := drop_cons_succ hg1
                            have hg2' : ({ g with pos := g.pos + 1 + 1 } : Fmt).input.drop
                                ({ g with pos := g.pos + 1 + 1 } : Fmt).pos =
                                b3 :: (b4 :: grest) := hg2
                            have hg3 : g.input.drop (g.pos + 1 + 1 + 1) = b4 :: grest :=
                              drop_cons_succ hg2
                            have hg3' : ({ g with pos := g.pos + 1 + 1 + 1 } : Fmt).input.drop
                                ({ g with pos := g.pos + 1 + 1 + 1 } : Fmt).pos =
                                b4 :: grest := hg3
                            unfold nextUtf8Char
                            rw [nextByte_of_drop hgd']
                            simp only
                            rw [if_neg hb1, nextByte_of_drop hg1']
                            simp only
                            rw [if_neg hb224, nextByte_of_drop hg2']
                            simp only
                            rw [if_neg hb240, nextByte_of_drop hg3']
                            simp only
                            rw [if_pos hcnd]
                            rfl
                        · rw [if_neg hcnd] at h
                          cases h

theorem wsRunLen_after : ∀ l : List Nat, wsRunLen (List.drop (wsRunLen l) l) = 0 := by
  intro l
  induction l with
  | nil => rfl
  | cons b t ih =>
      rw [wsRunLen]
      by_cases hb : isWsByte b = true
      · rw [if_pos hb]
        simpa using ih
      · rw [if_neg hb]
        simp only [List.drop_zero]
        rw [wsRunLen, if_neg hb]

theorem skipWsPos_idem (input : List Nat) (pos : Nat) :
    skipWsPos input (skipWsPos input pos) = skipWsPos input pos := by
  unfold skipWsPos
  have h1 : List.drop (pos + wsRunLen (List.drop pos input)) input =
      List.drop (wsRunLen (List.drop pos input)) (List.drop pos input) := by
    rw [List.drop_drop]
  rw [h1, wsRunLen_after]
  omega

theorem skipWhitespace_idem_level (f : Fmt) (lvl : Nat) :
    skipWhitespace { skipWhitespace f with level := lvl } =
      { skipWhitespace f with level := lvl } := by
  unfold skipWhitespace
  show ({ f with pos := skipWsPos f.input (skipWsPos f.input f.pos), level := lvl } : Fmt) = _
  rw [skipWsPos_idem]

theorem parseObject_mono_le {fuel fuel2 : Nat} {f : Fmt}
    {r : Except FormatError (Fmt × List Nat)}
    (hle : fuel ≤ fuel2) (h : parseObject fuel f = some r) : parseObject fuel2 f = some r := by
  induction fuel2 with
  | zero =>
      have h0 : fuel = 0 := by omega
      subst h0
      exact h
  | succ n ih =>
      by_cases he : fuel = n + 1
      · subst he; exact h
      · exact (parsersMono n).2.1 f r (ih (by omega))

theorem parseArray_mono_le {fuel fuel2 : Nat} {f : Fmt}
    {r : Except FormatError (Fmt × List Nat)}
    (hle : fuel ≤ fuel2) (h : parseArray fuel f = some r) : parseArray fuel2 f = some r := by
  induction fuel2 with
  | zero =>
      have h0 : fuel = 0 := by omega
      subst h0
      exact h
  | succ n ih =>
      by_cases he : fuel = n + 1
      · subst he; exact h
      · exact (parsersMono n).2.2.2.1 f r (ih (by omega))

theorem objLoop_mono_le {fuel fuel2 : Nat} {f : Fmt} {acc : List Nat} {first : Bool}
    {r : Except FormatError (Fmt × List Nat)}
    (hle : fuel ≤ fuel2) (h : objLoop fuel f acc first = some r) :
    objLoop fuel2 f acc first = some r := by
  induction fuel2 with
  | zero =>
      have h0 : fuel = 0 := by omega
      subst h0
      exact h
  | succ n ih =>
      by_cases he : fuel = n + 1
      · subst he; exact h
      · exact (parsersMono n).2.2.1 f acc first r (ih (by omega))

theorem arrLoop_mono_le {fuel fuel2 : Nat} {f : Fmt} {acc : List Nat} {first : Bool}
    {r : Except FormatError (Fmt × List Nat)}
    (hle : fuel ≤ fuel2) (h : arrLoop fuel f acc first = some r) :
    arrLoop fuel2 f acc first = some r := by
  induction fuel2 with
  | zero =>
      have h0 : fuel = 0 := by omega
      subst h0
      exact h
  | succ n ih =>
      by_cases he : fuel = n + 1
      · subst he; exact h
      · exact (parsersMono n).2.2.2.2 f acc first r (ih (by omega))

theorem list_len4 {l : List Nat} (h : l.length = 4) :
    ∃ a1 a2 a3 a4, l = [a1, a2, a3, a4] := by
  rcases l with _ | ⟨a1, _ | ⟨a2, _ | ⟨a3, _ | ⟨a4, _ | ⟨a5, tl⟩⟩⟩⟩⟩
  · exact absurd h (by intro hc; simp only [List.length_nil] at hc; omega)
  · exact absurd h (by intro hc; simp only [List.length_cons, List.length_nil] at hc; omega)
  · exact absurd h (by intro hc; simp only [List.length_cons, List.length_nil] at hc; omega)
  · exact absurd h (by intro hc; simp only [List.length_cons, List.length_nil] at hc; omega)
  · exact ⟨a1, a2, a3, a4, rfl⟩
  · exact absurd h (by intro hc; simp only [List.length_cons, List.length_nil] at hc; omega)

theorem sliceBytes_eq {input : List Nat} {s : Nat} {u v : List Nat}
    (h : input.drop s = u ++ v) : sliceBytes input s (s + u.length) = u := by
  unfold sliceBytes
  rw [h, show s + u.length - s = u.length from by omega, List.take_left]

/-- A successful string-scanner run in no-color mode consumes a `StrTail`
suffix and emits the scanned span. -/
theorem parseStringLoop_shape : ∀ (start : Nat) (mode : StrMode) (f : Fmt),
    ∀ f' emit, parseStringLoop start mode f = .ok (f', emit) → f.color = .noColor →
    ∃ t, StrTail t ∧ f.input.drop f.pos = t ++ f.input.drop (f.pos + t.length) ∧
      f'.input = f.input ∧ f'.level = f.level ∧ f'.color = f.color ∧
      f'.pos = f.pos + t.length ∧
      emit = sliceBytes f.input start (f.pos + t.length) := by
  intro start mode f
  induction f using parseStringLoop.induct start mode with
  | case1 x hp =>
      intro f' emit h hc
      rw [parseStringLoop, hp] at h
      simp only [] at h
      cases h
  | case2 x hp =>
      intro f' emit h hc
      rw [parseStringLoop, hp] at h
      simp only [] at h
      cases h
      refine ⟨[34], StrTail.close, ?_, rfl, rfl, rfl, rfl, ?_⟩
      · have := drop_of_peek hp
        simpa using this
      · cases mode with
        | key =>
            show writeKey x (sliceBytes x.input start (x.pos + 1)) =
              sliceBytes x.input start (x.pos + 1)
            unfold writeKey
            rw [hc, if_neg (fun hcc => Color.noConfusion hcc)]
        | val =>
            show writeValueStr x (sliceBytes x.input start (x.pos + 1)) =
              sliceBytes x.input start (x.pos + 1)
            unfold writeValueStr
            rw [hc, if_neg (fun hcc => Color.noConfusion hcc)]
  | case3 x f1 hn hp hne =>
      intro f' emit h hc
      have hstep : parseStringLoop start mode x = .error .eof := by
        rw [parseStringLoop, hp]
        simp only []
        rw [if_neg hne, if_pos trivial]
        split
        · rfl
        · rename_i b2 g2 heq
          exact Option.noConfusion (hn.symm.trans heq)
      rw [hstep] at h
      cases h
  | case4 x f1 e2 f2 hn he hp hne ih =>
      intro f' emit h hc
      obtain ⟨hf2, hpk2, -⟩ := nextByte_some hn
      have hi2 : f2.input = x.input := by rw [hf2]
      have hp2 : f2.pos = x.pos + 2 := by rw [hf2]
      have hl2 : f2.level = x.level := by rw [hf2]
      have hcc2 : f2.color = x.color := by rw [hf2]
      have hstep : parseStringLoop start mode x = parseStringLoop start mode f2 := by
        rw [parseStringLoop, hp]
        simp only []
        rw [if_neg hne, if_pos trivial]
        split
        · rename_i heq
          exact Option.noConfusion (hn.symm.trans heq)
        · rename_i b2 g2 heq
          have h2 := hn.symm.trans heq
          simp only [Option.some.injEq, Prod.mk.injEq] at h2
          obtain ⟨rfl, rfl⟩ := h2
          rw [if_pos he]
      rw [hstep] at h
      have hc2 : f2.color = .noColor := by rw [hcc2]; exact hc
      obtain ⟨t2, hT2, hD2, hI2, hL2, hC2, hP2, hE2⟩ := ih f' emit h hc2
      have hd0 : x.input.drop x.pos = 92 :: x.input.drop (x.pos + 1) := drop_of_peek hp
      have hd1 : x.input.drop (x.pos + 1) = e2 :: x.input.drop (x.pos + 2) :=
        drop_of_peek hpk2
      rw [hi2, hp2] at hD2
      refine ⟨92 :: e2 :: t2, StrTail.esc e2 t2 he hT2, ?_, ?_, ?_, ?_, ?_, ?_⟩
      · show x.input.drop x.pos =
          (92 :: e2 :: t2) ++ x.input.drop (x.pos + (92 :: e2 :: t2).length)
        rw [hd0, hd1, hD2]
        simp only [List.cons_append, List.length_cons]
        rw [show x.pos + 2 + t2.length = x.pos + (t2.length + 1 + 1) from by omega]
      · rw [hI2, hi2]
      · rw [hL2, hl2]
      · rw [hC2, hcc2]
      · rw [hP2, hp2]
        simp only [List.length_cons]
        omega
      · rw [hE2, hi2, hp2]
        simp only [List.length_cons]
        rw [show x.pos + 2 + t2.length = x.pos + (t2.length + 1 + 1) from by omega]
  | case5 x f1 f2 f3 hh hp hne hn hns ih =>
      intro f' emit h hc
      obtain ⟨hf2, hpk2, -⟩ := nextByte_some hn
      have hi2 : f2.input = x.input := by rw [hf2]
      have hp2 : f2.pos = x.pos + 2 := by rw [hf2]
      have hl2 : f2.level = x.level := by rw [hf2]
      have hcc2 : f2.color = x.color := by rw [hf2]
      have hstep : parseStringLoop start mode x = parseStringLoop start mode f3 := by
        rw [parseStringLoop, hp]
        simp only []
        rw [if_neg hne, if_pos trivial]
        split
        · rename_i heq
          exact Option.noConfusion (hn.symm.trans heq)
        · rename_i b2 g2x heq
          have h2 := hn.symm.trans heq
          simp only [Option.some.injEq, Prod.mk.injEq] at h2
          obtain ⟨h2a, h2b⟩ := h2
          subst h2b
          rw [if_neg (h2a ▸ hns), if_pos (h2a ▸ rfl)]
          split
          · rename_i f3x heq2
            have h3 := hh.symm.trans heq2
            simp only [Except.ok.injEq] at h3
            rw [h3]
          · rename_i err heq2
            exact Except.noConfusion (hh.symm.trans heq2)
      rw [hstep] at h
      obtain ⟨hs, hlen, hhex, hdrop, s4, s5, s6, s7⟩ := readHex4_shape 4 f2 f3 hh
      have hc3 : f3.color = .noColor := by rw [s6, hcc2]; exact hc
      obtain ⟨t3, hT3, hD3, hI3, hL3, hC3, hP3, hE3⟩ := ih f' emit h hc3
      obtain ⟨a1, a2, a3, a4, rfl⟩ := list_len4 hlen
      have hx1 : isAsciiHexDigit a1 = true := hhex a1 (by simp)
      have hx2 : isAsciiHexDigit a2 = true := hhex a2 (by simp)
      have hx3 : isAsciiHexDigit a3 = true := hhex a3 (by simp)
      have hx4 : isAsciiHexDigit a4 = true := hhex a4 (by simp)
      have hi3 : f3.input = x.input := by rw [s4, hi2]
      have hp3 : f3.pos = x.pos + 6 := by omega
      have hl3 : f3.level = x.level := by rw [s5, hl2]
      have hd0 : x.input.drop x.pos = 92 :: x.input.drop (x.pos + 1) := drop_of_peek hp
      have hd1 : x.input.drop (x.pos + 1) = 117 :: x.input.drop (x.pos + 2) :=
        drop_of_peek hpk2
      rw [hi2, hp2] at hdrop
      rw [hi3, hp3] at hD3
      refine ⟨92 :: 117 :: a1 :: a2 :: a3 :: a4 :: t3,
        StrTail.uesc a1 a2 a3 a4 t3 hx1 hx2 hx3 hx4 hT3, ?_, ?_, ?_, ?_, ?_, ?_⟩
      · show x.input.drop x.pos = (92 :: 117 :: a1 :: a2 :: a3 :: a4 :: t3) ++
          x.input.drop (x.pos + (92 :: 117 :: a1 :: a2 :: a3 :: a4 :: t3).length)
        rw [hd0, hd1, hdrop, show x.pos + 2 + 4 = x.pos + 6 from by omega, hD3]
        simp only [List.cons_append, List.nil_append, List.length_cons]
        rw [show x.pos + 6 + t3.length =
          x.pos + (t3.length + 1 + 1 + 1 + 1 + 1 + 1) from by omega]
      · rw [hI3, hi3]
      · rw [hL3, hl3]
      · rw [hC3, s6, hcc2]
      · rw [hP3, hp3]
        simp only [List.length_cons]
        omega
      · rw [hE3, hi3, hp3]
        simp only [List.length_cons]
        rw [show x.pos + 6 + t3.length =
          x.pos + (t3.length + 1 + 1 + 1 + 1 + 1 + 1) from by omega]
  | case6 x f1 f2 err hh hp hne hn hns =>
      intro f' emit h hc
      obtain ⟨hf2, hpk2, -⟩ := nextByte_some hn
      have hstep : parseStringLoop start mode x = .error err := by
        rw [parseStringLoop, hp]
        simp only []
        rw [if_neg hne, if_pos trivial]
        split
        · rename_i heq
          exact Option.noConfusion (hn.symm.trans heq)
        · rename_i b2 g2x heq
          have h2 := hn.symm.trans heq
          simp only [Option.some.injEq, Prod.mk.injEq] at h2
          obtain ⟨h2a, h2b⟩ := h2
          subst h2b
          rw [if_neg (h2a ▸ hns), if_pos (h2a ▸ rfl)]
          split
          · rename_i f3x heq2
            exact Except.noConfusion (hh.symm.trans heq2)
          · rename_i errx heq2
            have h3 := hh.symm.trans heq2
            simp only [Except.error.injEq] at h3
            rw [h3]
      rw [hstep] at h
      cases h
  | case7 x f1 e2 f2 hn hns hne117 hp hne =>
      intro f' emit h hc
      obtain ⟨hf2, hpk2, -⟩ := nextByte_some hn
      have hstep : parseStringLoop start mode x = .error (.invalidEscape e2 f2.pos) := by
        rw [parseStringLoop, hp]
        simp only []
        rw [if_neg hne, if_pos trivial]
        split
        · rename_i heq
          exact Option.noConfusion (hn.symm.trans heq)
        · rename_i b2 g2x heq
          have h2 := hn.symm.trans heq
          simp only [Option.some.injEq, Prod.mk.injEq] at h2
          obtain ⟨h2a, h2b⟩ := h2
          subst h2b
          rw [if_neg (h2a ▸ hns), if_neg (h2a ▸ hne117), h2a]
      rw [hstep] at h
      cases h
  | case8 x b hp hb34 hb92 hctl =>
      intro f' emit h hc
      have hstep : parseStringLoop start mode x = .error (.invalidByte b x.pos) := by
        rw [parseStringLoop, hp]
        simp only []
        rw [if_neg hb34, if_neg hb92, if_pos hctl]
      rw [hstep] at h
      cases h
  | case9 x b hp hb34 hb92 hctl f3 hu ih =>
      intro f' emit h hc
      obtain ⟨c, hcne, hcdrop, u1, u2, u3, u4, urun⟩ := nextUtf8Char_repl hu
      have hstep : parseStringLoop start mode x = parseStringLoop start mode f3 := by
        rw [parseStringLoop, hp]
        simp only []
        rw [if_neg hb34, if_neg hb92, if_neg hctl]
        split
        · rename_i f3x heq
          have h3 := hu.symm.trans heq
          simp only [Except.ok.injEq] at h3
          rw [h3]
        · rename_i err heq
          exact Except.noConfusion (hu.symm.trans heq)
      rw [hstep] at h
      have hc3 : f3.color = .noColor := by rw [u3]; exact hc
      obtain ⟨t3, hT3, hD3, hI3, hL3, hC3, hP3, hE3⟩ := ih f' emit h hc3
      have hb : c.head? = some b := by
        cases c with
        | nil => exact absurd rfl hcne
        | cons a tl =>
            have h0 : peekByte x = some a := by
              rw [peekByte_eq_head, hcdrop]
              rfl
            rw [hp] at h0
            simp only [Option.some.injEq] at h0
            simp only [List.head?_cons]
            rw [h0]
      rw [u1, u4] at hD3
      refine ⟨c ++ t3, StrTail.chr b c t3 hb hb34 hb92 hctl urun hT3, ?_, ?_, ?_, ?_, ?_, ?_⟩
      · show x.input.drop x.pos = (c ++ t3) ++ x.input.drop (x.pos + (c ++ t3).length)
        rw [hcdrop, hD3, List.append_assoc, List.length_append,
          show x.pos + (c.length + t3.length) = x.pos + c.length + t3.length from by omega]
      · rw [hI3, u1]
      · rw [hL3, u2]
      · rw [hC3, u3]
      · rw [hP3, u4, List.length_append]
        omega
      · rw [hE3, u1, u4, List.length_append,
          show x.pos + (c.length + t3.length) = x.pos + c.length + t3.length from by omega]
  | case10 x b hp hb34 hb92 hctl err hu =>
      intro f' emit h hc
      have hstep : parseStringLoop start mode x = .error err := by
        rw [parseStringLoop, hp]
        simp only []
        rw [if_neg hb34, if_neg hb92, if_neg hctl]
        split
        · rename_i f3x heq
          exact Except.noConfusion (hu.symm.trans heq)
        · rename_i errx heq
          have h3 := hu.symm.trans heq
          simp only [Except.error.injEq] at h3
          rw [h3]
      rw [hstep] at h
      cases h

theorem drop_after {l u v : List Nat} {p : Nat} (h : l.drop p = u ++ v) :
    l.drop (p + u.length) = v := by
  rw [← List.drop_drop, h, List.drop_left]

/-- One scanner step over an arbitrary byte admitted by the UTF-8
validator. -/
theorem parseStringLoop_utf8_step {g g2 : Fmt} {b : Nat} (start : Nat) (mode : StrMode)
    (hp : peekByte g = some b)
    (hb34 : ¬b = 34) (hb92 : ¬b = 92) (hctl : ¬b ≤ 31)
    (hu : nextUtf8Char g = .ok g2) :
    parseStringLoop start mode g = parseStringLoop start mode g2 := by
  rw [parseStringLoop, hp]
  simp only [if_neg hb34, if_neg hb92, if_neg hctl]
  split
  · rename_i f' hh
    rw [hu] at hh
    cases hh
    rfl
  · rename_i err hh
    rw [hu] at hh
    cases hh

/-- Running the string scanner over a `StrTail` suffix succeeds and emits
the scanned span, for any start offset, mode, and following bytes. -/
theorem strTail_run : ∀ {t : List Nat}, StrTail t →
    ∀ (g : Fmt) (grest : List Nat) (start : Nat) (mode : StrMode),
    g.input.drop g.pos = t ++ grest → g.color = .noColor →
    parseStringLoop start mode g =
      .ok ({ g with pos := g.pos + t.length }, sliceBytes g.input start (g.pos + t.length)) := by
  intro t hT
  induction hT with
  | close =>
      intro g grest start mode hdrop hc
      have hd0 : g.input.drop g.pos = 34 :: grest := hdrop
      rw [parseStringLoop_close hd0]
      cases mode with
      | key =>
          show Except.ok (({ g with pos := g.pos + 1 } : Fmt),
              writeKey g (sliceBytes g.input start (g.pos + 1))) =
            Except.ok (({ g with pos := g.pos + 1 } : Fmt),
              sliceBytes g.input start (g.pos + 1))
          unfold writeKey
          rw [hc, if_neg (fun hcc => Color.noConfusion hcc)]
      | val =>
          show Except.ok (({ g with pos := g.pos + 1 } : Fmt),
              writeValueStr g (sliceBytes g.input start (g.pos + 1))) =
            Except.ok (({ g with pos := g.pos + 1 } : Fmt),
              sliceBytes g.input start (g.pos + 1))
          unfold writeValueStr
          rw [hc, if_neg (fun hcc => Color.noConfusion hcc)]
  | esc e r he hT ih =>
      intro g grest start mode hdrop hc
      have hd0 : g.input.drop g.pos = 92 :: e :: (r ++ grest) := hdrop
      have hd1 : g.input.drop (g.pos + 1) = e :: (r ++ grest) := drop_cons_succ hd0
      have hd2 : g.input.drop (g.pos + 1 + 1) = r ++ grest := drop_cons_succ hd1
      rw [parseStringLoop_simpleEscape hd0 he]
      rw [ih { g with pos := g.pos + 2 } grest start mode hd2 hc]
      rw [show g.pos + (92 :: e :: r).length = g.pos + 2 + r.length from by
        simp only [List.length_cons]; omega]
  | uesc a1 a2 a3 a4 r hx1 hx2 hx3 hx4 hT ih =>
      intro g grest start mode hdrop hc
      have hd0 : g.input.drop g.pos = 92 :: 117 :: a1 :: a2 :: a3 :: a4 :: (r ++ grest) := hdrop
      have hd6 : g.input.drop (g.pos + 6) = r ++ grest := by
        have e1 := drop_cons_succ hd0
        have e2 := drop_cons_succ e1
        have e3 := drop_cons_succ e2
        have e4 := drop_cons_succ e3
        have e5 := drop_cons_succ e4
        exact drop_cons_succ e5
      rw [parseStringLoop_uEscape hd0 hx1 hx2 hx3 hx4]
      rw [ih { g with pos := g.pos + 6 } grest start mode hd6 hc]
      rw [show g.pos + (92 :: 117 :: a1 :: a2 :: a3 :: a4 :: r).length = g.pos + 6 + r.length
        from by simp only [List.length_cons]; omega]
  | chr b c r hhead hb34 hb92 hctl hrun hT ih =>
      intro g grest start mode hdrop hc
      have hd0 : g.input.drop g.pos = c ++ (r ++ grest) := by
        rw [hdrop, List.append_assoc]
      have hu : nextUtf8Char g = .ok { g with pos := g.pos + c.length } :=
        hrun g (r ++ grest) hd0
      have hdr : g.input.drop (g.pos + c.length) = r ++ grest := drop_after hd0
      have hp : peekByte g = some b := by
        cases hc0 : c with
        | nil => rw [hc0] at hhead; cases hhead
        | cons a tl =>
            rw [hc0] at hhead hd0
            simp only [List.head?_cons, Option.some.injEq] at hhead
            subst hhead
            exact peekByte_of_drop (by simpa using hd0)
      rw [parseStringLoop_utf8_step start mode hp hb34 hb92 hctl hu]
      rw [ih { g with pos := g.pos + c.length } grest start mode hdr hc]
      rw [show g.pos + (c ++ r).length = g.pos + c.length + r.length from by
        rw [List.length_append]; omega]

theorem fmt_ext {a b : Fmt} (h1 : a.input = b.input) (h2 : a.pos = b.pos)
    (h3 : a.level = b.level) (h4 : a.color = b.color) : a = b := by
  cases a
  cases b
  simp only at h1 h2 h3 h4
  subst h1
  subst h2
  subst h3
  subst h4
  rfl

theorem eq_cons_of_head {l : List Nat} {b : Nat} (h : l.head? = some b) :
    l = b :: l.tail := by
  cases l with
  | nil => cases h
  | cons a t =>
      simp only [List.head?_cons, Option.some.injEq] at h
      show a :: t = b :: t
      rw [h]

theorem head?_append_some {u v : List Nat} {b : Nat} (h : u.head? = some b) :
    (u ++ v).head? = some b := by
  cases u with
  | nil => cases h
  | cons a t =>
      simp only [List.cons_append, List.head?_cons] at h ⊢
      exact h

theorem valueHead_not_ws {b : Nat} (h : ValueHead b) : isWsByte b = false := by
  unfold ValueHead at h
  simp only [isWsByte, Bool.or_eq_false_iff, decide_eq_false_iff_not]
  omega

theorem valueHead_ne {b : Nat} (h : ValueHead b) :
    ¬b = 125 ∧ ¬b = 93 ∧ ¬b = 44 := by
  unfold ValueHead at h
  refine ⟨?_, ?_, ?_⟩ <;> omega

theorem safeFollow_sep {D rest : List Nat}
    (h : D.head? = some 44 ∨ D.head? = some 10) : SafeFollow (D ++ rest) := by
  unfold SafeFollow
  rcases h with h | h
  · exact Or.inr (Or.inl (head?_append_some h))
  · exact Or.inr (Or.inr (head?_append_some h))

theorem incLevel_run {f : Fmt} (h : f.level ≤ 99) :
    incLevel f = .ok { f with level := f.level + 1 } := by
  unfold incLevel MAX_INDENT_LEVEL
  rw [if_neg (by omega : ¬100 ≤ f.level)]

theorem ws_replicate (n : Nat) : ∀ x ∈ List.replicate n 32, isWsByte x = true := by
  intro x hx
  rw [List.eq_of_mem_replicate hx]
  rfl

theorem peekByte_at_end {g : Fmt} (h : g.input.length ≤ g.pos) : peekByte g = none := by
  unfold peekByte
  exact List.get?_eq_none.mpr h

theorem parseNumber_head {f f2 : Fmt} {tok : List Nat}
    (h : parseNumber f = .ok (f2, tok)) (hc : f.color = .noColor) :
    ∃ b, tok.head? = some b ∧ (b = 45 ∨ (48 ≤ b ∧ b ≤ 57)) := by
  obtain ⟨sign, intp, frac, expp, hsg, hiS, hfS, heS, htok, -⟩ := parseNumber_shape h hc
  subst htok
  rcases hsg with rfl | rfl
  · rcases hiS with h48 | ⟨dd, ds, hd1, hd2, -, hint⟩
    · subst h48
      exact ⟨48, by simp, Or.inr (by omega)⟩
    · subst hint
      exact ⟨dd, by simp, Or.inr (by omega)⟩
  · exact ⟨45, by simp, Or.inl rfl⟩

/-! Forward evaluation lemmas for the value dispatcher and the container
parsers, driven by the byte at the cursor. -/

theorem parseValue_at_string {fuel : Nat} {g : Fmt} (hpk : peekByte g = some 34) :
    parseValue (fuel + 1) g = some (parseString g .val) := by
  simp [parseValue, hpk]

theorem parseValue_at_number {fuel : Nat} {g : Fmt} {b : Nat} (hpk : peekByte g = some b)
    (hnum : b = 45 ∨ (48 ≤ b ∧ b ≤ 57)) :
    parseValue (fuel + 1) g = some (parseNumber g) := by
  have h34 : ¬b = 34 := by omega
  simp only [parseValue, hpk]
  rw [if_neg h34, if_pos hnum]

theorem parseValue_at_object {fuel : Nat} {g : Fmt} (hpk : peekByte g = some 123) :
    parseValue (fuel + 1) g = parseObject fuel g := by
  simp [parseValue, hpk]

theorem parseValue_at_array {fuel : Nat} {g : Fmt} (hpk : peekByte g = some 91) :
    parseValue (fuel + 1) g = parseArray fuel g := by
  simp [parseValue, hpk]

theorem parseValue_at_true {fuel : Nat} {g : Fmt} (hpk : peekByte g = some 116) :
    parseValue (fuel + 1) g = some (parseTrue g) := by
  simp [parseValue, hpk]

theorem parseValue_at_false {fuel : Nat} {g : Fmt} (hpk : peekByte g = some 102) :
    parseValue (fuel + 1) g = some (parseFalse g) := by
  simp [parseValue, hpk]

theorem parseValue_at_null {fuel : Nat} {g : Fmt} (hpk : peekByte g = some 110) :
    parseValue (fuel + 1) g = some (parseNull g) := by
  simp [parseValue, hpk]

theorem parseObject_empty_run {fuel : Nat} {g g1 : Fmt}
    (h123 : expectByte g 123 = .ok g1)
    (hpk : peekByte (skipWhitespace g1) = some 125) :
    parseObject (fuel + 1) g =
      some (.ok ({ skipWhitespace g1 with pos := (skipWhitespace g1).pos + 1 },
        writeEmptyObj (skipWhitespace g1))) := by
  simp only [parseObject, h123]
  rw [if_pos hpk]

theorem parseObject_step_run {fuel : Nat} {g g1 g3 : Fmt}
    (h123 : expectByte g 123 = .ok g1)
    (hpk : ¬peekByte (skipWhitespace g1) = some 125)
    (hinc : incLevel (skipWhitespace g1) = .ok g3) :
    parseObject (fuel + 1) g = objLoop fuel g3 (writeBeginObj (skipWhitespace g1)) true := by
  simp only [parseObject, h123]
  rw [if_neg hpk]
  simp only [hinc]

theorem parseArray_empty_run {fuel : Nat} {g g1 : Fmt}
    (h91 : expectByte g 91 = .ok g1)
    (hpk : peekByte (skipWhitespace g1) = some 93) :
    parseArray (fuel + 1) g =
      some (.ok ({ skipWhitespace g1 with pos := (skipWhitespace g1).pos + 1 },
        writeEmptyArr (skipWhitespace g1))) := by
  simp only [parseArray, h91]
  rw [if_pos hpk]

theorem parseArray_step_run {fuel : Nat} {g g1 g3 : Fmt}
    (h91 : expectByte g 91 = .ok g1)
    (hpk : ¬peekByte (skipWhitespace g1) = some 93)
    (hinc : incLevel (skipWhitespace g1) = .ok g3) :
    parseArray (fuel + 1) g = arrLoop fuel g3 (writeBeginArr (skipWhitespace g1)) true := by
  simp only [parseArray, h91]
  rw [if_neg hpk]
  simp only [hinc]

theorem objLoop_close_run {fuel : Nat} {g : Fmt} (acc : List Nat) (first : Bool)
    (hpk : peekByte (skipWhitespace g) = some 125) :
    objLoop (fuel + 1) g acc first =
      some (.ok (decLevel { skipWhitespace g with pos := (skipWhitespace g).pos + 1 },
        acc ++ writeLn ++
          writeIndent (decLevel { skipWhitespace g with pos := (skipWhitespace g).pos + 1 }) ++
          writeEndObj (decLevel { skipWhitespace g with pos := (skipWhitespace g).pos + 1 }))) := by
  simp only [objLoop]
  rw [if_pos hpk]

theorem objLoop_first_step {fuel : Nat} {g gB gD gF : Fmt} {dK dV : List Nat}
    (acc : List Nat)
    (hpk : ¬peekByte (skipWhitespace g) = some 125)
    (hs : parseString (skipWhitespace g) .key = .ok (gB, dK))
    (h58 : expectByte (skipWhitespace gB) 58 = .ok gD)
    (hpv : parseValue fuel (skipWhitespace gD) = some (.ok (gF, dV))) :
    objLoop (fuel + 1) g acc true =
      objLoop fuel gF
        ((acc ++ writeIndent (skipWhitespace g) ++ dK ++ writeNameSep gD) ++ dV) false := by
  simp only [objLoop]
  rw [if_neg hpk]
  rw [if_pos trivial]
  simp only [hs, h58, hpv]

theorem objLoop_next_step {fuel : Nat} {g fc gB gD gF : Fmt} {dK dV : List Nat}
    (acc : List Nat)
    (hpk : ¬peekByte (skipWhitespace g) = some 125)
    (h44 : expectByte (skipWhitespace g) 44 = .ok fc)
    (hs : parseString (skipWhitespace fc) .key = .ok (gB, dK))
    (h58 : expectByte (skipWhitespace gB) 58 = .ok gD)
    (hpv : parseValue fuel (skipWhitespace gD) = some (.ok (gF, dV))) :
    objLoop (fuel + 1) g acc false =
      objLoop fuel gF
        (((acc ++ writeValueSep fc) ++ writeIndent (skipWhitespace fc) ++ dK ++
          writeNameSep gD) ++ dV) false := by
  simp only [objLoop]
  rw [if_neg hpk]
  rw [if_neg Bool.false_ne_true]
  simp only [h44, hs, h58, hpv]

theorem arrLoop_close_run {fuel : Nat} {g : Fmt} (acc : List Nat) (first : Bool)
    (hpk : peekByte (skipWhitespace g) = some 93) :
    arrLoop (fuel + 1) g acc first =
      some (.ok (decLevel { skipWhitespace g with pos := (skipWhitespace g).pos + 1 },
        acc ++ writeLn ++
          writeIndent (decLevel { skipWhitespace g with pos := (skipWhitespace g).pos + 1 }) ++
          writeEndArr (decLevel { skipWhitespace g with pos := (skipWhitespace g).pos + 1 }))) := by
  simp only [arrLoop]
  rw [if_pos hpk]

theorem arrLoop_first_step {fuel : Nat} {g gF : Fmt} {dV : List Nat}
    (acc : List Nat)
    (hpk : ¬peekByte (skipWhitespace g) = some 93)
    (hpv : parseValue fuel (skipWhitespace g) = some (.ok (gF, dV))) :
    arrLoop (fuel + 1) g acc true =
      arrLoop fuel gF (acc ++ writeIndent (skipWhitespace g) ++ dV) false := by
  simp only [arrLoop]
  rw [if_neg hpk]
  rw [if_pos trivial]
  simp only [hpv]

theorem arrLoop_next_step {fuel : Nat} {g fc gF : Fmt} {dV : List Nat}
    (acc : List Nat)
    (hpk : ¬peekByte (skipWhitespace g) = some 93)
    (h44 : expectByte (skipWhitespace g) 44 = .ok fc)
    (hpv : parseValue fuel (skipWhitespace fc) = some (.ok (gF, dV))) :
    arrLoop (fuel + 1) g acc false =
      arrLoop fuel gF ((acc ++ writeValueSep fc) ++ writeIndent (skipWhitespace fc) ++ dV)
        false := by
  simp only [arrLoop]
  rw [if_neg hpk]
  rw [if_neg Bool.false_ne_true]
  simp only [h44, hpv]

/-- Inversion and replay for the full string parser in no-color mode: a
success consumes `34 :: t` for a `StrTail` suffix `t`, emits exactly those
bytes, and the same bytes reparse the same way at any cursor. -/
theorem parseString_repl {f f' : Fmt} {mode : StrMode} {emit : List Nat}
    (h : parseString f mode = .ok (f', emit)) (hc : f.color = .noColor) :
    ∃ t, StrTail t ∧
      f.input.drop f.pos = (34 :: t) ++ f.input.drop (f.pos + (34 :: t).length) ∧
      f'.input = f.input ∧ f'.level = f.level ∧ f'.color = f.color ∧
      f'.pos = f.pos + (34 :: t).length ∧ emit = 34 :: t ∧
      (∀ (g : Fmt) (grest : List Nat) (mode2 : StrMode), g.color = .noColor →
        g.input.drop g.pos = (34 :: t) ++ grest →
        parseString g mode2 = .ok ({ g with pos := g.pos + (34 :: t).length }, 34 :: t)) := by
  unfold parseString at h
  cases hx : expectByte f 34 with
  | error e =>
      rw [hx] at h
      simp only [] at h
      cases h
  | ok f1 =>
      rw [hx] at h
      simp only [] at h
      obtain ⟨hf1, hget⟩ := expectByte_ok_inv hx
      have hc1 : f1.color = .noColor := by rw [hf1]; exact hc
      obtain ⟨t, hT, hD, hI, hL, hC, hP, hE⟩ :=
        parseStringLoop_shape f.pos mode f1 f' emit h hc1
      have hi1 : f1.input = f.input := by rw [hf1]
      have hp1 : f1.pos = f.pos + 1 := by rw [hf1]
      rw [hi1, hp1] at hD
      have hd34 : f.input.drop f.pos = 34 :: f.input.drop (f.pos + 1) := by
        have : peekByte f = some 34 := hget
        exact drop_of_peek this
      have hDfull : f.input.drop f.pos =
          (34 :: t) ++ f.input.drop (f.pos + (34 :: t).length) := by
        rw [hd34, hD]
        simp only [List.cons_append, List.length_cons]
        rw [show f.pos + 1 + t.length = f.pos + (t.length + 1) from by omega]
      have hEmit : emit = 34 :: t := by
        rw [hE, hi1, hp1]
        have := sliceBytes_eq hDfull
        rw [show f.pos + (34 :: t).length = f.pos + 1 + t.length from by
          simp only [List.length_cons]; omega] at this
        exact this
      refine ⟨t, hT, hDfull, by rw [hI, hi1], by rw [hL, hf1], by rw [hC, hf1], ?_, hEmit, ?_⟩
      · rw [hP, hp1]
        simp only [List.length_cons]
        omega
      · intro g grest mode2 hcg hdg
        have hdg' : g.input.drop g.pos = 34 :: (t ++ grest) := by simpa using hdg
        have hpk : peekByte g = some 34 := peekByte_of_drop hdg'
        have hx2 : expectByte g 34 = .ok { g with pos := g.pos + 1 } :=
          expectByte_ok_of_peek hpk
        have hd1g : ({ g with pos := g.pos + 1 } : Fmt).input.drop
            ({ g with pos := g.pos + 1 } : Fmt).pos = t ++ grest := drop_cons_succ hdg'
        unfold parseString
        rw [hx2]
        simp only []
        rw [strTail_run hT { g with pos := g.pos + 1 } grest g.pos mode2 hd1g hcg]
        have hsl : sliceBytes g.input g.pos (g.pos + 1 + t.length) = 34 :: t := by
          have := sliceBytes_eq (u := 34 :: t) (v := grest) (by simpa using hdg)
          rw [show g.pos + (34 :: t).length = g.pos + 1 + t.length from by
            simp only [List.length_cons]; omega] at this
          exact this
        rw [show ({ g with pos := g.pos + 1 } : Fmt).pos + t.length =
          g.pos + 1 + t.length from rfl]
        rw [hsl]
        rw [show g.pos + (34 :: t).length = g.pos + 1 + t.length from by
          simp only [List.length_cons]; omega]

/-- Reparse property of the value dispatcher at positive fuel, assuming it
for the container parsers one fuel step down. -/
theorem rvp_succ (fuel : Nat)
    (ihO : ∀ f fend d, parseObject fuel f = some (.ok (fend, d)) → f.color = .noColor →
      POp fuel f fend d)
    (ihA : ∀ f fend d, parseArray fuel f = some (.ok (fend, d)) → f.color = .noColor →
      PAp fuel f fend d) :
    ∀ f fend d, parseValue (fuel + 1) f = some (.ok (fend, d)) → f.color = .noColor →
      RVp (fuel + 1) f fend d := by
  intro f fend d h hc
  simp only [parseValue] at h
  cases hpk : peekByte f with
  | none =>
      rw [hpk] at h
      simp at h
  | some b =>
      rw [hpk] at h
      simp only at h
      by_cases hb34 : b = 34
      · subst hb34
        rw [if_pos rfl] at h
        simp only [Option.some.injEq] at h
        obtain ⟨t, hT, hD, hI, hL, hC, hP, hE, hRep⟩ := parseString_repl h hc
        subst hE
        refine ⟨⟨34, rfl, Or.inl rfl⟩, hL, hC, ?_⟩
        intro g rest hgd hgc hgl hsafe
        have hgd2 : g.input.drop g.pos = 34 :: (t ++ rest) := by simpa using hgd
        rw [parseValue_at_string (peekByte_of_drop hgd2)]
        rw [hRep g rest .val hgc hgd]
      · by_cases hbn : b = 45 ∨ (48 ≤ b ∧ b ≤ 57)
        · rw [if_neg hb34, if_pos hbn] at h
          simp only [Option.some.injEq] at h
          obtain ⟨hI, hL, hC, hP, hD, hRep⟩ := parseNumber_repl h hc
          obtain ⟨bh, hbh, hbval⟩ := parseNumber_head h hc
          have hVH : ValueHead bh := by
            unfold ValueHead
            rcases hbval with h1 | h1
            · exact Or.inr (Or.inl h1)
            · exact Or.inr (Or.inr (Or.inl h1))
          refine ⟨⟨bh, hbh, hVH⟩, hL, hC, ?_⟩
          intro g rest hgd hgc hgl hsafe
          have hpkg : peekByte g = some bh := by
            rw [peekByte_eq_head, hgd]
            exact head?_append_some hbh
          rw [parseValue_at_number hpkg hbval]
          rw [hRep g rest hgd hsafe hgc]
        · by_cases hb123 : b = 123
          · rw [if_neg hb34, if_neg hbn, if_pos hb123] at h
            obtain ⟨hhead, hL, hC, hRep⟩ := ihO f fend d h hc
            refine ⟨⟨123, hhead, by unfold ValueHead; decide⟩, hL, hC, ?_⟩
            intro g rest hgd hgc hgl hsafe
            have hpkg : peekByte g = some 123 := by
              rw [peekByte_eq_head, hgd]
              exact head?_append_some hhead
            rw [parseValue_at_object hpkg]
            exact hRep g rest hgd hgc hgl hsafe
          · by_cases hb91 : b = 91
            · rw [if_neg hb34, if_neg hbn, if_neg hb123, if_pos hb91] at h
              obtain ⟨hhead, hL, hC, hRep⟩ := ihA f fend d h hc
              refine ⟨⟨91, hhead, by unfold ValueHead; decide⟩, hL, hC, ?_⟩
              intro g rest hgd hgc hgl hsafe
              have hpkg : peekByte g = some 91 := by
                rw [peekByte_eq_head, hgd]
                exact head?_append_some hhead
              rw [parseValue_at_array hpkg]
              exact hRep g rest hgd hgc hgl hsafe
            · by_cases hb116 : b = 116
              · rw [if_neg hb34, if_neg hbn, if_neg hb123, if_neg hb91, if_pos hb116] at h
                simp only [Option.some.injEq] at h
                obtain ⟨hdEq, hI, hL, hC, hP, hD, hRep⟩ := parseTrue_repl h hc
                subst hdEq
                refine ⟨⟨116, rfl, by unfold ValueHead; decide⟩, hL, hC, ?_⟩
                intro g rest hgd hgc hgl hsafe
                have hpkg : peekByte g = some 116 := by
                  rw [peekByte_eq_head, hgd]
                  rfl
                rw [parseValue_at_true hpkg]
                rw [hRep g rest hgd hgc]
              · by_cases hb102 : b = 102
                · rw [if_neg hb34, if_neg hbn, if_neg hb123, if_neg hb91, if_neg hb116,
                    if_pos hb102] at h
                  simp only [Option.some.injEq] at h
                  obtain ⟨hdEq, hI, hL, hC, hP, hD, hRep⟩ := parseFalse_repl h hc
                  subst hdEq
                  refine ⟨⟨102, rfl, by unfold ValueHead; decide⟩, hL, hC, ?_⟩
                  intro g rest hgd hgc hgl hsafe
                  have hpkg : peekByte g = some 102 := by
                    rw [peekByte_eq_head, hgd]
                    rfl
                  rw [parseValue_at_false hpkg]
                  rw [hRep g rest hgd hgc]
                · by_cases hb110 : b = 110
                  · rw [if_neg hb34, if_neg hbn, if_neg hb123, if_neg hb91, if_neg hb116,
                      if_neg hb102, if_pos hb110] at h
                    simp only [Option.some.injEq] at h
                    obtain ⟨hdEq, hI, hL, hC, hP, hD, hRep⟩ := parseNull_repl h hc
                    subst hdEq
                    refine ⟨⟨110, rfl, by unfold ValueHead; decide⟩, hL, hC, ?_⟩
                    intro g rest hgd hgc hgl hsafe
                    have hpkg : peekByte g = some 110 := by
                      rw [peekByte_eq_head, hgd]
                      rfl
                    rw [parseValue_at_null hpkg]
                    rw [hRep g rest hgd hgc]
                  · rw [if_neg hb34, if_neg hbn, if_neg hb123, if_neg hb91, if_neg hb116,
                      if_neg hb102, if_neg hb110] at h
                    simp at h

/-- Reparse property of the object parser at positive fuel, assuming it
for the member loop one fuel step down. -/
theorem pop_succ (fuel : Nat)
    (ihOL : ∀ f acc first fend d, objLoop fuel f acc first = some (.ok (fend, d)) →
      f.color = .noColor → OLp fuel f fend acc d first) :
    ∀ f fend d, parseObject (fuel + 1) f = some (.ok (fend, d)) → f.color = .noColor →
      POp (fuel + 1) f fend d := by
  intro f fend d h hc
  simp only [parseObject] at h
  cases h123 : expectByte f 123 with
  | error e => rw [h123] at h; simp at h
  | ok f1 =>
      rw [h123] at h
      simp only at h
      obtain ⟨hf1, hget⟩ := expectByte_ok_inv h123
      have h1l : f1.level = f.level := by rw [hf1]
      have h1c : f1.color = f.color := by rw [hf1]
      have hsw1 := skipWhitespace_state f1
      have hswc : (skipWhitespace f1).color = Color.noColor := by
        rw [hsw1.2.2.1, h1c]
        exact hc
      have hswl : (skipWhitespace f1).level = f.level := by
        rw [hsw1.2.1, h1l]
      by_cases hcl : peekByte (skipWhitespace f1) = some 125
      · rw [if_pos hcl] at h
        simp only [Option.some.injEq, Except.ok.injEq, Prod.mk.injEq] at h
        obtain ⟨hfend, hd⟩ := h
        have hdEq : d = [123, 125] := by
          rw [← hd]
          unfold writeEmptyObj
          rw [hswc]
          rw [if_neg (fun hcc => Color.noConfusion hcc)]
        subst hdEq
        subst hfend
        refine ⟨rfl, ?_, ?_, ?_⟩
        · show (skipWhitespace f1).level = f.level
          exact hswl
        · show (skipWhitespace f1).color = f.color
          rw [hsw1.2.2.1, h1c]
        · intro g rest hgd hgc hgl hsafe
          have hgd2 : g.input.drop g.pos = 123 :: (125 :: rest) := by simpa using hgd
          have hx : expectByte g 123 = .ok { g with pos := g.pos + 1 } :=
            expectByte_ok_of_peek (peekByte_of_drop hgd2)
          have hg1d : ({ g with pos := g.pos + 1 } : Fmt).input.drop
              ({ g with pos := g.pos + 1 } : Fmt).pos = 125 :: rest := drop_cons_succ hgd2
          have hswg : skipWhitespace ({ g with pos := g.pos + 1 } : Fmt) =
              { g with pos := g.pos + 1 } :=
            skipWhitespace_of_head hg1d (by decide)
          have hpk2 : peekByte (skipWhitespace ({ g with pos := g.pos + 1 } : Fmt)) =
              some 125 := by
            rw [hswg]
            exact peekByte_of_drop hg1d
          rw [parseObject_empty_run hx hpk2]
          rw [hswg]
          have hwe : writeEmptyObj ({ g with pos := g.pos + 1 } : Fmt) = [123, 125] := by
            unfold writeEmptyObj
            rw [show ({ g with pos := g.pos + 1 } : Fmt).color = Color.noColor from hgc]
            rw [if_neg (fun hcc => Color.noConfusion hcc)]
          rw [hwe]
          rfl
      · rw [if_neg hcl] at h
        cases hinc : incLevel (skipWhitespace f1) with
        | error e => rw [hinc] at h; simp at h
        | ok f3 =>
            rw [hinc] at h
            simp only at h
            obtain ⟨hf3, hle99⟩ := incLevel_ok hinc
            have h3c : f3.color = Color.noColor := by
              rw [hf3]
              show (skipWhitespace f1).color = Color.noColor
              exact hswc
            have h3l : f3.level = f.level + 1 := by
              rw [hf3]
              show (skipWhitespace f1).level + 1 = f.level + 1
              rw [hswl]
            obtain ⟨hOLlev, hOLcol, hOLtrue, -⟩ :=
              ihOL f3 (writeBeginObj (skipWhitespace f1)) true fend d h h3c
            have hswf3 : skipWhitespace f3 = f3 := by
              rw [hf3]
              exact skipWhitespace_idem_level f1 ((skipWhitespace f1).level + 1)
            have hguard : ¬peekByte (skipWhitespace f3) = some 125 := by
              rw [hswf3, hf3]
              exact hcl
            obtain ⟨S, hdS, hSh, hSrep⟩ := hOLtrue rfl hguard
            obtain ⟨T, hST⟩ : ∃ T, S = 34 :: T := ⟨S.tail, eq_cons_of_head hSh⟩
            subst hST
            have hwb : writeBeginObj (skipWhitespace f1) = [123, 10] := by
              unfold writeBeginObj
              rw [hswc]
              rw [if_neg (fun hcc => Color.noConfusion hcc)]
            subst hdS
            refine ⟨?_, ?_, ?_, ?_⟩
            · simp [hwb]
            · omega
            · rw [hOLcol, h3c, hc]
            · intro g rest hgd hgc hgl hsafe
              rw [hwb] at hgd ⊢
              have hgd2 : g.input.drop g.pos =
                  123 :: (wsIndent f3.level ++ ((34 :: T) ++ rest)) := by
                simpa [wsIndent, List.append_assoc] using hgd
              have hx : expectByte g 123 = .ok { g with pos := g.pos + 1 } :=
                expectByte_ok_of_peek (peekByte_of_drop hgd2)
              have hg1d : ({ g with pos := g.pos + 1 } : Fmt).input.drop
                  ({ g with pos := g.pos + 1 } : Fmt).pos =
                  wsIndent f3.level ++ (34 :: (T ++ rest)) := by
                have := drop_cons_succ hgd2
                simpa [wsIndent, List.append_assoc] using this
              have hwsws : ∀ x ∈ wsIndent f3.level, isWsByte x = true := by
                intro x hx2
                simp only [wsIndent] at hx2
                rcases List.mem_cons.mp hx2 with rfl | hx3
                · rfl
                · exact ws_replicate (f3.level * 2) x hx3
              have hswg1 : skipWhitespace ({ g with pos := g.pos + 1 } : Fmt) =
                  { g with pos := g.pos + 1 + (wsIndent f3.level).length } :=
                skipWhitespace_run hg1d hwsws (by decide)
              have hg2d : ({ g with pos := g.pos + 1 + (wsIndent f3.level).length } : Fmt).input.drop
                  ({ g with pos := g.pos + 1 + (wsIndent f3.level).length } : Fmt).pos =
                  34 :: (T ++ rest) := by
                have := drop_after hg1d
                simpa [List.append_assoc] using this
              have hpkg125 : ¬peekByte (skipWhitespace ({ g with pos := g.pos + 1 } : Fmt)) =
                  some 125 := by
                rw [hswg1, peekByte_of_drop hg2d]
                simp
              have hlevg1 : ({ g with pos := g.pos + 1 + (wsIndent f3.level).length } : Fmt).level ≤ 99 := by
                show g.level ≤ 99
                rw [hgl, ← hswl]
                exact hle99
              have hincg2 : incLevel (skipWhitespace ({ g with pos := g.pos + 1 } : Fmt)) =
                  .ok ({ g with pos := g.pos + 1 + (wsIndent f3.level).length, level := g.level + 1 } : Fmt) := by
                rw [hswg1]
                exact incLevel_run hlevg1
              rw [parseObject_step_run hx hpkg125 hincg2]
              rw [hswg1]
              have hwbg : writeBeginObj ({ g with pos := g.pos + 1 + (wsIndent f3.level).length } : Fmt) =
                  [123, 10] := by
                unfold writeBeginObj
                rw [show ({ g with pos := g.pos + 1 + (wsIndent f3.level).length } : Fmt).color =
                  Color.noColor from hgc]
                rw [if_neg (fun hcc => Color.noConfusion hcc)]
              rw [hwbg]
              have hdrop3 : ({ g with pos := g.pos + 1 + (wsIndent f3.level).length, level := g.level + 1 } : Fmt).input.drop
                  ({ g with pos := g.pos + 1 + (wsIndent f3.level).length, level := g.level + 1 } : Fmt).pos =
                  (34 :: T) ++ rest := by
                simpa [List.append_assoc] using hg2d
              have hcol3 : ({ g with pos := g.pos + 1 + (wsIndent f3.level).length, level := g.level + 1 } : Fmt).color =
                  Color.noColor := hgc
              have hlev3 : ({ g with pos := g.pos + 1 + (wsIndent f3.level).length, level := g.level + 1 } : Fmt).level =
                  f3.level := by
                show g.level + 1 = f3.level
                rw [hgl, h3l]
              rw [hSrep ({ g with pos := g.pos + 1 + (wsIndent f3.level).length, level := g.level + 1 } : Fmt)
                rest [123, 10] hdrop3 hcol3 hlev3 hsafe]
              simp only [Option.some.injEq, Except.ok.injEq, Prod.mk.injEq]
              refine ⟨fmt_ext rfl ?_ ?_ rfl, trivial⟩
              · show g.pos + 1 + (wsIndent f3.level).length + (34 :: T).length =
                  g.pos + ([123, 10] ++ (List.replicate (f3.level * 2) 32 ++ (34 :: T))).length
                simp only [wsIndent, List.length_cons, List.length_append, List.length_replicate,
                  List.length_nil]
                omega
              · show g.level + 1 - 1 = g.level
                omega

/-- Reparse property of the array parser at positive fuel, assuming it
for the element loop one fuel step down. -/
theorem pap_succ (fuel : Nat)
    (ihAL : ∀ f acc first fend d, arrLoop fuel f acc first = some (.ok (fend, d)) →
      f.color = .noColor → ALp fuel f fend acc d first) :
    ∀ f fend d, parseArray (fuel + 1) f = some (.ok (fend, d)) → f.color = .noColor →
      PAp (fuel + 1) f fend d := by
  intro f fend d h hc
  simp only [parseArray] at h
  cases h91 : expectByte f 91 with
  | error e => rw [h91] at h; simp at h
  | ok f1 =>
      rw [h91] at h
      simp only at h
      obtain ⟨hf1, hget⟩ := expectByte_ok_inv h91
      have h1l : f1.level = f.level := by rw [hf1]
      have h1c : f1.color = f.color := by rw [hf1]
      have hsw1 := skipWhitespace_state f1
      have hswc : (skipWhitespace f1).color = Color.noColor := by
        rw [hsw1.2.2.1, h1c]
        exact hc
      have hswl : (skipWhitespace f1).level = f.level := by
        rw [hsw1.2.1, h1l]
      by_cases hcl : peekByte (skipWhitespace f1) = some 93
      · rw [if_pos hcl] at h
        simp only [Option.some.injEq, Except.ok.injEq, Prod.mk.injEq] at h
        obtain ⟨hfend, hd⟩ := h
        have hdEq : d = [91, 93] := by
          rw [← hd]
          unfold writeEmptyArr
          rw [hswc]
          rw [if_neg (fun hcc => Color.noConfusion hcc)]
        subst hdEq
        subst hfend
        refine ⟨rfl, ?_, ?_, ?_⟩
        · show (skipWhitespace f1).level = f.level
          exact hswl
        · show (skipWhitespace f1).color = f.color
          rw [hsw1.2.2.1, h1c]
        · intro g rest hgd hgc hgl hsafe
          have hgd2 : g.input.drop g.pos = 91 :: (93 :: rest) := by simpa using hgd
          have hx : expectByte g 91 = .ok { g with pos := g.pos + 1 } :=
            expectByte_ok_of_peek (peekByte_of_drop hgd2)
          have hg1d : ({ g with pos := g.pos + 1 } : Fmt).input.drop
              ({ g with pos := g.pos + 1 } : Fmt).pos = 93 :: rest := drop_cons_succ hgd2
          have hswg : skipWhitespace ({ g with pos := g.pos + 1 } : Fmt) =
              { g with pos := g.pos + 1 } :=
            skipWhitespace_of_head hg1d (by decide)
          have hpk2 : peekByte (skipWhitespace ({ g with pos := g.pos + 1 } : Fmt)) =
              some 93 := by
            rw [hswg]
            exact peekByte_of_drop hg1d
          rw [parseArray_empty_run hx hpk2]
          rw [hswg]
          have hwe : writeEmptyArr ({ g with pos := g.pos + 1 } : Fmt) = [91, 93] := by
            unfold writeEmptyArr
            rw [show ({ g with pos := g.pos + 1 } : Fmt).color = Color.noColor from hgc]
            rw [if_neg (fun hcc => Color.noConfusion hcc)]
          rw [hwe]
          rfl
      · rw [if_neg hcl] at h
        cases hinc : incLevel (skipWhitespace f1) with
        | error e => rw [hinc] at h; simp at h
        | ok f3 =>
            rw [hinc] at h
            simp only at h
            obtain ⟨hf3, hle99⟩ := incLevel_ok hinc
            have h3c : f3.color = Color.noColor := by
              rw [hf3]
              show (skipWhitespace f1).color = Color.noColor
              exact hswc
            have h3l : f3.level = f.level + 1 := by
              rw [hf3]
              show (skipWhitespace f1).level + 1 = f.level + 1
              rw [hswl]
            obtain ⟨hALlev, hALcol, hALtrue, -⟩ :=
              ihAL f3 (writeBeginArr (skipWhitespace f1)) true fend d h h3c
            have hswf3 : skipWhitespace f3 = f3 := by
              rw [hf3]
              exact skipWhitespace_idem_level f1 ((skipWhitespace f1).level + 1)
            have hguard : ¬peekByte (skipWhitespace f3) = some 93 := by
              rw [hswf3, hf3]
              exact hcl
            obtain ⟨S, bh, hdS, hSh, hVH, hSrep⟩ := hALtrue rfl hguard
            obtain ⟨T, hST⟩ : ∃ T, S = bh :: T := ⟨S.tail, eq_cons_of_head hSh⟩
            subst hST
            have hwb : writeBeginArr (skipWhitespace f1) = [91, 10] := by
              unfold writeBeginArr
              rw [hswc]
              rw [if_neg (fun hcc => Color.noConfusion hcc)]
            subst hdS
            refine ⟨?_, ?_, ?_, ?_⟩
            · simp [hwb]
            · omega
            · rw [hALcol, h3c, hc]
            · intro g rest hgd hgc hgl hsafe
              rw [hwb] at hgd ⊢
              have hgd2 : g.input.drop g.pos =
                  91 :: (wsIndent f3.level ++ ((bh :: T) ++ rest)) := by
                simpa [wsIndent, List.append_assoc] using hgd
              have hx : expectByte g 91 = .ok { g with pos := g.pos + 1 } :=
                expectByte_ok_of_peek (peekByte_of_drop hgd2)
              have hg1d : ({ g with pos := g.pos + 1 } : Fmt).input.drop
                  ({ g with pos := g.pos + 1 } : Fmt).pos =
                  wsIndent f3.level ++ (bh :: (T ++ rest)) := by
                have := drop_cons_succ hgd2
                simpa [wsIndent, List.append_assoc] using this
              have hwsws : ∀ x ∈ wsIndent f3.level, isWsByte x = true := by
                intro x hx2
                simp only [wsIndent] at hx2
                rcases List.mem_cons.mp hx2 with rfl | hx3
                · rfl
                · exact ws_replicate (f3.level * 2) x hx3
              have hswg1 : skipWhitespace ({ g with pos := g.pos + 1 } : Fmt) =
                  { g with pos := g.pos + 1 + (wsIndent f3.level).length } :=
                skipWhitespace_run hg1d hwsws (valueHead_not_ws hVH)
              have hg2d : ({ g with pos := g.pos + 1 + (wsIndent f3.level).length } : Fmt).input.drop
                  ({ g with pos := g.pos + 1 + (wsIndent f3.level).length } : Fmt).pos =
                  bh :: (T ++ rest) := by
                have := drop_after hg1d
                simpa [List.append_assoc] using this
              have hpkg93 : ¬peekByte (skipWhitespace ({ g with pos := g.pos + 1 } : Fmt)) =
                  some 93 := by
                rw [hswg1, peekByte_of_drop hg2d]
                have h93 := (valueHead_ne hVH).2.1
                simp only [Option.some.injEq]
                exact fun hcc => h93 hcc
              have hlevg1 : ({ g with pos := g.pos + 1 + (wsIndent f3.level).length } : Fmt).level ≤ 99 := by
                show g.level ≤ 99
                rw [hgl, ← hswl]
                exact hle99
              have hincg2 : incLevel (skipWhitespace ({ g with pos := g.pos + 1 } : Fmt)) =
                  .ok ({ g with pos := g.pos + 1 + (wsIndent f3.level).length, level := g.level + 1 } : Fmt) := by
                rw [hswg1]
                exact incLevel_run hlevg1
              rw [parseArray_step_run hx hpkg93 hincg2]
              rw [hswg1]
              have hwbg : writeBeginArr ({ g with pos := g.pos + 1 + (wsIndent f3.level).length } : Fmt) =
                  [91, 10] := by
                unfold writeBeginArr
                rw [show ({ g with pos := g.pos + 1 + (wsIndent f3.level).length } : Fmt).color =
                  Color.noColor from hgc]
                rw [if_neg (fun hcc => Color.noConfusion hcc)]
              rw [hwbg]
              have hdrop3 : ({ g with pos := g.pos + 1 + (wsIndent f3.level).length, level := g.level + 1 } : Fmt).input.drop
                  ({ g with pos := g.pos + 1 + (wsIndent f3.level).length, level := g.level + 1 } : Fmt).pos =
                  (bh :: T) ++ rest := by
                simpa [List.append_assoc] using hg2d
              have hcol3 : ({ g with pos := g.pos + 1 + (wsIndent f3.level).length, level := g.level + 1 } : Fmt).color =
                  Color.noColor := hgc
              have hlev3 : ({ g with pos := g.pos + 1 + (wsIndent f3.level).length, level := g.level + 1 } : Fmt).level =
                  f3.level := by
                show g.level + 1 = f3.level
                rw [hgl, h3l]
              rw [hSrep ({ g with pos := g.pos + 1 + (wsIndent f3.level).length, level := g.level + 1 } : Fmt)
                rest [91, 10] hdrop3 hcol3 hlev3 hsafe]
              simp only [Option.some.injEq, Except.ok.injEq, Prod.mk.injEq]
              refine ⟨fmt_ext rfl ?_ ?_ rfl, trivial⟩
              · show g.pos + 1 + (wsIndent f3.level).length + (bh :: T).length =
                  g.pos + ([91, 10] ++ (List.replicate (f3.level * 2) 32 ++ (bh :: T))).length
                simp only [wsIndent, List.length_cons, List.length_append, List.length_replicate,
                  List.length_nil]
                omega
              · show g.level + 1 - 1 = g.level
                omega

/-- Reparse property of the object-member loop at positive fuel, assuming
the value and loop properties one fuel step down. -/
theorem olp_succ (fuel : Nat)
    (ihV : ∀ f fend d, parseValue fuel f = some (.ok (fend, d)) → f.color = .noColor →
      RVp fuel f fend d)
    (ihOL : ∀ f acc first fend d, objLoop fuel f acc first = some (.ok (fend, d)) →
      f.color = .noColor → OLp fuel f fend acc d first) :
    ∀ f acc first fend d, objLoop (fuel + 1) f acc first = some (.ok (fend, d)) →
      f.color = .noColor → OLp (fuel + 1) f fend acc d first := by
  intro f acc first fend d h hc
  by_cases hcl : peekByte (skipWhitespace f) = some 125
  · rw [objLoop_close_run acc first hcl] at h
    simp only [Option.some.injEq, Except.ok.injEq, Prod.mk.injEq] at h
    obtain ⟨hfend, hd⟩ := h
    subst hfend
    have hweo : writeEndObj (decLevel
        ({ skipWhitespace f with pos := (skipWhitespace f).pos + 1 } : Fmt)) = [125] := by
      unfold writeEndObj
      rw [show (decLevel ({ skipWhitespace f with
        pos := (skipWhitespace f).pos + 1 } : Fmt)).color = Color.noColor from hc]
      rw [if_neg (fun hcc => Color.noConfusion hcc)]
    refine ⟨rfl, rfl, ?_, ?_⟩
    · intro _ hguard
      exact absurd hcl hguard
    · intro _
      refine ⟨10 :: (List.replicate ((f.level - 1) * 2) 32 ++ [125]), ?_, Or.inr rfl, ?_⟩
      · rw [← hd, hweo]
        show acc ++ writeLn ++ List.replicate ((f.level - 1) * 2) 32 ++ [125] =
          acc ++ (10 :: (List.replicate ((f.level - 1) * 2) 32 ++ [125]))
        simp [writeLn, List.append_assoc]
      · intro g rest acc2 hgd hgc hgl hsafe
        have hgd2 : g.input.drop g.pos =
            (10 :: List.replicate ((f.level - 1) * 2) 32) ++ (125 :: rest) := by
          simpa [writeLn, List.append_assoc] using hgd
        have hws : ∀ x ∈ (10 :: List.replicate ((f.level - 1) * 2) 32), isWsByte x = true := by
          intro x hx2
          rcases List.mem_cons.mp hx2 with rfl | hx3
          · rfl
          · exact ws_replicate ((f.level - 1) * 2) x hx3
        have hsg : skipWhitespace g =
            { g with pos := g.pos + (10 :: List.replicate ((f.level - 1) * 2) 32).length } :=
          skipWhitespace_run hgd2 hws (by decide)
        have hdcl : ({ g with pos :=
            g.pos + (10 :: List.replicate ((f.level - 1) * 2) 32).length } : Fmt).input.drop
            ({ g with pos :=
            g.pos + (10 :: List.replicate ((f.level - 1) * 2) 32).length } : Fmt).pos =
            125 :: rest := drop_after hgd2
        have hpkg : peekByte (skipWhitespace g) = some 125 := by
          rw [hsg]
          exact peekByte_of_drop hdcl
        rw [objLoop_close_run acc2 false hpkg]
        rw [hsg]
        have hwidg : writeIndent (decLevel ({ ({ g with pos :=
            g.pos + (10 :: List.replicate ((f.level - 1) * 2) 32).length } : Fmt) with pos :=
            ({ g with pos :=
            g.pos + (10 :: List.replicate ((f.level - 1) * 2) 32).length } : Fmt).pos + 1 } : Fmt)) =
            List.replicate ((f.level - 1) * 2) 32 := by
          show List.replicate ((g.level - 1) * 2) 32 = List.replicate ((f.level - 1) * 2) 32
          rw [hgl]
        have hweog : writeEndObj (decLevel ({ ({ g with pos :=
            g.pos + (10 :: List.replicate ((f.level - 1) * 2) 32).length } : Fmt) with pos :=
            ({ g with pos :=
            g.pos + (10 :: List.replicate ((f.level - 1) * 2) 32).length } : Fmt).pos + 1 } : Fmt)) =
            [125] := by
          unfold writeEndObj
          rw [show (decLevel ({ ({ g with pos :=
            g.pos + (10 :: List.replicate ((f.level - 1) * 2) 32).length } : Fmt) with pos :=
            ({ g with pos :=
            g.pos + (10 :: List.replicate ((f.level - 1) * 2) 32).length } : Fmt).pos + 1 } : Fmt)).color =
            Color.noColor from hgc]
          rw [if_neg (fun hcc => Color.noConfusion hcc)]
        rw [hwidg, hweog]
        simp only [Option.some.injEq, Except.ok.injEq, Prod.mk.injEq]
        refine ⟨fmt_ext rfl ?_ rfl rfl, ?_⟩
        · show g.pos + (10 :: List.replicate ((f.level - 1) * 2) 32).length + 1 =
            g.pos + (10 :: (List.replicate ((f.level - 1) * 2) 32 ++ [125])).length
          simp only [List.length_cons, List.length_append, List.length_replicate,
            List.length_nil]
          omega
        · show acc2 ++ writeLn ++ List.replicate ((f.level - 1) * 2) 32 ++ [125] =
            acc2 ++ (10 :: (List.replicate ((f.level - 1) * 2) 32 ++ [125]))
          simp [writeLn, List.append_assoc]
  · simp only [objLoop] at h
    rw [if_neg hcl] at h
    cases first with
    | true =>
        simp only at h
        rw [if_pos trivial] at h
        simp only at h
        cases hs : parseString (skipWhitespace f) .key with
        | error e2 => rw [hs] at h; simp at h
        | ok pB =>
            obtain ⟨fB, dK⟩ := pB
            rw [hs] at h
            simp only at h
            obtain ⟨t, hT, hDstr, hBi, hBl, hBc, hBp, hEK, hKrep⟩ := parseString_repl hs hc
            subst hEK
            cases h58 : expectByte (skipWhitespace fB) 58 with
            | error e3 => rw [h58] at h; simp at h
            | ok fD =>
                rw [h58] at h
                simp only at h
                obtain ⟨hfD, hget58⟩ := expectByte_ok_inv h58
                cases hpv : parseValue fuel (skipWhitespace fD) with
                | none => rw [hpv] at h; simp at h
                | some r =>
                    cases r with
                    | error e4 => rw [hpv] at h; simp at h
                    | ok pF =>
                        obtain ⟨fF, dV⟩ := pF
                        rw [hpv] at h
                        simp only at h
                        have hfDc : fD.color = Color.noColor := by
                          rw [hfD]
                          show fB.color = Color.noColor
                          rw [hBc]
                          exact hc
                        have hfDl : fD.level = f.level := by
                          rw [hfD]
                          show fB.level = f.level
                          rw [hBl]
                          rfl
                        have hswD := skipWhitespace_state fD
                        have hEc : (skipWhitespace fD).color = Color.noColor := by
                          rw [hswD.2.2.1]
                          exact hfDc
                        obtain ⟨⟨bv, hbv, hVHv⟩, hFl, hFc, hVrep⟩ :=
                          ihV (skipWhitespace fD) fF dV hpv hEc
                        have hFl2 : fF.level = f.level := by
                          rw [hFl, hswD.2.1]
                          exact hfDl
                        have hFc2 : fF.color = Color.noColor := by
                          rw [hFc, hswD.2.2.1]
                          exact hfDc
                        obtain ⟨hRlev, hRcol, -, hRfalse⟩ := ihOL fF _ false fend d h hFc2
                        obtain ⟨D2, hdD2, hD2h, hD2rep⟩ := hRfalse rfl
                        have hwns : writeNameSep fD = [58, 32] := by
                          unfold writeNameSep
                          rw [hfDc]
                          rw [if_neg (fun hcc => Color.noConfusion hcc)]
                        refine ⟨?_, ?_, ?_, ?_⟩
                        · omega
                        · rw [hRcol, hFc2, hc]
                        · intro _ _
                          refine ⟨(34 :: t) ++ ([58, 32] ++ (dV ++ D2)), ?_, head?_append_some rfl, ?_⟩
                          · rw [hdD2, hwns]
                            show ((acc ++ List.replicate (f.level * 2) 32 ++ (34 :: t) ++
                                [58, 32]) ++ dV) ++ D2 =
                              acc ++ (List.replicate (f.level * 2) 32 ++
                                ((34 :: t) ++ ([58, 32] ++ (dV ++ D2))))
                            simp [List.append_assoc]
                          · intro g rest acc2 hgd hgc hgl hsafe
                            have hgdK : g.input.drop g.pos =
                                (34 :: t) ++ ([58, 32] ++ (dV ++ (D2 ++ rest))) := by
                              simpa [List.append_assoc] using hgd
                            have hgdK2 : g.input.drop g.pos =
                                34 :: (t ++ ([58, 32] ++ (dV ++ (D2 ++ rest)))) := by
                              simpa [List.append_assoc] using hgd
                            have hsgid : skipWhitespace g = g :=
                              skipWhitespace_of_head hgdK2 (by decide)
                            have hpkng : ¬peekByte (skipWhitespace g) = some 125 := by
                              rw [hsgid, peekByte_of_drop hgdK2]
                              simp
                            have hsK : parseString (skipWhitespace g) .key =
                                .ok ({ g with pos := g.pos + (34 :: t).length }, 34 :: t) := by
                              rw [hsgid]
                              exact hKrep g ([58, 32] ++ (dV ++ (D2 ++ rest))) .key hgc hgdK
                            have hdB : ({ g with pos := g.pos + (34 :: t).length } : Fmt).input.drop
                                ({ g with pos := g.pos + (34 :: t).length } : Fmt).pos =
                                58 :: (32 :: (dV ++ (D2 ++ rest))) := by
                              have := drop_after hgdK
                              simpa [List.append_assoc] using this
                            have hsgB : skipWhitespace
                                ({ g with pos := g.pos + (34 :: t).length } : Fmt) =
                                { g with pos := g.pos + (34 :: t).length } :=
                              skipWhitespace_of_head hdB (by decide)
                            have h58g : expectByte (skipWhitespace
                                ({ g with pos := g.pos + (34 :: t).length } : Fmt)) 58 =
                                .ok ({ g with pos := g.pos + (34 :: t).length + 1 } : Fmt) := by
                              rw [hsgB]
                              exact expectByte_ok_of_peek (peekByte_of_drop hdB)
                            have hdD : ({ g with pos :=
                                g.pos + (34 :: t).length + 1 } : Fmt).input.drop
                                ({ g with pos := g.pos + (34 :: t).length + 1 } : Fmt).pos =
                                32 :: (dV ++ (D2 ++ rest)) := drop_cons_succ hdB
                            have hdV0 : g.input.drop (g.pos + (34 :: t).length + 1 + 1) =
                                dV ++ (D2 ++ rest) := drop_cons_succ hdD
                            obtain ⟨V, hVd⟩ : ∃ V, dV = bv :: V := ⟨dV.tail, eq_cons_of_head hbv⟩
                            have hd32 : ({ g with pos :=
                                g.pos + (34 :: t).length + 1 } : Fmt).input.drop
                                ({ g with pos := g.pos + (34 :: t).length + 1 } : Fmt).pos =
                                [32] ++ (bv :: (V ++ (D2 ++ rest))) := by
                              rw [hdD, hVd]
                              simp [List.append_assoc]
                            have hsgD : skipWhitespace ({ g with pos :=
                                g.pos + (34 :: t).length + 1 } : Fmt) =
                                { g with pos := g.pos + (34 :: t).length + 1 + 1 } :=
                              skipWhitespace_run hd32
                                (by intro x hx2; simp at hx2; subst hx2; rfl)
                                (valueHead_not_ws hVHv)
                            have hglv : ({ g with pos :=
                                g.pos + (34 :: t).length + 1 + 1 } : Fmt).level =
                                (skipWhitespace fD).level := by
                              show g.level = (skipWhitespace fD).level
                              rw [hswD.2.1, hfDl]
                              exact hgl
                            have hpvg0 := hVrep ({ g with pos :=
                                g.pos + (34 :: t).length + 1 + 1 } : Fmt) (D2 ++ rest)
                              hdV0 hgc hglv (safeFollow_sep hD2h)
                            have hpvg2 : parseValue fuel (skipWhitespace ({ g with pos :=
                                g.pos + (34 :: t).length + 1 } : Fmt)) =
                                some (.ok (({ g with pos :=
                                  g.pos + (34 :: t).length + 1 + 1 + dV.length } : Fmt), dV)) := by
                              rw [hsgD]
                              exact hpvg0
                            rw [objLoop_first_step acc2 hpkng hsK h58g hpvg2]
                            rw [hsgid]
                            have hwig : writeIndent g = List.replicate (f.level * 2) 32 := by
                              show List.replicate (g.level * 2) 32 =
                                List.replicate (f.level * 2) 32
                              rw [hgl]
                            rw [hwig]
                            have hwnsg : writeNameSep ({ g with pos :=
                                g.pos + (34 :: t).length + 1 } : Fmt) = [58, 32] := by
                              unfold writeNameSep
                              rw [show ({ g with pos :=
                                g.pos + (34 :: t).length + 1 } : Fmt).color =
                                Color.noColor from hgc]
                              rw [if_neg (fun hcc => Color.noConfusion hcc)]
                            rw [hwnsg]
                            have hdD2g : ({ g with pos :=
                                g.pos + (34 :: t).length + 1 + 1 + dV.length } : Fmt).input.drop
                                ({ g with pos :=
                                g.pos + (34 :: t).length + 1 + 1 + dV.length } : Fmt).pos =
                                D2 ++ rest := drop_after hdV0
                            have hcolF : ({ g with pos :=
                                g.pos + (34 :: t).length + 1 + 1 + dV.length } : Fmt).color =
                                Color.noColor := hgc
                            have hlevF : ({ g with pos :=
                                g.pos + (34 :: t).length + 1 + 1 + dV.length } : Fmt).level =
                                fF.level := by
                              show g.level = fF.level
                              rw [hgl, ← hFl2]
                            rw [hD2rep ({ g with pos :=
                                g.pos + (34 :: t).length + 1 + 1 + dV.length } : Fmt) rest
                              ((acc2 ++ List.replicate (f.level * 2) 32 ++ (34 :: t) ++
                                [58, 32]) ++ dV) hdD2g hcolF hlevF hsafe]
                            simp only [Option.some.injEq, Except.ok.injEq, Prod.mk.injEq]
                            refine ⟨fmt_ext rfl ?_ rfl rfl, ?_⟩
                            · show g.pos + (34 :: t).length + 1 + 1 + dV.length + D2.length =
                                g.pos + ((34 :: t) ++ ([58, 32] ++ (dV ++ D2))).length
                              simp only [List.length_cons, List.length_append, List.length_nil]
                              omega
                            · show ((acc2 ++ List.replicate (f.level * 2) 32 ++ (34 :: t) ++
                                  [58, 32]) ++ dV) ++ D2 =
                                acc2 ++ (List.replicate (f.level * 2) 32 ++
                                  ((34 :: t) ++ ([58, 32] ++ (dV ++ D2))))
                              simp [List.append_assoc]
                        · intro hb
                          exact Bool.noConfusion hb
    | false =>
        rw [if_neg Bool.false_ne_true] at h
        cases hc44 : expectByte (skipWhitespace f) 44 with
        | error e3 => rw [hc44] at h; simp at h
        | ok fc =>
            rw [hc44] at h
            simp only at h
            obtain ⟨hfc, hget44⟩ := expectByte_ok_inv hc44
            have hfcc : fc.color = Color.noColor := by
              rw [hfc]
              exact hc
            have hfcl : fc.level = f.level := by
              rw [hfc]
              rfl
            have hswcS := skipWhitespace_state fc
            have hAc : (skipWhitespace fc).color = Color.noColor := by
              rw [hswcS.2.2.1]
              exact hfcc
            cases hs : parseString (skipWhitespace fc) .key with
            | error e2 => rw [hs] at h; simp at h
            | ok pB =>
                obtain ⟨fB, dK⟩ := pB
                rw [hs] at h
                simp only at h
                obtain ⟨t, hT, hDstr, hBi, hBl, hBc, hBp, hEK, hKrep⟩ := parseString_repl hs hAc
                subst hEK
                cases h58 : expectByte (skipWhitespace fB) 58 with
                | error e3 => rw [h58] at h; simp at h
                | ok fD =>
                    rw [h58] at h
                    simp only at h
                    obtain ⟨hfD, hget58⟩ := expectByte_ok_inv h58
                    cases hpv : parseValue fuel (skipWhitespace fD) with
                    | none => rw [hpv] at h; simp at h
                    | some r =>
                        cases r with
                        | error e4 => rw [hpv] at h; simp at h
                        | ok pF =>
                            obtain ⟨fF, dV⟩ := pF
                            rw [hpv] at h
                            simp only at h
                            have hfDc : fD.color = Color.noColor := by
                              rw [hfD]
                              show fB.color = Color.noColor
                              rw [hBc]
                              exact hAc
                            have hfDl : fD.level = f.level := by
                              rw [hfD]
                              show fB.level = f.level
                              rw [hBl, hswcS.2.1]
                              exact hfcl
                            have hswD := skipWhitespace_state fD
                            have hEc : (skipWhitespace fD).color = Color.noColor := by
                              rw [hswD.2.2.1]
                              exact hfDc
                            obtain ⟨⟨bv, hbv, hVHv⟩, hFl, hFc, hVrep⟩ :=
                              ihV (skipWhitespace fD) fF dV hpv hEc
                            have hFl2 : fF.level = f.level := by
                              rw [hFl, hswD.2.1]
                              exact hfDl
                            have hFc2 : fF.color = Color.noColor := by
                              rw [hFc, hswD.2.2.1]
                              exact hfDc
                            obtain ⟨hRlev, hRcol, -, hRfalse⟩ := ihOL fF _ false fend d h hFc2
                            obtain ⟨D2, hdD2, hD2h, hD2rep⟩ := hRfalse rfl
                            have hwns : writeNameSep fD = [58, 32] := by
                              unfold writeNameSep
                              rw [hfDc]
                              rw [if_neg (fun hcc => Color.noConfusion hcc)]
                            have hwvs : writeValueSep fc = [44, 10] := by
                              unfold writeValueSep
                              rw [hfcc]
                              rw [if_neg (fun hcc => Color.noConfusion hcc)]
                            have hwic : writeIndent (skipWhitespace fc) =
                                List.replicate (f.level * 2) 32 := by
                              show List.replicate (fc.level * 2) 32 =
                                List.replicate (f.level * 2) 32
                              rw [hfcl]
                            refine ⟨?_, ?_, ?_, ?_⟩
                            · omega
                            · rw [hRcol, hFc2, hc]
                            · intro hb _
                              exact Bool.noConfusion hb
                            · intro _
                              refine ⟨44 :: (wsIndent f.level ++
                                ((34 :: t) ++ ([58, 32] ++ (dV ++ D2)))), ?_, Or.inl rfl, ?_⟩
                              · rw [hdD2, hwns, hwvs, hwic]
                                simp [wsIndent, List.append_assoc]
                              · intro g rest acc2 hgd hgc hgl hsafe
                                have hgd2 : g.input.drop g.pos =
                                    44 :: ((10 :: List.replicate (f.level * 2) 32) ++
                                      ((34 :: t) ++ ([58, 32] ++ (dV ++ (D2 ++ rest))))) := by
                                  simpa [wsIndent, List.append_assoc] using hgd
                                have hsgid : skipWhitespace g = g :=
                                  skipWhitespace_of_head hgd2 (by decide)
                                have hpkng : ¬peekByte (skipWhitespace g) = some 125 := by
                                  rw [hsgid, peekByte_of_drop hgd2]
                                  simp
                                have h44g : expectByte (skipWhitespace g) 44 =
                                    .ok ({ g with pos := g.pos + 1 } : Fmt) := by
                                  rw [hsgid]
                                  exact expectByte_ok_of_peek (peekByte_of_drop hgd2)
                                have hg1d : ({ g with pos := g.pos + 1 } : Fmt).input.drop
                                    ({ g with pos := g.pos + 1 } : Fmt).pos =
                                    (10 :: List.replicate (f.level * 2) 32) ++
                                      (34 :: (t ++ ([58, 32] ++ (dV ++ (D2 ++ rest))))) := by
                                  have := drop_cons_succ hgd2
                                  simpa [List.append_assoc] using this
                                have hws1 : ∀ x ∈ (10 :: List.replicate (f.level * 2) 32),
                                    isWsByte x = true := by
                                  intro x hx2
                                  rcases List.mem_cons.mp hx2 with rfl | hx3
                                  · rfl
                                  · exact ws_replicate (f.level * 2) x hx3
                                have hsgc : skipWhitespace ({ g with pos := g.pos + 1 } : Fmt) =
                                    { g with pos := g.pos + 1 +
                                      (10 :: List.replicate (f.level * 2) 32).length } :=
                                  skipWhitespace_run hg1d hws1 (by decide)
                                have hgdK : ({ g with pos := g.pos + 1 +
                                    (10 :: List.replicate (f.level * 2) 32).length } : Fmt).input.drop
                                    ({ g with pos := g.pos + 1 +
                                    (10 :: List.replicate (f.level * 2) 32).length } : Fmt).pos =
                                    (34 :: t) ++ ([58, 32] ++ (dV ++ (D2 ++ rest))) := by
                                  have := drop_after hg1d
                                  simpa [List.append_assoc] using this
                                have hsK : parseString (skipWhitespace
                                    ({ g with pos := g.pos + 1 } : Fmt)) .key =
                                    .ok (({ g with pos := g.pos + 1 +
                                      (10 :: List.replicate (f.level * 2) 32).length +
                                      (34 :: t).length } : Fmt), 34 :: t) := by
                                  rw [hsgc]
                                  exact hKrep ({ g with pos := g.pos + 1 +
                                    (10 :: List.replicate (f.level * 2) 32).length } : Fmt)
                                    ([58, 32] ++ (dV ++ (D2 ++ rest))) .key hgc hgdK
                                have hdB : ({ g with pos := g.pos + 1 +
                                    (10 :: List.replicate (f.level * 2) 32).length +
                                    (34 :: t).length } : Fmt).input.drop
                                    ({ g with pos := g.pos + 1 +
                                    (10 :: List.replicate (f.level * 2) 32).length +
                                    (34 :: t).length } : Fmt).pos =
                                    58 :: (32 :: (dV ++ (D2 ++ rest))) := by
                                  have := drop_after hgdK
                                  simpa [List.append_assoc] using this
                                have hsgB : skipWhitespace ({ g with pos := g.pos + 1 +
                                    (10 :: List.replicate (f.level * 2) 32).length +
                                    (34 :: t).length } : Fmt) =
                                    { g with pos := g.pos + 1 +
                                    (10 :: List.replicate (f.level * 2) 32).length +
                                    (34 :: t).length } :=
                                  skipWhitespace_of_head hdB (by decide)
                                have h58g : expectByte (skipWhitespace ({ g with pos :=
                                    g.pos + 1 +
                                    (10 :: List.replicate (f.level * 2) 32).length +
                                    (34 :: t).length } : Fmt)) 58 =
                                    .ok ({ g with pos := g.pos + 1 +
                                    (10 :: List.replicate (f.level * 2) 32).length +
                                    (34 :: t).length + 1 } : Fmt) := by
                                  rw [hsgB]
                                  exact expectByte_ok_of_peek (peekByte_of_drop hdB)
                                have hdD : ({ g with pos := g.pos + 1 +
                                    (10 :: List.replicate (f.level * 2) 32).length +
                                    (34 :: t).length + 1 } : Fmt).input.drop
                                    ({ g with pos := g.pos + 1 +
                                    (10 :: List.replicate (f.level * 2) 32).length +
                                    (34 :: t).length + 1 } : Fmt).pos =
                                    32 :: (dV ++ (D2 ++ rest)) := drop_cons_succ hdB
                                have hdV0 : g.input.drop (g.pos + 1 +
                                    (10 :: List.replicate (f.level * 2) 32).length +
                                    (34 :: t).length + 1 + 1) =
                                    dV ++ (D2 ++ rest) := drop_cons_succ hdD
                                obtain ⟨V, hVd⟩ : ∃ V, dV = bv :: V :=
                                  ⟨dV.tail, eq_cons_of_head hbv⟩
                                have hd32 : ({ g with pos := g.pos + 1 +
                                    (10 :: List.replicate (f.level * 2) 32).length +
                                    (34 :: t).length + 1 } : Fmt).input.drop
                                    ({ g with pos := g.pos + 1 +
                                    (10 :: List.replicate (f.level * 2) 32).length +
                                    (34 :: t).length + 1 } : Fmt).pos =
                                    [32] ++ (bv :: (V ++ (D2 ++ rest))) := by
                                  rw [hdD, hVd]
                                  simp [List.append_assoc]
                                have hsgD : skipWhitespace ({ g with pos := g.pos + 1 +
                                    (10 :: List.replicate (f.level * 2) 32).length +
                                    (34 :: t).length + 1 } : Fmt) =
                                    { g with pos := g.pos + 1 +
                                    (10 :: List.replicate (f.level * 2) 32).length +
                                    (34 :: t).length + 1 + 1 } :=
                                  skipWhitespace_run hd32
                                    (by intro x hx2; simp at hx2; subst hx2; rfl)
                                    (valueHead_not_ws hVHv)
                                have hglv : ({ g with pos := g.pos + 1 +
                                    (10 :: List.replicate (f.level * 2) 32).length +
                                    (34 :: t).length + 1 + 1 } : Fmt).level =
                                    (skipWhitespace fD).level := by
                                  show g.level = (skipWhitespace fD).level
                                  rw [hswD.2.1, hfDl]
                                  exact hgl
                                have hpvg0 := hVrep ({ g with pos := g.pos + 1 +
                                    (10 :: List.replicate (f.level * 2) 32).length +
                                    (34 :: t).length + 1 + 1 } : Fmt) (D2 ++ rest)
                                  hdV0 hgc hglv (safeFollow_sep hD2h)
                                have hpvg2 : parseValue fuel (skipWhitespace ({ g with pos :=
                                    g.pos + 1 +
                                    (10 :: List.replicate (f.level * 2) 32).length +
                                    (34 :: t).length + 1 } : Fmt)) =
                                    some (.ok (({ g with pos := g.pos + 1 +
                                      (10 :: List.replicate (f.level * 2) 32).length +
                                      (34 :: t).length + 1 + 1 + dV.length } : Fmt), dV)) := by
                                  rw [hsgD]
                                  exact hpvg0
                                rw [objLoop_next_step acc2 hpkng h44g hsK h58g hpvg2]
                                rw [hsgc]
                                have hwvsg : writeValueSep ({ g with pos := g.pos + 1 } : Fmt) =
                                    [44, 10] := by
                                  unfold writeValueSep
                                  rw [show ({ g with pos := g.pos + 1 } : Fmt).color =
                                    Color.noColor from hgc]
                                  rw [if_neg (fun hcc => Color.noConfusion hcc)]
                                rw [hwvsg]
                                have hwig : writeIndent ({ g with pos := g.pos + 1 +
                                    (10 :: List.replicate (f.level * 2) 32).length } : Fmt) =
                                    List.replicate (f.level * 2) 32 := by
                                  show List.replicate (g.level * 2) 32 =
                                    List.replicate (f.level * 2) 32
                                  rw [hgl]
                                rw [hwig]
                                have hwnsg : writeNameSep ({ g with pos := g.pos + 1 +
                                    (10 :: List.replicate (f.level * 2) 32).length +
                                    (34 :: t).length + 1 } : Fmt) = [58, 32] := by
                                  unfold writeNameSep
                                  rw [show ({ g with pos := g.pos + 1 +
                                    (10 :: List.replicate (f.level * 2) 32).length +
                                    (34 :: t).length + 1 } : Fmt).color =
                                    Color.noColor from hgc]
                                  rw [if_neg (fun hcc => Color.noConfusion hcc)]
                                rw [hwnsg]
                                have hdD2g : ({ g with pos := g.pos + 1 +
                                    (10 :: List.replicate (f.level * 2) 32).length +
                                    (34 :: t).length + 1 + 1 + dV.length } : Fmt).input.drop
                                    ({ g with pos := g.pos + 1 +
                                    (10 :: List.replicate (f.level * 2) 32).length +
                                    (34 :: t).length + 1 + 1 + dV.length } : Fmt).pos =
                                    D2 ++ rest := drop_after hdV0
                                have hcolF : ({ g with pos := g.pos + 1 +
                                    (10 :: List.replicate (f.level * 2) 32).length +
                                    (34 :: t).length + 1 + 1 + dV.length } : Fmt).color =
                                    Color.noColor := hgc
                                have hlevF : ({ g with pos := g.pos + 1 +
                                    (10 :: List.replicate (f.level * 2) 32).length +
                                    (34 :: t).length + 1 + 1 + dV.length } : Fmt).level =
                                    fF.level := by
                                  show g.level = fF.level
                                  rw [hgl, ← hFl2]
                                rw [hD2rep ({ g with pos := g.pos + 1 +
                                    (10 :: List.replicate (f.level * 2) 32).length +
                                    (34 :: t).length + 1 + 1 + dV.length } : Fmt) rest
                                  (((acc2 ++ [44, 10]) ++ List.replicate (f.level * 2) 32 ++
                                    (34 :: t) ++ [58, 32]) ++ dV) hdD2g hcolF hlevF hsafe]
                                simp only [Option.some.injEq, Except.ok.injEq, Prod.mk.injEq]
                                refine ⟨fmt_ext rfl ?_ rfl rfl, ?_⟩
                                · show g.pos + 1 +
                                      (10 :: List.replicate (f.level * 2) 32).length +
                                      (34 :: t).length + 1 + 1 + dV.length + D2.length =
                                    g.pos + (44 :: (wsIndent f.level ++
                                      ((34 :: t) ++ ([58, 32] ++ (dV ++ D2))))).length
                                  simp only [wsIndent, List.length_cons, List.length_append,
                                    List.length_replicate, List.length_nil]
                                  omega
                                · show (((acc2 ++ [44, 10]) ++
                                      List.replicate (f.level * 2) 32 ++ (34 :: t) ++
                                      [58, 32]) ++ dV) ++ D2 =
                                    acc2 ++ (44 :: (wsIndent f.level ++
                                      ((34 :: t) ++ ([58, 32] ++ (dV ++ D2)))))
                                  simp [wsIndent, List.append_assoc]

/-- Reparse property of the array-element loop at positive fuel, assuming
the value and loop properties one fuel step down. -/
theorem alp_succ (fuel : Nat)
    (ihV : ∀ f fend d, parseValue fuel f = some (.ok (fend, d)) → f.color = .noColor →
      RVp fuel f fend d)
    (ihAL : ∀ f acc first fend d, arrLoop fuel f acc first = some (.ok (fend, d)) →
      f.color = .noColor → ALp fuel f fend acc d first) :
    ∀ f acc first fend d, arrLoop (fuel + 1) f acc first = some (.ok (fend, d)) →
      f.color = .noColor → ALp (fuel + 1) f fend acc d first := by
  intro f acc first fend d h hc
  by_cases hcl : peekByte (skipWhitespace f) = some 93
  · rw [arrLoop_close_run acc first hcl] at h
    simp only [Option.some.injEq, Except.ok.injEq, Prod.mk.injEq] at h
    obtain ⟨hfend, hd⟩ := h
    subst hfend
    have hwea : writeEndArr (decLevel
        ({ skipWhitespace f with pos := (skipWhitespace f).pos + 1 } : Fmt)) = [93] := by
      unfold writeEndArr
      rw [show (decLevel ({ skipWhitespace f with
        pos := (skipWhitespace f).pos + 1 } : Fmt)).color = Color.noColor from hc]
      rw [if_neg (fun hcc => Color.noConfusion hcc)]
    refine ⟨rfl, rfl, ?_, ?_⟩
    · intro _ hguard
      exact absurd hcl hguard
    · intro _
      refine ⟨10 :: (List.replicate ((f.level - 1) * 2) 32 ++ [93]), ?_, Or.inr rfl, ?_⟩
      · rw [← hd, hwea]
        show acc ++ writeLn ++ List.replicate ((f.level - 1) * 2) 32 ++ [93] =
          acc ++ (10 :: (List.replicate ((f.level - 1) * 2) 32 ++ [93]))
        simp [writeLn, List.append_assoc]
      · intro g rest acc2 hgd hgc hgl hsafe
        have hgd2 : g.input.drop g.pos =
            (10 :: List.replicate ((f.level - 1) * 2) 32) ++ (93 :: rest) := by
          simpa [List.append_assoc] using hgd
        have hws : ∀ x ∈ (10 :: List.replicate ((f.level - 1) * 2) 32), isWsByte x = true := by
          intro x hx2
          rcases List.mem_cons.mp hx2 with rfl | hx3
          · rfl
          · exact ws_replicate ((f.level - 1) * 2) x hx3
        have hsg : skipWhitespace g =
            { g with pos := g.pos + (10 :: List.replicate ((f.level - 1) * 2) 32).length } :=
          skipWhitespace_run hgd2 hws (by decide)
        have hdcl : ({ g with pos :=
            g.pos + (10 :: List.replicate ((f.level - 1) * 2) 32).length } : Fmt).input.drop
            ({ g with pos :=
            g.pos + (10 :: List.replicate ((f.level - 1) * 2) 32).length } : Fmt).pos =
            93 :: rest := drop_after hgd2
        have hpkg : peekByte (skipWhitespace g) = some 93 := by
          rw [hsg]
          exact peekByte_of_drop hdcl
        rw [arrLoop_close_run acc2 false hpkg]
        rw [hsg]
        have hwidg : writeIndent (decLevel ({ ({ g with pos :=
            g.pos + (10 :: List.replicate ((f.level - 1) * 2) 32).length } : Fmt) with pos :=
            ({ g with pos :=
            g.pos + (10 :: List.replicate ((f.level - 1) * 2) 32).length } : Fmt).pos + 1 } : Fmt)) =
            List.replicate ((f.level - 1) * 2) 32 := by
          show List.replicate ((g.level - 1) * 2) 32 = List.replicate ((f.level - 1) * 2) 32
          rw [hgl]
        have hweag : writeEndArr (decLevel ({ ({ g with pos :=
            g.pos + (10 :: List.replicate ((f.level - 1) * 2) 32).length } : Fmt) with pos :=
            ({ g with pos :=
            g.pos + (10 :: List.replicate ((f.level - 1) * 2) 32).length } : Fmt).pos + 1 } : Fmt)) =
            [93] := by
          unfold writeEndArr
          rw [show (decLevel ({ ({ g with pos :=
            g.pos + (10 :: List.replicate ((f.level - 1) * 2) 32).length } : Fmt) with pos :=
            ({ g with pos :=
            g.pos + (10 :: List.replicate ((f.level - 1) * 2) 32).length } : Fmt).pos + 1 } : Fmt)).color =
            Color.noColor from hgc]
          rw [if_neg (fun hcc => Color.noConfusion hcc)]
        rw [hwidg, hweag]
        simp only [Option.some.injEq, Except.ok.injEq, Prod.mk.injEq]
        refine ⟨fmt_ext rfl ?_ rfl rfl, ?_⟩
        · show g.pos + (10 :: List.replicate ((f.level - 1) * 2) 32).length + 1 =
            g.pos + (10 :: (List.replicate ((f.level - 1) * 2) 32 ++ [93])).length
          simp only [List.length_cons, List.length_append, List.length_replicate,
            List.length_nil]
          omega
        · show acc2 ++ writeLn ++ List.replicate ((f.level - 1) * 2) 32 ++ [93] =
            acc2 ++ (10 :: (List.replicate ((f.level - 1) * 2) 32 ++ [93]))
          simp [writeLn, List.append_assoc]
  · simp only [arrLoop] at h
    rw [if_neg hcl] at h
    cases first with
    | true =>
        simp only at h
        rw [if_pos trivial] at h
        simp only at h
        cases hpv : parseValue fuel (skipWhitespace f) with
        | none => rw [hpv] at h; simp at h
        | some r =>
            cases r with
            | error e4 => rw [hpv] at h; simp at h
            | ok pF =>
                obtain ⟨fF, dV⟩ := pF
                rw [hpv] at h
                simp only at h
                obtain ⟨⟨bv, hbv, hVHv⟩, hFl, hFc, hVrep⟩ :=
                  ihV (skipWhitespace f) fF dV hpv hc
                have hFl2 : fF.level = f.level := by
                  rw [hFl]
                  rfl
                have hFc2 : fF.color = Color.noColor := by
                  rw [hFc]
                  exact hc
                obtain ⟨hRlev, hRcol, -, hRfalse⟩ := ihAL fF _ false fend d h hFc2
                obtain ⟨D2, hdD2, hD2h, hD2rep⟩ := hRfalse rfl
                refine ⟨?_, ?_, ?_, ?_⟩
                · omega
                · rw [hRcol, hFc2, hc]
                · intro _ _
                  refine ⟨dV ++ D2, bv, ?_, head?_append_some hbv, hVHv, ?_⟩
                  · rw [hdD2]
                    show (acc ++ List.replicate (f.level * 2) 32 ++ dV) ++ D2 =
                      acc ++ (List.replicate (f.level * 2) 32 ++ (dV ++ D2))
                    simp [List.append_assoc]
                  · intro g rest acc2 hgd hgc hgl hsafe
                    have hgdV : g.input.drop g.pos = dV ++ (D2 ++ rest) := by
                      simpa [List.append_assoc] using hgd
                    obtain ⟨V, hVd⟩ : ∃ V, dV = bv :: V := ⟨dV.tail, eq_cons_of_head hbv⟩
                    have hgdV2 : g.input.drop g.pos = bv :: (V ++ (D2 ++ rest)) := by
                      rw [hgdV, hVd]
                      simp [List.append_assoc]
                    have hsgid : skipWhitespace g = g :=
                      skipWhitespace_of_head hgdV2 (valueHead_not_ws hVHv)
                    have hpkng : ¬peekByte (skipWhitespace g) = some 93 := by
                      rw [hsgid, peekByte_of_drop hgdV2]
                      simp only [Option.some.injEq]
                      exact fun hcc => (valueHead_ne hVHv).2.1 hcc
                    have hglx : g.level = (skipWhitespace f).level := by
                      rw [hgl]
                      rfl
                    have hpvg : parseValue fuel (skipWhitespace g) =
                        some (.ok ({ g with pos := g.pos + dV.length }, dV)) := by
                      rw [hsgid]
                      exact hVrep g (D2 ++ rest) hgdV hgc hglx (safeFollow_sep hD2h)
                    rw [arrLoop_first_step acc2 hpkng hpvg]
                    rw [hsgid]
                    have hwig : writeIndent g = List.replicate (f.level * 2) 32 := by
                      show List.replicate (g.level * 2) 32 = List.replicate (f.level * 2) 32
                      rw [hgl]
                    rw [hwig]
                    have hdD2g : ({ g with pos := g.pos + dV.length } : Fmt).input.drop
                        ({ g with pos := g.pos + dV.length } : Fmt).pos = D2 ++ rest :=
                      drop_after hgdV
                    have hcolF : ({ g with pos := g.pos + dV.length } : Fmt).color =
                        Color.noColor := hgc
                    have hlevF : ({ g with pos := g.pos + dV.length } : Fmt).level =
                        fF.level := by
                      show g.level = fF.level
                      rw [hgl, ← hFl2]
                    rw [hD2rep ({ g with pos := g.pos + dV.length } : Fmt) rest
                      (acc2 ++ List.replicate (f.level * 2) 32 ++ dV) hdD2g hcolF hlevF hsafe]
                    simp only [Option.some.injEq, Except.ok.injEq, Prod.mk.injEq]
                    refine ⟨fmt_ext rfl ?_ rfl rfl, ?_⟩
                    · show g.pos + dV.length + D2.length = g.pos + (dV ++ D2).length
                      simp only [List.length_append]
                      omega
                    · show (acc2 ++ List.replicate (f.level * 2) 32 ++ dV) ++ D2 =
                        acc2 ++ (List.replicate (f.level * 2) 32 ++ (dV ++ D2))
                      simp [List.append_assoc]
                · intro hb
                  exact Bool.noConfusion hb
    | false =>
        rw [if_neg Bool.false_ne_true] at h
        cases hc44 : expectByte (skipWhitespace f) 44 with
        | error e3 => rw [hc44] at h; simp at h
        | ok fc =>
            rw [hc44] at h
            simp only at h
            obtain ⟨hfc, hget44⟩ := expectByte_ok_inv hc44
            have hfcc : fc.color = Color.noColor := by
              rw [hfc]
              exact hc
            have hfcl : fc.level = f.level := by
              rw [hfc]
              rfl
            have hswcS := skipWhitespace_state fc
            have hAc : (skipWhitespace fc).color = Color.noColor := by
              rw [hswcS.2.2.1]
              exact hfcc
            cases hpv : parseValue fuel (skipWhitespace fc) with
            | none => rw [hpv] at h; simp at h
            | some r =>
                cases r with
                | error e4 => rw [hpv] at h; simp at h
                | ok pF =>
                    obtain ⟨fF, dV⟩ := pF
                    rw [hpv] at h
                    simp only at h
                    obtain ⟨⟨bv, hbv, hVHv⟩, hFl, hFc, hVrep⟩ :=
                      ihV (skipWhitespace fc) fF dV hpv hAc
                    have hFl2 : fF.level = f.level := by
                      rw [hFl, hswcS.2.1]
                      exact hfcl
                    have hFc2 : fF.color = Color.noColor := by
                      rw [hFc, hswcS.2.2.1]
                      exact hfcc
                    obtain ⟨hRlev, hRcol, -, hRfalse⟩ := ihAL fF _ false fend d h hFc2
                    obtain ⟨D2, hdD2, hD2h, hD2rep⟩ := hRfalse rfl
                    have hwvs : writeValueSep fc = [44, 10] := by
                      unfold writeValueSep
                      rw [hfcc]
                      rw [if_neg (fun hcc => Color.noConfusion hcc)]
                    have hwic : writeIndent (skipWhitespace fc) =
                        List.replicate (f.level * 2) 32 := by
                      show List.replicate (fc.level * 2) 32 = List.replicate (f.level * 2) 32
                      rw [hfcl]
                    refine ⟨?_, ?_, ?_, ?_⟩
                    · omega
                    · rw [hRcol, hFc2, hc]
                    · intro hb _
                      exact Bool.noConfusion hb
                    · intro _
                      refine ⟨44 :: (wsIndent f.level ++ (dV ++ D2)), ?_, Or.inl rfl, ?_⟩
                      · rw [hdD2, hwvs, hwic]
                        simp [wsIndent, List.append_assoc]
                      · intro g rest acc2 hgd hgc hgl hsafe
                        obtain ⟨V, hVd⟩ : ∃ V, dV = bv :: V := ⟨dV.tail, eq_cons_of_head hbv⟩
                        have hgd2 : g.input.drop g.pos =
                            44 :: ((10 :: List.replicate (f.level * 2) 32) ++
                              (bv :: (V ++ (D2 ++ rest)))) := by
                          simpa [wsIndent, hVd, List.append_assoc] using hgd
                        have hsgid : skipWhitespace g = g :=
                          skipWhitespace_of_head hgd2 (by decide)
                        have hpkng : ¬peekByte (skipWhitespace g) = some 93 := by
                          rw [hsgid, peekByte_of_drop hgd2]
                          simp
                        have h44g : expectByte (skipWhitespace g) 44 =
                            .ok ({ g with pos := g.pos + 1 } : Fmt) := by
                          rw [hsgid]
                          exact expectByte_ok_of_peek (peekByte_of_drop hgd2)
                        have hg1d : ({ g with pos := g.pos + 1 } : Fmt).input.drop
                            ({ g with pos := g.pos + 1 } : Fmt).pos =
                            (10 :: List.replicate (f.level * 2) 32) ++
                              (bv :: (V ++ (D2 ++ rest))) := by
                          have := drop_cons_succ hgd2
                          simpa [List.append_assoc] using this
                        have hws1 : ∀ x ∈ (10 :: List.replicate (f.level * 2) 32),
                            isWsByte x = true := by
                          intro x hx2
                          rcases List.mem_cons.mp hx2 with rfl | hx3
                          · rfl
                          · exact ws_replicate (f.level * 2) x hx3
                        have hsgc : skipWhitespace ({ g with pos := g.pos + 1 } : Fmt) =
                            { g with pos := g.pos + 1 +
                              (10 :: List.replicate (f.level * 2) 32).length } :=
                          skipWhitespace_run hg1d hws1 (valueHead_not_ws hVHv)
                        have hgdV : ({ g with pos := g.pos + 1 +
                            (10 :: List.replicate (f.level * 2) 32).length } : Fmt).input.drop
                            ({ g with pos := g.pos + 1 +
                            (10 :: List.replicate (f.level * 2) 32).length } : Fmt).pos =
                            dV ++ (D2 ++ rest) := by
                          have := drop_after hg1d
                          simpa [hVd, List.append_assoc] using this
                        have hglv : ({ g with pos := g.pos + 1 +
                            (10 :: List.replicate (f.level * 2) 32).length } : Fmt).level =
                            (skipWhitespace fc).level := by
                          show g.level = (skipWhitespace fc).level
                          rw [hswcS.2.1, hfcl]
                          exact hgl
                        have hpvg2 : parseValue fuel (skipWhitespace
                            ({ g with pos := g.pos + 1 } : Fmt)) =
                            some (.ok (({ g with pos := g.pos + 1 +
                              (10 :: List.replicate (f.level * 2) 32).length +
                              dV.length } : Fmt), dV)) := by
                          rw [hsgc]
                          exact hVrep ({ g with pos := g.pos + 1 +
                            (10 :: List.replicate (f.level * 2) 32).length } : Fmt)
                            (D2 ++ rest) hgdV hgc hglv (safeFollow_sep hD2h)
                        rw [arrLoop_next_step acc2 hpkng h44g hpvg2]
                        rw [hsgc]
                        have hwvsg : writeValueSep ({ g with pos := g.pos + 1 } : Fmt) =
                            [44, 10] := by
                          unfold writeValueSep
                          rw [show ({ g with pos := g.pos + 1 } : Fmt).color =
                            Color.noColor from hgc]
                          rw [if_neg (fun hcc => Color.noConfusion hcc)]
                        rw [hwvsg]
                        have hwig : writeIndent ({ g with pos := g.pos + 1 +
                            (10 :: List.replicate (f.level * 2) 32).length } : Fmt) =
                            List.replicate (f.level * 2) 32 := by
                          show List.replicate (g.level * 2) 32 =
                            List.replicate (f.level * 2) 32
                          rw [hgl]
                        rw [hwig]
                        have hdD2g : ({ g with pos := g.pos + 1 +
                            (10 :: List.replicate (f.level * 2) 32).length +
                            dV.length } : Fmt).input.drop
                            ({ g with pos := g.pos + 1 +
                            (10 :: List.replicate (f.level * 2) 32).length +
                            dV.length } : Fmt).pos = D2 ++ rest := drop_after hgdV
                        have hcolF : ({ g with pos := g.pos + 1 +
                            (10 :: List.replicate (f.level * 2) 32).length +
                            dV.length } : Fmt).color = Color.noColor := hgc
                        have hlevF : ({ g with pos := g.pos + 1 +
                            (10 :: List.replicate (f.level * 2) 32).length +
                            dV.length } : Fmt).level = fF.level := by
                          show g.level = fF.level
                          rw [hgl, ← hFl2]
                        rw [hD2rep ({ g with pos := g.pos + 1 +
                            (10 :: List.replicate (f.level * 2) 32).length +
                            dV.length } : Fmt) rest
                          ((acc2 ++ [44, 10]) ++ List.replicate (f.level * 2) 32 ++ dV)
                          hdD2g hcolF hlevF hsafe]
                        simp only [Option.some.injEq, Except.ok.injEq, Prod.mk.injEq]
                        refine ⟨fmt_ext rfl ?_ rfl rfl, ?_⟩
                        · show g.pos + 1 +
                              (10 :: List.replicate (f.level * 2) 32).length +
                              dV.length + D2.length =
                            g.pos + (44 :: (wsIndent f.level ++ (dV ++ D2))).length
                          simp only [wsIndent, List.length_cons, List.length_append,
                            List.length_replicate, List.length_nil]
                          omega
                        · show ((acc2 ++ [44, 10]) ++
                              List.replicate (f.level * 2) 32 ++ dV) ++ D2 =
                            acc2 ++ (44 :: (wsIndent f.level ++ (dV ++ D2)))
                          simp [wsIndent, List.append_assoc]

/-- The reparse invariant for all five mutually recursive productions, by
induction on fuel: in no-color mode, every successful parse emits bytes
that parse again, with the same fuel, to the same emission. -/
theorem reparseInv : ∀ fuel : Nat,
    (∀ f fend d, parseValue fuel f = some (.ok (fend, d)) → f.color = .noColor →
      RVp fuel f fend d) ∧
    (∀ f fend d, parseObject fuel f = some (.ok (fend, d)) → f.color = .noColor →
      POp fuel f fend d) ∧
    (∀ f fend d, parseArray fuel f = some (.ok (fend, d)) → f.color = .noColor →
      PAp fuel f fend d) ∧
    (∀ f acc first fend d, objLoop fuel f acc first = some (.ok (fend, d)) →
      f.color = .noColor → OLp fuel f fend acc d first) ∧
    (∀ f acc first fend d, arrLoop fuel f acc first = some (.ok (fend, d)) →
      f.color = .noColor → ALp fuel f fend acc d first) := by
  intro fuel
  induction fuel with
  | zero =>
      refine ⟨?_, ?_, ?_, ?_, ?_⟩
      · intro f fend d h hc
        simp [parseValue] at h
      · intro f fend d h hc
        simp [parseObject] at h
      · intro f fend d h hc
        simp [parseArray] at h
      · intro f acc first fend d h hc
        simp [objLoop] at h
      · intro f acc first fend d h hc
        simp [arrLoop] at h
  | succ n ih =>
      obtain ⟨iV, iO, iA, iOL, iAL⟩ := ih
      exact ⟨rvp_succ n iO iA, pop_succ n iOL, pap_succ n iAL,
        olp_succ n iV iOL, alp_succ n iV iAL⟩

theorem skipStartBom_color (x : Fmt) : (skipStartBom x).color = x.color := by
  unfold skipStartBom
  split <;> rfl

theorem skipStartBom_level (x : Fmt) : (skipStartBom x).level = x.level := by
  unfold skipStartBom
  split <;> rfl

/-- C5: format is idempotent after one pass in the plain (no-color) mode:
whenever formatting succeeds on an input and emits an output, formatting
that output with the same fuel succeeds and emits it again byte for byte. -/
theorem format_idempotent_noColor (fuel : Nat) (input output : List Nat)
    (h : formatBytes fuel input .noColor = some (.ok output)) :
    formatBytes fuel output .noColor = some (.ok output) := by
  unfold formatBytes at h
  simp only [format] at h
  cases hpv : parseValue fuel (skipWhitespace (skipStartBom
      (⟨input, 0, 0, Color.noColor⟩ : Fmt))) with
  | none => rw [hpv] at h; simp at h
  | some r =>
      cases r with
      | error e => rw [hpv] at h; simp at h
      | ok p =>
          obtain ⟨f2, dd⟩ := p
          rw [hpv] at h
          simp only at h
          cases hpk : peekByte (skipWhitespace f2) with
          | some b => rw [hpk] at h; simp at h
          | none =>
              rw [hpk] at h
              simp only [Option.some.injEq, Except.ok.injEq] at h
              subst h
              have hc1 : (skipWhitespace (skipStartBom
                  (⟨input, 0, 0, Color.noColor⟩ : Fmt))).color = Color.noColor := by
                show (skipStartBom (⟨input, 0, 0, Color.noColor⟩ : Fmt)).color = Color.noColor
                rw [skipStartBom_color]
              have hl1 : (skipWhitespace (skipStartBom
                  (⟨input, 0, 0, Color.noColor⟩ : Fmt))).level = 0 := by
                show (skipStartBom (⟨input, 0, 0, Color.noColor⟩ : Fmt)).level = 0
                rw [skipStartBom_level]
              obtain ⟨⟨bh, hbh, hVH⟩, hlev2, hcol2, hrep⟩ :=
                (reparseInv fuel).1 _ f2 dd hpv hc1
              have hout : dd = bh :: dd.tail := eq_cons_of_head hbh
              have hVH239 : ¬bh = 239 := by
                unfold ValueHead at hVH
                omega
              have hsb : skipStartBom (⟨dd, 0, 0, Color.noColor⟩ : Fmt) =
                  ⟨dd, 0, 0, Color.noColor⟩ := by
                unfold skipStartBom
                split
                · rename_i tl heq
                  exfalso
                  have heq2 : dd = 239 :: 187 :: 191 :: tl := heq
                  rw [hout] at heq2
                  simp only [List.cons.injEq] at heq2
                  exact hVH239 heq2.1
                · rfl
              have hswGid : skipWhitespace (⟨dd, 0, 0, Color.noColor⟩ : Fmt) =
                  ⟨dd, 0, 0, Color.noColor⟩ := by
                have hd0 : (⟨dd, 0, 0, Color.noColor⟩ : Fmt).input.drop
                    (⟨dd, 0, 0, Color.noColor⟩ : Fmt).pos = bh :: dd.tail := hout
                exact skipWhitespace_of_head hd0 (valueHead_not_ws hVH)
              have hdropG : (⟨dd, 0, 0, Color.noColor⟩ : Fmt).input.drop
                  (⟨dd, 0, 0, Color.noColor⟩ : Fmt).pos = dd ++ [] := by
                show dd = dd ++ []
                exact (List.append_nil dd).symm
              have hreprun0 := hrep (⟨dd, 0, 0, Color.noColor⟩ : Fmt) [] hdropG rfl
                hl1.symm (Or.inl rfl)
              have hG2 : ({ (⟨dd, 0, 0, Color.noColor⟩ : Fmt) with pos :=
                  (⟨dd, 0, 0, Color.noColor⟩ : Fmt).pos + dd.length } : Fmt) =
                  ⟨dd, dd.length, 0, Color.noColor⟩ :=
                fmt_ext rfl (by show 0 + dd.length = dd.length; omega) rfl rfl
              rw [hG2] at hreprun0
              have hswEnd : skipWhitespace (⟨dd, dd.length, 0, Color.noColor⟩ : Fmt) =
                  ⟨dd, dd.length, 0, Color.noColor⟩ := by
                show (⟨dd, dd.length + wsRunLen (dd.drop dd.length), 0,
                    Color.noColor⟩ : Fmt) =
                  ⟨dd, dd.length, 0, Color.noColor⟩
                rw [List.drop_length]
                rfl
              have hpkEnd : peekByte (⟨dd, dd.length, 0, Color.noColor⟩ : Fmt) = none :=
                peekByte_at_end (Nat.le_refl dd.length)
              unfold formatBytes
              simp only [format]
              rw [hsb, hswGid, hreprun0]
              simp only []
              rw [hswEnd, hpkEnd]

/-- C5 witness: formatting the array `[1]` yields a pretty-printed output
which reformats to itself. -/
theorem format_idempotent_noColor_witness :
    formatBytes 4 [91, 49, 93] .noColor = some (.ok [91, 10, 32, 32, 49, 10, 93]) ∧
    formatBytes 4 [91, 10, 32, 32, 49, 10, 93] .noColor =
      some (.ok [91, 10, 32, 32, 49, 10, 93]) :=
  ⟨rfl, format_idempotent_noColor 4 [91, 49, 93] [91, 10, 32, 32, 49, 10, 93] rfl⟩

/-- C5 counterexample to idempotence for every color mode: in ANSI mode the
empty object formats to a color-wrapped token starting with an escape byte,
and reformatting that output fails with InvalidByte 27 at offset 0. -/
theorem format_ansi_not_idempotent :
    formatBytes 2 [123, 125] .ansiCode =
      some (.ok [27, 91, 49, 59, 51, 57, 109, 123, 125, 27, 91, 48, 109]) ∧
    formatBytes 2 [27, 91, 49, 59, 51, 57, 109, 123, 125, 27, 91, 48, 109] .ansiCode =
      some (.error (.invalidByte 27 0)) :=
  ⟨rfl, rfl⟩

/-! Grammar soundness: a successful run of the parsers consumes exactly a
span generated by the spec grammar.  The span inversions below are
color-independent, since the color mode only affects the emitted bytes,
never the bytes consumed. -/

theorem wsL_append {u v : List Nat} (hu : isWsL u) (hv : isWsL v) : isWsL (u ++ v) := by
  intro b hb
  rcases List.mem_append.mp hb with h | h
  · exact hu b h
  · exact hv b h

theorem wsRun_split : ∀ l : List Nat, ∃ w, isWsL w ∧ w.length = wsRunLen l ∧
    l = w ++ l.drop (wsRunLen l) := by
  intro l
  induction l with
  | nil =>
      refine ⟨[], ?_, rfl, rfl⟩
      intro b hb
      cases hb
  | cons b t ih =>
      by_cases hb : isWsByte b = true
      · obtain ⟨w, hw, hlen, heq⟩ := ih
        have hrl : wsRunLen (b :: t) = wsRunLen t + 1 := by
          rw [wsRunLen, if_pos hb]
        refine ⟨b :: w, ?_, ?_, ?_⟩
        · intro x hx
          rcases List.mem_cons.mp hx with rfl | hx2
          · exact hb
          · exact hw x hx2
        · rw [hrl]
          simp [hlen]
        · rw [hrl, List.drop_succ_cons]
          show b :: t = b :: (w ++ t.drop (wsRunLen t))
          exact congrArg (List.cons b) heq
      · have hrl : wsRunLen (b :: t) = 0 := by
          rw [wsRunLen, if_neg hb]
        refine ⟨[], ?_, by rw [hrl]; rfl, ?_⟩
        · intro x hx
          cases hx
        · rw [hrl]
          simp

theorem skipWhitespace_split (f : Fmt) : ∃ w, isWsL w ∧
    f.input.drop f.pos = w ++ f.input.drop (f.pos + w.length) ∧
    skipWhitespace f = { f with pos := f.pos + w.length } := by
  obtain ⟨w, hw, hlen, heq⟩ := wsRun_split (f.input.drop f.pos)
  have hdd : (f.input.drop f.pos).drop (wsRunLen (f.input.drop f.pos)) =
      f.input.drop (f.pos + wsRunLen (f.input.drop f.pos)) := by
    rw [List.drop_drop, Nat.add_comm]
  refine ⟨w, hw, ?_, ?_⟩
  · rw [hlen, ← hdd]
    exact heq
  · unfold skipWhitespace skipWsPos
    rw [← hlen]

/-- Color-independent span inversion of the number scanner: a success
consumes exactly a spec-grammar number. -/
theorem parseNumber_span {f f' : Fmt} {tok : List Nat}
    (h : parseNumber f = .ok (f', tok)) :
    ∃ s, SpecNumber s ∧ f.input.drop f.pos = s ++ f.input.drop (f.pos + s.length) ∧
      f'.input = f.input ∧ f'.level = f.level ∧ f'.color = f.color ∧
      f'.pos = f.pos + s.length := by
  simp only [parseNumber] at h
  have hsplit : ∃ sign, (sign = ([] : List Nat) ∨ sign = [45]) ∧
      f.input.drop f.pos = sign ++ f.input.drop (f.pos + sign.length) ∧
      (if peekByte f = some 45 then ({ f with pos := f.pos + 1 } : Fmt) else f) =
        { f with pos := f.pos + sign.length } := by
    by_cases h45 : peekByte f = some 45
    · refine ⟨[45], Or.inr rfl, ?_, by rw [if_pos h45]; rfl⟩
      have := drop_of_peek h45
      simpa using this
    · refine ⟨[], Or.inl rfl, by simp, by rw [if_neg h45]; show f = _; simp⟩
  obtain ⟨sign, hsg, hdsg, hf0⟩ := hsplit
  rw [hf0] at h
  cases hi : parseInteger ({ f with pos := f.pos + sign.length } : Fmt) with
  | error e2 => rw [hi] at h; cases h
  | ok f1 =>
      rw [hi] at h
      simp only at h
      obtain ⟨intp, hintS, hintD0, hii, hil, hic, hip⟩ := parseInteger_shape hi
      have hintD : f.input.drop (f.pos + sign.length) =
          intp ++ f.input.drop (f.pos + sign.length + intp.length) := hintD0
      have hip' : f1.pos = f.pos + sign.length + intp.length := hip
      have hii' : f1.input = f.input := hii
      have hil' : f1.level = f.level := hil
      have hic' : f1.color = f.color := hic
      cases hfr : parseFraction f1 with
      | error e2 => rw [hfr] at h; cases h
      | ok f2 =>
          rw [hfr] at h
          simp only at h
          obtain ⟨frac, hfrS, hfrD0, hfi, hfl, hfc, hfp⟩ := parseFraction_shape hfr
          have hfrD : f.input.drop (f.pos + sign.length + intp.length) =
              frac ++ f.input.drop (f.pos + sign.length + intp.length + frac.length) := by
            have := hfrD0
            rw [hii', hip'] at this
            rw [this]
          have hfp' : f2.pos = f.pos + sign.length + intp.length + frac.length := by
            rw [hfp, hip']
          have hfi' : f2.input = f.input := by rw [hfi, hii']
          have hfl' : f2.level = f.level := by rw [hfl, hil']
          have hfc' : f2.color = f.color := by rw [hfc, hic']
          cases hex : parseExponent f2 with
          | error e2 => rw [hex] at h; cases h
          | ok f3 =>
              rw [hex] at h
              simp only at h
              obtain ⟨expp, hexS, hexD0, hei, hel, hec, hep⟩ := parseExponent_shape hex
              have hexD : f.input.drop (f.pos + sign.length + intp.length + frac.length) =
                  expp ++ f.input.drop
                    (f.pos + sign.length + intp.length + frac.length + expp.length) := by
                have := hexD0
                rw [hfi', hfp'] at this
                rw [this]
              have hep' : f3.pos =
                  f.pos + sign.length + intp.length + frac.length + expp.length := by
                rw [hep, hfp']
              have hei' : f3.input = f.input := by rw [hei, hfi']
              have hel' : f3.level = f.level := by rw [hel, hfl']
              have hec' : f3.color = f.color := by rw [hec, hfc']
              cases h
              have hdall : f.input.drop f.pos = (sign ++ intp ++ frac ++ expp) ++
                  f.input.drop (f.pos + sign.length + intp.length + frac.length +
                    expp.length) := by
                rw [hdsg]
                conv_lhs => rw [hintD]
                conv_lhs => rw [hfrD]
                conv_lhs => rw [hexD]
                simp [List.append_assoc]
              have hlen : (sign ++ intp ++ frac ++ expp).length =
                  sign.length + intp.length + frac.length + expp.length := by
                simp [List.length_append]
                omega
              refine ⟨sign ++ intp ++ frac ++ expp,
                ⟨sign, intp, frac, expp, rfl, hsg, hintS, hfrS, hexS⟩, ?_,
                hei', hel', hec', ?_⟩
              · rw [show f.pos + (sign ++ intp ++ frac ++ expp).length =
                  f.pos + sign.length + intp.length + frac.length + expp.length from by
                    rw [hlen]; omega]
                exact hdall
              · rw [hep', hlen]
                omega

/-- Color-independent span inversion of the string scan loop: a success
consumes a `StrTail` suffix. -/
theorem parseStringLoop_span : ∀ (start : Nat) (mode : StrMode) (f : Fmt),
    ∀ f' emit, parseStringLoop start mode f = .ok (f', emit) →
    ∃ t, StrTail t ∧ f.input.drop f.pos = t ++ f.input.drop (f.pos + t.length) ∧
      f'.input = f.input ∧ f'.level = f.level ∧ f'.color = f.color ∧
      f'.pos = f.pos + t.length := by
  intro start mode f
  induction f using parseStringLoop.induct start mode with
  | case1 x hp =>
      intro f' emit h
      rw [parseStringLoop, hp] at h
      simp only [] at h
      cases h
  | case2 x hp =>
      intro f' emit h
      rw [parseStringLoop, hp] at h
      simp only [] at h
      cases h
      refine ⟨[34], StrTail.close, ?_, rfl, rfl, rfl, rfl⟩
      have := drop_of_peek hp
      simpa using this
  | case3 x f1 hn hp hne =>
      intro f' emit h
      have hstep : parseStringLoop start mode x = .error .eof := by
        rw [parseStringLoop, hp]
        simp only []
        rw [if_neg hne, if_pos trivial]
        split
        · rfl
        · rename_i b2 g2 heq
          exact Option.noConfusion (hn.symm.trans heq)
      rw [hstep] at h
      cases h
  | case4 x f1 e2 f2 hn he hp hne ih =>
      intro f' emit h
      obtain ⟨hf2, hpk2, -⟩ := nextByte_some hn
      have hi2 : f2.input = x.input := by rw [hf2]
      have hp2 : f2.pos = x.pos + 2 := by rw [hf2]
      have hl2 : f2.level = x.level := by rw [hf2]
      have hcc2 : f2.color = x.color := by rw [hf2]
      have hstep : parseStringLoop start mode x = parseStringLoop start mode f2 := by
        rw [parseStringLoop, hp]
        simp only []
        rw [if_neg hne, if_pos trivial]
        split
        · rename_i heq
          exact Option.noConfusion (hn.symm.trans heq)
        · rename_i b2 g2 heq
          have h2 := hn.symm.trans heq
          simp only [Option.some.injEq, Prod.mk.injEq] at h2
          obtain ⟨rfl, rfl⟩ := h2
          rw [if_pos he]
      rw [hstep] at h
      obtain ⟨t2, hT2, hD2, hI2, hL2, hC2, hP2⟩ := ih f' emit h
      have hd0 : x.input.drop x.pos = 92 :: x.input.drop (x.pos + 1) := drop_of_peek hp
      have hd1 : x.input.drop (x.pos + 1) = e2 :: x.input.drop (x.pos + 2) :=
        drop_of_peek hpk2
      rw [hi2, hp2] at hD2
      refine ⟨92 :: e2 :: t2, StrTail.esc e2 t2 he hT2, ?_, ?_, ?_, ?_, ?_⟩
      · show x.input.drop x.pos =
          (92 :: e2 :: t2) ++ x.input.drop (x.pos + (92 :: e2 :: t2).length)
        rw [hd0, hd1, hD2]
        simp only [List.cons_append, List.length_cons]
        rw [show x.pos + 2 + t2.length = x.pos + (t2.length + 1 + 1) from by omega]
      · rw [hI2, hi2]
      · rw [hL2, hl2]
      · rw [hC2, hcc2]
      · rw [hP2, hp2]
        simp only [List.length_cons]
        omega
  | case5 x f1 f2 f3 hh hp hne hn hns ih =>
      intro f' emit h
      obtain ⟨hf2, hpk2, -⟩ := nextByte_some hn
      have hi2 : f2.input = x.input := by rw [hf2]
      have hp2 : f2.pos = x.pos + 2 := by rw [hf2]
      have hl2 : f2.level = x.level := by rw [hf2]
      have hcc2 : f2.color = x.color := by rw [hf2]
      have hstep : parseStringLoop start mode x = parseStringLoop start mode f3 := by
        rw [parseStringLoop, hp]
        simp only []
        rw [if_neg hne, if_pos trivial]
        split
        · rename_i heq
          exact Option.noConfusion (hn.symm.trans heq)
        · rename_i b2 g2x heq
          have h2 := hn.symm.trans heq
          simp only [Option.some.injEq, Prod.mk.injEq] at h2
          obtain ⟨h2a, h2b⟩ := h2
          subst h2b
          rw [if_neg (h2a ▸ hns), if_pos (h2a ▸ rfl)]
          split
          · rename_i f3x heq2
            have h3 := hh.symm.trans heq2
            simp only [Except.ok.injEq] at h3
            rw [h3]
          · rename_i err heq2
            exact Except.noConfusion (hh.symm.trans heq2)
      rw [hstep] at h
      obtain ⟨hs, hlen, hhex, hdrop, s4, s5, s6, s7⟩ := readHex4_shape 4 f2 f3 hh
      obtain ⟨t3, hT3, hD3, hI3, hL3, hC3, hP3⟩ := ih f' emit h
      obtain ⟨a1, a2, a3, a4, rfl⟩ := list_len4 hlen
      have hx1 : isAsciiHexDigit a1 = true := hhex a1 (by simp)
      have hx2 : isAsciiHexDigit a2 = true := hhex a2 (by simp)
      have hx3 : isAsciiHexDigit a3 = true := hhex a3 (by simp)
      have hx4 : isAsciiHexDigit a4 = true := hhex a4 (by simp)
      have hi3 : f3.input = x.input := by rw [s4, hi2]
      have hp3 : f3.pos = x.pos + 6 := by omega
      have hl3 : f3.level = x.level := by rw [s5, hl2]
      have hd0 : x.input.drop x.pos = 92 :: x.input.drop (x.pos + 1) := drop_of_peek hp
      have hd1 : x.input.drop (x.pos + 1) = 117 :: x.input.drop (x.pos + 2) :=
        drop_of_peek hpk2
      rw [hi2, hp2] at hdrop
      rw [hi3, hp3] at hD3
      refine ⟨92 :: 117 :: a1 :: a2 :: a3 :: a4 :: t3,
        StrTail.uesc a1 a2 a3 a4 t3 hx1 hx2 hx3 hx4 hT3, ?_, ?_, ?_, ?_, ?_⟩
      · show x.input.drop x.pos = (92 :: 117 :: a1 :: a2 :: a3 :: a4 :: t3) ++
          x.input.drop (x.pos + (92 :: 117 :: a1 :: a2 :: a3 :: a4 :: t3).length)
        rw [hd0, hd1, hdrop, show x.pos + 2 + 4 = x.pos + 6 from by omega, hD3]
        simp only [List.cons_append, List.nil_append, List.length_cons]
        rw [show x.pos + 6 + t3.length =
          x.pos + (t3.length + 1 + 1 + 1 + 1 + 1 + 1) from by omega]
      · rw [hI3, hi3]
      · rw [hL3, hl3]
      · rw [hC3, s6, hcc2]
      · rw [hP3, hp3]
        simp only [List.length_cons]
        omega
  | case6 x f1 f2 err hh hp hne hn hns =>
      intro f' emit h
      obtain ⟨hf2, hpk2, -⟩ := nextByte_some hn
      have hstep : parseStringLoop start mode x = .error err := by
        rw [parseStringLoop, hp]
        simp only []
        rw [if_neg hne, if_pos trivial]
        split
        · rename_i heq
          exact Option.noConfusion (hn.symm.trans heq)
        · rename_i b2 g2x heq
          have h2 := hn.symm.trans heq
          simp only [Option.some.injEq, Prod.mk.injEq] at h2
          obtain ⟨h2a, h2b⟩ := h2
          subst h2b
          rw [if_neg (h2a ▸ hns), if_pos (h2a ▸ rfl)]
          split
          · rename_i f3x heq2
            exact Except.noConfusion (hh.symm.trans heq2)
          · rename_i errx heq2
            have h3 := hh.symm.trans heq2
            simp only [Except.error.injEq] at h3
            rw [h3]
      rw [hstep] at h
      cases h
  | case7 x f1 e2 f2 hn hns hne117 hp hne =>
      intro f' emit h
      obtain ⟨hf2, hpk2, -⟩ := nextByte_some hn
      have hstep : parseStringLoop start mode x = .error (.invalidEscape e2 f2.pos) := by
        rw [parseStringLoop, hp]
        simp only []
        rw [if_neg hne, if_pos trivial]
        split
        · rename_i heq
          exact Option.noConfusion (hn.symm.trans heq)
        · rename_i b2 g2x heq
          have h2 := hn.symm.trans heq
          simp only [Option.some.injEq, Prod.mk.injEq] at h2
          obtain ⟨h2a, h2b⟩ := h2
          subst h2b
          rw [if_neg (h2a ▸ hns), if_neg (h2a ▸ hne117), h2a]
      rw [hstep] at h
      cases h
  | case8 x b hp hb34 hb92 hctl =>
      intro f' emit h
      have hstep : parseStringLoop start mode x = .error (.invalidByte b x.pos) := by
        rw [parseStringLoop, hp]
        simp only []
        rw [if_neg hb34, if_neg hb92, if_pos hctl]
      rw [hstep] at h
      cases h
  | case9 x b hp hb34 hb92 hctl f3 hu ih =>
      intro f' emit h
      obtain ⟨c, hcne, hcdrop, u1, u2, u3, u4, urun⟩ := nextUtf8Char_repl hu
      have hstep : parseStringLoop start mode x = parseStringLoop start mode f3 := by
        rw [parseStringLoop, hp]
        simp only []
        rw [if_neg hb34, if_neg hb92, if_neg hctl]
        split
        · rename_i f3x heq
          have h3 := hu.symm.trans heq
          simp only [Except.ok.injEq] at h3
          rw [h3]
        · rename_i err heq
          exact Except.noConfusion (hu.symm.trans heq)
      rw [hstep] at h
      obtain ⟨t3, hT3, hD3, hI3, hL3, hC3, hP3⟩ := ih f' emit h
      have hb : c.head? = some b := by
        cases c with
        | nil => exact absurd rfl hcne
        | cons a tl =>
            have h0 : peekByte x = some a := by
              rw [peekByte_eq_head, hcdrop]
              rfl
            rw [hp] at h0
            simp only [Option.some.injEq] at h0
            simp only [List.head?_cons]
            rw [h0]
      rw [u1, u4] at hD3
      refine ⟨c ++ t3, StrTail.chr b c t3 hb hb34 hb92 hctl urun hT3, ?_, ?_, ?_, ?_, ?_⟩
      · show x.input.drop x.pos = (c ++ t3) ++ x.input.drop (x.pos + (c ++ t3).length)
        rw [hcdrop, hD3, List.append_assoc, List.length_append,
          show x.pos + (c.length + t3.length) = x.pos + c.length + t3.length from by omega]
      · rw [hI3, u1]
      · rw [hL3, u2]
      · rw [hC3, u3]
      · rw [hP3, u4, List.length_append]
        omega
  | case10 x b hp hb34 hb92 hctl err hu =>
      intro f' emit h
      have hstep : parseStringLoop start mode x = .error err := by
        rw [parseStringLoop, hp]
        simp only []
        rw [if_neg hb34, if_neg hb92, if_neg hctl]
        split
        · rename_i f3x heq
          exact Except.noConfusion (hu.symm.trans heq)
        · rename_i errx heq
          have h3 := hu.symm.trans heq
          simp only [Except.error.injEq] at h3
          rw [h3]
      rw [hstep] at h
      cases h

/-- A byte sequence the UTF-8 decoder accepts mid-string is a spec string
character, provided its bytes are in byte range. -/
theorem utf8Run_specChar {b : Nat} {c : List Nat} (hhead : c.head? = some b)
    (hb34 : ¬b = 34) (hb92 : ¬b = 92) (hctl : ¬b ≤ 31) (hby : ∀ x ∈ c, x < 256)
    (hrun : ∀ (g : Fmt) (grest : List Nat), g.input.drop g.pos = c ++ grest →
      nextUtf8Char g = .ok { g with pos := g.pos + c.length }) :
    SpecStrChar c := by
  have h0 : nextUtf8Char { input := c, pos := 0, level := 0, color := Color.noColor } =
      .ok { input := c, pos := 0 + c.length, level := 0, color := Color.noColor } := by
    have := hrun { input := c, pos := 0, level := 0, color := Color.noColor } [] (by simp)
    exact this
  have hwhole : utf8AcceptsWhole c = true := by
    unfold utf8AcceptsWhole
    rw [h0]
    simp
  have hlen1 : 1 ≤ c.length := by
    cases c with
    | nil => cases hhead
    | cons a t => simp
  have hlen4 : c.length ≤ 4 := by
    obtain ⟨-, -, -, -, h4, -⟩ := nextUtf8Char_ok h0
    simp at h4
    omega
  have href : refUtf8Accept c = true := by
    rw [← utf8_validator_amended c hlen1 hlen4 hby]
    exact hwhole
  cases c with
  | nil => cases hhead
  | cons a t =>
      simp only [List.head?_cons, Option.some.injEq] at hhead
      cases t with
      | nil =>
          have ha : a < 128 := by
            simp only [refUtf8Accept, decide_eq_true_eq] at href
            exact href
          exact SpecStrChar.plain a (by omega) (by omega) (by omega) ha
      | cons b2 t2 =>
          exact SpecStrChar.utf8 (a :: b2 :: t2)
            (by simp only [List.length_cons]; omega) href

/-- The string suffix consumed by the scan loop, in byte range, is a spec
string body followed by the closing quote. -/
theorem strTail_specBody : ∀ {t : List Nat}, StrTail t → (∀ x ∈ t, x < 256) →
    ∃ l, SpecStrBody l ∧ t = l ++ [34] := by
  intro t hT
  induction hT with
  | close =>
      intro hby
      exact ⟨[], SpecStrBody.nil, rfl⟩
  | esc e r he hT ih =>
      intro hby
      obtain ⟨l, hl, heq⟩ := ih (fun x hx => hby x (by simp [hx]))
      refine ⟨[92, e] ++ l, SpecStrBody.cons [92, e] l (SpecStrChar.esc e he) hl, ?_⟩
      rw [show (92 :: e :: r : List Nat) = [92, e] ++ r from rfl, heq]
      simp
  | uesc a1 a2 a3 a4 r hx1 hx2 hx3 hx4 hT ih =>
      intro hby
      obtain ⟨l, hl, heq⟩ := ih (fun x hx => hby x (by simp [hx]))
      refine ⟨[92, 117, a1, a2, a3, a4] ++ l,
        SpecStrBody.cons [92, 117, a1, a2, a3, a4] l
          (SpecStrChar.uesc a1 a2 a3 a4 hx1 hx2 hx3 hx4) hl, ?_⟩
      rw [show (92 :: 117 :: a1 :: a2 :: a3 :: a4 :: r : List Nat) =
        [92, 117, a1, a2, a3, a4] ++ r from rfl, heq]
      simp
  | chr b c r hhead hb34 hb92 hctl hrun hT ih =>
      intro hby
      obtain ⟨l, hl, heq⟩ := ih (fun x hx => hby x (List.mem_append.mpr (Or.inr hx)))
      have hcby : ∀ x ∈ c, x < 256 := fun x hx => hby x (List.mem_append.mpr (Or.inl hx))
      have hsc : SpecStrChar c := utf8Run_specChar hhead hb34 hb92 hctl hcby hrun
      refine ⟨c ++ l, SpecStrBody.cons c l hsc hl, ?_⟩
      rw [heq]
      simp

/-- Bridging the member-tail shape to the spec member-list grammar: a
leading member group followed by a member tail is a member list followed
by the closing brace. -/
theorem membersTail_bridge : ∀ {r : List Nat}, SpecMembersTail r →
    ∀ {w1 k w2 w3 v : List Nat}, isWsL w1 → SpecStrBody k → isWsL w2 → isWsL w3 →
    SpecValue v →
    ∃ m, SpecMembers m ∧
      w1 ++ (34 :: (k ++ [34])) ++ w2 ++ 58 :: (w3 ++ v ++ r) = m ++ [125] := by
  intro r hr
  induction hr with
  | close w hw =>
      intro w1 k w2 w3 v h1 hk h2 h3 hv
      refine ⟨_, SpecMembers.one w1 k w2 w3 v w h1 hk h2 h3 hv hw, ?_⟩
      simp [List.append_assoc]
  | more w w1' k' w2' w3' v' r' hw h1' hk' h2' h3' hv' hr' ih =>
      intro w1 k w2 w3 v h1 hk h2 h3 hv
      obtain ⟨m', hm', heq'⟩ := ih h1' hk' h2' h3' hv'
      refine ⟨_, SpecMembers.cons w1 k w2 w3 v w m' h1 hk h2 h3 hv hw hm', ?_⟩
      simp only [List.append_assoc, List.cons_append, ← heq']

/-- Bridging the element-tail shape to the spec element-list grammar. -/
theorem elemsTail_bridge : ∀ {r : List Nat}, SpecElemsTail r →
    ∀ {w1 v : List Nat}, isWsL w1 → SpecValue v →
    ∃ e, SpecElems e ∧ w1 ++ v ++ r = e ++ [93] := by
  intro r hr
  induction hr with
  | close w hw =>
      intro w1 v h1 hv
      refine ⟨_, SpecElems.one w1 v w h1 hv hw, ?_⟩
      simp [List.append_assoc]
  | more w w1' v' r' hw h1' hv' hr' ih =>
      intro w1 v h1 hv
      obtain ⟨e', he', heq'⟩ := ih h1' hv'
      refine ⟨_, SpecElems.cons w1 v w e' h1 hv hw he', ?_⟩
      simp only [List.append_assoc, List.cons_append, ← heq']

/-- A first-iteration object-loop span, prefixed with whitespace and the
opening brace, is a spec value. -/
theorem objFirst_wrap {w0 C : List Nat} (h0 : isWsL w0) (hC : ObjFirst C) :
    SpecValue (123 :: (w0 ++ C)) := by
  cases hC with
  | close w hw =>
      have h := SpecValue.emptyObj (w0 ++ w) (wsL_append h0 hw)
      rw [show ((123 : Nat) :: ((w0 ++ w) ++ [125])) = 123 :: (w0 ++ (w ++ [125])) from by
        simp [List.append_assoc]] at h
      exact h
  | mem w1 k w2 w3 v r h1 hk h2 h3 hv hr =>
      obtain ⟨m, hm, heq⟩ := membersTail_bridge hr (wsL_append h0 h1) hk h2 h3 hv
      have h := SpecValue.obj m hm
      rw [← heq] at h
      rw [show ((123 : Nat) ::
          ((w0 ++ w1) ++ (34 :: (k ++ [34])) ++ w2 ++ 58 :: (w3 ++ v ++ r))) =
        123 :: (w0 ++ (w1 ++ (34 :: (k ++ [34])) ++ w2 ++ 58 :: (w3 ++ v ++ r))) from by
          simp [List.append_assoc]] at h
      exact h

/-- A first-iteration array-loop span, prefixed with whitespace and the
opening bracket, is a spec value. -/
theorem arrFirst_wrap {w0 C : List Nat} (h0 : isWsL w0) (hC : ArrFirst C) :
    SpecValue (91 :: (w0 ++ C)) := by
  cases hC with
  | close w hw =>
      have h := SpecValue.emptyArr (w0 ++ w) (wsL_append h0 hw)
      rw [show ((91 : Nat) :: ((w0 ++ w) ++ [93])) = 91 :: (w0 ++ (w ++ [93])) from by
        simp [List.append_assoc]] at h
      exact h
  | elem w1 v r h1 hv hr =>
      obtain ⟨e, he, heq⟩ := elemsTail_bridge hr (wsL_append h0 h1) hv
      have h := SpecValue.arr e he
      rw [← heq] at h
      rw [show ((91 : Nat) :: ((w0 ++ w1) ++ v ++ r)) =
        91 :: (w0 ++ (w1 ++ v ++ r)) from by simp [List.append_assoc]] at h
      exact h

/-- Gluing two adjacent drop-decompositions of the same list. -/
theorem drop_glue {l : List Nat} {p : Nat} {u v : List Nat}
    (h1 : l.drop p = u ++ l.drop (p + u.length))
    (h2 : l.drop (p + u.length) = v ++ l.drop (p + u.length + v.length)) :
    l.drop p = (u ++ v) ++ l.drop (p + (u ++ v).length) := by
  rw [h1, h2, List.append_assoc, List.length_append, ← Nat.add_assoc]

/-- Gluing a single consumed byte to a following drop-decomposition. -/
theorem drop_glue_cons {l : List Nat} {p : Nat} {b : Nat} {v : List Nat}
    (h1 : l.drop p = b :: l.drop (p + 1))
    (h2 : l.drop (p + 1) = v ++ l.drop (p + 1 + v.length)) :
    l.drop p = (b :: v) ++ l.drop (p + (b :: v).length) := by
  rw [h1, h2]
  simp only [List.cons_append, List.length_cons]
  rw [show p + (v.length + 1) = p + 1 + v.length from by omega]

/-- Gluing two adjacent drop-decompositions with free endpoints. -/
theorem drop_glue2 {l : List Nat} {p q r : Nat} {u v : List Nat}
    (h1 : l.drop p = u ++ l.drop q) (h2 : l.drop q = v ++ l.drop r) :
    l.drop p = (u ++ v) ++ l.drop r := by
  rw [h1, h2, List.append_assoc]

/-- Gluing a single consumed byte to a following drop-decomposition with
free endpoints. -/
theorem drop_glue2_cons {l : List Nat} {p q r : Nat} {b : Nat} {v : List Nat}
    (h1 : l.drop p = b :: l.drop q) (h2 : l.drop q = v ++ l.drop r) :
    l.drop p = (b :: v) ++ l.drop r := by
  rw [h1, h2]
  rfl

/-- Rewriting the endpoint of a drop-decomposition to the canonical
start-plus-length form. -/
theorem drop_decomp_len {l : List Nat} {p q : Nat} {u : List Nat}
    (h : l.drop p = u ++ l.drop q) (hq : q = p + u.length) :
    l.drop p = u ++ l.drop (p + u.length) := by
  rw [← hq]
  exact h

/-- Color-independent span inversion of the string parser: a success on a
byte buffer consumes an opening quote, a spec string body, and a closing
quote. -/
theorem parseString_span {f fB : Fmt} {mode : StrMode} {dK : List Nat}
    (h : parseString f mode = .ok (fB, dK)) (hby : ∀ x ∈ f.input, x < 256) :
    ∃ l, SpecStrBody l ∧
      f.input.drop f.pos = (34 :: (l ++ [34])) ++
        f.input.drop (f.pos + (34 :: (l ++ [34])).length) ∧
      fB.pos = f.pos + (34 :: (l ++ [34])).length ∧ fB.input = f.input ∧
      fB.level = f.level ∧ fB.color = f.color := by
  simp only [parseString] at h
  cases hx : expectByte f 34 with
  | error e2 => rw [hx] at h; cases h
  | ok f1 =>
      rw [hx] at h
      obtain ⟨hf1, hget⟩ := expectByte_ok_inv hx
      subst hf1
      obtain ⟨t, hT, hD, hI, hL, hC, hP⟩ := parseStringLoop_span f.pos mode _ fB dK h
      have hD' : f.input.drop (f.pos + 1) = t ++ f.input.drop (f.pos + 1 + t.length) := hD
      have hP' : fB.pos = f.pos + 1 + t.length := hP
      have hI' : fB.input = f.input := hI
      have hL' : fB.level = f.level := hL
      have hC' : fB.color = f.color := hC
      have hby' : ∀ x ∈ t, x < 256 := by
        intro x hx2
        apply hby
        apply List.drop_subset (f.pos + 1) f.input
        rw [hD']
        exact List.mem_append.mpr (Or.inl hx2)
      obtain ⟨l, hl, rfl⟩ := strTail_specBody hT hby'
      have hpk : peekByte f = some 34 := hget
      have hd0 : f.input.drop f.pos = 34 :: f.input.drop (f.pos + 1) := drop_of_peek hpk
      refine ⟨l, hl, drop_glue_cons hd0 hD', ?_, hI', hL', hC'⟩
      rw [hP']
      simp only [List.length_cons]
      omega

theorem svs_zero (f : Fmt) : SVs 0 f := by
  intro f' d h hby
  exact Option.noConfusion h

theorem sos_zero (f : Fmt) : SOs 0 f := by
  intro f' d h hby
  exact Option.noConfusion h

theorem sas_zero (f : Fmt) : SAs 0 f := by
  intro f' d h hby
  exact Option.noConfusion h

theorem ols_zero (f : Fmt) (acc : List Nat) (first : Bool) : OLs 0 f acc first := by
  intro f' d h hby
  exact Option.noConfusion h

theorem als_zero (f : Fmt) (acc : List Nat) (first : Bool) : ALs 0 f acc first := by
  intro f' d h hby
  exact Option.noConfusion h

theorem svs_succ (fuel : Nat) (hSO : ∀ f : Fmt, SOs fuel f)
    (hSA : ∀ f : Fmt, SAs fuel f) : ∀ f : Fmt, SVs (fuel + 1) f := by
  intro f f' d h hby
  simp only [parseValue] at h
  cases hpk : peekByte f with
  | none =>
      rw [hpk] at h
      simp at h
  | some b =>
      rw [hpk] at h
      simp only at h
      by_cases h34 : b = 34
      · rw [if_pos h34] at h
        simp only [Option.some.injEq] at h
        obtain ⟨l, hl, hD, hP, hI, -, -⟩ := parseString_span h hby
        exact ⟨34 :: (l ++ [34]), SpecValue.str l hl, hD, hP, hI⟩
      · rw [if_neg h34] at h
        by_cases hnum : b = 45 ∨ (48 ≤ b ∧ b ≤ 57)
        · rw [if_pos hnum] at h
          simp only [Option.some.injEq] at h
          obtain ⟨s, hs, hD, hI, -, -, hP⟩ := parseNumber_span h
          exact ⟨s, SpecValue.num s hs, hD, hP, hI⟩
        · rw [if_neg hnum] at h
          by_cases h123 : b = 123
          · rw [if_pos h123] at h
            exact hSO f f' d h hby
          · rw [if_neg h123] at h
            by_cases h91 : b = 91
            · rw [if_pos h91] at h
              exact hSA f f' d h hby
            · rw [if_neg h91] at h
              by_cases h116 : b = 116
              · rw [if_pos h116] at h
                simp only [Option.some.injEq] at h
                simp only [parseTrue] at h
                cases hx : expectBytes f [116, 114, 117, 101] with
                | error e2 => rw [hx] at h; cases h
                | ok f4 =>
                    rw [hx] at h
                    simp only [Except.ok.injEq, Prod.mk.injEq] at h
                    obtain ⟨hf4, -⟩ := h
                    obtain ⟨i1, -, -, i4, i5⟩ := expectBytes_shape _ f f4 hx
                    subst hf4
                    exact ⟨[116, 114, 117, 101], SpecValue.trueL, i5, i4, i1⟩
              · rw [if_neg h116] at h
                by_cases h102 : b = 102
                · rw [if_pos h102] at h
                  simp only [Option.some.injEq] at h
                  simp only [parseFalse] at h
                  cases hx : expectBytes f [102, 97, 108, 115, 101] with
                  | error e2 => rw [hx] at h; cases h
                  | ok f4 =>
                      rw [hx] at h
                      simp only [Except.ok.injEq, Prod.mk.injEq] at h
                      obtain ⟨hf4, -⟩ := h
                      obtain ⟨i1, -, -, i4, i5⟩ := expectBytes_shape _ f f4 hx
                      subst hf4
                      exact ⟨[102, 97, 108, 115, 101], SpecValue.falseL, i5, i4, i1⟩
                · rw [if_neg h102] at h
                  by_cases h110 : b = 110
                  · rw [if_pos h110] at h
                    simp only [Option.some.injEq] at h
                    simp only [parseNull] at h
                    cases hx : expectBytes f [110, 117, 108, 108] with
                    | error e2 => rw [hx] at h; cases h
                    | ok f4 =>
                        rw [hx] at h
                        simp only [Except.ok.injEq, Prod.mk.injEq] at h
                        obtain ⟨hf4, -⟩ := h
                        obtain ⟨i1, -, -, i4, i5⟩ := expectBytes_shape _ f f4 hx
                        subst hf4
                        exact ⟨[110, 117, 108, 108], SpecValue.nullL, i5, i4, i1⟩
                  · rw [if_neg h110] at h
                    simp at h

theorem sos_succ (fuel : Nat)
    (hOL : ∀ (f : Fmt) (acc : List Nat) (first : Bool), OLs fuel f acc first) :
    ∀ f : Fmt, SOs (fuel + 1) f := by
  intro f f' d h hby
  simp only [parseObject] at h
  cases hx : expectByte f 123 with
  | error e2 => rw [hx] at h; simp at h
  | ok f1 =>
      rw [hx] at h
      simp only at h
      obtain ⟨hf1, hget⟩ := expectByte_ok_inv hx
      subst hf1
      have hpk123 : peekByte f = some 123 := hget
      have hd0 : f.input.drop f.pos = 123 :: f.input.drop (f.pos + 1) :=
        drop_of_peek hpk123
      obtain ⟨w0, hw0, hwD0, hsw0⟩ :=
        skipWhitespace_split ({ f with pos := f.pos + 1 } : Fmt)
      have hwD : f.input.drop (f.pos + 1) = w0 ++ f.input.drop (f.pos + 1 + w0.length) :=
        hwD0
      have hsw : skipWhitespace ({ f with pos := f.pos + 1 } : Fmt) =
          { f with pos := f.pos + 1 + w0.length } := hsw0
      rw [hsw] at h
      by_cases hpk125 : peekByte ({ f with pos := f.pos + 1 + w0.length } : Fmt) = some 125
      · rw [if_pos hpk125] at h
        simp only [Option.some.injEq, Except.ok.injEq, Prod.mk.injEq] at h
        obtain ⟨hf', -⟩ := h
        have hd125 : f.input.drop (f.pos + 1 + w0.length) =
            125 :: f.input.drop (f.pos + 1 + w0.length + 1) := drop_of_peek hpk125
        have hd125' : f.input.drop (f.pos + 1 + w0.length) =
            [125] ++ f.input.drop (f.pos + 1 + w0.length + ([125] : List Nat).length) :=
          hd125
        refine ⟨123 :: (w0 ++ [125]), SpecValue.emptyObj w0 hw0, ?_, ?_, ?_⟩
        · exact drop_glue_cons hd0 (drop_glue hwD hd125')
        · have hp' : f'.pos = f.pos + 1 + w0.length + 1 := by rw [← hf']
          rw [hp']
          simp only [List.length_cons, List.length_append, List.length_nil]
          omega
        · rw [← hf']
      · rw [if_neg hpk125] at h
        cases hinc : incLevel ({ f with pos := f.pos + 1 + w0.length } : Fmt) with
        | error e2 => rw [hinc] at h; simp at h
        | ok f3 =>
            rw [hinc] at h
            simp only at h
            obtain ⟨hf3, -⟩ := incLevel_ok hinc
            subst hf3
            obtain ⟨C, hCt, -, hCd, hCp, hCi⟩ := hOL _ _ true f' d h hby
            have hCO : ObjFirst C := hCt rfl
            have hCd' : f.input.drop (f.pos + 1 + w0.length) =
                C ++ f.input.drop (f.pos + 1 + w0.length + C.length) := hCd
            have hCp' : f'.pos = f.pos + 1 + w0.length + C.length := hCp
            have hCi' : f'.input = f.input := hCi
            refine ⟨123 :: (w0 ++ C), objFirst_wrap hw0 hCO, ?_, ?_, hCi'⟩
            · exact drop_glue_cons hd0 (drop_glue hwD hCd')
            · rw [hCp']
              simp only [List.length_cons, List.length_append]
              omega

theorem sas_succ (fuel : Nat)
    (hAL : ∀ (f : Fmt) (acc : List Nat) (first : Bool), ALs fuel f acc first) :
    ∀ f : Fmt, SAs (fuel + 1) f := by
  intro f f' d h hby
  simp only [parseArray] at h
  cases hx : expectByte f 91 with
  | error e2 => rw [hx] at h; simp at h
  | ok f1 =>
      rw [hx] at h
      simp only at h
      obtain ⟨hf1, hget⟩ := expectByte_ok_inv hx
      subst hf1
      have hpk91 : peekByte f = some 91 := hget
      have hd0 : f.input.drop f.pos = 91 :: f.input.drop (f.pos + 1) :=
        drop_of_peek hpk91
      obtain ⟨w0, hw0, hwD0, hsw0⟩ :=
        skipWhitespace_split ({ f with pos := f.pos + 1 } : Fmt)
      have hwD : f.input.drop (f.pos + 1) = w0 ++ f.input.drop (f.pos + 1 + w0.length) :=
        hwD0
      have hsw : skipWhitespace ({ f with pos := f.pos + 1 } : Fmt) =
          { f with pos := f.pos + 1 + w0.length } := hsw0
      rw [hsw] at h
      by_cases hpk93 : peekByte ({ f with pos := f.pos + 1 + w0.length } : Fmt) = some 93
      · rw [if_pos hpk93] at h
        simp only [Option.some.injEq, Except.ok.injEq, Prod.mk.injEq] at h
        obtain ⟨hf', -⟩ := h
        have hd93 : f.input.drop (f.pos + 1 + w0.length) =
            93 :: f.input.drop (f.pos + 1 + w0.length + 1) := drop_of_peek hpk93
        have hd93' : f.input.drop (f.pos + 1 + w0.length) =
            [93] ++ f.input.drop (f.pos + 1 + w0.length + ([93] : List Nat).length) :=
          hd93
        refine ⟨91 :: (w0 ++ [93]), SpecValue.emptyArr w0 hw0, ?_, ?_, ?_⟩
        · exact drop_glue_cons hd0 (drop_glue hwD hd93')
        · have hp' : f'.pos = f.pos + 1 + w0.length + 1 := by rw [← hf']
          rw [hp']
          simp only [List.length_cons, List.length_append, List.length_nil]
          omega
        · rw [← hf']
      · rw [if_neg hpk93] at h
        cases hinc : incLevel ({ f with pos := f.pos + 1 + w0.length } : Fmt) with
        | error e2 => rw [hinc] at h; simp at h
        | ok f3 =>
            rw [hinc] at h
            simp only at h
            obtain ⟨hf3, -⟩ := incLevel_ok hinc
            subst hf3
            obtain ⟨C, hCt, -, hCd, hCp, hCi⟩ := hAL _ _ true f' d h hby
            have hCA : ArrFirst C := hCt rfl
            have hCd' : f.input.drop (f.pos + 1 + w0.length) =
                C ++ f.input.drop (f.pos + 1 + w0.length + C.length) := hCd
            have hCp' : f'.pos = f.pos + 1 + w0.length + C.length := hCp
            have hCi' : f'.input = f.input := hCi
            refine ⟨91 :: (w0 ++ C), arrFirst_wrap hw0 hCA, ?_, ?_, hCi'⟩
            · exact drop_glue_cons hd0 (drop_glue hwD hCd')
            · rw [hCp']
              simp only [List.length_cons, List.length_append]
              omega

theorem ols_succ (fuel : Nat) (hSV : ∀ f : Fmt, SVs fuel f)
    (hOL : ∀ (f : Fmt) (acc : List Nat) (first : Bool), OLs fuel f acc first) :
    ∀ (f : Fmt) (acc : List Nat) (first : Bool), OLs (fuel + 1) f acc first := by
  intro f acc first f' d h hby
  obtain ⟨w, hw, hwD0, hsw0⟩ := skipWhitespace_split f
  have hwD : f.input.drop f.pos = w ++ f.input.drop (f.pos + w.length) := hwD0
  have hsw : skipWhitespace f = { f with pos := f.pos + w.length } := hsw0
  cases first with
  | true =>
      simp only [objLoop] at h
      rw [hsw] at h
      by_cases hpk : peekByte ({ f with pos := f.pos + w.length } : Fmt) = some 125
      · rw [if_pos hpk] at h
        simp only [Option.some.injEq, Except.ok.injEq, Prod.mk.injEq] at h
        obtain ⟨hf', -⟩ := h
        have hd125 : f.input.drop (f.pos + w.length) =
            125 :: f.input.drop (f.pos + w.length + 1) := drop_of_peek hpk
        have hd125' : f.input.drop (f.pos + w.length) =
            [125] ++ f.input.drop (f.pos + w.length + ([125] : List Nat).length) := hd125
        refine ⟨w ++ [125], fun _ => ObjFirst.close w hw,
          fun hcc => Bool.noConfusion hcc, ?_, ?_, ?_⟩
        · exact drop_glue hwD hd125'
        · have hp' : f'.pos = f.pos + w.length + 1 := by rw [← hf']; rfl
          rw [hp']
          simp only [List.length_append, List.length_cons, List.length_nil]
          omega
        · rw [← hf']
          rfl
      · rw [if_neg hpk] at h
        rw [if_pos trivial] at h
        simp only at h
        cases hps : parseString ({ f with pos := f.pos + w.length } : Fmt) .key with
        | error e2 => rw [hps] at h; simp at h
        | ok p =>
            obtain ⟨fB, dK⟩ := p
            rw [hps] at h
            simp only at h
            obtain ⟨l, hl, hKD0, hKP0, hKI0, -, -⟩ := parseString_span hps hby
            have hKD : f.input.drop (f.pos + w.length) = (34 :: (l ++ [34])) ++
                f.input.drop (f.pos + w.length + (34 :: (l ++ [34])).length) := hKD0
            have hKP : fB.pos = f.pos + w.length + (34 :: (l ++ [34])).length := hKP0
            have hKI : fB.input = f.input := hKI0
            obtain ⟨w2, hw2, hwD2a, hsw2⟩ := skipWhitespace_split fB
            have hwD2 : f.input.drop (f.pos + w.length + (34 :: (l ++ [34])).length) =
                w2 ++ f.input.drop (f.pos + w.length + (34 :: (l ++ [34])).length +
                  w2.length) := by
              have h0 := hwD2a
              rw [hKI, hKP] at h0
              exact h0
            rw [hsw2] at h
            cases h58 : expectByte ({ fB with pos := fB.pos + w2.length } : Fmt) 58 with
            | error e2 => rw [h58] at h; simp at h
            | ok fD =>
                rw [h58] at h
                simp only at h
                obtain ⟨hfD, hget58⟩ := expectByte_ok_inv h58
                have hfDp : fD.pos = fB.pos + w2.length + 1 := by rw [hfD]
                have hfDi : fD.input = fB.input := by rw [hfD]
                have hd58 : f.input.drop
                    (f.pos + w.length + (34 :: (l ++ [34])).length + w2.length) =
                    58 :: f.input.drop (f.pos + w.length + (34 :: (l ++ [34])).length +
                      w2.length + 1) := by
                  have hpk58 : peekByte ({ fB with pos := fB.pos + w2.length } : Fmt) =
                      some 58 := hget58
                  have hstep : fB.input.drop (fB.pos + w2.length) =
                      58 :: fB.input.drop (fB.pos + w2.length + 1) := drop_of_peek hpk58
                  rw [hKI, hKP] at hstep
                  exact hstep
                obtain ⟨w3, hw3, hwD3a, hsw3⟩ := skipWhitespace_split fD
                have hwD3 : f.input.drop (f.pos + w.length +
                    (34 :: (l ++ [34])).length + w2.length + 1) =
                    w3 ++ f.input.drop (f.pos + w.length + (34 :: (l ++ [34])).length +
                      w2.length + 1 + w3.length) := by
                  have h0 := hwD3a
                  rw [hfDi, hfDp, hKI, hKP] at h0
                  exact h0
                rw [hsw3] at h
                cases hpv : parseValue fuel ({ fD with pos := fD.pos + w3.length } : Fmt)
                  with
                | none => rw [hpv] at h; simp at h
                | some r =>
                    cases r with
                    | error e2 => rw [hpv] at h; simp at h
                    | ok p2 =>
                        obtain ⟨fF, dV⟩ := p2
                        rw [hpv] at h
                        simp only at h
                        have hbyD : ∀ x ∈
                            ({ fD with pos := fD.pos + w3.length } : Fmt).input,
                            x < 256 := by
                          have h0 : ∀ x ∈ fB.input, x < 256 := by
                            rw [hKI]
                            exact hby
                          have h1 : ∀ x ∈ fD.input, x < 256 := by
                            rw [hfDi]
                            exact h0
                          exact h1
                        obtain ⟨v, hV, hvD0, hvP0, hvI0⟩ := hSV _ fF dV hpv hbyD
                        have hvD : f.input.drop (f.pos + w.length +
                            (34 :: (l ++ [34])).length + w2.length + 1 + w3.length) =
                            v ++ f.input.drop (f.pos + w.length +
                              (34 :: (l ++ [34])).length + w2.length + 1 + w3.length +
                              v.length) := by
                          have h0 : fD.input.drop (fD.pos + w3.length) =
                              v ++ fD.input.drop (fD.pos + w3.length + v.length) := hvD0
                          rw [hfDi, hfDp, hKI, hKP] at h0
                          exact h0
                        have hvP : fF.pos = f.pos + w.length +
                            (34 :: (l ++ [34])).length + w2.length + 1 + w3.length +
                            v.length := by
                          have h0 : fF.pos = fD.pos + w3.length + v.length := hvP0
                          rw [hfDp, hKP] at h0
                          exact h0
                        have hvI : fF.input = f.input := by
                          have h0 : fF.input = fD.input := hvI0
                          rw [hfDi, hKI] at h0
                          exact h0
                        have hbyF : ∀ x ∈ fF.input, x < 256 := by
                          rw [hvI]
                          exact hby
                        obtain ⟨C', -, hCt, hCd0, hCp0, hCi0⟩ :=
                          hOL fF _ false f' d h hbyF
                        have hTail : SpecMembersTail C' := hCt rfl
                        have hCd : f.input.drop (f.pos + w.length +
                            (34 :: (l ++ [34])).length + w2.length + 1 + w3.length +
                            v.length) = C' ++ f.input.drop (f.pos + w.length +
                              (34 :: (l ++ [34])).length + w2.length + 1 + w3.length +
                              v.length + C'.length) := by
                          have h0 := hCd0
                          rw [hvI, hvP] at h0
                          exact h0
                        have hCp : f'.pos = f.pos + w.length +
                            (34 :: (l ++ [34])).length + w2.length + 1 + w3.length +
                            v.length + C'.length := by
                          have h0 := hCp0
                          rw [hvP] at h0
                          exact h0
                        have hCi : f'.input = f.input := by
                          rw [hCi0, hvI]
                        refine ⟨w ++ (34 :: (l ++ [34])) ++ w2 ++ 58 :: (w3 ++ v ++ C'),
                          fun _ => ObjFirst.mem w l w2 w3 v C' hw hl hw2 hw3 hV hTail,
                          fun hcc => Bool.noConfusion hcc, ?_, ?_, hCi⟩
                        · have hglue := drop_glue2 (drop_glue2 (drop_glue2 hwD hKD)
                            hwD2) (drop_glue2_cons hd58
                              (drop_glue2 (drop_glue2 hwD3 hvD) hCd))
                          exact drop_decomp_len hglue (by
                            simp only [List.length_append, List.length_cons,
                              List.length_nil]
                            omega)
                        · rw [hCp]
                          simp only [List.length_append, List.length_cons,
                            List.length_nil]
                          omega
  | false =>
      simp only [objLoop] at h
      rw [hsw] at h
      by_cases hpk : peekByte ({ f with pos := f.pos + w.length } : Fmt) = some 125
      · rw [if_pos hpk] at h
        simp only [Option.some.injEq, Except.ok.injEq, Prod.mk.injEq] at h
        obtain ⟨hf', -⟩ := h
        have hd125 : f.input.drop (f.pos + w.length) =
            125 :: f.input.drop (f.pos + w.length + 1) := drop_of_peek hpk
        have hd125' : f.input.drop (f.pos + w.length) =
            [125] ++ f.input.drop (f.pos + w.length + ([125] : List Nat).length) := hd125
        refine ⟨w ++ [125], fun hcc => Bool.noConfusion hcc,
          fun _ => SpecMembersTail.close w hw, ?_, ?_, ?_⟩
        · exact drop_glue hwD hd125'
        · have hp' : f'.pos = f.pos + w.length + 1 := by rw [← hf']; rfl
          rw [hp']
          simp only [List.length_append, List.length_cons, List.length_nil]
          omega
        · rw [← hf']
          rfl
      · rw [if_neg hpk] at h
        rw [if_neg Bool.false_ne_true] at h
        cases h44 : expectByte ({ f with pos := f.pos + w.length } : Fmt) 44 with
        | error e2 => rw [h44] at h; simp at h
        | ok fc =>
            rw [h44] at h
            simp only at h
            obtain ⟨hfc, hget44⟩ := expectByte_ok_inv h44
            have hfcp : fc.pos = f.pos + w.length + 1 := by rw [hfc]
            have hfci : fc.input = f.input := by rw [hfc]
            have hd44 : f.input.drop (f.pos + w.length) =
                44 :: f.input.drop (f.pos + w.length + 1) := by
              have hpk44 : peekByte ({ f with pos := f.pos + w.length } : Fmt) =
                  some 44 := hget44
              exact drop_of_peek hpk44
            obtain ⟨w1, hw1, hwD1a, hsw1⟩ := skipWhitespace_split fc
            have hwD1 : f.input.drop (f.pos + w.length + 1) =
                w1 ++ f.input.drop (f.pos + w.length + 1 + w1.length) := by
              have h0 := hwD1a
              rw [hfci, hfcp] at h0
              exact h0
            rw [hsw1] at h
            cases hps : parseString ({ fc with pos := fc.pos + w1.length } : Fmt) .key
              with
            | error e2 => rw [hps] at h; simp at h
            | ok p =>
                obtain ⟨fB, dK⟩ := p
                rw [hps] at h
                simp only at h
                have hbyc : ∀ x ∈ ({ fc with pos := fc.pos + w1.length } : Fmt).input,
                    x < 256 := by
                  have h0 : ∀ x ∈ fc.input, x < 256 := by
                    rw [hfci]
                    exact hby
                  exact h0
                obtain ⟨l, hl, hKD0, hKP0, hKI0, -, -⟩ := parseString_span hps hbyc
                have hKD : f.input.drop (f.pos + w.length + 1 + w1.length) =
                    (34 :: (l ++ [34])) ++ f.input.drop (f.pos + w.length + 1 +
                      w1.length + (34 :: (l ++ [34])).length) := by
                  have h0 : fc.input.drop (fc.pos + w1.length) = (34 :: (l ++ [34])) ++
                      fc.input.drop (fc.pos + w1.length + (34 :: (l ++ [34])).length) :=
                    hKD0
                  rw [hfci, hfcp] at h0
                  exact h0
                have hKP : fB.pos = f.pos + w.length + 1 + w1.length +
                    (34 :: (l ++ [34])).length := by
                  have h0 : fB.pos = fc.pos + w1.length + (34 :: (l ++ [34])).length :=
                    hKP0
                  rw [hfcp] at h0
                  exact h0
                have hKI : fB.input = f.input := by
                  have h0 : fB.input = fc.input := hKI0
                  rw [hfci] at h0
                  exact h0
                obtain ⟨w2, hw2, hwD2a, hsw2⟩ := skipWhitespace_split fB
                have hwD2 : f.input.drop (f.pos + w.length + 1 + w1.length +
                    (34 :: (l ++ [34])).length) = w2 ++ f.input.drop (f.pos + w.length +
                      1 + w1.length + (34 :: (l ++ [34])).length + w2.length) := by
                  have h0 := hwD2a
                  rw [hKI, hKP] at h0
                  exact h0
                rw [hsw2] at h
                cases h58 : expectByte ({ fB with pos := fB.pos + w2.length } : Fmt) 58
                  with
                | error e2 => rw [h58] at h; simp at h
                | ok fD =>
                    rw [h58] at h
                    simp only at h
                    obtain ⟨hfD, hget58⟩ := expectByte_ok_inv h58
                    have hfDp : fD.pos = fB.pos + w2.length + 1 := by rw [hfD]
                    have hfDi : fD.input = fB.input := by rw [hfD]
                    have hd58 : f.input.drop (f.pos + w.length + 1 + w1.length +
                        (34 :: (l ++ [34])).length + w2.length) =
                        58 :: f.input.drop (f.pos + w.length + 1 + w1.length +
                          (34 :: (l ++ [34])).length + w2.length + 1) := by
                      have hpk58 : peekByte ({ fB with pos := fB.pos + w2.length } :
                          Fmt) = some 58 := hget58
                      have hstep : fB.input.drop (fB.pos + w2.length) =
                          58 :: fB.input.drop (fB.pos + w2.length + 1) :=
                        drop_of_peek hpk58
                      rw [hKI, hKP] at hstep
                      exact hstep
                    obtain ⟨w3, hw3, hwD3a, hsw3⟩ := skipWhitespace_split fD
                    have hwD3 : f.input.drop (f.pos + w.length + 1 + w1.length +
                        (34 :: (l ++ [34])).length + w2.length + 1) =
                        w3 ++ f.input.drop (f.pos + w.length + 1 + w1.length +
                          (34 :: (l ++ [34])).length + w2.length + 1 + w3.length) := by
                      have h0 := hwD3a
                      rw [hfDi, hfDp, hKI, hKP] at h0
                      exact h0
                    rw [hsw3] at h
                    cases hpv : parseValue fuel
                        ({ fD with pos := fD.pos + w3.length } : Fmt) with
                    | none => rw [hpv] at h; simp at h
                    | some r =>
                        cases r with
                        | error e2 => rw [hpv] at h; simp at h
                        | ok p2 =>
                            obtain ⟨fF, dV⟩ := p2
                            rw [hpv] at h
                            simp only at h
                            have hbyD : ∀ x ∈
                                ({ fD with pos := fD.pos + w3.length } : Fmt).input,
                                x < 256 := by
                              have h0 : ∀ x ∈ fD.input, x < 256 := by
                                rw [hfDi, hKI]
                                exact hby
                              exact h0
                            obtain ⟨v, hV, hvD0, hvP0, hvI0⟩ := hSV _ fF dV hpv hbyD
                            have hvD : f.input.drop (f.pos + w.length + 1 + w1.length +
                                (34 :: (l ++ [34])).length + w2.length + 1 + w3.length) =
                                v ++ f.input.drop (f.pos + w.length + 1 + w1.length +
                                  (34 :: (l ++ [34])).length + w2.length + 1 +
                                  w3.length + v.length) := by
                              have h0 : fD.input.drop (fD.pos + w3.length) =
                                  v ++ fD.input.drop (fD.pos + w3.length + v.length) :=
                                hvD0
                              rw [hfDi, hfDp, hKI, hKP] at h0
                              exact h0
                            have hvP : fF.pos = f.pos + w.length + 1 + w1.length +
                                (34 :: (l ++ [34])).length + w2.length + 1 + w3.length +
                                v.length := by
                              have h0 : fF.pos = fD.pos + w3.length + v.length := hvP0
                              rw [hfDp, hKP] at h0
                              exact h0
                            have hvI : fF.input = f.input := by
                              have h0 : fF.input = fD.input := hvI0
                              rw [hfDi, hKI] at h0
                              exact h0
                            have hbyF : ∀ x ∈ fF.input, x < 256 := by
                              rw [hvI]
                              exact hby
                            obtain ⟨C', -, hCt, hCd0, hCp0, hCi0⟩ :=
                              hOL fF _ false f' d h hbyF
                            have hTail : SpecMembersTail C' := hCt rfl
                            have hCd : f.input.drop (f.pos + w.length + 1 + w1.length +
                                (34 :: (l ++ [34])).length + w2.length + 1 + w3.length +
                                v.length) = C' ++ f.input.drop (f.pos + w.length + 1 +
                                  w1.length + (34 :: (l ++ [34])).length + w2.length +
                                  1 + w3.length + v.length + C'.length) := by
                              have h0 := hCd0
                              rw [hvI, hvP] at h0
                              exact h0
                            have hCp : f'.pos = f.pos + w.length + 1 + w1.length +
                                (34 :: (l ++ [34])).length + w2.length + 1 + w3.length +
                                v.length + C'.length := by
                              have h0 := hCp0
                              rw [hvP] at h0
                              exact h0
                            have hCi : f'.input = f.input := by
                              rw [hCi0, hvI]
                            refine ⟨w ++ 44 :: (w1 ++ (34 :: (l ++ [34])) ++ w2 ++
                                58 :: (w3 ++ v ++ C')),
                              fun hcc => Bool.noConfusion hcc,
                              fun _ => SpecMembersTail.more w w1 l w2 w3 v C'
                                hw hw1 hl hw2 hw3 hV hTail, ?_, ?_, hCi⟩
                            · have hglue := drop_glue2 hwD (drop_glue2_cons hd44
                                (drop_glue2 (drop_glue2 (drop_glue2 hwD1 hKD) hwD2)
                                  (drop_glue2_cons hd58
                                    (drop_glue2 (drop_glue2 hwD3 hvD) hCd))))
                              exact drop_decomp_len hglue (by
                                simp only [List.length_append, List.length_cons,
                                  List.length_nil]
                                omega)
                            · rw [hCp]
                              simp only [List.length_append, List.length_cons,
                                List.length_nil]
                              omega

theorem als_succ (fuel : Nat) (hSV : ∀ f : Fmt, SVs fuel f)
    (hAL : ∀ (f : Fmt) (acc : List Nat) (first : Bool), ALs fuel f acc first) :
    ∀ (f : Fmt) (acc : List Nat) (first : Bool), ALs (fuel + 1) f acc first := by
  intro f acc first f' d h hby
  obtain ⟨w, hw, hwD0, hsw0⟩ := skipWhitespace_split f
  have hwD : f.input.drop f.pos = w ++ f.input.drop (f.pos + w.length) := hwD0
  have hsw : skipWhitespace f = { f with pos := f.pos + w.length } := hsw0
  cases first with
  | true =>
      simp only [arrLoop] at h
      rw [hsw] at h
      by_cases hpk : peekByte ({ f with pos := f.pos + w.length } : Fmt) = some 93
      · rw [if_pos hpk] at h
        simp only [Option.some.injEq, Except.ok.injEq, Prod.mk.injEq] at h
        obtain ⟨hf', -⟩ := h
        have hd93 : f.input.drop (f.pos + w.length) =
            93 :: f.input.drop (f.pos + w.length + 1) := drop_of_peek hpk
        have hd93' : f.input.drop (f.pos + w.length) =
            [93] ++ f.input.drop (f.pos + w.length + ([93] : List Nat).length) := hd93
        refine ⟨w ++ [93], fun _ => ArrFirst.close w hw,
          fun hcc => Bool.noConfusion hcc, ?_, ?_, ?_⟩
        · exact drop_glue hwD hd93'
        · have hp' : f'.pos = f.pos + w.length + 1 := by rw [← hf']; rfl
          rw [hp']
          simp only [List.length_append, List.length_cons, List.length_nil]
          omega
        · rw [← hf']
          rfl
      · rw [if_neg hpk] at h
        rw [if_pos trivial] at h
        simp only at h
        cases hpv : parseValue fuel ({ f with pos := f.pos + w.length } : Fmt) with
        | none => rw [hpv] at h; simp at h
        | some r =>
            cases r with
            | error e2 => rw [hpv] at h; simp at h
            | ok p2 =>
                obtain ⟨fF, dV⟩ := p2
                rw [hpv] at h
                simp only at h
                obtain ⟨v, hV, hvD0, hvP0, hvI0⟩ := hSV _ fF dV hpv hby
                have hvD : f.input.drop (f.pos + w.length) =
                    v ++ f.input.drop (f.pos + w.length + v.length) := hvD0
                have hvP : fF.pos = f.pos + w.length + v.length := hvP0
                have hvI : fF.input = f.input := hvI0
                have hbyF : ∀ x ∈ fF.input, x < 256 := by
                  rw [hvI]
                  exact hby
                obtain ⟨C', -, hCt, hCd0, hCp0, hCi0⟩ := hAL fF _ false f' d h hbyF
                have hTail : SpecElemsTail C' := hCt rfl
                have hCd : f.input.drop (f.pos + w.length + v.length) =
                    C' ++ f.input.drop (f.pos + w.length + v.length + C'.length) := by
                  have h0 := hCd0
                  rw [hvI, hvP] at h0
                  exact h0
                have hCp : f'.pos = f.pos + w.length + v.length + C'.length := by
                  have h0 := hCp0
                  rw [hvP] at h0
                  exact h0
                have hCi : f'.input = f.input := by
                  rw [hCi0, hvI]
                refine ⟨w ++ v ++ C',
                  fun _ => ArrFirst.elem w v C' hw hV hTail,
                  fun hcc => Bool.noConfusion hcc, ?_, ?_, hCi⟩
                · have hglue := drop_glue2 (drop_glue2 hwD hvD) hCd
                  exact drop_decomp_len hglue (by
                    simp only [List.length_append]
                    omega)
                · rw [hCp]
                  simp only [List.length_append]
                  omega
  | false =>
      simp only [arrLoop] at h
      rw [hsw] at h
      by_cases hpk : peekByte ({ f with pos := f.pos + w.length } : Fmt) = some 93
      · rw [if_pos hpk] at h
        simp only [Option.some.injEq, Except.ok.injEq, Prod.mk.injEq] at h
        obtain ⟨hf', -⟩ := h
        have hd93 : f.input.drop (f.pos + w.length) =
            93 :: f.input.drop (f.pos + w.length + 1) := drop_of_peek hpk
        have hd93' : f.input.drop (f.pos + w.length) =
            [93] ++ f.input.drop (f.pos + w.length + ([93] : List Nat).length) := hd93
        refine ⟨w ++ [93], fun hcc => Bool.noConfusion hcc,
          fun _ => SpecElemsTail.close w hw, ?_, ?_, ?_⟩
        · exact drop_glue hwD hd93'
        · have hp' : f'.pos = f.pos + w.length + 1 := by rw [← hf']; rfl
          rw [hp']
          simp only [List.length_append, List.length_cons, List.length_nil]
          omega
        · rw [← hf']
          rfl
      · rw [if_neg hpk] at h
        rw [if_neg Bool.false_ne_true] at h
        cases h44 : expectByte ({ f with pos := f.pos + w.length } : Fmt) 44 with
        | error e2 => rw [h44] at h; simp at h
        | ok fc =>
            rw [h44] at h
            simp only at h
            obtain ⟨hfc, hget44⟩ := expectByte_ok_inv h44
            have hfcp : fc.pos = f.pos + w.length + 1 := by rw [hfc]
            have hfci : fc.input = f.input := by rw [hfc]
            have hd44 : f.input.drop (f.pos + w.length) =
                44 :: f.input.drop (f.pos + w.length + 1) := by
              have hpk44 : peekByte ({ f with pos := f.pos + w.length } : Fmt) =
                  some 44 := hget44
              exact drop_of_peek hpk44
            obtain ⟨w1, hw1, hwD1a, hsw1⟩ := skipWhitespace_split fc
            have hwD1 : f.input.drop (f.pos + w.length + 1) =
                w1 ++ f.input.drop (f.pos + w.length + 1 + w1.length) := by
              have h0 := hwD1a
              rw [hfci, hfcp] at h0
              exact h0
            rw [hsw1] at h
            cases hpv : parseValue fuel ({ fc with pos := fc.pos + w1.length } : Fmt)
              with
            | none => rw [hpv] at h; simp at h
            | some r =>
                cases r with
                | error e2 => rw [hpv] at h; simp at h
                | ok p2 =>
                    obtain ⟨fF, dV⟩ := p2
                    rw [hpv] at h
                    simp only at h
                    have hbyc : ∀ x ∈
                        ({ fc with pos := fc.pos + w1.length } : Fmt).input, x < 256 := by
                      have h0 : ∀ x ∈ fc.input, x < 256 := by
                        rw [hfci]
                        exact hby
                      exact h0
                    obtain ⟨v, hV, hvD0, hvP0, hvI0⟩ := hSV _ fF dV hpv hbyc
                    have hvD : f.input.drop (f.pos + w.length + 1 + w1.length) =
                        v ++ f.input.drop (f.pos + w.length + 1 + w1.length +
                          v.length) := by
                      have h0 : fc.input.drop (fc.pos + w1.length) =
                          v ++ fc.input.drop (fc.pos + w1.length + v.length) := hvD0
                      rw [hfci, hfcp] at h0
                      exact h0
                    have hvP : fF.pos = f.pos + w.length + 1 + w1.length + v.length := by
                      have h0 : fF.pos = fc.pos + w1.length + v.length := hvP0
                      rw [hfcp] at h0
                      exact h0
                    have hvI : fF.input = f.input := by
                      have h0 : fF.input = fc.input := hvI0
                      rw [hfci] at h0
                      exact h0
                    have hbyF : ∀ x ∈ fF.input, x < 256 := by
                      rw [hvI]
                      exact hby
                    obtain ⟨C', -, hCt, hCd0, hCp0, hCi0⟩ := hAL fF _ false f' d h hbyF
                    have hTail : SpecElemsTail C' := hCt rfl
                    have hCd : f.input.drop (f.pos + w.length + 1 + w1.length +
                        v.length) = C' ++ f.input.drop (f.pos + w.length + 1 +
                          w1.length + v.length + C'.length) := by
                      have h0 := hCd0
                      rw [hvI, hvP] at h0
                      exact h0
                    have hCp : f'.pos = f.pos + w.length + 1 + w1.length + v.length +
                        C'.length := by
                      have h0 := hCp0
                      rw [hvP] at h0
                      exact h0
                    have hCi : f'.input = f.input := by
                      rw [hCi0, hvI]
                    refine ⟨w ++ 44 :: (w1 ++ v ++ C'),
                      fun hcc => Bool.noConfusion hcc,
                      fun _ => SpecElemsTail.more w w1 v C' hw hw1 hV hTail, ?_, ?_,
                      hCi⟩
                    · have hglue := drop_glue2 hwD (drop_glue2_cons hd44
                        (drop_glue2 (drop_glue2 hwD1 hvD) hCd))
                      exact drop_decomp_len hglue (by
                        simp only [List.length_append, List.length_cons]
                        omega)
                    · rw [hCp]
                      simp only [List.length_append, List.length_cons]
                      omega

theorem soundInv : ∀ fuel : Nat,
    (∀ f : Fmt, SVs fuel f) ∧ (∀ f : Fmt, SOs fuel f) ∧
    (∀ (f : Fmt) (acc : List Nat) (first : Bool), OLs fuel f acc first) ∧
    (∀ f : Fmt, SAs fuel f) ∧
    (∀ (f : Fmt) (acc : List Nat) (first : Bool), ALs fuel f acc first) := by
  intro fuel
  induction fuel with
  | zero =>
      exact ⟨svs_zero, sos_zero, ols_zero, sas_zero, als_zero⟩
  | succ n ih =>
      obtain ⟨iV, iO, iOL, iA, iAL⟩ := ih
      exact ⟨svs_succ n iO iA, sos_succ n iOL, ols_succ n iV iOL,
        sas_succ n iAL, als_succ n iV iAL⟩

/-- `skip_start_bom` either leaves the state alone or, when the input
starts with the UTF-8 byte-order mark, skips exactly its three bytes. -/
theorem skipStartBom_cases (f : Fmt) :
    skipStartBom f = f ∨
    (∃ tl, f.input = 239 :: 187 :: 191 :: tl ∧ skipStartBom f = { f with pos := 3 }) := by
  unfold skipStartBom
  split
  · rename_i rest heq
    exact Or.inr ⟨rest, heq, rfl⟩
  · exact Or.inl rfl

/-- The whitespace-value-whitespace decomposition of the input suffix
behind a successful `format` run, from the position after the optional
BOM. -/
theorem sound_tail {fuel : Nat} {input : List Nat} {p0 lvl : Nat} {color : Color}
    {f2 : Fmt} {d : List Nat}
    (hby : ∀ b ∈ input, b < 256)
    (hpv : parseValue fuel (skipWhitespace
      ({ input := input, pos := p0, level := lvl, color := color } : Fmt)) =
        some (.ok (f2, d)))
    (hpk : peekByte (skipWhitespace f2) = none) :
    ∃ w1 v w2, input.drop p0 = w1 ++ (v ++ w2) ∧ isWsL w1 ∧ SpecValue v ∧ isWsL w2 := by
  obtain ⟨w1, hw1, hwD0, hsw0⟩ := skipWhitespace_split
    ({ input := input, pos := p0, level := lvl, color := color } : Fmt)
  have hwD : input.drop p0 = w1 ++ input.drop (p0 + w1.length) := hwD0
  have hsw : skipWhitespace
      ({ input := input, pos := p0, level := lvl, color := color } : Fmt) =
      { input := input, pos := p0 + w1.length, level := lvl, color := color } := hsw0
  rw [hsw] at hpv
  obtain ⟨v, hV, hvD0, hvP0, hvI0⟩ := (soundInv fuel).1 _ f2 d hpv hby
  have hvD : input.drop (p0 + w1.length) =
      v ++ input.drop (p0 + w1.length + v.length) := hvD0
  have hvP : f2.pos = p0 + w1.length + v.length := hvP0
  have hvI : f2.input = input := hvI0
  obtain ⟨w2, hw2, hwD2a, hsw2⟩ := skipWhitespace_split f2
  have hwD2 : input.drop (p0 + w1.length + v.length) =
      w2 ++ input.drop (p0 + w1.length + v.length + w2.length) := by
    have h0 := hwD2a
    rw [hvI, hvP] at h0
    exact h0
  rw [hsw2] at hpk
  have hend : input.length ≤ p0 + w1.length + v.length + w2.length := by
    have h0 : f2.input.get? (f2.pos + w2.length) = none := hpk
    rw [hvI, hvP] at h0
    exact List.get?_eq_none.mp h0
  have hnil : input.drop (p0 + w1.length + v.length + w2.length) = [] :=
    List.drop_eq_nil_of_le hend
  refine ⟨w1, v, w2, ?_, hw1, hV, hw2⟩
  rw [hwD, hvD, hwD2, hnil, List.append_nil]

/-- Soundness of acceptance: a byte buffer that `format` accepts is an
optional BOM, optional whitespace, exactly one spec-grammar JSON value,
and optional trailing whitespace — nothing else. -/
theorem formatBytes_sound {fuel : Nat} {input : List Nat} {color : Color} {d : List Nat}
    (hby : ∀ b ∈ input, b < 256)
    (h : formatBytes fuel input color = some (.ok d)) :
    ∃ bom w1 v w2, input = bom ++ (w1 ++ (v ++ w2)) ∧
      (bom = [] ∨ bom = [239, 187, 191]) ∧ isWsL w1 ∧ SpecValue v ∧ isWsL w2 := by
  have h' : format fuel
      ({ input := input, pos := 0, level := 0, color := color } : Fmt) =
      some (.ok d) := h
  obtain ⟨f2, hpv, hpk⟩ := ((format_run_cases fuel _).1 d).mp h'
  rcases skipStartBom_cases
      ({ input := input, pos := 0, level := 0, color := color } : Fmt) with
    hB | ⟨tl, htl, hB⟩
  · rw [hB] at hpv
    obtain ⟨w1, v, w2, hdec, hw1, hV, hw2⟩ := sound_tail hby hpv hpk
    refine ⟨[], w1, v, w2, ?_, Or.inl rfl, hw1, hV, hw2⟩
    have hdec' : input = w1 ++ (v ++ w2) := hdec
    exact hdec'
  · rw [hB] at hpv
    have hpv' : parseValue fuel (skipWhitespace
        ({ input := input, pos := 3, level := 0, color := color } : Fmt)) =
        some (.ok (f2, d)) := hpv
    obtain ⟨w1, v, w2, hdec, hw1, hV, hw2⟩ := sound_tail hby hpv' hpk
    refine ⟨[239, 187, 191], w1, v, w2, ?_, Or.inr rfl, hw1, hV, hw2⟩
    have htl' : input = 239 :: 187 :: 191 :: tl := htl
    have hd3 : input.drop 3 = tl := by rw [htl']; rfl
    rw [hd3] at hdec
    rw [htl', hdec]
    rfl

/-! Depth-qualified completeness: a spec-grammar value whose non-empty
containers nest within the indent cap is accepted, with the cursor
advancing over exactly the value's bytes. -/

theorem wsByte_stop {y : Nat} (h : isWsByte y = true) :
    isDigit y = false ∧ ¬y = 46 ∧ ¬y = 101 ∧ ¬y = 69 := by
  simp only [isWsByte, Bool.or_eq_true, decide_eq_true_eq] at h
  rcases h with ((rfl | rfl) | rfl) | rfl <;>
    exact ⟨by decide, by decide, by decide, by decide⟩

theorem wsRunLen_all {w : List Nat} (hw : isWsL w) : wsRunLen w = w.length := by
  induction w with
  | nil => rfl
  | cons b t ih =>
      have hb : isWsByte b = true := hw b (by simp)
      rw [wsRunLen, if_pos hb, ih (fun x hx => hw x (by simp [hx]))]
      rfl

theorem skipWhitespace_all {g : Fmt} {w : List Nat} (hd : g.input.drop g.pos = w)
    (hw : isWsL w) : skipWhitespace g = { g with pos := g.pos + w.length } := by
  unfold skipWhitespace skipWsPos
  rw [hd, wsRunLen_all hw]

theorem specNumber_head {s : List Nat} (h : SpecNumber s) :
    ∃ b, s.head? = some b ∧ (b = 45 ∨ (48 ≤ b ∧ b ≤ 57)) := by
  obtain ⟨sign, intp, frac, expp, rfl, hsg, hint, -, -⟩ := h
  rcases hsg with rfl | rfl
  · rcases hint with h48 | ⟨d, ds, hd1, hd2, -, rfl⟩
    · subst h48
      exact ⟨48, rfl, Or.inr (by omega)⟩
    · exact ⟨d, rfl, Or.inr (by omega)⟩
  · exact ⟨45, rfl, Or.inl rfl⟩

theorem specLeaf_head {v : List Nat} (h : SpecLeaf v) :
    ∃ b, v.head? = some b ∧ ValueHead b := by
  rcases h with rfl | rfl | rfl | hn | ⟨l, -, rfl⟩ | ⟨w, -, rfl⟩ | ⟨w, -, rfl⟩
  · exact ⟨110, rfl, by unfold ValueHead; omega⟩
  · exact ⟨116, rfl, by unfold ValueHead; omega⟩
  · exact ⟨102, rfl, by unfold ValueHead; omega⟩
  · obtain ⟨b, hb, hcase⟩ := specNumber_head hn
    exact ⟨b, hb, by unfold ValueHead; omega⟩
  · exact ⟨34, rfl, by unfold ValueHead; omega⟩
  · exact ⟨123, rfl, by unfold ValueHead; omega⟩
  · exact ⟨91, rfl, by unfold ValueHead; omega⟩

theorem specValueD_head : ∀ {n : Nat} {v : List Nat}, SpecValueD n v →
    ∃ b, v.head? = some b ∧ ValueHead b := by
  intro n v h
  cases n with
  | zero => exact specLeaf_head h
  | succ m =>
      simp only [SpecValueD] at h
      rcases h with hleaf | ⟨mm, -, rfl⟩ | ⟨e, -, rfl⟩
      · exact specLeaf_head hleaf
      · exact ⟨123, rfl, by unfold ValueHead; omega⟩
      · exact ⟨91, rfl, by unfold ValueHead; omega⟩

theorem refUtf8_head {bs : List Nat} (h2 : 2 ≤ bs.length)
    (href : refUtf8Accept bs = true) : ∃ b, bs.head? = some b ∧ 192 ≤ b := by
  rcases bs with _ | ⟨b1, _ | ⟨b2, _ | ⟨b3, _ | ⟨b4, _ | ⟨b5, tl⟩⟩⟩⟩⟩
  · simp at h2
  · simp at h2
  · simp only [refUtf8Accept, decide_eq_true_eq] at href
    exact ⟨b1, rfl, by omega⟩
  · simp only [refUtf8Accept, decide_eq_true_eq] at href
    exact ⟨b1, rfl, by omega⟩
  · simp only [refUtf8Accept, decide_eq_true_eq] at href
    exact ⟨b1, rfl, by omega⟩
  · simp [refUtf8Accept] at href

/-- A sequence the reference UTF-8 validator accepts is consumed whole by
`next_utf8_char` at any cursor. -/
theorem refUtf8_run : ∀ {bs : List Nat}, refUtf8Accept bs = true →
    ∀ {g : Fmt} {grest : List Nat}, g.input.drop g.pos = bs ++ grest →
    nextUtf8Char g = .ok { g with pos := g.pos + bs.length } := by
  intro bs href g grest hd
  rcases bs with _ | ⟨b1, _ | ⟨b2, _ | ⟨b3, _ | ⟨b4, _ | ⟨b5, tl⟩⟩⟩⟩⟩
  · simp [refUtf8Accept] at href
  · simp only [refUtf8Accept, decide_eq_true_eq] at href
    have hd' : g.input.drop g.pos = b1 :: grest := hd
    unfold nextUtf8Char
    rw [nextByte_of_drop hd']
    simp only
    rw [if_pos href]
    rfl
  · simp only [refUtf8Accept, decide_eq_true_eq] at href
    obtain ⟨h1a, h1b, h2a, h2b, hcp⟩ := href
    have hd' : g.input.drop g.pos = b1 :: (b2 :: grest) := hd
    have hd2 : g.input.drop (g.pos + 1) = b2 :: grest := drop_cons_succ hd'
    have hd2' : ({ g with pos := g.pos + 1 } : Fmt).input.drop
        ({ g with pos := g.pos + 1 } : Fmt).pos = b2 :: grest := hd2
    have hcont : contB b2 = true := (contB_iff b2 (by omega)).mpr ⟨h2a, h2b⟩
    have hcond : (decide (194 ≤ b1 ∧ b1 ≤ 223) && contB b2) = true := by
      rw [hcont, Bool.and_true]
      simp only [decide_eq_true_eq]
      omega
    unfold nextUtf8Char
    rw [nextByte_of_drop hd']
    simp only
    rw [if_neg (by omega : ¬b1 < 128)]
    rw [nextByte_of_drop hd2']
    simp only
    rw [if_pos (by omega : b1 < 224), if_pos hcond]
    rfl
  · simp only [refUtf8Accept, decide_eq_true_eq] at href
    obtain ⟨h1a, h1b, h2a, h2b, h3a, h3b, hcp, hns⟩ := href
    have hd' : g.input.drop g.pos = b1 :: (b2 :: (b3 :: grest)) := hd
    have hd2 : g.input.drop (g.pos + 1) = b2 :: (b3 :: grest) := drop_cons_succ hd'
    have hd2' : ({ g with pos := g.pos + 1 } : Fmt).input.drop
        ({ g with pos := g.pos + 1 } : Fmt).pos = b2 :: (b3 :: grest) := hd2
    have hd3 : g.input.drop (g.pos + 1 + 1) = b3 :: grest := drop_cons_succ hd2
    have hd3' : ({ g with pos := g.pos + 1 + 1 } : Fmt).input.drop
        ({ g with pos := g.pos + 1 + 1 } : Fmt).pos = b3 :: grest := hd3
    have hc2 : contB b2 = true := (contB_iff b2 (by omega)).mpr ⟨h2a, h2b⟩
    have hc3 : contB b3 = true := (contB_iff b3 (by omega)).mpr ⟨h3a, h3b⟩
    have hok : utf3Ok b1 b2 b3 = true := by
      unfold utf3Ok
      by_cases h224 : b1 = 224
      · subst h224
        rw [if_pos rfl, hc3, Bool.and_true]
        simp only [decide_eq_true_eq]
        omega
      · rw [if_neg h224]
        by_cases h237 : b1 = 237
        · subst h237
          rw [if_pos rfl, hc3, Bool.and_true]
          simp only [decide_eq_true_eq]
          omega
        · rw [if_neg h237,
            if_pos (by omega : (225 ≤ b1 ∧ b1 ≤ 236) ∨ (238 ≤ b1 ∧ b1 ≤ 239)),
            hc2, hc3]
          rfl
    unfold nextUtf8Char
    rw [nextByte_of_drop hd']
    simp only
    rw [if_neg (by omega : ¬b1 < 128)]
    rw [nextByte_of_drop hd2']
    simp only
    rw [if_neg (by omega : ¬b1 < 224)]
    rw [nextByte_of_drop hd3']
    simp only
    rw [if_pos (by omega : b1 < 240), if_pos hok]
    rfl
  · simp only [refUtf8Accept, decide_eq_true_eq] at href
    obtain ⟨h1a, h1b, h2a, h2b, h3a, h3b, h4a, h4b, hcp1, hcp2⟩ := href
    have hd' : g.input.drop g.pos = b1 :: (b2 :: (b3 :: (b4 :: grest))) := hd
    have hd2 : g.input.drop (g.pos + 1) = b2 :: (b3 :: (b4 :: grest)) :=
      drop_cons_succ hd'
    have hd2' : ({ g with pos := g.pos + 1 } : Fmt).input.drop
        ({ g with pos := g.pos + 1 } : Fmt).pos = b2 :: (b3 :: (b4 :: grest)) := hd2
    have hd3 : g.input.drop (g.pos + 1 + 1) = b3 :: (b4 :: grest) := drop_cons_succ hd2
    have hd3' : ({ g with pos := g.pos + 1 + 1 } : Fmt).input.drop
        ({ g with pos := g.pos + 1 + 1 } : Fmt).pos = b3 :: (b4 :: grest) := hd3
    have hd4 : g.input.drop (g.pos + 1 + 1 + 1) = b4 :: grest := drop_cons_succ hd3
    have hd4' : ({ g with pos := g.pos + 1 + 1 + 1 } : Fmt).input.drop
        ({ g with pos := g.pos + 1 + 1 + 1 } : Fmt).pos = b4 :: grest := hd4
    have hc2 : contB b2 = true := (contB_iff b2 (by omega)).mpr ⟨h2a, h2b⟩
    have hc3 : contB b3 = true := (contB_iff b3 (by omega)).mpr ⟨h3a, h3b⟩
    have hc4 : contB b4 = true := (contB_iff b4 (by omega)).mpr ⟨h4a, h4b⟩
    have hok : utf4Ok b1 b2 b3 b4 = true := by
      unfold utf4Ok
      by_cases h240 : b1 = 240
      · subst h240
        rw [if_pos rfl, hc3, hc4, Bool.and_true, Bool.and_true]
        simp only [decide_eq_true_eq]
        omega
      · by_cases h244 : b1 = 244
        · subst h244
          rw [if_neg (by decide), if_pos rfl, hc3, hc4, Bool.and_true, Bool.and_true]
          simp only [decide_eq_true_eq]
          omega
        · by_cases h241 : 241 ≤ b1 ∧ b1 ≤ 243
          · rw [if_neg h240, if_neg h244, if_pos h241, hc2, hc3, hc4]
            rfl
          · exfalso
            omega
    unfold nextUtf8Char
    rw [nextByte_of_drop hd']
    simp only
    rw [if_neg (by omega : ¬b1 < 128)]
    rw [nextByte_of_drop hd2']
    simp only
    rw [if_neg (by omega : ¬b1 < 224)]
    rw [nextByte_of_drop hd3']
    simp only
    rw [if_neg (by omega : ¬b1 < 240)]
    rw [nextByte_of_drop hd4']
    simp only
    rw [if_pos hok]
    rfl
  · simp [refUtf8Accept] at href

/-- Rewriting the cursor position inside a successful result. -/
theorem ok_shift {g : Fmt} {p q : Nat} {emit : List Nat} (hpq : p = q) :
    (Except.ok ({ g with pos := p }, emit) : Except FormatError (Fmt × List Nat)) =
      .ok ({ g with pos := q }, emit) := by
  rw [hpq]

/-- The scan loop accepts any spec string body followed by the closing
quote, at any cursor, start offset, and mode. -/
theorem specBody_run : ∀ {l : List Nat}, SpecStrBody l →
    ∀ (g : Fmt) (rest : List Nat) (start : Nat) (mode : StrMode),
    g.input.drop g.pos = (l ++ [34]) ++ rest →
    ∃ emit, parseStringLoop start mode g =
      .ok ({ g with pos := g.pos + (l ++ [34]).length }, emit) := by
  intro l hl
  induction hl with
  | nil =>
      intro g rest start mode hd
      have hd' : g.input.drop g.pos = 34 :: rest := hd
      exact ⟨_, parseStringLoop_close hd'⟩
  | cons c r hc hr ih =>
      intro g rest start mode hd
      cases hc with
      | plain b h32 h34 h92 h128 =>
          have hd' : g.input.drop g.pos = b :: ((r ++ [34]) ++ rest) := hd
          have hplain : plainB b = true := by
            simp only [plainB, decide_eq_true_eq]
            exact ⟨h32, h128, h34, h92⟩
          have hd2 : g.input.drop (g.pos + 1) = (r ++ [34]) ++ rest :=
            drop_cons_succ hd'
          obtain ⟨emit, hrun⟩ := ih ({ g with pos := g.pos + 1 } : Fmt) rest start mode
            hd2
          have hrun' : parseStringLoop start mode ({ g with pos := g.pos + 1 } : Fmt) =
              .ok ({ g with pos := g.pos + 1 + (r ++ [34]).length }, emit) := hrun
          refine ⟨emit, ?_⟩
          rw [parseStringLoop_plain_step hd' hplain, hrun']
          exact ok_shift (by
            simp only [List.cons_append, List.length_cons, List.length_append,
              List.length_nil]
            omega)
      | esc e he =>
          have hd' : g.input.drop g.pos = 92 :: e :: ((r ++ [34]) ++ rest) := hd
          have hd2 : g.input.drop (g.pos + 1) = e :: ((r ++ [34]) ++ rest) :=
            drop_cons_succ hd'
          have hd3 : g.input.drop (g.pos + 2) = (r ++ [34]) ++ rest := by
            have h0 := drop_cons_succ hd2
            rw [show g.pos + 1 + 1 = g.pos + 2 from by omega] at h0
            exact h0
          obtain ⟨emit, hrun⟩ := ih ({ g with pos := g.pos + 2 } : Fmt) rest start mode
            hd3
          have hrun' : parseStringLoop start mode ({ g with pos := g.pos + 2 } : Fmt) =
              .ok ({ g with pos := g.pos + 2 + (r ++ [34]).length }, emit) := hrun
          refine ⟨emit, ?_⟩
          rw [parseStringLoop_simpleEscape hd' he, hrun']
          exact ok_shift (by
            simp only [List.cons_append, List.length_cons, List.length_append,
              List.length_nil]
            omega)
      | uesc h1 h2 h3 h4 hx1 hx2 hx3 hx4 =>
          have hd' : g.input.drop g.pos =
              92 :: 117 :: h1 :: h2 :: h3 :: h4 :: ((r ++ [34]) ++ rest) := hd
          have hd6 : g.input.drop (g.pos + 6) = (r ++ [34]) ++ rest := by
            have e1 := drop_cons_succ hd'
            have e2 := drop_cons_succ e1
            have e3 := drop_cons_succ e2
            have e4 := drop_cons_succ e3
            have e5 := drop_cons_succ e4
            have e6 := drop_cons_succ e5
            rw [show g.pos + 1 + 1 + 1 + 1 + 1 + 1 = g.pos + 6 from by omega] at e6
            exact e6
          obtain ⟨emit, hrun⟩ := ih ({ g with pos := g.pos + 6 } : Fmt) rest start mode
            hd6
          have hrun' : parseStringLoop start mode ({ g with pos := g.pos + 6 } : Fmt) =
              .ok ({ g with pos := g.pos + 6 + (r ++ [34]).length }, emit) := hrun
          refine ⟨emit, ?_⟩
          rw [parseStringLoop_uEscape hd' hx1 hx2 hx3 hx4, hrun']
          exact ok_shift (by
            simp only [List.cons_append, List.length_cons, List.length_append,
              List.length_nil]
            omega)
      | utf8 c hlen href =>
          have hd'' : g.input.drop g.pos = c ++ ((r ++ [34]) ++ rest) := by
            simpa [List.append_assoc] using hd
          have hrunU : nextUtf8Char g = .ok { g with pos := g.pos + c.length } :=
            refUtf8_run href hd''
          obtain ⟨b, hb, hb192⟩ := refUtf8_head hlen href
          have hpk : peekByte g = some b := by
            rw [peekByte_eq_head, hd'']
            exact head?_append_some hb
          have hdA : g.input.drop (g.pos + c.length) = (r ++ [34]) ++ rest :=
            drop_after hd''
          obtain ⟨emit, hrun⟩ := ih ({ g with pos := g.pos + c.length } : Fmt) rest
            start mode hdA
          have hrun' : parseStringLoop start mode
              ({ g with pos := g.pos + c.length } : Fmt) =
              .ok ({ g with pos := g.pos + c.length + (r ++ [34]).length }, emit) :=
            hrun
          refine ⟨emit, ?_⟩
          rw [parseStringLoop_utf8_step start mode hpk (by omega) (by omega) (by omega)
            hrunU, hrun']
          exact ok_shift (by
            simp only [List.length_append, List.length_cons]
            omega)

/-- The full string parser accepts a quoted spec string body at any
cursor and mode. -/
theorem specStr_run {l : List Nat} (hl : SpecStrBody l) (g : Fmt) (rest : List Nat)
    (mode : StrMode) (hd : g.input.drop g.pos = (34 :: (l ++ [34])) ++ rest) :
    ∃ emit, parseString g mode =
      .ok ({ g with pos := g.pos + (34 :: (l ++ [34])).length }, emit) := by
  have hd' : g.input.drop g.pos = 34 :: ((l ++ [34]) ++ rest) := hd
  have hpk : peekByte g = some 34 := peekByte_of_drop hd'
  have hd2 : g.input.drop (g.pos + 1) = (l ++ [34]) ++ rest := drop_cons_succ hd'
  obtain ⟨emit, hrun⟩ := specBody_run hl ({ g with pos := g.pos + 1 } : Fmt) rest
    g.pos mode hd2
  have hrun' : parseStringLoop g.pos mode ({ g with pos := g.pos + 1 } : Fmt) =
      .ok ({ g with pos := g.pos + 1 + (l ++ [34]).length }, emit) := hrun
  refine ⟨emit, ?_⟩
  rw [parseString_eq hpk, hrun']
  exact ok_shift (by
    simp only [List.length_cons]
    omega)

/-- The value dispatcher accepts every depth-zero spec value, consuming
exactly its bytes, in any color mode. -/
theorem specLeaf_run {v : List Nat} (h : SpecLeaf v) :
    ∀ (g : Fmt) (rest : List Nat), g.input.drop g.pos = v ++ rest → NumFollow rest →
    ∃ fuel emit, parseValue fuel g =
      some (.ok ({ g with pos := g.pos + v.length }, emit)) := by
  intro g rest hd hnf
  rcases h with rfl | rfl | rfl | hn | ⟨l, hl, rfl⟩ | ⟨w, hw, rfl⟩ | ⟨w, hw, rfl⟩
  · have hd' : g.input.drop g.pos = 110 :: ([117, 108, 108] ++ rest) := hd
    have hpk : peekByte g = some 110 := peekByte_of_drop hd'
    refine ⟨1 + 1, writeNull ({ g with pos :=
      g.pos + ([110, 117, 108, 108] : List Nat).length } : Fmt), ?_⟩
    rw [parseValue_at_null hpk]
    simp only [parseNull]
    rw [expectBytes_run [110, 117, 108, 108] g rest hd]
  · have hd' : g.input.drop g.pos = 116 :: ([114, 117, 101] ++ rest) := hd
    have hpk : peekByte g = some 116 := peekByte_of_drop hd'
    refine ⟨1 + 1, writeTrue ({ g with pos :=
      g.pos + ([116, 114, 117, 101] : List Nat).length } : Fmt), ?_⟩
    rw [parseValue_at_true hpk]
    simp only [parseTrue]
    rw [expectBytes_run [116, 114, 117, 101] g rest hd]
  · have hd' : g.input.drop g.pos = 102 :: ([97, 108, 115, 101] ++ rest) := hd
    have hpk : peekByte g = some 102 := peekByte_of_drop hd'
    refine ⟨1 + 1, writeFalse ({ g with pos :=
      g.pos + ([102, 97, 108, 115, 101] : List Nat).length } : Fmt), ?_⟩
    rw [parseValue_at_false hpk]
    simp only [parseFalse]
    rw [expectBytes_run [102, 97, 108, 115, 101] g rest hd]
  · obtain ⟨b, hb, hcase⟩ := specNumber_head hn
    obtain ⟨sign, intp, frac, expp, hveq, hsg, hiS, hfS, heS⟩ := hn
    subst hveq
    have hpk : peekByte g = some b := by
      rw [peekByte_eq_head, hd]
      exact head?_append_some hb
    have hrun := parseNumber_run (f := g) hd hsg hiS hfS heS hnf
    exact ⟨1 + 1, writeNumber g (sign ++ intp ++ frac ++ expp),
      by rw [parseValue_at_number hpk hcase, hrun]⟩
  · obtain ⟨emit, hrun⟩ := specStr_run hl g rest .val hd
    have hpk : peekByte g = some 34 := by
      have hd' : g.input.drop g.pos = 34 :: ((l ++ [34]) ++ rest) := hd
      exact peekByte_of_drop hd'
    exact ⟨1 + 1, emit, by rw [parseValue_at_string hpk, hrun]⟩
  · have hd' : g.input.drop g.pos = 123 :: ((w ++ [125]) ++ rest) := hd
    have hpk : peekByte g = some 123 := peekByte_of_drop hd'
    have h123 : expectByte g 123 = .ok ({ g with pos := g.pos + 1 } : Fmt) :=
      expectByte_ok_of_peek hpk
    have hd2 : g.input.drop (g.pos + 1) = w ++ 125 :: rest := by
      have h0 := drop_cons_succ hd'
      simpa [List.append_assoc] using h0
    have hsw : skipWhitespace ({ g with pos := g.pos + 1 } : Fmt) =
        { g with pos := g.pos + 1 + w.length } :=
      skipWhitespace_run (f := ({ g with pos := g.pos + 1 } : Fmt)) hd2 hw (by decide)
    have hdw : g.input.drop (g.pos + 1 + w.length) = 125 :: rest :=
      drop_after (show g.input.drop (g.pos + 1) = w ++ (125 :: rest) from hd2)
    have hpkc : peekByte (skipWhitespace ({ g with pos := g.pos + 1 } : Fmt)) =
        some 125 := by
      rw [hsw]
      exact peekByte_of_drop (f := ({ g with pos := g.pos + 1 + w.length } : Fmt)) hdw
    refine ⟨0 + 1 + 1, writeEmptyObj ({ g with pos := g.pos + 1 + w.length } : Fmt), ?_⟩
    rw [parseValue_at_object hpk]
    rw [parseObject_empty_run h123 hpkc]
    rw [hsw]
    exact congrArg some (ok_shift (by
      simp only [List.length_cons, List.length_append, List.length_nil]
      omega))
  · have hd' : g.input.drop g.pos = 91 :: ((w ++ [93]) ++ rest) := hd
    have hpk : peekByte g = some 91 := peekByte_of_drop hd'
    have h91 : expectByte g 91 = .ok ({ g with pos := g.pos + 1 } : Fmt) :=
      expectByte_ok_of_peek hpk
    have hd2 : g.input.drop (g.pos + 1) = w ++ 93 :: rest := by
      have h0 := drop_cons_succ hd'
      simpa [List.append_assoc] using h0
    have hsw : skipWhitespace ({ g with pos := g.pos + 1 } : Fmt) =
        { g with pos := g.pos + 1 + w.length } :=
      skipWhitespace_run (f := ({ g with pos := g.pos + 1 } : Fmt)) hd2 hw (by decide)
    have hdw : g.input.drop (g.pos + 1 + w.length) = 93 :: rest :=
      drop_after (show g.input.drop (g.pos + 1) = w ++ (93 :: rest) from hd2)
    have hpkc : peekByte (skipWhitespace ({ g with pos := g.pos + 1 } : Fmt)) =
        some 93 := by
      rw [hsw]
      exact peekByte_of_drop (f := ({ g with pos := g.pos + 1 + w.length } : Fmt)) hdw
    refine ⟨0 + 1 + 1, writeEmptyArr ({ g with pos := g.pos + 1 + w.length } : Fmt), ?_⟩
    rw [parseValue_at_array hpk]
    rw [parseArray_empty_run h91 hpkc]
    rw [hsw]
    exact congrArg some (ok_shift (by
      simp only [List.length_cons, List.length_append, List.length_nil]
      omega))

/-- A whitespace run followed by a non-number byte cannot extend a number
token. -/
theorem wsSep_stop {w4 : List Nat} {cb : Nat} {t2 : List Nat} (hw4 : isWsL w4)
    (hcb : isDigit cb = false ∧ ¬cb = 46 ∧ ¬cb = 101 ∧ ¬cb = 69) :
    ∀ {rest : List Nat} (y : Nat), ((w4 ++ cb :: t2) ++ rest).head? = some y →
      isDigit y = false ∧ ¬y = 46 ∧ ¬y = 101 ∧ ¬y = 69 := by
  intro rest y hy
  cases w4 with
  | nil =>
      simp only [List.nil_append, List.cons_append, List.head?_cons,
        Option.some.injEq] at hy
      subst hy
      exact hcb
  | cons b t =>
      simp only [List.cons_append, List.head?_cons, Option.some.injEq] at hy
      subst hy
      exact wsByte_stop (hw4 b (by simp))

/-- Rewriting the cursor position inside a successful result that also
drops the level. -/
theorem okl_shift {g : Fmt} {p q L : Nat} {emit : List Nat} (hpq : p = q) :
    (Except.ok ({ g with pos := p, level := L }, emit) :
      Except FormatError (Fmt × List Nat)) =
      .ok ({ g with pos := q, level := L }, emit) := by
  rw [hpq]

/-- The member loop closes over trailing whitespace and the closing
brace, dropping one indent level. -/
theorem objClose_run {w4 : List Nat} (hw4 : isWsL w4) (g2 : Fmt)
    (rest acc2 : List Nat) (first : Bool)
    (hd : g2.input.drop g2.pos = (w4 ++ [125]) ++ rest) :
    ∃ emit, objLoop (0 + 1) g2 acc2 first = some (.ok ({ g2 with
      pos := g2.pos + (w4 ++ [125]).length, level := g2.level - 1 }, emit)) := by
  have hd' : g2.input.drop g2.pos = w4 ++ 125 :: rest := by
    rw [hd]
    simp [List.append_assoc]
  have hsw : skipWhitespace g2 = { g2 with pos := g2.pos + w4.length } :=
    skipWhitespace_run hd' hw4 (by decide)
  have hdw : g2.input.drop (g2.pos + w4.length) = 125 :: rest :=
    drop_after (show g2.input.drop g2.pos = w4 ++ (125 :: rest) from hd')
  have hpk : peekByte (skipWhitespace g2) = some 125 := by
    rw [hsw]
    exact peekByte_of_drop (f := ({ g2 with pos := g2.pos + w4.length } : Fmt)) hdw
  have hrun := @objLoop_close_run 0 g2 acc2 first hpk
  rw [hsw] at hrun
  exact ⟨_, hrun.trans (congrArg some (okl_shift (by
    simp only [List.length_append, List.length_cons, List.length_nil]
    omega)))⟩

/-- The element loop closes over trailing whitespace and the closing
bracket, dropping one indent level. -/
theorem arrClose_run {w4 : List Nat} (hw4 : isWsL w4) (g2 : Fmt)
    (rest acc2 : List Nat) (first : Bool)
    (hd : g2.input.drop g2.pos = (w4 ++ [93]) ++ rest) :
    ∃ emit, arrLoop (0 + 1) g2 acc2 first = some (.ok ({ g2 with
      pos := g2.pos + (w4 ++ [93]).length, level := g2.level - 1 }, emit)) := by
  have hd' : g2.input.drop g2.pos = w4 ++ 93 :: rest := by
    rw [hd]
    simp [List.append_assoc]
  have hsw : skipWhitespace g2 = { g2 with pos := g2.pos + w4.length } :=
    skipWhitespace_run hd' hw4 (by decide)
  have hdw : g2.input.drop (g2.pos + w4.length) = 93 :: rest :=
    drop_after (show g2.input.drop g2.pos = w4 ++ (93 :: rest) from hd')
  have hpk : peekByte (skipWhitespace g2) = some 93 := by
    rw [hsw]
    exact peekByte_of_drop (f := ({ g2 with pos := g2.pos + w4.length } : Fmt)) hdw
  have hrun := @arrLoop_close_run 0 g2 acc2 first hpk
  rw [hsw] at hrun
  exact ⟨_, hrun.trans (congrArg some (okl_shift (by
    simp only [List.length_append, List.length_cons, List.length_nil]
    omega)))⟩

/-- Processing one object member from the key onward: the key string, the
whitespace around the colon, and the member value all parse, landing
exactly past the value with the member's remaining bytes at the cursor. -/
theorem objPieces {n : Nat}
    (ihv : ∀ v : List Nat, SpecValueD n v → ∀ (g : Fmt) (rest : List Nat),
      g.input.drop g.pos = v ++ rest → g.level + n ≤ 100 → NumFollow rest →
      ∃ fuel emit, parseValue fuel g =
        some (.ok ({ g with pos := g.pos + v.length }, emit)))
    {k w2 w3 v tail rest : List Nat} (g : Fmt)
    (hk : SpecStrBody k) (hw2 : isWsL w2) (hw3 : isWsL w3) (hv : SpecValueD n v)
    (hd : g.input.drop g.pos =
      ((34 :: (k ++ [34])) ++ w2 ++ 58 :: (w3 ++ v ++ tail)) ++ rest)
    (hlev : g.level + n ≤ 100)
    (htail : ∀ y, (tail ++ rest).head? = some y →
      isDigit y = false ∧ ¬y = 46 ∧ ¬y = 101 ∧ ¬y = 69) :
    ∃ fuelV dK dV,
      parseString g .key =
        .ok ({ g with pos := g.pos + (34 :: (k ++ [34])).length }, dK) ∧
      skipWhitespace ({ g with pos := g.pos + (34 :: (k ++ [34])).length } : Fmt) =
        { g with pos := g.pos + (34 :: (k ++ [34])).length + w2.length } ∧
      expectByte ({ g with pos :=
          g.pos + (34 :: (k ++ [34])).length + w2.length } : Fmt) 58 =
        .ok { g with pos := g.pos + (34 :: (k ++ [34])).length + w2.length + 1 } ∧
      skipWhitespace ({ g with pos :=
          g.pos + (34 :: (k ++ [34])).length + w2.length + 1 } : Fmt) =
        { g with pos :=
          g.pos + (34 :: (k ++ [34])).length + w2.length + 1 + w3.length } ∧
      parseValue fuelV ({ g with pos :=
          g.pos + (34 :: (k ++ [34])).length + w2.length + 1 + w3.length } : Fmt) =
        some (.ok ({ g with pos := g.pos + (34 :: (k ++ [34])).length + w2.length +
          1 + w3.length + v.length }, dV)) ∧
      g.input.drop (g.pos + (34 :: (k ++ [34])).length + w2.length + 1 + w3.length +
        v.length) = tail ++ rest := by
  have hd1 : g.input.drop g.pos =
      (34 :: (k ++ [34])) ++ (w2 ++ 58 :: ((w3 ++ v ++ tail) ++ rest)) := by
    rw [hd]
    simp [List.append_assoc]
  obtain ⟨dK, hKrun⟩ := specStr_run hk g (w2 ++ 58 :: ((w3 ++ v ++ tail) ++ rest))
    .key hd1
  have hdK2 : g.input.drop (g.pos + (34 :: (k ++ [34])).length) =
      w2 ++ 58 :: ((w3 ++ v ++ tail) ++ rest) := drop_after hd1
  have hsw2 : skipWhitespace ({ g with pos :=
      g.pos + (34 :: (k ++ [34])).length } : Fmt) =
      { g with pos := g.pos + (34 :: (k ++ [34])).length + w2.length } :=
    skipWhitespace_run
      (f := ({ g with pos := g.pos + (34 :: (k ++ [34])).length } : Fmt)) hdK2 hw2
      (by decide)
  have hd58 : g.input.drop (g.pos + (34 :: (k ++ [34])).length + w2.length) =
      58 :: ((w3 ++ v ++ tail) ++ rest) :=
    drop_after (show g.input.drop (g.pos + (34 :: (k ++ [34])).length) =
      w2 ++ (58 :: ((w3 ++ v ++ tail) ++ rest)) from hdK2)
  have h58 : expectByte ({ g with pos :=
      g.pos + (34 :: (k ++ [34])).length + w2.length } : Fmt) 58 =
      .ok { g with pos := g.pos + (34 :: (k ++ [34])).length + w2.length + 1 } :=
    expectByte_ok_of_peek (peekByte_of_drop (f := ({ g with pos :=
      g.pos + (34 :: (k ++ [34])).length + w2.length } : Fmt)) hd58)
  have hd3 : g.input.drop (g.pos + (34 :: (k ++ [34])).length + w2.length + 1) =
      (w3 ++ v ++ tail) ++ rest := drop_cons_succ hd58
  have hd3b : g.input.drop (g.pos + (34 :: (k ++ [34])).length + w2.length + 1) =
      w3 ++ (v ++ (tail ++ rest)) := by
    rw [hd3]
    simp [List.append_assoc]
  obtain ⟨bv, hbv, hVH⟩ := specValueD_head hv
  have hveq : v = bv :: v.tail := eq_cons_of_head hbv
  have h0 : v ++ (tail ++ rest) = bv :: (v.tail ++ (tail ++ rest)) := by
    nth_rewrite 1 [hveq]
    rfl
  have hd3c : g.input.drop (g.pos + (34 :: (k ++ [34])).length + w2.length + 1) =
      w3 ++ bv :: (v.tail ++ (tail ++ rest)) := by
    rw [hd3b, h0]
  have hsw3 : skipWhitespace ({ g with pos :=
      g.pos + (34 :: (k ++ [34])).length + w2.length + 1 } : Fmt) =
      { g with pos :=
        g.pos + (34 :: (k ++ [34])).length + w2.length + 1 + w3.length } :=
    skipWhitespace_run (f := ({ g with pos :=
      g.pos + (34 :: (k ++ [34])).length + w2.length + 1 } : Fmt)) hd3c hw3
      (valueHead_not_ws hVH)
  have hd4 : g.input.drop
      (g.pos + (34 :: (k ++ [34])).length + w2.length + 1 + w3.length) =
      v ++ (tail ++ rest) := drop_after hd3b
  obtain ⟨fuelV, dV, hVrun0⟩ := ihv v hv ({ g with pos :=
    g.pos + (34 :: (k ++ [34])).length + w2.length + 1 + w3.length } : Fmt)
    (tail ++ rest) hd4 hlev htail
  have hVrun : parseValue fuelV ({ g with pos :=
      g.pos + (34 :: (k ++ [34])).length + w2.length + 1 + w3.length } : Fmt) =
      some (.ok ({ g with pos := g.pos + (34 :: (k ++ [34])).length + w2.length + 1 +
        w3.length + v.length }, dV)) := hVrun0
  have hd5 : g.input.drop (g.pos + (34 :: (k ++ [34])).length + w2.length + 1 +
      w3.length + v.length) = tail ++ rest := drop_after hd4
  exact ⟨fuelV, dK, dV, hKrun, hsw2, h58, hsw3, hVrun, hd5⟩

/-- The member loop accepts every spec member list: from the first
iteration positioned at the first key, and from a later iteration
positioned before the separating comma. -/
theorem objLoop_memP_run (n : Nat)
    (ihv : ∀ v : List Nat, SpecValueD n v → ∀ (g : Fmt) (rest : List Nat),
      g.input.drop g.pos = v ++ rest → g.level + n ≤ 100 → NumFollow rest →
      ∃ fuel emit, parseValue fuel g =
        some (.ok ({ g with pos := g.pos + v.length }, emit))) :
    ∀ m : List Nat, SpecMembersP (SpecValueD n) m →
      (∃ w1 S, m = w1 ++ S ∧ isWsL w1 ∧ S.head? = some 34 ∧
        (∀ (g : Fmt) (rest acc : List Nat),
          g.input.drop g.pos = (S ++ [125]) ++ rest → g.level + n ≤ 100 →
          ∃ fuel emit, objLoop fuel g acc true =
            some (.ok ({ g with
              pos := g.pos + (S ++ [125]).length, level := g.level - 1 },
              emit)))) ∧
      (∀ w4 : List Nat, isWsL w4 → ∀ (g : Fmt) (rest acc : List Nat),
        g.input.drop g.pos = (w4 ++ 44 :: (m ++ [125])) ++ rest →
        g.level + n ≤ 100 →
        ∃ fuel emit, objLoop fuel g acc false =
          some (.ok ({ g with
            pos := g.pos + (w4 ++ 44 :: (m ++ [125])).length,
            level := g.level - 1 }, emit))) := by
  intro m hm
  induction hm with
  | one w1 k w2 w3 v w4p hw1 hk hw2 hw3 hv hw4p =>
      constructor
      · refine ⟨w1, (34 :: (k ++ [34])) ++ w2 ++ 58 :: (w3 ++ v ++ w4p),
          by simp [List.append_assoc], hw1, by simp, ?_⟩
        intro g rest acc hd hlev
        have hdp : g.input.drop g.pos =
            ((34 :: (k ++ [34])) ++ w2 ++ 58 :: (w3 ++ v ++ (w4p ++ [125]))) ++
              rest := by
          rw [hd]
          simp [List.append_assoc]
        have htail : ∀ y, ((w4p ++ [125]) ++ rest).head? = some y →
            isDigit y = false ∧ ¬y = 46 ∧ ¬y = 101 ∧ ¬y = 69 := by
          intro y hy
          exact wsSep_stop hw4p ⟨by decide, by decide, by decide, by decide⟩ y hy
        obtain ⟨fuelV, dK, dV, hKrun, hsw2, h58, hsw3, hVrun, hd5⟩ :=
          objPieces ihv g hk hw2 hw3 hv hdp hlev htail
        have hdg : g.input.drop g.pos =
            34 :: ((((k ++ [34]) ++ w2) ++
              (58 :: (w3 ++ v ++ (w4p ++ [125])))) ++ rest) := hdp
        have hswg : skipWhitespace g = g := skipWhitespace_of_head hdg (by decide)
        have hpkn : ¬peekByte (skipWhitespace g) = some 125 := by
          rw [hswg, peekByte_of_drop hdg]
          simp
        have hs' : parseString (skipWhitespace g) .key =
            .ok ({ g with pos := g.pos + (34 :: (k ++ [34])).length }, dK) := by
          rw [hswg]
          exact hKrun
        have h58' : expectByte (skipWhitespace ({ g with pos :=
            g.pos + (34 :: (k ++ [34])).length } : Fmt)) 58 =
            .ok { g with pos :=
              g.pos + (34 :: (k ++ [34])).length + w2.length + 1 } := by
          rw [hsw2]
          exact h58
        have hVrun' : parseValue (fuelV + 1) (skipWhitespace ({ g with pos :=
            g.pos + (34 :: (k ++ [34])).length + w2.length + 1 } : Fmt)) =
            some (.ok ({ g with pos := g.pos + (34 :: (k ++ [34])).length +
              w2.length + 1 + w3.length + v.length }, dV)) := by
          rw [hsw3]
          exact parseValue_mono_le (by omega) hVrun
        have hstep := objLoop_first_step acc hpkn hs' h58' hVrun'
        have hdclose : ({ g with pos := g.pos + (34 :: (k ++ [34])).length +
            w2.length + 1 + w3.length + v.length } : Fmt).input.drop
            ({ g with pos := g.pos + (34 :: (k ++ [34])).length + w2.length + 1 +
              w3.length + v.length } : Fmt).pos = (w4p ++ [125]) ++ rest := hd5
        obtain ⟨emitC, hclose⟩ := objClose_run hw4p ({ g with pos :=
          g.pos + (34 :: (k ++ [34])).length + w2.length + 1 + w3.length +
            v.length } : Fmt) rest
          ((acc ++ writeIndent (skipWhitespace g) ++ dK ++
            writeNameSep ({ g with pos := g.pos + (34 :: (k ++ [34])).length +
              w2.length + 1 } : Fmt)) ++ dV) false hdclose
        have hcloseL := objLoop_mono_le (by omega : 0 + 1 ≤ fuelV + 1) hclose
        exact ⟨fuelV + 1 + 1, emitC, hstep.trans (hcloseL.trans (congrArg some
          (okl_shift (by
            simp only [List.length_append, List.length_cons, List.length_nil]
            omega))))⟩
      · intro w4 hw4 g rest acc hd hlev
        have hd44c : g.input.drop g.pos =
            w4 ++ 44 :: (((w1 ++ (34 :: (k ++ [34])) ++ w2 ++
              58 :: (w3 ++ v ++ w4p)) ++ [125]) ++ rest) := by
          rw [hd]
          simp [List.append_assoc]
        have hsw44 : skipWhitespace g = { g with pos := g.pos + w4.length } :=
          skipWhitespace_run hd44c hw4 (by decide)
        have hd44 : g.input.drop (g.pos + w4.length) =
            44 :: (((w1 ++ (34 :: (k ++ [34])) ++ w2 ++
              58 :: (w3 ++ v ++ w4p)) ++ [125]) ++ rest) :=
          drop_after (show g.input.drop g.pos = w4 ++ (44 :: (((w1 ++
            (34 :: (k ++ [34])) ++ w2 ++ 58 :: (w3 ++ v ++ w4p)) ++ [125]) ++ rest))
            from hd44c)
        have h44 : expectByte (skipWhitespace g) 44 =
            .ok { g with pos := g.pos + w4.length + 1 } := by
          rw [hsw44]
          exact expectByte_ok_of_peek (peekByte_of_drop
            (f := ({ g with pos := g.pos + w4.length } : Fmt)) hd44)
        have hpkn : ¬peekByte (skipWhitespace g) = some 125 := by
          rw [hsw44, peekByte_of_drop
            (f := ({ g with pos := g.pos + w4.length } : Fmt)) hd44]
          simp
        have hdm : g.input.drop (g.pos + w4.length + 1) =
            w1 ++ 34 :: ((k ++ [34]) ++
              (w2 ++ 58 :: ((w3 ++ v ++ (w4p ++ [125])) ++ rest))) := by
          have h0 := drop_cons_succ hd44
          rw [h0]
          simp [List.append_assoc]
        have hsw1 : skipWhitespace ({ g with pos := g.pos + w4.length + 1 } : Fmt) =
            { g with pos := g.pos + w4.length + 1 + w1.length } :=
          skipWhitespace_run
            (f := ({ g with pos := g.pos + w4.length + 1 } : Fmt)) hdm hw1
            (by decide)
        have hdp : g.input.drop (g.pos + w4.length + 1 + w1.length) =
            ((34 :: (k ++ [34])) ++ w2 ++ 58 :: (w3 ++ v ++ (w4p ++ [125]))) ++
              rest := by
          have h0 := drop_after (show g.input.drop (g.pos + w4.length + 1) =
            w1 ++ (34 :: ((k ++ [34]) ++ (w2 ++ 58 :: ((w3 ++ v ++ (w4p ++ [125])) ++
              rest)))) from hdm)
          rw [h0]
          simp [List.append_assoc]
        have htail : ∀ y, ((w4p ++ [125]) ++ rest).head? = some y →
            isDigit y = false ∧ ¬y = 46 ∧ ¬y = 101 ∧ ¬y = 69 := by
          intro y hy
          exact wsSep_stop hw4p ⟨by decide, by decide, by decide, by decide⟩ y hy
        obtain ⟨fuelV, dK, dV, hKrun, hsw2, h58, hsw3, hVrun, hd5⟩ :=
          objPieces ihv ({ g with pos := g.pos + w4.length + 1 + w1.length } : Fmt)
            hk hw2 hw3 hv hdp hlev htail
        have hs' : parseString (skipWhitespace ({ g with pos :=
            g.pos + w4.length + 1 } : Fmt)) .key =
            .ok ({ g with pos := g.pos + w4.length + 1 + w1.length +
              (34 :: (k ++ [34])).length }, dK) := by
          rw [hsw1]
          exact hKrun
        have h58' : expectByte (skipWhitespace ({ g with pos :=
            g.pos + w4.length + 1 + w1.length +
              (34 :: (k ++ [34])).length } : Fmt)) 58 =
            .ok { g with pos := g.pos + w4.length + 1 + w1.length +
              (34 :: (k ++ [34])).length + w2.length + 1 } := by
          rw [hsw2]
          exact h58
        have hVrun' : parseValue (fuelV + 1) (skipWhitespace ({ g with pos :=
            g.pos + w4.length + 1 + w1.length + (34 :: (k ++ [34])).length +
              w2.length + 1 } : Fmt)) =
            some (.ok ({ g with pos := g.pos + w4.length + 1 + w1.length +
              (34 :: (k ++ [34])).length + w2.length + 1 + w3.length + v.length },
              dV)) := by
          rw [hsw3]
          exact parseValue_mono_le (by omega) hVrun
        have hstep := objLoop_next_step acc hpkn h44 hs' h58' hVrun'
        have hdclose : ({ g with pos := g.pos + w4.length + 1 + w1.length +
            (34 :: (k ++ [34])).length + w2.length + 1 + w3.length +
            v.length } : Fmt).input.drop
            ({ g with pos := g.pos + w4.length + 1 + w1.length +
              (34 :: (k ++ [34])).length + w2.length + 1 + w3.length +
              v.length } : Fmt).pos = (w4p ++ [125]) ++ rest := hd5
        obtain ⟨emitC, hclose⟩ := objClose_run hw4p ({ g with pos :=
          g.pos + w4.length + 1 + w1.length + (34 :: (k ++ [34])).length +
            w2.length + 1 + w3.length + v.length } : Fmt) rest
          (((acc ++ writeValueSep ({ g with pos := g.pos + w4.length + 1 } : Fmt)) ++
            writeIndent (skipWhitespace ({ g with pos :=
              g.pos + w4.length + 1 } : Fmt)) ++ dK ++
            writeNameSep ({ g with pos := g.pos + w4.length + 1 + w1.length +
              (34 :: (k ++ [34])).length + w2.length + 1 } : Fmt)) ++ dV) false
          hdclose
        have hcloseL := objLoop_mono_le (by omega : 0 + 1 ≤ fuelV + 1) hclose
        exact ⟨fuelV + 1 + 1, emitC, hstep.trans (hcloseL.trans (congrArg some
          (okl_shift (by
            simp only [List.length_append, List.length_cons, List.length_nil]
            omega))))⟩
  | cons w1 k w2 w3 v w4p mrest hw1 hk hw2 hw3 hv hw4p hmr ih =>
      obtain ⟨-, ihFalse⟩ := ih
      constructor
      · refine ⟨w1, (34 :: (k ++ [34])) ++ w2 ++ 58 :: (w3 ++ v ++ w4p) ++
          44 :: mrest, by simp [List.append_assoc], hw1, by simp, ?_⟩
        intro g rest acc hd hlev
        have hdp : g.input.drop g.pos =
            ((34 :: (k ++ [34])) ++ w2 ++ 58 :: (w3 ++ v ++
              (w4p ++ 44 :: (mrest ++ [125])))) ++ rest := by
          rw [hd]
          simp [List.append_assoc]
        have htail : ∀ y, ((w4p ++ 44 :: (mrest ++ [125])) ++ rest).head? = some y →
            isDigit y = false ∧ ¬y = 46 ∧ ¬y = 101 ∧ ¬y = 69 := by
          intro y hy
          exact wsSep_stop hw4p ⟨by decide, by decide, by decide, by decide⟩ y hy
        obtain ⟨fuelV, dK, dV, hKrun, hsw2, h58, hsw3, hVrun, hd5⟩ :=
          objPieces ihv g hk hw2 hw3 hv hdp hlev htail
        have hdg : g.input.drop g.pos =
            34 :: ((((k ++ [34]) ++ w2) ++
              (58 :: (w3 ++ v ++ (w4p ++ 44 :: (mrest ++ [125]))))) ++ rest) := hdp
        have hswg : skipWhitespace g = g := skipWhitespace_of_head hdg (by decide)
        have hpkn : ¬peekByte (skipWhitespace g) = some 125 := by
          rw [hswg, peekByte_of_drop hdg]
          simp
        have hs' : parseString (skipWhitespace g) .key =
            .ok ({ g with pos := g.pos + (34 :: (k ++ [34])).length }, dK) := by
          rw [hswg]
          exact hKrun
        have h58' : expectByte (skipWhitespace ({ g with pos :=
            g.pos + (34 :: (k ++ [34])).length } : Fmt)) 58 =
            .ok { g with pos :=
              g.pos + (34 :: (k ++ [34])).length + w2.length + 1 } := by
          rw [hsw2]
          exact h58
        have hdcont : ({ g with pos := g.pos + (34 :: (k ++ [34])).length +
            w2.length + 1 + w3.length + v.length } : Fmt).input.drop
            ({ g with pos := g.pos + (34 :: (k ++ [34])).length + w2.length + 1 +
              w3.length + v.length } : Fmt).pos =
            (w4p ++ 44 :: (mrest ++ [125])) ++ rest := hd5
        obtain ⟨fuelC, emitC, hcont⟩ := ihFalse w4p hw4p ({ g with pos :=
          g.pos + (34 :: (k ++ [34])).length + w2.length + 1 + w3.length +
            v.length } : Fmt) rest
          ((acc ++ writeIndent (skipWhitespace g) ++ dK ++
            writeNameSep ({ g with pos := g.pos + (34 :: (k ++ [34])).length +
              w2.length + 1 } : Fmt)) ++ dV) hdcont hlev
        have hVrun' : parseValue (fuelV + fuelC) (skipWhitespace ({ g with pos :=
            g.pos + (34 :: (k ++ [34])).length + w2.length + 1 } : Fmt)) =
            some (.ok ({ g with pos := g.pos + (34 :: (k ++ [34])).length +
              w2.length + 1 + w3.length + v.length }, dV)) := by
          rw [hsw3]
          exact parseValue_mono_le (by omega) hVrun
        have hcontL := objLoop_mono_le (by omega : fuelC ≤ fuelV + fuelC) hcont
        have hstep := objLoop_first_step acc hpkn hs' h58' hVrun'
        exact ⟨fuelV + fuelC + 1, emitC, hstep.trans (hcontL.trans (congrArg some
          (okl_shift (by
            simp only [List.length_append, List.length_cons, List.length_nil]
            omega))))⟩
      · intro w4 hw4 g rest acc hd hlev
        have hd44c : g.input.drop g.pos =
            w4 ++ 44 :: (((w1 ++ (34 :: (k ++ [34])) ++ w2 ++
              58 :: (w3 ++ v ++ w4p) ++ 44 :: mrest) ++ [125]) ++ rest) := by
          rw [hd]
          simp [List.append_assoc]
        have hsw44 : skipWhitespace g = { g with pos := g.pos + w4.length } :=
          skipWhitespace_run hd44c hw4 (by decide)
        have hd44 : g.input.drop (g.pos + w4.length) =
            44 :: (((w1 ++ (34 :: (k ++ [34])) ++ w2 ++
              58 :: (w3 ++ v ++ w4p) ++ 44 :: mrest) ++ [125]) ++ rest) :=
          drop_after (show g.input.drop g.pos = w4 ++ (44 :: (((w1 ++
            (34 :: (k ++ [34])) ++ w2 ++ 58 :: (w3 ++ v ++ w4p) ++ 44 :: mrest) ++
            [125]) ++ rest)) from hd44c)
        have h44 : expectByte (skipWhitespace g) 44 =
            .ok { g with pos := g.pos + w4.length + 1 } := by
          rw [hsw44]
          exact expectByte_ok_of_peek (peekByte_of_drop
            (f := ({ g with pos := g.pos + w4.length } : Fmt)) hd44)
        have hpkn : ¬peekByte (skipWhitespace g) = some 125 := by
          rw [hsw44, peekByte_of_drop
            (f := ({ g with pos := g.pos + w4.length } : Fmt)) hd44]
          simp
        have hdm : g.input.drop (g.pos + w4.length + 1) =
            w1 ++ 34 :: ((k ++ [34]) ++ (w2 ++ 58 :: ((w3 ++ v ++
              (w4p ++ 44 :: (mrest ++ [125]))) ++ rest))) := by
          have h0 := drop_cons_succ hd44
          rw [h0]
          simp [List.append_assoc]
        have hsw1 : skipWhitespace ({ g with pos := g.pos + w4.length + 1 } : Fmt) =
            { g with pos := g.pos + w4.length + 1 + w1.length } :=
          skipWhitespace_run
            (f := ({ g with pos := g.pos + w4.length + 1 } : Fmt)) hdm hw1
            (by decide)
        have hdp : g.input.drop (g.pos + w4.length + 1 + w1.length) =
            ((34 :: (k ++ [34])) ++ w2 ++ 58 :: (w3 ++ v ++
              (w4p ++ 44 :: (mrest ++ [125])))) ++ rest := by
          have h0 := drop_after (show g.input.drop (g.pos + w4.length + 1) =
            w1 ++ (34 :: ((k ++ [34]) ++ (w2 ++ 58 :: ((w3 ++ v ++
              (w4p ++ 44 :: (mrest ++ [125]))) ++ rest)))) from hdm)
          rw [h0]
          simp [List.append_assoc]
        have htail : ∀ y, ((w4p ++ 44 :: (mrest ++ [125])) ++ rest).head? = some y →
            isDigit y = false ∧ ¬y = 46 ∧ ¬y = 101 ∧ ¬y = 69 := by
          intro y hy
          exact wsSep_stop hw4p ⟨by decide, by decide, by decide, by decide⟩ y hy
        obtain ⟨fuelV, dK, dV, hKrun, hsw2, h58, hsw3, hVrun, hd5⟩ :=
          objPieces ihv ({ g with pos := g.pos + w4.length + 1 + w1.length } : Fmt)
            hk hw2 hw3 hv hdp hlev htail
        have hs' : parseString (skipWhitespace ({ g with pos :=
            g.pos + w4.length + 1 } : Fmt)) .key =
            .ok ({ g with pos := g.pos + w4.length + 1 + w1.length +
              (34 :: (k ++ [34])).length }, dK) := by
          rw [hsw1]
          exact hKrun
        have h58' : expectByte (skipWhitespace ({ g with pos :=
            g.pos + w4.length + 1 + w1.length +
              (34 :: (k ++ [34])).length } : Fmt)) 58 =
            .ok { g with pos := g.pos + w4.length + 1 + w1.length +
              (34 :: (k ++ [34])).length + w2.length + 1 } := by
          rw [hsw2]
          exact h58
        have hdcont : ({ g with pos := g.pos + w4.length + 1 + w1.length +
            (34 :: (k ++ [34])).length + w2.length + 1 + w3.length +
            v.length } : Fmt).input.drop
            ({ g with pos := g.pos + w4.length + 1 + w1.length +
              (34 :: (k ++ [34])).length + w2.length + 1 + w3.length +
              v.length } : Fmt).pos =
            (w4p ++ 44 :: (mrest ++ [125])) ++ rest := hd5
        obtain ⟨fuelC, emitC, hcont⟩ := ihFalse w4p hw4p ({ g with pos :=
          g.pos + w4.length + 1 + w1.length + (34 :: (k ++ [34])).length +
            w2.length + 1 + w3.length + v.length } : Fmt) rest
          (((acc ++ writeValueSep ({ g with pos := g.pos + w4.length + 1 } : Fmt)) ++
            writeIndent (skipWhitespace ({ g with pos :=
              g.pos + w4.length + 1 } : Fmt)) ++ dK ++
            writeNameSep ({ g with pos := g.pos + w4.length + 1 + w1.length +
              (34 :: (k ++ [34])).length + w2.length + 1 } : Fmt)) ++ dV)
          hdcont hlev
        have hVrun' : parseValue (fuelV + fuelC) (skipWhitespace ({ g with pos :=
            g.pos + w4.length + 1 + w1.length + (34 :: (k ++ [34])).length +
              w2.length + 1 } : Fmt)) =
            some (.ok ({ g with pos := g.pos + w4.length + 1 + w1.length +
              (34 :: (k ++ [34])).length + w2.length + 1 + w3.length + v.length },
              dV)) := by
          rw [hsw3]
          exact parseValue_mono_le (by omega) hVrun
        have hcontL := objLoop_mono_le (by omega : fuelC ≤ fuelV + fuelC) hcont
        have hstep := objLoop_next_step acc hpkn h44 hs' h58' hVrun'
        exact ⟨fuelV + fuelC + 1, emitC, hstep.trans (hcontL.trans (congrArg some
          (okl_shift (by
            simp only [List.length_append, List.length_cons, List.length_nil]
            omega))))⟩

/-- The element loop accepts every spec element list: from the first
iteration positioned at the first value, and from a later iteration
positioned before the separating comma. -/
theorem arrLoop_elemP_run (n : Nat)
    (ihv : ∀ v : List Nat, SpecValueD n v → ∀ (g : Fmt) (rest : List Nat),
      g.input.drop g.pos = v ++ rest → g.level + n ≤ 100 → NumFollow rest →
      ∃ fuel emit, parseValue fuel g =
        some (.ok ({ g with pos := g.pos + v.length }, emit))) :
    ∀ e : List Nat, SpecElemsP (SpecValueD n) e →
      (∃ w1 S, e = w1 ++ S ∧ isWsL w1 ∧
        (∃ b, S.head? = some b ∧ ValueHead b) ∧
        (∀ (g : Fmt) (rest acc : List Nat),
          g.input.drop g.pos = (S ++ [93]) ++ rest → g.level + n ≤ 100 →
          ∃ fuel emit, arrLoop fuel g acc true =
            some (.ok ({ g with
              pos := g.pos + (S ++ [93]).length, level := g.level - 1 },
              emit)))) ∧
      (∀ w4 : List Nat, isWsL w4 → ∀ (g : Fmt) (rest acc : List Nat),
        g.input.drop g.pos = (w4 ++ 44 :: (e ++ [93])) ++ rest →
        g.level + n ≤ 100 →
        ∃ fuel emit, arrLoop fuel g acc false =
          some (.ok ({ g with
            pos := g.pos + (w4 ++ 44 :: (e ++ [93])).length,
            level := g.level - 1 }, emit))) := by
  intro e he
  induction he with
  | one w1 v w2 hw1 hv hw2 =>
      obtain ⟨bv, hbv, hVH⟩ := specValueD_head hv
      have hveq : v = bv :: v.tail := eq_cons_of_head hbv
      constructor
      · refine ⟨w1, v ++ w2, by simp [List.append_assoc], hw1,
          ⟨bv, by rw [hveq]; rfl, hVH⟩, ?_⟩
        intro g rest acc hd hlev
        have hdv : g.input.drop g.pos = v ++ ((w2 ++ [93]) ++ rest) := by
          rw [hd]
          simp [List.append_assoc]
        have hdc : g.input.drop g.pos =
            bv :: (v.tail ++ ((w2 ++ [93]) ++ rest)) := by
          rw [hdv]
          nth_rewrite 1 [hveq]
          rfl
        have hswg : skipWhitespace g = g :=
          skipWhitespace_of_head hdc (valueHead_not_ws hVH)
        have hpkn : ¬peekByte (skipWhitespace g) = some 93 := by
          rw [hswg, peekByte_of_drop hdc]
          simp only [Option.some.injEq]
          exact (valueHead_ne hVH).2.1
        have hnf : NumFollow ((w2 ++ [93]) ++ rest) := fun y hy =>
          wsSep_stop hw2 ⟨by decide, by decide, by decide, by decide⟩ y hy
        obtain ⟨fuelV, dV, hVrun⟩ := ihv v hv g ((w2 ++ [93]) ++ rest) hdv hlev hnf
        have hVrunF : parseValue (fuelV + 1) (skipWhitespace g) =
            some (.ok ({ g with pos := g.pos + v.length }, dV)) := by
          rw [hswg]
          exact parseValue_mono_le (by omega) hVrun
        have hstep := arrLoop_first_step acc hpkn hVrunF
        have hd2 : ({ g with pos := g.pos + v.length } : Fmt).input.drop
            ({ g with pos := g.pos + v.length } : Fmt).pos =
            (w2 ++ [93]) ++ rest := drop_after hdv
        obtain ⟨emitC, hclose⟩ := arrClose_run hw2
          ({ g with pos := g.pos + v.length } : Fmt) rest
          (acc ++ writeIndent (skipWhitespace g) ++ dV) false hd2
        have hcloseL := arrLoop_mono_le (by omega : 0 + 1 ≤ fuelV + 1) hclose
        exact ⟨fuelV + 1 + 1, emitC, hstep.trans (hcloseL.trans (congrArg some
          (okl_shift (by
            simp only [List.length_append, List.length_cons, List.length_nil]
            omega))))⟩
      · intro w4 hw4 g rest acc hd hlev
        have hd44c : g.input.drop g.pos =
            w4 ++ 44 :: (((w1 ++ v ++ w2) ++ [93]) ++ rest) := by
          rw [hd]
          simp [List.append_assoc]
        have hsw44 : skipWhitespace g = { g with pos := g.pos + w4.length } :=
          skipWhitespace_run hd44c hw4 (by decide)
        have hd44 : g.input.drop (g.pos + w4.length) =
            44 :: (((w1 ++ v ++ w2) ++ [93]) ++ rest) :=
          drop_after (show g.input.drop g.pos =
            w4 ++ (44 :: (((w1 ++ v ++ w2) ++ [93]) ++ rest)) from hd44c)
        have h44 : expectByte (skipWhitespace g) 44 =
            .ok { g with pos := g.pos + w4.length + 1 } := by
          rw [hsw44]
          exact expectByte_ok_of_peek (peekByte_of_drop
            (f := ({ g with pos := g.pos + w4.length } : Fmt)) hd44)
        have hpkn : ¬peekByte (skipWhitespace g) = some 93 := by
          rw [hsw44, peekByte_of_drop
            (f := ({ g with pos := g.pos + w4.length } : Fmt)) hd44]
          simp
        have hdm0 : g.input.drop (g.pos + w4.length + 1) =
            w1 ++ (v ++ ((w2 ++ [93]) ++ rest)) := by
          have h0 := drop_cons_succ hd44
          rw [h0]
          simp [List.append_assoc]
        have hvc : v ++ ((w2 ++ [93]) ++ rest) =
            bv :: (v.tail ++ ((w2 ++ [93]) ++ rest)) := by
          nth_rewrite 1 [hveq]
          rfl
        have hdm : g.input.drop (g.pos + w4.length + 1) =
            w1 ++ (bv :: (v.tail ++ ((w2 ++ [93]) ++ rest))) := by
          rw [hdm0, hvc]
        have hsw1 : skipWhitespace ({ g with pos :=
            g.pos + w4.length + 1 } : Fmt) =
            { g with pos := g.pos + w4.length + 1 + w1.length } :=
          skipWhitespace_run
            (f := ({ g with pos := g.pos + w4.length + 1 } : Fmt)) hdm hw1
            (valueHead_not_ws hVH)
        have hdv : g.input.drop (g.pos + w4.length + 1 + w1.length) =
            v ++ ((w2 ++ [93]) ++ rest) := drop_after hdm0
        have hnf : NumFollow ((w2 ++ [93]) ++ rest) := fun y hy =>
          wsSep_stop hw2 ⟨by decide, by decide, by decide, by decide⟩ y hy
        obtain ⟨fuelV, dV, hVrun⟩ := ihv v hv ({ g with pos :=
          g.pos + w4.length + 1 + w1.length } : Fmt) ((w2 ++ [93]) ++ rest)
          hdv hlev hnf
        have hVrunF : parseValue (fuelV + 1) (skipWhitespace ({ g with pos :=
            g.pos + w4.length + 1 } : Fmt)) =
            some (.ok ({ g with pos :=
              g.pos + w4.length + 1 + w1.length + v.length }, dV)) := by
          rw [hsw1]
          exact parseValue_mono_le (by omega) hVrun
        have hstep := arrLoop_next_step acc hpkn h44 hVrunF
        have hd2 : ({ g with pos := g.pos + w4.length + 1 + w1.length +
            v.length } : Fmt).input.drop ({ g with pos := g.pos + w4.length + 1 +
              w1.length + v.length } : Fmt).pos =
            (w2 ++ [93]) ++ rest := drop_after hdv
        obtain ⟨emitC, hclose⟩ := arrClose_run hw2 ({ g with pos :=
          g.pos + w4.length + 1 + w1.length + v.length } : Fmt) rest
          ((acc ++ writeValueSep ({ g with pos := g.pos + w4.length + 1 } : Fmt)) ++
            writeIndent (skipWhitespace ({ g with pos :=
              g.pos + w4.length + 1 } : Fmt)) ++ dV) false hd2
        have hcloseL := arrLoop_mono_le (by omega : 0 + 1 ≤ fuelV + 1) hclose
        exact ⟨fuelV + 1 + 1, emitC, hstep.trans (hcloseL.trans (congrArg some
          (okl_shift (by
            simp only [List.length_append, List.length_cons, List.length_nil]
            omega))))⟩
  | cons w1 v w2 erest hw1 hv hw2 her ih =>
      obtain ⟨bv, hbv, hVH⟩ := specValueD_head hv
      have hveq : v = bv :: v.tail := eq_cons_of_head hbv
      obtain ⟨-, ihFalse⟩ := ih
      constructor
      · refine ⟨w1, v ++ w2 ++ 44 :: erest, by simp [List.append_assoc], hw1,
          ⟨bv, by rw [hveq]; rfl, hVH⟩, ?_⟩
        intro g rest acc hd hlev
        have hdv : g.input.drop g.pos =
            v ++ ((w2 ++ 44 :: (erest ++ [93])) ++ rest) := by
          rw [hd]
          simp [List.append_assoc]
        have hdc : g.input.drop g.pos =
            bv :: (v.tail ++ ((w2 ++ 44 :: (erest ++ [93])) ++ rest)) := by
          rw [hdv]
          nth_rewrite 1 [hveq]
          rfl
        have hswg : skipWhitespace g = g :=
          skipWhitespace_of_head hdc (valueHead_not_ws hVH)
        have hpkn : ¬peekByte (skipWhitespace g) = some 93 := by
          rw [hswg, peekByte_of_drop hdc]
          simp only [Option.some.injEq]
          exact (valueHead_ne hVH).2.1
        have hnf : NumFollow ((w2 ++ 44 :: (erest ++ [93])) ++ rest) := fun y hy =>
          wsSep_stop hw2 ⟨by decide, by decide, by decide, by decide⟩ y hy
        obtain ⟨fuelV, dV, hVrun⟩ := ihv v hv g
          ((w2 ++ 44 :: (erest ++ [93])) ++ rest) hdv hlev hnf
        have hd2 : ({ g with pos := g.pos + v.length } : Fmt).input.drop
            ({ g with pos := g.pos + v.length } : Fmt).pos =
            (w2 ++ 44 :: (erest ++ [93])) ++ rest := drop_after hdv
        obtain ⟨fuelC, emitC, hcont⟩ := ihFalse w2 hw2
          ({ g with pos := g.pos + v.length } : Fmt) rest
          (acc ++ writeIndent (skipWhitespace g) ++ dV) hd2 hlev
        have hVrunF : parseValue (fuelV + fuelC) (skipWhitespace g) =
            some (.ok ({ g with pos := g.pos + v.length }, dV)) := by
          rw [hswg]
          exact parseValue_mono_le (by omega) hVrun
        have hstep := arrLoop_first_step acc hpkn hVrunF
        have hcontL := arrLoop_mono_le (by omega : fuelC ≤ fuelV + fuelC) hcont
        exact ⟨fuelV + fuelC + 1, emitC, hstep.trans (hcontL.trans (congrArg some
          (okl_shift (by
            simp only [List.length_append, List.length_cons, List.length_nil]
            omega))))⟩
      · intro w4 hw4 g rest acc hd hlev
        have hd44c : g.input.drop g.pos =
            w4 ++ 44 :: (((w1 ++ v ++ w2 ++ 44 :: erest) ++ [93]) ++ rest) := by
          rw [hd]
          simp [List.append_assoc]
        have hsw44 : skipWhitespace g = { g with pos := g.pos + w4.length } :=
          skipWhitespace_run hd44c hw4 (by decide)
        have hd44 : g.input.drop (g.pos + w4.length) =
            44 :: (((w1 ++ v ++ w2 ++ 44 :: erest) ++ [93]) ++ rest) :=
          drop_after (show g.input.drop g.pos =
            w4 ++ (44 :: (((w1 ++ v ++ w2 ++ 44 :: erest) ++ [93]) ++ rest))
            from hd44c)
        have h44 : expectByte (skipWhitespace g) 44 =
            .ok { g with pos := g.pos + w4.length + 1 } := by
          rw [hsw44]
          exact expectByte_ok_of_peek (peekByte_of_drop
            (f := ({ g with pos := g.pos + w4.length } : Fmt)) hd44)
        have hpkn : ¬peekByte (skipWhitespace g) = some 93 := by
          rw [hsw44, peekByte_of_drop
            (f := ({ g with pos := g.pos + w4.length } : Fmt)) hd44]
          simp
        have hdm0 : g.input.drop (g.pos + w4.length + 1) =
            w1 ++ (v ++ ((w2 ++ 44 :: (erest ++ [93])) ++ rest)) := by
          have h0 := drop_cons_succ hd44
          rw [h0]
          simp [List.append_assoc]
        have hvc : v ++ ((w2 ++ 44 :: (erest ++ [93])) ++ rest) =
            bv :: (v.tail ++ ((w2 ++ 44 :: (erest ++ [93])) ++ rest)) := by
          nth_rewrite 1 [hveq]
          rfl
        have hdm : g.input.drop (g.pos + w4.length + 1) =
            w1 ++ (bv :: (v.tail ++ ((w2 ++ 44 :: (erest ++ [93])) ++ rest))) := by
          rw [hdm0, hvc]
        have hsw1 : skipWhitespace ({ g with pos :=
            g.pos + w4.length + 1 } : Fmt) =
            { g with pos := g.pos + w4.length + 1 + w1.length } :=
          skipWhitespace_run
            (f := ({ g with pos := g.pos + w4.length + 1 } : Fmt)) hdm hw1
            (valueHead_not_ws hVH)
        have hdv : g.input.drop (g.pos + w4.length + 1 + w1.length) =
            v ++ ((w2 ++ 44 :: (erest ++ [93])) ++ rest) := drop_after hdm0
        have hnf : NumFollow ((w2 ++ 44 :: (erest ++ [93])) ++ rest) := fun y hy =>
          wsSep_stop hw2 ⟨by decide, by decide, by decide, by decide⟩ y hy
        obtain ⟨fuelV, dV, hVrun⟩ := ihv v hv ({ g with pos :=
          g.pos + w4.length + 1 + w1.length } : Fmt)
          ((w2 ++ 44 :: (erest ++ [93])) ++ rest) hdv hlev hnf
        have hd2 : ({ g with pos := g.pos + w4.length + 1 + w1.length +
            v.length } : Fmt).input.drop ({ g with pos := g.pos + w4.length + 1 +
              w1.length + v.length } : Fmt).pos =
            (w2 ++ 44 :: (erest ++ [93])) ++ rest := drop_after hdv
        obtain ⟨fuelC, emitC, hcont⟩ := ihFalse w2 hw2 ({ g with pos :=
          g.pos + w4.length + 1 + w1.length + v.length } : Fmt) rest
          ((acc ++ writeValueSep ({ g with pos := g.pos + w4.length + 1 } : Fmt)) ++
            writeIndent (skipWhitespace ({ g with pos :=
              g.pos + w4.length + 1 } : Fmt)) ++ dV) hd2 hlev
        have hVrunF : parseValue (fuelV + fuelC) (skipWhitespace ({ g with pos :=
            g.pos + w4.length + 1 } : Fmt)) =
            some (.ok ({ g with pos :=
              g.pos + w4.length + 1 + w1.length + v.length }, dV)) := by
          rw [hsw1]
          exact parseValue_mono_le (by omega) hVrun
        have hstep := arrLoop_next_step acc hpkn h44 hVrunF
        have hcontL := arrLoop_mono_le (by omega : fuelC ≤ fuelV + fuelC) hcont
        exact ⟨fuelV + fuelC + 1, emitC, hstep.trans (hcontL.trans (congrArg some
          (okl_shift (by
            simp only [List.length_append, List.length_cons, List.length_nil]
            omega))))⟩

theorem okl_shift2 {g : Fmt} {p q L M : Nat} {emit : List Nat}
    (hpq : p = q) (hLM : L = M) :
    (Except.ok ({ g with pos := p, level := L }, emit) :
      Except FormatError (Fmt × List Nat)) =
      .ok ({ g with pos := q, level := M }, emit) := by
  rw [hpq, hLM]

/-- Depth-indexed completeness: a spec value of nesting depth at most `n`
is accepted by `parse_value` whenever `n` more levels fit under the indent
cap and the byte following it cannot extend a number token. -/
theorem specValueD_run : ∀ n : Nat, ∀ v : List Nat, SpecValueD n v →
    ∀ (g : Fmt) (rest : List Nat),
      g.input.drop g.pos = v ++ rest → g.level + n ≤ 100 → NumFollow rest →
      ∃ fuel emit, parseValue fuel g =
        some (.ok ({ g with pos := g.pos + v.length }, emit)) := by
  intro n
  induction n with
  | zero =>
      intro v hv g rest hd hlev hnf
      simp only [SpecValueD] at hv
      exact specLeaf_run hv g rest hd hnf
  | succ m ihn =>
      intro v hv g rest hd hlev hnf
      simp only [SpecValueD] at hv
      rcases hv with hleaf | ⟨mm, hmm, rfl⟩ | ⟨ee, hee, rfl⟩
      · exact specLeaf_run hleaf g rest hd hnf
      · obtain ⟨⟨w1, S, hmS, hw1, hSh, trueRun⟩, -⟩ :=
          objLoop_memP_run m ihn mm hmm
        have hdc : g.input.drop g.pos = 123 :: ((mm ++ [125]) ++ rest) := hd
        have hpk : peekByte g = some 123 := peekByte_of_drop hdc
        have h123 : expectByte g 123 = .ok { g with pos := g.pos + 1 } :=
          expectByte_ok_of_peek hpk
        have hd1 : g.input.drop (g.pos + 1) = (mm ++ [125]) ++ rest :=
          drop_cons_succ hdc
        have hSeq : S = 34 :: S.tail := eq_cons_of_head hSh
        have hd1a : g.input.drop (g.pos + 1) = w1 ++ (S ++ (125 :: rest)) := by
          rw [hd1, hmS]
          simp [List.append_assoc]
        have hSc : S ++ (125 :: rest) = 34 :: (S.tail ++ (125 :: rest)) := by
          nth_rewrite 1 [hSeq]
          rfl
        have hd1b : g.input.drop (g.pos + 1) =
            w1 ++ (34 :: (S.tail ++ (125 :: rest))) := by
          rw [hd1a, hSc]
        have hsw : skipWhitespace ({ g with pos := g.pos + 1 } : Fmt) =
            { g with pos := g.pos + 1 + w1.length } :=
          skipWhitespace_run (f := ({ g with pos := g.pos + 1 } : Fmt)) hd1b hw1
            (by decide)
        have hdS : g.input.drop (g.pos + 1 + w1.length) =
            34 :: (S.tail ++ (125 :: rest)) := drop_after hd1b
        have hpk125 : ¬peekByte (skipWhitespace ({ g with pos :=
            g.pos + 1 } : Fmt)) = some 125 := by
          rw [hsw, peekByte_of_drop
            (f := ({ g with pos := g.pos + 1 + w1.length } : Fmt)) hdS]
          simp
        have hinc : incLevel (skipWhitespace ({ g with pos :=
            g.pos + 1 } : Fmt)) =
            .ok { g with pos := g.pos + 1 + w1.length, level := g.level + 1 } := by
          rw [hsw]
          exact incLevel_run (by omega : g.level ≤ 99)
        have hd3p : g.input.drop (g.pos + 1 + w1.length) = (S ++ [125]) ++ rest := by
          have h0 := drop_after hd1a
          rw [h0]
          simp [List.append_assoc]
        obtain ⟨F, emit, hrun⟩ := trueRun
          ({ g with pos := g.pos + 1 + w1.length, level := g.level + 1 } : Fmt) rest
          (writeBeginObj (skipWhitespace ({ g with pos := g.pos + 1 } : Fmt))) hd3p
          (by omega : g.level + 1 + m ≤ 100)
        exact ⟨F + 1 + 1, emit, (parseValue_at_object hpk).trans
          ((parseObject_step_run h123 hpk125 hinc).trans (hrun.trans (congrArg some
            (okl_shift2 (by
              simp only [hmS, List.length_append, List.length_cons,
                List.length_nil]
              omega) (by
              show g.level + 1 - 1 = g.level
              omega)))))⟩
      · obtain ⟨⟨w1, S, hmS, hw1, ⟨bS, hbS, hVHS⟩, trueRun⟩, -⟩ :=
          arrLoop_elemP_run m ihn ee hee
        have hdc : g.input.drop g.pos = 91 :: ((ee ++ [93]) ++ rest) := hd
        have hpk : peekByte g = some 91 := peekByte_of_drop hdc
        have h91 : expectByte g 91 = .ok { g with pos := g.pos + 1 } :=
          expectByte_ok_of_peek hpk
        have hd1 : g.input.drop (g.pos + 1) = (ee ++ [93]) ++ rest :=
          drop_cons_succ hdc
        have hSeq : S = bS :: S.tail := eq_cons_of_head hbS
        have hd1a : g.input.drop (g.pos + 1) = w1 ++ (S ++ (93 :: rest)) := by
          rw [hd1, hmS]
          simp [List.append_assoc]
        have hSc : S ++ (93 :: rest) = bS :: (S.tail ++ (93 :: rest)) := by
          nth_rewrite 1 [hSeq]
          rfl
        have hd1b : g.input.drop (g.pos + 1) =
            w1 ++ (bS :: (S.tail ++ (93 :: rest))) := by
          rw [hd1a, hSc]
        have hsw : skipWhitespace ({ g with pos := g.pos + 1 } : Fmt) =
            { g with pos := g.pos + 1 + w1.length } :=
          skipWhitespace_run (f := ({ g with pos := g.pos + 1 } : Fmt)) hd1b hw1
            (valueHead_not_ws hVHS)
        have hdS : g.input.drop (g.pos + 1 + w1.length) =
            bS :: (S.tail ++ (93 :: rest)) := drop_after hd1b
        have hpk93 : ¬peekByte (skipWhitespace ({ g with pos :=
            g.pos + 1 } : Fmt)) = some 93 := by
          rw [hsw, peekByte_of_drop
            (f := ({ g with pos := g.pos + 1 + w1.length } : Fmt)) hdS]
          simp only [Option.some.injEq]
          exact (valueHead_ne hVHS).2.1
        have hinc : incLevel (skipWhitespace ({ g with pos :=
            g.pos + 1 } : Fmt)) =
            .ok { g with pos := g.pos + 1 + w1.length, level := g.level + 1 } := by
          rw [hsw]
          exact incLevel_run (by omega : g.level ≤ 99)
        have hd3p : g.input.drop (g.pos + 1 + w1.length) = (S ++ [93]) ++ rest := by
          have h0 := drop_after hd1a
          rw [h0]
          simp [List.append_assoc]
        obtain ⟨F, emit, hrun⟩ := trueRun
          ({ g with pos := g.pos + 1 + w1.length, level := g.level + 1 } : Fmt) rest
          (writeBeginArr (skipWhitespace ({ g with pos := g.pos + 1 } : Fmt))) hd3p
          (by omega : g.level + 1 + m ≤ 100)
        exact ⟨F + 1 + 1, emit, (parseValue_at_array hpk).trans
          ((parseArray_step_run h91 hpk93 hinc).trans (hrun.trans (congrArg some
            (okl_shift2 (by
              simp only [hmS, List.length_append, List.length_cons,
                List.length_nil]
              omega) (by
              show g.level + 1 - 1 = g.level
              omega)))))⟩

theorem specLeaf_spec {v : List Nat} (h : SpecLeaf v) : SpecValue v := by
  rcases h with rfl | rfl | rfl | hn | ⟨l, hl, rfl⟩ | ⟨w, hw, rfl⟩ | ⟨w, hw, rfl⟩
  · exact .nullL
  · exact .trueL
  · exact .falseL
  · exact .num _ hn
  · exact .str _ hl
  · exact .emptyObj _ hw
  · exact .emptyArr _ hw

/-- The depth-stratified grammar is a subfamily of the spec grammar. -/
theorem specValueD_spec : ∀ n : Nat, ∀ v : List Nat, SpecValueD n v →
    SpecValue v := by
  intro n
  induction n with
  | zero =>
      intro v hv
      simp only [SpecValueD] at hv
      exact specLeaf_spec hv
  | succ m ihn =>
      intro v hv
      simp only [SpecValueD] at hv
      rcases hv with hleaf | ⟨mm, hmm, rfl⟩ | ⟨ee, hee, rfl⟩
      · exact specLeaf_spec hleaf
      · refine SpecValue.obj mm ?_
        induction hmm with
        | one w1 k w2 w3 v0 w4 hw1 hk hw2 hw3 hv0 hw4 =>
            exact SpecMembers.one w1 k w2 w3 v0 w4 hw1 hk hw2 hw3 (ihn v0 hv0) hw4
        | cons w1 k w2 w3 v0 w4 r hw1 hk hw2 hw3 hv0 hw4 hr ih2 =>
            exact SpecMembers.cons w1 k w2 w3 v0 w4 r hw1 hk hw2 hw3
              (ihn v0 hv0) hw4 ih2
      · refine SpecValue.arr ee ?_
        induction hee with
        | one w1 v0 w2 hw1 hv0 hw2 =>
            exact SpecElems.one w1 v0 w2 hw1 (ihn v0 hv0) hw2
        | cons w1 v0 w2 r hw1 hv0 hw2 hr ih2 =>
            exact SpecElems.cons w1 v0 w2 r hw1 (ihn v0 hv0) hw2 ih2

theorem ws_numFollow {w : List Nat} (hw : isWsL w) : NumFollow w := by
  intro y hy
  cases w with
  | nil => cases hy
  | cons c t =>
      simp only [List.head?_cons, Option.some.injEq] at hy
      subst hy
      exact wsByte_stop (hw _ (by simp))

theorem ws_numFollow_append {w : List Nat} (hw : isWsL w) {rest : List Nat}
    (hrest : NumFollow rest) : NumFollow (w ++ rest) := by
  intro y hy
  cases w with
  | nil => exact hrest y hy
  | cons c t =>
      simp only [List.cons_append, List.head?_cons, Option.some.injEq] at hy
      subst hy
      exact wsByte_stop (hw _ (by simp))

/-- First byte of a whitespace-value-whitespace suffix: a whitespace byte
or a value-head byte. -/
theorem wsVal_head (w1 v w2 : List Nat) (hw1 : isWsL w1) {b : Nat}
    (hbv : v.head? = some b) (hVH : ValueHead b) :
    ∃ c, (w1 ++ (v ++ w2)).head? = some c ∧
      (isWsByte c = true ∨ ValueHead c) := by
  cases w1 with
  | nil =>
      refine ⟨b, ?_, Or.inr hVH⟩
      rw [List.nil_append]
      cases v with
      | nil => cases hbv
      | cons a t =>
          simp only [List.head?_cons, Option.some.injEq] at hbv
          simp [hbv]
  | cons c t => exact ⟨c, by simp, Or.inl (hw1 c (by simp))⟩

theorem skipStartBom_of_head {f : Fmt} {c : Nat} (h : f.input.head? = some c)
    (hc : ¬c = 239) : skipStartBom f = f := by
  unfold skipStartBom
  split
  · rename_i tl heq
    rw [heq] at h
    simp only [List.head?_cons, Option.some.injEq] at h
    exact absurd h.symm hc
  · rfl

/-- Core of the completeness run: from the position after the optional
BOM, leading whitespace is skipped, the value parses, and the run ends at
the end of the input. -/
theorem complete_tail {n : Nat} {input w1 v w2 : List Nat} {p0 : Nat}
    {color : Color}
    (hn : n ≤ 100) (hw1 : isWsL w1) (hv : SpecValueD n v) (hw2 : isWsL w2)
    (hd0 : input.drop p0 = w1 ++ (v ++ w2)) :
    ∃ fuel f2 d, parseValue fuel (skipWhitespace
        ({ input := input, pos := p0, level := 0, color := color } : Fmt)) =
      some (.ok (f2, d)) ∧ peekByte (skipWhitespace f2) = none := by
  obtain ⟨bv, hbv, hVH⟩ := specValueD_head hv
  have hveq : v = bv :: v.tail := eq_cons_of_head hbv
  have hd0b : input.drop p0 = w1 ++ (bv :: (v.tail ++ w2)) := by
    rw [hd0]
    nth_rewrite 1 [hveq]
    rfl
  have hsw0 : skipWhitespace
      ({ input := input, pos := p0, level := 0, color := color } : Fmt) =
      { input := input, pos := p0 + w1.length, level := 0, color := color } :=
    skipWhitespace_run
      (f := ({ input := input, pos := p0, level := 0, color := color } : Fmt))
      hd0b hw1 (valueHead_not_ws hVH)
  have hdv : input.drop (p0 + w1.length) = v ++ w2 :=
    drop_after (show input.drop p0 = w1 ++ (v ++ w2) from hd0)
  obtain ⟨F, emit, hrun⟩ := specValueD_run n v hv
    ({ input := input, pos := p0 + w1.length, level := 0, color := color } : Fmt) w2 hdv (by omega : 0 + n ≤ 100) (ws_numFollow hw2)
  have hrun2 : parseValue F ({ input := input, pos := p0 + w1.length, level := 0, color := color } : Fmt) = some (.ok ({ input := input, pos := p0 + w1.length + v.length, level := 0, color := color }, emit)) :=
    hrun
  have hdw2 : input.drop (p0 + w1.length + v.length) = w2 := drop_after hdv
  have hsw2 : skipWhitespace ({ input := input, pos := p0 + w1.length + v.length, level := 0, color := color } : Fmt) = { input := input, pos := p0 + w1.length + v.length + w2.length, level := 0, color := color } :=
    skipWhitespace_all
      (g := ({ input := input, pos := p0 + w1.length + v.length, level := 0, color := color } : Fmt)) hdw2 hw2
  have hlen0 : (input.drop p0).length = (w1 ++ (v ++ w2)).length :=
    congrArg List.length hd0
  have hpke : peekByte ({ input := input, pos := p0 + w1.length + v.length + w2.length, level := 0, color := color } : Fmt) = none := by
    refine peekByte_at_end ?_
    rw [List.length_drop] at hlen0
    simp only [List.length_append] at hlen0
    show input.length ≤ p0 + w1.length + v.length + w2.length
    omega
  refine ⟨F, ({ input := input, pos := p0 + w1.length + v.length, level := 0, color := color } : Fmt), emit, ?_, ?_⟩
  · rw [hsw0]
    exact hrun2
  · rw [hsw2]
    exact hpke

/-- Depth-qualified completeness of the whole pipeline: an optional BOM,
whitespace, a spec value of depth within the indent cap, and whitespace
are accepted. -/
theorem formatBytes_complete {n : Nat} {bom w1 v w2 : List Nat} (color : Color)
    (hn : n ≤ 100) (hbom : bom = [] ∨ bom = [239, 187, 191])
    (hw1 : isWsL w1) (hv : SpecValueD n v) (hw2 : isWsL w2) :
    ∃ fuel d, formatBytes fuel (bom ++ (w1 ++ (v ++ w2))) color =
      some (.ok d) := by
  obtain ⟨bv, hbv, hVH⟩ := specValueD_head hv
  rcases hbom with rfl | rfl
  · obtain ⟨c, hc, hcw⟩ := wsVal_head w1 v w2 hw1 hbv hVH
    have hc239 : ¬c = 239 := by
      rcases hcw with hws | hvh
      · simp only [isWsByte, Bool.or_eq_true, decide_eq_true_eq] at hws
        omega
      · unfold ValueHead at hvh
        omega
    have hB : skipStartBom ({ input := w1 ++ (v ++ w2), pos := 0, level := 0, color := color } : Fmt) = { input := w1 ++ (v ++ w2), pos := 0, level := 0, color := color } :=
      skipStartBom_of_head hc hc239
    obtain ⟨F, f2, d, hpv, hpk⟩ := complete_tail hn hw1 hv hw2
      (show (w1 ++ (v ++ w2)).drop 0 = w1 ++ (v ++ w2) from rfl)
    have hok : format F ({ input := w1 ++ (v ++ w2), pos := 0, level := 0, color := color } : Fmt) = some (.ok d) := by
      refine (((format_run_cases F _).1 d).mpr ⟨f2, ?_, hpk⟩)
      rw [hB]
      exact hpv
    exact ⟨F, d, hok⟩
  · have hB : skipStartBom ({ input := [239, 187, 191] ++ (w1 ++ (v ++ w2)), pos := 0, level := 0, color := color } : Fmt) =
        { input := [239, 187, 191] ++ (w1 ++ (v ++ w2)), pos := 3, level := 0, color := color } := rfl
    obtain ⟨F, f2, d, hpv, hpk⟩ := complete_tail hn hw1 hv hw2
      (show ([239, 187, 191] ++ (w1 ++ (v ++ w2))).drop 3 = w1 ++ (v ++ w2)
        from rfl)
    have hok : format F ({ input := [239, 187, 191] ++ (w1 ++ (v ++ w2)), pos := 0, level := 0, color := color } : Fmt) = some (.ok d) := by
      refine (((format_run_cases F _).1 d).mpr ⟨f2, ?_, hpk⟩)
      rw [hB]
      exact hpv
    exact ⟨F, d, hok⟩

/-- Core of the trailing-byte run: the value parses, the following
whitespace is skipped, and the offending byte is the next one peeked. -/
theorem trailing_tail {n : Nat} {input w1 v w2 : List Nat} {b : Nat}
    {tl2 : List Nat} {p0 : Nat} {color : Color}
    (hn : n ≤ 100) (hw1 : isWsL w1) (hv : SpecValueD n v) (hw2 : isWsL w2)
    (hb : isWsByte b = false) (h1 : isDigit b = false) (h2 : ¬b = 46)
    (h3 : ¬b = 101) (h4 : ¬b = 69)
    (hd0 : input.drop p0 = w1 ++ (v ++ (w2 ++ b :: tl2))) :
    ∃ fuel d, parseValue fuel (skipWhitespace
        ({ input := input, pos := p0, level := 0, color := color } : Fmt)) =
      some (.ok (({ input := input, pos := p0 + w1.length + v.length, level := 0, color := color } : Fmt), d)) ∧
      skipWhitespace ({ input := input, pos := p0 + w1.length + v.length, level := 0, color := color } : Fmt) =
        { input := input, pos := p0 + w1.length + v.length + w2.length, level := 0, color := color } ∧
      peekByte ({ input := input, pos := p0 + w1.length + v.length + w2.length, level := 0, color := color } : Fmt) = some b := by
  obtain ⟨bv, hbv, hVH⟩ := specValueD_head hv
  have hveq : v = bv :: v.tail := eq_cons_of_head hbv
  have hd0b : input.drop p0 = w1 ++ (bv :: (v.tail ++ (w2 ++ b :: tl2))) := by
    rw [hd0]
    nth_rewrite 1 [hveq]
    rfl
  have hsw0 : skipWhitespace
      ({ input := input, pos := p0, level := 0, color := color } : Fmt) =
      { input := input, pos := p0 + w1.length, level := 0, color := color } :=
    skipWhitespace_run
      (f := ({ input := input, pos := p0, level := 0, color := color } : Fmt))
      hd0b hw1 (valueHead_not_ws hVH)
  have hdv : input.drop (p0 + w1.length) = v ++ (w2 ++ b :: tl2) :=
    drop_after (show input.drop p0 = w1 ++ (v ++ (w2 ++ b :: tl2)) from hd0)
  have hnf : NumFollow (w2 ++ b :: tl2) :=
    ws_numFollow_append hw2 (by
      intro y hy
      simp only [List.head?_cons, Option.some.injEq] at hy
      subst hy
      exact ⟨h1, h2, h3, h4⟩)
  obtain ⟨F, emit, hrun⟩ := specValueD_run n v hv
    ({ input := input, pos := p0 + w1.length, level := 0, color := color } : Fmt) (w2 ++ b :: tl2) hdv (by omega : 0 + n ≤ 100) hnf
  have hrun2 : parseValue F ({ input := input, pos := p0 + w1.length, level := 0, color := color } : Fmt) = some (.ok ({ input := input, pos := p0 + w1.length + v.length, level := 0, color := color }, emit)) :=
    hrun
  have hdw2 : input.drop (p0 + w1.length + v.length) = w2 ++ b :: tl2 :=
    drop_after hdv
  have hsw2 : skipWhitespace ({ input := input, pos := p0 + w1.length + v.length, level := 0, color := color } : Fmt) = { input := input, pos := p0 + w1.length + v.length + w2.length, level := 0, color := color } :=
    skipWhitespace_run
      (f := ({ input := input, pos := p0 + w1.length + v.length, level := 0, color := color } : Fmt)) hdw2 hw2 hb
  have hdb : input.drop (p0 + w1.length + v.length + w2.length) = b :: tl2 :=
    drop_after (show input.drop (p0 + w1.length + v.length) =
      w2 ++ (b :: tl2) from hdw2)
  have hpkb : peekByte ({ input := input, pos := p0 + w1.length + v.length + w2.length, level := 0, color := color } : Fmt) = some b :=
    peekByte_of_drop (f := ({ input := input, pos := p0 + w1.length + v.length + w2.length, level := 0, color := color } : Fmt)) hdb
  refine ⟨F, emit, ?_, hsw2, hpkb⟩
  rw [hsw0]
  exact hrun2

/-- A non-whitespace byte remaining after the value and the trailing
whitespace makes the whole run fail with `InvalidByte` carrying that byte
and its offset. -/
theorem formatBytes_trailing {n : Nat} {bom w1 v w2 : List Nat} {b : Nat}
    {tl2 : List Nat} (color : Color)
    (hn : n ≤ 100) (hbom : bom = [] ∨ bom = [239, 187, 191])
    (hw1 : isWsL w1) (hv : SpecValueD n v) (hw2 : isWsL w2)
    (hb : isWsByte b = false) (h1 : isDigit b = false) (h2 : ¬b = 46)
    (h3 : ¬b = 101) (h4 : ¬b = 69) :
    ∃ fuel, formatBytes fuel (bom ++ (w1 ++ (v ++ (w2 ++ b :: tl2)))) color =
      some (.error (.invalidByte b
        (bom.length + (w1.length + (v.length + w2.length))))) := by
  obtain ⟨bv, hbv, hVH⟩ := specValueD_head hv
  rcases hbom with rfl | rfl
  · obtain ⟨c, hc, hcw⟩ := wsVal_head w1 v (w2 ++ b :: tl2) hw1 hbv hVH
    have hc239 : ¬c = 239 := by
      rcases hcw with hws | hvh
      · simp only [isWsByte, Bool.or_eq_true, decide_eq_true_eq] at hws
        omega
      · unfold ValueHead at hvh
        omega
    have hB : skipStartBom ({ input := w1 ++ (v ++ (w2 ++ b :: tl2)), pos := 0, level := 0, color := color } : Fmt) =
        { input := w1 ++ (v ++ (w2 ++ b :: tl2)), pos := 0, level := 0, color := color } :=
      skipStartBom_of_head hc hc239
    obtain ⟨F, d, hpv, hsw2, hpkb⟩ := trailing_tail hn hw1 hv hw2 hb h1 h2 h3 h4
      (show (w1 ++ (v ++ (w2 ++ b :: tl2))).drop 0 =
        w1 ++ (v ++ (w2 ++ b :: tl2)) from rfl)
    have hpv' : parseValue F (skipWhitespace (skipStartBom
        ({ input := w1 ++ (v ++ (w2 ++ b :: tl2)), pos := 0, level := 0, color := color } : Fmt))) = some (.ok (({ input := w1 ++ (v ++ (w2 ++ b :: tl2)), pos := 0 + w1.length + v.length, level := 0, color := color } : Fmt), d)) := by
      rw [hB]
      exact hpv
    have hpk' : peekByte (skipWhitespace ({ input := w1 ++ (v ++ (w2 ++ b :: tl2)), pos := 0 + w1.length + v.length, level := 0, color := color } : Fmt)) = some b := by
      rw [hsw2]
      exact hpkb
    have herr := (format_run_cases F _).2 _ d b hpv' hpk'
    rw [hsw2] at herr
    have herr2 : format F ({ input := w1 ++ (v ++ (w2 ++ b :: tl2)), pos := 0, level := 0, color := color } : Fmt) = some (.error (.invalidByte b
          (0 + w1.length + v.length + w2.length))) := herr
    refine ⟨F, ?_⟩
    rw [show (([] : List Nat)).length + (w1.length + (v.length + w2.length)) =
      0 + w1.length + v.length + w2.length from by
        simp only [List.length_nil]
        omega]
    exact herr2
  · have hB : skipStartBom ({ input := [239, 187, 191] ++ (w1 ++ (v ++ (w2 ++ b :: tl2))), pos := 0, level := 0, color := color } : Fmt) =
        { input := [239, 187, 191] ++ (w1 ++ (v ++ (w2 ++ b :: tl2))), pos := 3, level := 0, color := color } := rfl
    obtain ⟨F, d, hpv, hsw2, hpkb⟩ := trailing_tail hn hw1 hv hw2 hb h1 h2 h3 h4
      (show ([239, 187, 191] ++ (w1 ++ (v ++ (w2 ++ b :: tl2)))).drop 3 =
        w1 ++ (v ++ (w2 ++ b :: tl2)) from rfl)
    have hpv' : parseValue F (skipWhitespace (skipStartBom
        ({ input := [239, 187, 191] ++ (w1 ++ (v ++ (w2 ++ b :: tl2))), pos := 0, level := 0, color := color } : Fmt))) = some (.ok (({ input := [239, 187, 191] ++ (w1 ++ (v ++ (w2 ++ b :: tl2))), pos := 3 + w1.length + v.length, level := 0, color := color } : Fmt), d)) := by
      rw [hB]
      exact hpv
    have hpk' : peekByte (skipWhitespace ({ input := [239, 187, 191] ++ (w1 ++ (v ++ (w2 ++ b :: tl2))), pos := 3 + w1.length + v.length, level := 0, color := color } : Fmt)) = some b := by
      rw [hsw2]
      exact hpkb
    have herr := (format_run_cases F _).2 _ d b hpv' hpk'
    rw [hsw2] at herr
    have herr2 : format F ({ input := [239, 187, 191] ++ (w1 ++ (v ++ (w2 ++ b :: tl2))), pos := 0, level := 0, color := color } : Fmt) = some (.error (.invalidByte b
          (3 + w1.length + v.length + w2.length))) := herr
    refine ⟨F, ?_⟩
    rw [show ([239, 187, 191] : List Nat).length +
      (w1.length + (v.length + w2.length)) =
      3 + w1.length + v.length + w2.length from by
        simp only [List.length_cons, List.length_nil]
        omega]
    exact herr2

/-- C6 (amended): the success set of `format` is characterized by the
spec-side JSON grammar up to the indent cap.  (a) Soundness: a successful
run in any color mode on a buffer of bytes proves the buffer is an
optional BOM, then exactly one spec-grammar JSON value surrounded by
optional whitespace and nothing else.  (b) Depth-qualified completeness:
every buffer of that shape whose value nests non-empty containers at most
100 deep is accepted; the unqualified converse is false, as the separate
counterexample of 102 nested brackets shows.  (c) Trailing error: if after
the value and further whitespace a non-whitespace byte remains that cannot
extend a number token, the run fails with `InvalidByte` carrying that byte
and its offset.  (d) The depth-stratified grammar used in (b) and (c) is a
subfamily of the spec grammar. -/
theorem format_grammar_characterization :
    (∀ (fuel : Nat) (input : List Nat) (color : Color) (d : List Nat),
      (∀ b ∈ input, b < 256) → formatBytes fuel input color = some (.ok d) →
      ∃ bom w1 v w2, input = bom ++ (w1 ++ (v ++ w2)) ∧
        (bom = [] ∨ bom = [239, 187, 191]) ∧ isWsL w1 ∧ SpecValue v ∧
        isWsL w2) ∧
    (∀ (n : Nat) (bom w1 v w2 : List Nat) (color : Color),
      n ≤ 100 → (bom = [] ∨ bom = [239, 187, 191]) → isWsL w1 →
      SpecValueD n v → isWsL w2 →
      ∃ fuel d, formatBytes fuel (bom ++ (w1 ++ (v ++ w2))) color =
        some (.ok d)) ∧
    (∀ (n : Nat) (bom w1 v w2 : List Nat) (b : Nat) (tl2 : List Nat)
      (color : Color),
      n ≤ 100 → (bom = [] ∨ bom = [239, 187, 191]) → isWsL w1 →
      SpecValueD n v → isWsL w2 → isWsByte b = false → isDigit b = false →
      ¬b = 46 → ¬b = 101 → ¬b = 69 →
      ∃ fuel, formatBytes fuel (bom ++ (w1 ++ (v ++ (w2 ++ b :: tl2)))) color =
        some (.error (.invalidByte b
          (bom.length + (w1.length + (v.length + w2.length)))))) ∧
    (∀ (n : Nat) (v : List Nat), SpecValueD n v → SpecValue v) := by
  refine ⟨?_, ?_, ?_, ?_⟩
  · intro fuel input color d hby h
    exact formatBytes_sound hby h
  · intro n bom w1 v w2 color hn hbom hw1 hv hw2
    exact formatBytes_complete color hn hbom hw1 hv hw2
  · intro n bom w1 v w2 b tl2 color hn hbom hw1 hv hw2 hb h1 h2 h3 h4
    exact formatBytes_trailing color hn hbom hw1 hv hw2 hb h1 h2 h3 h4
  · exact fun n v hv => specValueD_spec n v hv

theorem format_grammar_characterization_witness :
    (∃ bom w1 v w2, ([32, 123, 125] : List Nat) = bom ++ (w1 ++ (v ++ w2)) ∧
      (bom = [] ∨ bom = [239, 187, 191]) ∧ isWsL w1 ∧ SpecValue v ∧
      isWsL w2) ∧
    (∃ fuel d, formatBytes fuel
      (([239, 187, 191] : List Nat) ++ ([32] ++ ([123, 125] ++ [10])))
      Color.noColor = some (.ok d)) ∧
    (∃ fuel, formatBytes fuel
      (([] : List Nat) ++ ([] ++ ([91, 93] ++ ([10] ++ 58 :: []))))
      Color.noColor = some (.error (.invalidByte 58
        (([] : List Nat).length + (([] : List Nat).length +
          (([91, 93] : List Nat).length + ([10] : List Nat).length)))))) ∧
    SpecValue [91, 93] := by
  have hwsnil : isWsL ([] : List Nat) := by
    intro x hx
    cases hx
  have hws1 : isWsL [32] := by
    intro x hx
    simp only [List.mem_singleton] at hx
    subst hx
    rfl
  have hws10 : isWsL [10] := by
    intro x hx
    simp only [List.mem_singleton] at hx
    subst hx
    rfl
  have hobj : SpecValueD 0 [123, 125] :=
    Or.inr (Or.inr (Or.inr (Or.inr (Or.inr (Or.inl ⟨[], hwsnil, rfl⟩)))))
  have harr : SpecValueD 0 [91, 93] :=
    Or.inr (Or.inr (Or.inr (Or.inr (Or.inr (Or.inr ⟨[], hwsnil, rfl⟩)))))
  refine ⟨format_grammar_characterization.1 3 [32, 123, 125] Color.noColor
      [123, 125] (by decide) (by rfl),
    format_grammar_characterization.2.1 0 [239, 187, 191] [32] [123, 125] [10]
      Color.noColor (by omega) (Or.inr rfl) hws1 hobj hws10,
    format_grammar_characterization.2.2.1 0 [] [] [91, 93] [10] 58 []
      Color.noColor (by omega) (Or.inl rfl) hwsnil harr hws10 (by decide)
      (by decide) (by decide) (by decide) (by decide),
    format_grammar_characterization.2.2.2 0 [91, 93] harr⟩

end Pretty